import Mathlib

/-!
# WT1227B data editor: table store, undo commands, delimited-text import, derived columns

A shallow embedding of the spreadsheet engine of `DataEditorWidget.cpp`.

* `QString` is a list of characters.
* `QStandardItemModel` is the table store: a row count, a column count, a grid of
  optional items (`none` is the null item pointer) and a line of optional header items.
  Its operations follow the Qt item model: an insertion outside `0..count` and a removal
  outside `0..count-1` are refused, `setItem` and `setHorizontalHeaderItem` enlarge the
  model when the target lies outside it, and a column without header item shows its
  1-based number as header text.
* Row and column indices are natural numbers (the `int` indices of the source, taken
  non-negative); the column indices of `TimeConversionConfig`, where `-1` means unused,
  are integers.
* Loops of the source are recursive functions over the loop counter or over the list
  being traversed. The loop of `splitCSVLine` can run forever, so it takes fuel.
* A file is the text it holds; the text stream drops carriage returns and hands out the
  lines between line feeds.
* `double` arithmetic, number parsing and rendering, letter case and date and time
  parsing belong to the Qt library and are parameters (`QtLib`); the closed examples
  use a small exact stand-in (`milliLib`).
* Progress reports, message boxes, styling and signals are left out.

The definitions come first, the theorems after them.
-/

namespace WT

/-! ## Strings -/

/-- A `QString`, as the list of its characters. -/
abbrev QString := List Char

/-- The double-quote character. -/
def dquote : Char := Char.ofNat 34

/-- The line-feed character. -/
def newline : Char := Char.ofNat 10

/-- The carriage-return character. -/
def creturn : Char := Char.ofNat 13

/-- `QChar::isSpace`: the ASCII white space, NEL, the no-break space and the Unicode
separator categories. -/
def isSpace (c : Char) : Bool :=
  let n := c.toNat
  n == 32 || (9 ≤ n && n ≤ 13) || n == 0x85 || n == 0xA0 || n == 0x1680 ||
    (0x2000 ≤ n && n ≤ 0x200A) || n == 0x2028 || n == 0x2029 || n == 0x202F ||
    n == 0x205F || n == 0x3000

/-- `QString::trimmed`: white space removed from both ends. -/
def trimmed (s : QString) : QString :=
  ((s.dropWhile isSpace).reverse.dropWhile isSpace).reverse

/-- `QString::number(int)` and `.arg(int)`: the decimal digits of a natural number. -/
def numberText (n : Nat) : QString := Nat.toDigits 10 n

/-- `QString::contains(QChar)`. -/
def containsChar (s : QString) (c : Char) : Bool := s.contains c

/-- `QString::contains(QString)`: the needle occurs as a contiguous block. -/
def containsStr : QString → QString → Bool
  | [], needle => needle.isEmpty
  | c :: cs, needle => needle.isPrefixOf (c :: cs) || containsStr cs needle

/-- `QString::replace(QChar, QString)`: every occurrence of `c` replaced by `by_`. -/
def replaceChar (s : QString) (c : Char) (by_ : QString) : QString :=
  s.flatMap (fun x => if x = c then by_ else [x])

/-- `QStringList::join(QChar)`. -/
def joinWith (sep : Char) : List QString → QString
  | [] => []
  | [s] => s
  | s :: t :: rest => s ++ sep :: joinWith sep (t :: rest)

/-! ## The table store (`QStandardItemModel`) -/

/-- The table store. `items r c = none` is a null item; `headerItems c = none` is a
column without header item. Only the entries inside `rowCount × columnCount` are read. -/
structure QStandardItemModel where
  rowCount : Nat
  columnCount : Nat
  items : Nat → Nat → Option QString
  headerItems : Nat → Option QString

namespace QStandardItemModel

/-- `item(row, column)`: the item, or null outside the table. -/
def item (m : QStandardItemModel) (row column : Nat) : Option QString :=
  if row < m.rowCount ∧ column < m.columnCount then m.items row column else none

/-- `horizontalHeaderItem(column)`: the header item, or null. -/
def horizontalHeaderItem (m : QStandardItemModel) (column : Nat) : Option QString :=
  if column < m.columnCount then m.headerItems column else none

/-- `headerData(section, Qt::Horizontal).toString()`: the header item text; a column
without header item shows its 1-based number; outside the table the variant is invalid
and its text empty. -/
def headerData (m : QStandardItemModel) (section_ : Nat) : QString :=
  if section_ < m.columnCount then
    match m.headerItems section_ with
    | some t => t
    | none => numberText (section_ + 1)
  else []

/-- `clear()`: no rows, no columns, no items. -/
def clear (_m : QStandardItemModel) : QStandardItemModel :=
  { rowCount := 0, columnCount := 0, items := fun _ _ => none, headerItems := fun _ => none }

/-- `insertRow(row)`: refused unless `row ≤ rowCount`; the new row holds null items. -/
def insertRow (m : QStandardItemModel) (row : Nat) : QStandardItemModel :=
  if row ≤ m.rowCount then
    { m with
      rowCount := m.rowCount + 1
      items := fun i j =>
        if i < row then m.item i j else if i = row then none else m.item (i - 1) j }
  else m

/-- `removeRow(row)`: refused unless `row < rowCount`. -/
def removeRow (m : QStandardItemModel) (row : Nat) : QStandardItemModel :=
  if row < m.rowCount then
    { m with
      rowCount := m.rowCount - 1
      items := fun i j => if i < row then m.item i j else m.item (i + 1) j }
  else m

/-- `insertColumn(column)`: refused unless `column ≤ columnCount`; the new column holds
null items and has no header item. -/
def insertColumn (m : QStandardItemModel) (column : Nat) : QStandardItemModel :=
  if column ≤ m.columnCount then
    { m with
      columnCount := m.columnCount + 1
      items := fun i j =>
        if j < column then m.item i j else if j = column then none else m.item i (j - 1)
      headerItems := fun j =>
        if j < column then m.horizontalHeaderItem j
        else if j = column then none else m.horizontalHeaderItem (j - 1) }
  else m

/-- `removeColumn(column)`: refused unless `column < columnCount`. -/
def removeColumn (m : QStandardItemModel) (column : Nat) : QStandardItemModel :=
  if column < m.columnCount then
    { m with
      columnCount := m.columnCount - 1
      items := fun i j => if j < column then m.item i j else m.item i (j + 1)
      headerItems := fun j =>
        if j < column then m.horizontalHeaderItem j else m.horizontalHeaderItem (j + 1) }
  else m

/-- `setItem(row, column, new QStandardItem(text))`: the row and column counts are
raised to fit the item when it lies outside the table. -/
def setItem (m : QStandardItemModel) (row column : Nat) (text : QString) :
    QStandardItemModel :=
  { rowCount := max m.rowCount (row + 1)
    columnCount := max m.columnCount (column + 1)
    items := fun i j => if i = row ∧ j = column then some text else m.item i j
    headerItems := fun j => m.horizontalHeaderItem j }

/-- `setHorizontalHeaderItem(column, new QStandardItem(text))`: the column count is
raised to fit the header when it lies outside the table. -/
def setHorizontalHeaderItem (m : QStandardItemModel) (column : Nat) (text : QString) :
    QStandardItemModel :=
  { rowCount := m.rowCount
    columnCount := max m.columnCount (column + 1)
    items := fun i j => m.item i j
    headerItems := fun j => if j = column then some text else m.horizontalHeaderItem j }

/-- `setColumnCount(columns)`: columns are cut off or null columns appended. -/
def setColumnCount (m : QStandardItemModel) (columns : Nat) : QStandardItemModel :=
  { rowCount := m.rowCount
    columnCount := columns
    items := fun i j => m.item i j
    headerItems := fun j => m.horizontalHeaderItem j }

/-- The loop of `setHorizontalHeaderLabels`: label `k` of the list goes to column
`column + k`. -/
def setHeaderLabelsFrom : Nat → List QString → QStandardItemModel → QStandardItemModel
  | _, [], m => m
  | column, l :: ls, m => setHeaderLabelsFrom (column + 1) ls (m.setHorizontalHeaderItem column l)

/-- `setHorizontalHeaderLabels(labels)`: the column count is raised to the number of
labels when it is smaller, then every label is written. -/
def setHorizontalHeaderLabels (m : QStandardItemModel) (labels : List QString) :
    QStandardItemModel :=
  setHeaderLabelsFrom 0 labels
    (if m.columnCount < labels.length then m.setColumnCount labels.length else m)

/-- The text read from a cell, `item ? item->text() : ""`: an unset cell reads as
empty. -/
def text (m : QStandardItemModel) (row column : Nat) : QString :=
  (m.item row column).getD []

end QStandardItemModel

/-- Two tables are equal cell by cell and header by header: same row and column count,
every cell reads the same text (unset cells read as empty) and every column shows the
same header text. -/
def TableEq (a b : QStandardItemModel) : Prop :=
  a.rowCount = b.rowCount ∧ a.columnCount = b.columnCount ∧
    (∀ r c, a.text r c = b.text r c) ∧ (∀ c, a.headerData c = b.headerData c)

/-! ## Undo commands -/

/-- `RowEditCommand::Operation` and `ColumnEditCommand::Operation`. -/
inductive Operation where
  | Insert
  | Delete
  deriving DecidableEq, Repr

/-- `CellEditCommand`. -/
structure CellEditCommand where
  m_row : Nat
  m_column : Nat
  m_oldValue : QString
  m_newValue : QString

/-- `RowEditCommand`; `m_rowData` is the row snapshot. -/
structure RowEditCommand where
  m_operation : Operation
  m_row : Nat
  m_rowData : List QString

/-- `ColumnEditCommand`; `m_columnData` is the column snapshot. -/
structure ColumnEditCommand where
  m_operation : Operation
  m_column : Nat
  m_headerName : QString
  m_columnData : List QString

/-- The body shared by `CellEditCommand::undo` and `CellEditCommand::redo`: inside the
table the cell is materialised when null and its text set; outside nothing happens. -/
def setCellText (m : QStandardItemModel) (row column : Nat) (value : QString) :
    QStandardItemModel :=
  if row < m.rowCount ∧ column < m.columnCount then m.setItem row column value else m

/-- `CellEditCommand::undo`. -/
def CellEditCommand.undo (cmd : CellEditCommand) (m : QStandardItemModel) :
    QStandardItemModel :=
  setCellText m cmd.m_row cmd.m_column cmd.m_oldValue

/-- `CellEditCommand::redo`. -/
def CellEditCommand.redo (cmd : CellEditCommand) (m : QStandardItemModel) :
    QStandardItemModel :=
  setCellText m cmd.m_row cmd.m_column cmd.m_newValue

/-- The loop `for (col = 0; col < data.size(); ++col) setItem(row, col, data[col])`,
from column `col` on. -/
def setRowItemsFrom (row : Nat) : Nat → List QString → QStandardItemModel → QStandardItemModel
  | _, [], m => m
  | col, v :: vs, m => setRowItemsFrom row (col + 1) vs (m.setItem row col v)

/-- The loop `for (row = 0; row < data.size(); ++row) setItem(row, column, data[row])`,
from row `row` on. -/
def setColumnItemsFrom (column : Nat) : Nat → List QString → QStandardItemModel → QStandardItemModel
  | _, [], m => m
  | row, v :: vs, m => setColumnItemsFrom column (row + 1) vs (m.setItem row column v)

/-- The loop collecting `item ? item->text() : ""` over the columns of one row. -/
def captureRow (m : QStandardItemModel) (row : Nat) : List QString :=
  (List.range m.columnCount).map (fun col => m.text row col)

/-- The loop collecting `item ? item->text() : ""` over the rows of one column. -/
def captureColumn (m : QStandardItemModel) (column : Nat) : List QString :=
  (List.range m.rowCount).map (fun row => m.text row column)

/-- `RowEditCommand::undo`. -/
def RowEditCommand.undo (cmd : RowEditCommand) (m : QStandardItemModel) :
    QStandardItemModel :=
  match cmd.m_operation with
  | Operation.Insert => if cmd.m_row < m.rowCount then m.removeRow cmd.m_row else m
  | Operation.Delete => setRowItemsFrom cmd.m_row 0 cmd.m_rowData (m.insertRow cmd.m_row)

/-- `RowEditCommand::redo`: returns the command (its snapshot is rewritten by a
deletion) and the table. -/
def RowEditCommand.redo (cmd : RowEditCommand) (m : QStandardItemModel) :
    RowEditCommand × QStandardItemModel :=
  match cmd.m_operation with
  | Operation.Insert =>
      let m1 := m.insertRow cmd.m_row
      (cmd, setRowItemsFrom cmd.m_row 0 (List.replicate m1.columnCount []) m1)
  | Operation.Delete =>
      if cmd.m_row < m.rowCount then
        ({ cmd with m_rowData := captureRow m cmd.m_row }, m.removeRow cmd.m_row)
      else (cmd, m)

/-- `ColumnEditCommand::undo`. -/
def ColumnEditCommand.undo (cmd : ColumnEditCommand) (m : QStandardItemModel) :
    QStandardItemModel :=
  match cmd.m_operation with
  | Operation.Insert =>
      if cmd.m_column < m.columnCount then m.removeColumn cmd.m_column else m
  | Operation.Delete =>
      setColumnItemsFrom cmd.m_column 0 cmd.m_columnData
        ((m.insertColumn cmd.m_column).setHorizontalHeaderItem cmd.m_column cmd.m_headerName)

/-- `ColumnEditCommand::redo`: returns the command (its header name and snapshot are
rewritten by a deletion) and the table. A column without header item is recorded under
the name 列 followed by its 1-based number. -/
def ColumnEditCommand.redo (cmd : ColumnEditCommand) (m : QStandardItemModel) :
    ColumnEditCommand × QStandardItemModel :=
  match cmd.m_operation with
  | Operation.Insert =>
      let m1 := (m.insertColumn cmd.m_column).setHorizontalHeaderItem cmd.m_column
        cmd.m_headerName
      (cmd, setColumnItemsFrom cmd.m_column 0 (List.replicate m1.rowCount []) m1)
  | Operation.Delete =>
      if cmd.m_column < m.columnCount then
        ({ cmd with
            m_headerName :=
              match m.horizontalHeaderItem cmd.m_column with
              | some t => t
              | none => '列' :: numberText (cmd.m_column + 1)
            m_columnData := captureColumn m cmd.m_column },
          m.removeColumn cmd.m_column)
      else (cmd, m)

/-! ## The undo stack (`QUndoStack`) -/

/-- A command of the editor: one of the three subclasses of `DataEditCommand`. -/
inductive DataEditCommand where
  | cell (c : CellEditCommand)
  | row (c : RowEditCommand)
  | column (c : ColumnEditCommand)

/-- Virtual `undo()` of a `DataEditCommand`. -/
def DataEditCommand.undo : DataEditCommand → QStandardItemModel → QStandardItemModel
  | .cell c, m => c.undo m
  | .row c, m => c.undo m
  | .column c, m => c.undo m

/-- Virtual `redo()` of a `DataEditCommand`: the command after the call, and the table. -/
def DataEditCommand.redo : DataEditCommand → QStandardItemModel →
    DataEditCommand × QStandardItemModel
  | .cell c, m => (.cell c, c.redo m)
  | .row c, m => ((c.redo m).1 |> .row, (c.redo m).2)
  | .column c, m => ((c.redo m).1 |> .column, (c.redo m).2)

/-- An entry of the undo stack: a single command, or a macro made of the commands pushed
between `beginMacro` and `endMacro`, in push order. -/
inductive QUndoCommand where
  | single (c : DataEditCommand)
  | group (children : List DataEditCommand)

/-- Undo of a command list, last child first. -/
def undoChildren : List DataEditCommand → QStandardItemModel → QStandardItemModel
  | [], m => m
  | c :: cs, m => c.undo (undoChildren cs m)

/-- Redo of a command list, first child first; returns the children after the call. -/
def redoChildren : List DataEditCommand → QStandardItemModel →
    List DataEditCommand × QStandardItemModel
  | [], m => ([], m)
  | c :: cs, m =>
      let r := c.redo m
      let rs := redoChildren cs r.2
      (r.1 :: rs.1, rs.2)

/-- `QUndoCommand::undo`. -/
def QUndoCommand.undo : QUndoCommand → QStandardItemModel → QStandardItemModel
  | .single c, m => c.undo m
  | .group cs, m => undoChildren cs m

/-- `QUndoCommand::redo`. -/
def QUndoCommand.redo : QUndoCommand → QStandardItemModel → QUndoCommand × QStandardItemModel
  | .single c, m => (.single (c.redo m).1, (c.redo m).2)
  | .group cs, m => (.group (redoChildren cs m).1, (redoChildren cs m).2)

/-- The undo stack: the commands, oldest first, and the index of the next command to
redo (`index` commands are done). -/
structure QUndoStack where
  commands : List QUndoCommand
  index : Nat

/-- The editor state the undo engine works on: the stack and the table. -/
structure Editor where
  stack : QUndoStack
  model : QStandardItemModel

/-- `QUndoStack::push`: the redo future is dropped, the command is executed through its
`redo` and appended. -/
def Editor.push (e : Editor) (cmd : DataEditCommand) : Editor :=
  let r := cmd.redo e.model
  { stack := { commands := e.stack.commands.take e.stack.index ++ [.single r.1]
               index := e.stack.index + 1 }
    model := r.2 }

/-- `QUndoStack::undo`: nothing to do at index 0; else the command below the index is
undone and the index lowered. -/
def Editor.undo (e : Editor) : Editor :=
  match e.stack.index with
  | 0 => e
  | i + 1 =>
      match e.stack.commands.get? i with
      | none => e
      | some cmd =>
          { stack := { e.stack with index := i }, model := cmd.undo e.model }

/-- `QUndoStack::redo`: nothing to do at the top; else the command at the index is
redone (it is stored back with its rewritten snapshot) and the index raised. -/
def Editor.redo (e : Editor) : Editor :=
  match e.stack.commands.get? e.stack.index with
  | none => e
  | some cmd =>
      let r := cmd.redo e.model
      { stack := { commands := e.stack.commands.set e.stack.index r.1
                   index := e.stack.index + 1 }
        model := r.2 }

/-- A fresh undo stack around a table. -/
def Editor.start (m : QStandardItemModel) : Editor :=
  { stack := { commands := [], index := 0 }, model := m }

/-- All commands of a list pushed in order. -/
def Editor.pushAll (e : Editor) (cmds : List DataEditCommand) : Editor :=
  cmds.foldl Editor.push e

/-- A table with the given numbers of rows and columns, all items and headers null. -/
def blankModel (rows columns : Nat) : QStandardItemModel :=
  { rowCount := rows, columnCount := columns, items := fun _ _ => none,
    headerItems := fun _ => none }

/-! ## Column definitions and the widget state -/

/-- `WellTestColumnType`. -/
inductive WellTestColumnType where
  | SerialNumber | Date | Time | TimeOfDay | Pressure | Temperature | FlowRate | Depth
  | Viscosity | Density | Permeability | Porosity | WellRadius | SkinFactor | Distance
  | Volume | PressureDrop | PressureDerivative | Custom
  deriving DecidableEq, Repr

/-- `ColumnDefinition`; `D` is the type of `double` values. -/
structure ColumnDefinition (D : Type) where
  name : QString
  type : WellTestColumnType
  unit : QString
  description : QString
  isRequired : Bool
  minValue : D
  maxValue : D
  decimalPlaces : Nat

/-- The members of `DataEditorWidget` the engine reads and writes. -/
structure DataEditorWidget (D : Type) where
  m_dataModel : QStandardItemModel
  m_undoStack : QUndoStack
  m_columnDefinitions : List (ColumnDefinition D)
  m_currentFilePath : QString
  m_currentFileType : QString
  m_dataModified : Bool
  m_largeFileMode : Bool
  m_maxDisplayRows : Nat

/-- `DataEditorWidget::clearData`: the table and the undo stack are cleared, the column
definitions dropped and the file and mode members reset. -/
def clearData {D : Type} (w : DataEditorWidget D) : DataEditorWidget D :=
  { w with
    m_dataModel := w.m_dataModel.clear
    m_undoStack := { commands := [], index := 0 }
    m_currentFilePath := []
    m_currentFileType := []
    m_columnDefinitions := []
    m_dataModified := false
    m_largeFileMode := false }

/-! ## Delimited-text import and export -/

/-- `DataLoadConfigDialog::LoadConfig`. -/
structure LoadConfig where
  startRow : Nat
  hasHeader : Bool
  encoding : QString
  separator : QString

/-- The loop of `DataEditorWidget::splitCSVLine`, one iteration per unit of fuel.
`rest` is the part of the line from the loop index `i` on (so `line.mid(i, n)` is
`rest.take n`), `current` the field being built, `result` the fields closed so far.
After a separator the index moves by `separator.length()` (`i += length - 1` and the
`++i` of the loop), which is no move at all for the empty separator. `none`: the fuel
ran out before the loop ended. -/
def splitCSVLoop (separator : QString) :
    Nat → QString → QString → Bool → List QString → Option (List QString)
  | 0, _, _, _, _ => none
  | _ + 1, [], current, _, result => some (result ++ [trimmed current])
  | fuel + 1, ch :: tl, current, inQuotes, result =>
      if ch = dquote then splitCSVLoop separator fuel tl current (!inQuotes) result
      else if !inQuotes && decide ((ch :: tl).take separator.length = separator) then
        splitCSVLoop separator fuel ((ch :: tl).drop separator.length) []
          inQuotes (result ++ [trimmed current])
      else splitCSVLoop separator fuel tl (current ++ [ch]) inQuotes result

/-- `DataEditorWidget::splitCSVLine`. The loop is given one iteration more than the line
has characters; `splitCSVLoop_complete` shows that a run which ends at all ends within
that many iterations, so `none` is exactly a loop that never ends. -/
def splitCSVLine (line separator : QString) : Option (List QString) :=
  splitCSVLoop separator (line.length + 1) line [] false []

/-- The text stream in `QIODevice::Text` mode: carriage returns are dropped. -/
def decodeText (content : QString) : QString := content.filter (fun c => c != creturn)

/-- All lines of a text, as successive `readLine()` calls return them until `atEnd()`:
a line ends at a line feed or at the end of the text; nothing follows a final line
feed. `current` is the line being read. -/
def readAllLines : QString → QString → List QString
  | current, [] => if current.isEmpty then [] else [current]
  | current, c :: cs =>
      if c = newline then current :: readAllLines [] cs
      else readAllLines (current ++ [c]) cs

/-- The reading loop `while (!in.atEnd() && lines.size() < m_maxDisplayRows)`. -/
def readLines (maxDisplayRows : Nat) (content : QString) : List QString :=
  (readAllLines [] (decodeText content)).take maxDisplayRows

/-- The header loop of `loadCsvFileWithConfig`: every field trimmed, a blank one
replaced by 列 followed by the 1-based position; `count` is `headers.size()`. -/
def headersFromFields : Nat → List QString → List QString
  | _, [] => []
  | count, field :: fields =>
      (if (trimmed field).isEmpty then '列' :: numberText (count + 1) else trimmed field)
        :: headersFromFields (count + 1) fields

/-- The synthetic headers 列1, 列2, … of the no-header branch. -/
def syntheticHeaders (n : Nat) : List QString :=
  (List.range n).map (fun i => '列' :: numberText (i + 1))

/-- A parsed line brought to the header count: padded with empty fields, then cut. -/
def normalizeFields (columns : Nat) (fields : List QString) : List QString :=
  (fields ++ List.replicate (columns - fields.length) []).take columns

/-- The row loop of `loadCsvFileWithConfig` over the lines from `dataStartIndex` on:
each line is split, normalised, and written into a row inserted at `rowIndex`; every
cell text is trimmed. `none`: some line made `splitCSVLine` run forever. -/
def loadRows (separator : QString) (columns : Nat) :
    Nat → List QString → QStandardItemModel → Option QStandardItemModel
  | _, [], m => some m
  | rowIndex, line :: lines, m =>
      match splitCSVLine line separator with
      | none => none
      | some lineFields =>
          loadRows separator columns (rowIndex + 1) lines
            (setRowItemsFrom rowIndex 0 ((normalizeFields columns lineFields).map trimmed)
              (m.insertRow rowIndex))

/-- The result of a loader: the `bool` it returns, the error message it leaves and the
widget after the call. -/
structure LoadResult (D : Type) where
  success : Bool
  errorMessage : QString
  widget : DataEditorWidget D

/-- `DataEditorWidget::loadCsvFileWithConfig`. `file` is the content of the file, or
`none` when it cannot be opened. The outer `none`: the call does not return
(`splitCSVLine` runs forever, or `startRow < 1` indexes the line list below zero). -/
def loadCsvFileWithConfig {D : Type} (w : DataEditorWidget D) (file : Option QString)
    (config : LoadConfig) : Option (LoadResult D) :=
  match file with
  | none => some ⟨false, "无法打开文件: ".toList, w⟩
  | some content =>
    let lines := readLines w.m_maxDisplayRows content
    if lines.isEmpty then some ⟨false, "文件为空或无法读取".toList, w⟩
    else if config.startRow > lines.length then
      some ⟨false, "起始行 ".toList ++ numberText config.startRow ++ " 超出文件总行数 ".toList
        ++ numberText lines.length, w⟩
    else if config.startRow = 0 then none
    else
      let w1 := if lines.length ≥ w.m_maxDisplayRows then { w with m_largeFileMode := true }
        else w
      let dataStartIndex := config.startRow - 1
      match lines.get? dataStartIndex with
      | none => some ⟨false, "无法确定数据列结构".toList, w1⟩
      | some first =>
        match splitCSVLine first config.separator with
        | none => none
        | some fields =>
          let headers := if config.hasHeader then headersFromFields 0 fields
            else syntheticHeaders fields.length
          let dataStart := if config.hasHeader then dataStartIndex + 1 else dataStartIndex
          if headers.isEmpty then some ⟨false, "无法确定数据列结构".toList, w1⟩
          else
            let m1 := (w1.m_dataModel.setColumnCount headers.length).setHorizontalHeaderLabels
              headers
            match loadRows config.separator headers.length 0 (lines.drop dataStart) m1 with
            | none => none
            | some m2 => some ⟨true, [], { w1 with m_dataModel := m2 }⟩

/-- The field `saveCsvFile` writes for a cell text: quoted, with inner quotes doubled,
when the text holds a comma, a double quote or a line feed. -/
def csvField (text : QString) : QString :=
  if containsChar text ',' || containsChar text dquote || containsChar text newline then
    dquote :: (replaceChar text dquote [dquote, dquote] ++ [dquote])
  else text

/-- The header line of `saveCsvFile`: the header texts joined by commas, unquoted. -/
def csvHeaderLine (m : QStandardItemModel) : QString :=
  joinWith ',' ((List.range m.columnCount).map m.headerData)

/-- The line `saveCsvFile` writes for one row. -/
def csvRowLine (m : QStandardItemModel) (row : Nat) : QString :=
  joinWith ',' ((List.range m.columnCount).map (fun col => csvField (m.text row col)))

/-- `DataEditorWidget::saveCsvFile`, as the text written to the file: the header line
and one line per row, each ended by a line feed. -/
def saveCsvFile (m : QStandardItemModel) : QString :=
  (csvHeaderLine m ++ [newline]) ++
    ((List.range m.rowCount).map (fun row => csvRowLine m row ++ [newline])).flatten

/-- `QString::toLower` on the ASCII letters. -/
def toLower (s : QString) : QString := s.map Char.toLower

/-- The dispatch of `loadDataWithConfig` on the lower-cased file type; the Excel and
JSON loaders are parameters. `file = none`: the file is missing or unreadable, and the
call returns at once. Otherwise `clearData()` runs first, then the loader. -/
def loadDataWithConfig {D : Type}
    (loadExcelFileOptimized loadJsonFile : DataEditorWidget D → QString → LoadResult D)
    (w : DataEditorWidget D) (file : Option QString) (filePath fileType : QString)
    (config : LoadConfig) : Option (LoadResult D) :=
  match file with
  | none => some ⟨false, [], w⟩
  | some content =>
    let w1 := { clearData w with m_currentFilePath := filePath, m_currentFileType := fileType }
    let lowerType := toLower fileType
    if lowerType = "txt".toList ∨ lowerType = "csv".toList then
      loadCsvFileWithConfig w1 (some content) config
    else if lowerType = "excel".toList then some (loadExcelFileOptimized w1 content)
    else if lowerType = "json".toList then some (loadJsonFile w1 content)
    else some ⟨false, "不支持的文件类型: ".toList ++ fileType, w1⟩

/-! ## The Qt library functions taken as parameters -/

/-- `QTime`, a valid time of day as milliseconds since midnight; an invalid `QTime` is
`none` of `Option QTime`. -/
structure QTime where
  msecs : Nat
  deriving DecidableEq, Repr

/-- `QDate`, a valid date as a day number; an invalid `QDate` is `none`. -/
structure QDate where
  day : Int
  deriving DecidableEq, Repr

/-- `QTime::secsTo`: both times cut to whole seconds, then subtracted. -/
def QTime.secsTo (base t : QTime) : Int := (t.msecs / 1000 : Nat) - (base.msecs / 1000 : Nat)

/-- The functions of the Qt library the engine calls on numbers, dates and letter case.
`D` stands for `double`. They are parameters of the engine: nothing is assumed of them
but that `QString::number(0.0, 'f', 3)` is the text `0.000`. -/
structure QtLib (D : Type) where
  /-- The value `0.0`. -/
  zero : D
  /-- Conversion of an `int` to `double`. -/
  ofInt : Int → D
  /-- Subtraction of doubles. -/
  sub : D → D → D
  /-- Division of doubles. -/
  div : D → D → D
  /-- `QString::toDouble(&ok)`: the value, or `none` when `ok` is false. -/
  toDouble : QString → Option D
  /-- `QString::number(x, 'f', precision)`. -/
  number : D → Nat → QString
  /-- `QString::toLower`. -/
  toLower : QString → QString
  /-- `QTime::fromString(text, format)`, `none` when the result is invalid. -/
  timeFromString : QString → QString → Option QTime
  /-- `QDate::fromString(text, format)`, `none` when the result is invalid. -/
  dateFromString : QString → QString → Option QDate
  /-- `QDateTime(d1, t1).secsTo(QDateTime(d2, t2))`. -/
  dateTimeSecsTo : QDate → QTime → QDate → QTime → Int
  /-- `QString::number(0.0, 'f', 3)` is `0.000`. -/
  number_zero : number zero 3 = ['0', '.', '0', '0', '0']

/-- The backslash character. -/
def backslash : Char := Char.ofNat 92

/-- `QList::insert(i, value)` for `0 ≤ i ≤ size`. -/
def insertAt {α : Type} (i : Nat) (x : α) (l : List α) : List α := l.take i ++ x :: l.drop i

/-! ## Pressure drop -/

/-- `PressureDropResult` and `TimeConversionResult` (the two structs have the same
fields). -/
structure DerivedColumnResult where
  success : Bool
  errorMessage : QString
  addedColumnIndex : Int
  columnName : QString
  processedRows : Nat

/-- The header test of `findPressureColumn` on the lower-cased header text. -/
def isPressureHeader (headerText : QString) : Bool :=
  containsStr headerText "pressure".toList || containsStr headerText "压力".toList ||
    containsStr headerText "压强".toList || headerText == ['p']

/-- `DataEditorWidget::findPressureColumn`: the first column definition of type Pressure
at an index below both the number of definitions and the column count; failing that,
the first column whose lower-cased header passes the header test; `none` is `-1`. -/
def findPressureColumn {D : Type} (qt : QtLib D) (w : DataEditorWidget D) : Option Nat :=
  match (List.range (min w.m_columnDefinitions.length w.m_dataModel.columnCount)).find?
      (fun i => (w.m_columnDefinitions.get? i).any
        (fun d => d.type == WellTestColumnType.Pressure)) with
  | some i => some i
  | none =>
      (List.range w.m_dataModel.columnCount).find?
        (fun col => isPressureHeader (qt.toLower (w.m_dataModel.headerData col)))

/-- `DataEditorWidget::getPressureUnit`. -/
def getPressureUnit {D : Type} (qt : QtLib D) (w : DataEditorWidget D) : QString :=
  match findPressureColumn qt w with
  | some pc =>
      match w.m_columnDefinitions.get? pc with
      | some d => d.unit
      | none => "MPa".toList
  | none => "MPa".toList

/-- `DataEditorWidget::isValidPressureData`. -/
def isValidPressureData {D : Type} (qt : QtLib D) (data : QString) : Bool :=
  !data.isEmpty && (qt.toDouble data).isSome

/-- The value the collecting loop of `calculatePressureDrop` appends for one row. -/
def pressureValueOfItem {D : Type} (qt : QtLib D) (pressureItem : Option QString) : D :=
  match pressureItem with
  | some t =>
      if isValidPressureData qt (trimmed t) then
        match qt.toDouble (trimmed t) with
        | some pressure => pressure
        | none => qt.zero
      else qt.zero
  | none => qt.zero

/-- The text the writing loop of `calculatePressureDrop` puts in one row. -/
def pressureDropText {D : Type} (qt : QtLib D) (initialPressure : D) (pressureValues : List D)
    (row : Nat) : QString :=
  qt.number
    (if row = 0 then qt.zero else qt.sub initialPressure (pressureValues.getD row qt.zero)) 3

/-- `DataEditorWidget::calculatePressureDrop`: the result and the widget after the
call. -/
def calculatePressureDrop {D : Type} (qt : QtLib D) (w : DataEditorWidget D) :
    DerivedColumnResult × DataEditorWidget D :=
  match findPressureColumn qt w with
  | none =>
      (⟨false, "未找到压力列。".toList, -1, [], 0⟩, w)
  | some pressureColumn =>
      let pressureUnit := getPressureUnit qt w
      let unitText := if pressureUnit.isEmpty then "MPa".toList else pressureUnit
      let dropColumnName := "压降".toList ++ backslash :: unitText
      let newColumnIndex := pressureColumn + 1
      let m1 := (w.m_dataModel.insertColumn newColumnIndex).setHorizontalHeaderItem
        newColumnIndex dropColumnName
      let rowCount := m1.rowCount
      let pressureValues := (List.range rowCount).map
        (fun row => pressureValueOfItem qt (m1.item row pressureColumn))
      let initialPressure := pressureValues.headD qt.zero
      let m2 := setColumnItemsFrom newColumnIndex 0
        ((List.range rowCount).map (pressureDropText qt initialPressure pressureValues)) m1
      let newColumnDef : ColumnDefinition D :=
        { name := dropColumnName, type := WellTestColumnType.PressureDrop, unit := unitText,
          description := "压力降".toList, isRequired := false,
          minValue := qt.ofInt (-999999), maxValue := qt.ofInt 999999, decimalPlaces := 3 }
      let defs := if newColumnIndex < w.m_columnDefinitions.length then
          insertAt newColumnIndex newColumnDef w.m_columnDefinitions
        else w.m_columnDefinitions ++ [newColumnDef]
      (⟨true, [], newColumnIndex, dropColumnName, rowCount⟩,
        { w with m_dataModel := m2, m_columnDefinitions := defs })

/-- The pressure of a row as the specification words it: the trimmed cell text parsed as
a number, and 0 when the text is empty or does not parse. -/
def pressureOfText {D : Type} (qt : QtLib D) (cellText : QString) : D :=
  if (trimmed cellText).isEmpty then qt.zero else (qt.toDouble (trimmed cellText)).getD qt.zero

/-! ## Time normalisation -/

/-- `TimeConversionConfig`. -/
structure TimeConversionConfig where
  dateColumnIndex : Int
  timeColumnIndex : Int
  sourceTimeColumnIndex : Int
  outputUnit : QString
  newColumnName : QString
  useDateAndTime : Bool

/-- The first format of a list for which `fromString` gives a valid value. -/
def firstValid {α : Type} (fromString : QString → QString → Option α) (text : QString) :
    List QString → Option α
  | [] => none
  | format :: formats =>
      match fromString text format with
      | some v => some v
      | none => firstValid fromString text formats

/-- `DataEditorWidget::parseTimeString`. -/
def parseTimeString {D : Type} (qt : QtLib D) (timeStr : QString) : Option QTime :=
  if timeStr.isEmpty then none
  else firstValid qt.timeFromString timeStr
    ["hh:mm:ss".toList, "h:mm:ss".toList, "hh:mm:ss.zzz".toList, "h:mm:ss.zzz".toList,
      "mm:ss".toList, "m:ss".toList]

/-- `DataEditorWidget::parseDateString`. -/
def parseDateString {D : Type} (qt : QtLib D) (dateStr : QString) : Option QDate :=
  if dateStr.isEmpty then none
  else firstValid qt.dateFromString dateStr
    ["yyyy-MM-dd".toList, "yyyy/MM/dd".toList, "yyyy-M-d".toList, "yyyy/M/d".toList,
      "dd/MM/yyyy".toList, "dd-MM-yyyy".toList, "MM/dd/yyyy".toList, "MM-dd-yyyy".toList,
      "d/M/yyyy".toList, "d-M-yyyy".toList]

/-- `DataEditorWidget::convertTimeToUnit`. -/
def convertTimeToUnit {D : Type} (qt : QtLib D) (seconds : D) (unit : QString) : D :=
  if unit = ['s'] then seconds
  else if unit = ['m'] then qt.div seconds (qt.ofInt 60)
  else if unit = ['h'] then qt.div seconds (qt.ofInt 3600)
  else seconds

/-- The whole seconds from the base time to the current time, a day added when the
difference is negative (`calculateTimeDifference` before the unit conversion). -/
def wrappedSeconds (baseTime currentTime : QTime) : Int :=
  if baseTime.secsTo currentTime < 0 then baseTime.secsTo currentTime + 24 * 3600
  else baseTime.secsTo currentTime

/-- `DataEditorWidget::calculateTimeDifference` on two valid times. -/
def calculateTimeDifference {D : Type} (qt : QtLib D) (baseTime currentTime : QTime)
    (unit : QString) : D :=
  convertTimeToUnit qt (qt.ofInt (wrappedSeconds baseTime currentTime)) unit

/-- `DataEditorWidget::calculateDateTimeDifference` on two valid date-times. -/
def calculateDateTimeDifference {D : Type} (qt : QtLib D) (baseDate : QDate) (baseTime : QTime)
    (currentDate : QDate) (currentTime : QTime) (unit : QString) : D :=
  convertTimeToUnit qt (qt.ofInt (qt.dateTimeSecsTo baseDate baseTime currentDate currentTime))
    unit

/-- The time parsed from a source item: null items and unparsable texts give an invalid
time. -/
def parseTimeItem {D : Type} (qt : QtLib D) (sourceItem : Option QString) : Option QTime :=
  match sourceItem with
  | some t => parseTimeString qt (trimmed t)
  | none => none

/-- The date and time parsed from the two source items of a row, when both items exist
and both texts parse. -/
def parseDateTimeItems {D : Type} (qt : QtLib D) (dateItem timeItem : Option QString) :
    Option (QDate × QTime) :=
  match dateItem, timeItem with
  | some d, some t =>
      match parseDateString qt (trimmed d), parseTimeString qt (trimmed t) with
      | some pd, some pt => some (pd, pt)
      | _, _ => none
  | _, _ => none

/-- The text written for one row in time-only mode. -/
def timeOnlyText {D : Type} (qt : QtLib D) (baseTime : QTime) (unit : QString)
    (row : Nat) (timeValue : Option QTime) : QString :=
  match timeValue with
  | some t =>
      if row = 0 then "0.000".toList
      else qt.number (calculateTimeDifference qt baseTime t unit) 3
  | none => []

/-- The text written for one row in date+time mode, read from the table as it stands
when the row is reached. -/
def dateTimeText {D : Type} (qt : QtLib D) (baseDate : QDate) (baseTime : QTime)
    (unit : QString) (dateColumn timeColumn : Nat) (m : QStandardItemModel) (row : Nat) :
    QString :=
  match parseDateTimeItems qt (m.item row dateColumn) (m.item row timeColumn) with
  | some (d, t) =>
      if row = 0 then "0.000".toList
      else qt.number (calculateDateTimeDifference qt baseDate baseTime d t unit) 3
  | none => []

/-- A writing loop over `count` rows from `row` on, each text computed from the table as
it stands at that iteration. -/
def fillColumnFrom (cellText : QStandardItemModel → Nat → QString) (column : Nat) :
    Nat → Nat → QStandardItemModel → QStandardItemModel
  | _, 0, m => m
  | row, count + 1, m =>
      fillColumnFrom cellText column (row + 1) count (m.setItem row column (cellText m row))

/-- The unit text put in the column name. -/
def unitTextOf (outputUnit : QString) : QString :=
  if outputUnit = ['s'] then ['s']
  else if outputUnit = ['m'] then "min".toList
  else if outputUnit = ['h'] then ['h']
  else []

/-- The end of `convertTimeColumn` on the success path: the column definition is
inserted and the result filled in. -/
def finishTimeConversion {D : Type} (qt : QtLib D) (w : DataEditorWidget D)
    (m : QStandardItemModel) (newColumnIndex : Nat) (newColumnName unitText : QString)
    (processedRows : Nat) : DerivedColumnResult × DataEditorWidget D :=
  let newColumnDef : ColumnDefinition D :=
    { name := newColumnName, type := WellTestColumnType.Time, unit := unitText,
      description := "相对时间".toList, isRequired := false,
      minValue := qt.ofInt 0, maxValue := qt.ofInt 999999, decimalPlaces := 3 }
  let defs := if newColumnIndex ≤ w.m_columnDefinitions.length then
      insertAt newColumnIndex newColumnDef w.m_columnDefinitions
    else w.m_columnDefinitions ++ [newColumnDef]
  (⟨true, [], newColumnIndex, newColumnName, processedRows⟩,
    { w with m_dataModel := m, m_columnDefinitions := defs })

/-- The roll-back of `convertTimeColumn` when no baseline is found: the inserted column
is removed again. -/
def rollBackColumn (m : QStandardItemModel) (newColumnIndex : Nat) : QStandardItemModel :=
  if newColumnIndex < m.columnCount then m.removeColumn newColumnIndex else m

/-- `DataEditorWidget::convertTimeColumn`: the result and the widget after the call.
The column name is the configured name, a backslash and the unit text. -/
def convertTimeColumn {D : Type} (qt : QtLib D) (w : DataEditorWidget D)
    (config : TimeConversionConfig) : DerivedColumnResult × DataEditorWidget D :=
  let unitText := unitTextOf config.outputUnit
  let newColumnName := config.newColumnName ++ backslash :: unitText
  if config.useDateAndTime then
    if config.dateColumnIndex < 0 ∨ config.dateColumnIndex ≥ w.m_dataModel.columnCount ∨
        config.timeColumnIndex < 0 ∨ config.timeColumnIndex ≥ w.m_dataModel.columnCount then
      (⟨false, "日期或时刻列索引无效".toList, -1, [], 0⟩, w)
    else
      let dateColumn := config.dateColumnIndex.toNat
      let timeColumn := config.timeColumnIndex.toNat
      let newColumnIndex := max dateColumn timeColumn + 1
      let m1 := (w.m_dataModel.insertColumn newColumnIndex).setHorizontalHeaderItem
        newColumnIndex newColumnName
      match (List.range m1.rowCount).findSome?
          (fun row => parseDateTimeItems qt (m1.item row dateColumn) (m1.item row timeColumn)) with
      | none =>
          (⟨false, "未找到有效的日期和时刻数据".toList, -1, [], 0⟩,
            { w with m_dataModel := rollBackColumn m1 newColumnIndex })
      | some (baseDate, baseTime) =>
          let m2 := fillColumnFrom
            (dateTimeText qt baseDate baseTime config.outputUnit dateColumn timeColumn)
            newColumnIndex 0 m1.rowCount m1
          let processedRows := ((List.range m1.rowCount).filter (fun row =>
            (parseDateTimeItems qt (m1.item row dateColumn) (m1.item row timeColumn)).isSome)).length
          finishTimeConversion qt w m2 newColumnIndex newColumnName unitText processedRows
  else
    if config.sourceTimeColumnIndex < 0 ∨
        config.sourceTimeColumnIndex ≥ w.m_dataModel.columnCount then
      (⟨false, "源时间列索引无效".toList, -1, [], 0⟩, w)
    else
      let sourceColumn := config.sourceTimeColumnIndex.toNat
      let newColumnIndex := sourceColumn + 1
      let m1 := (w.m_dataModel.insertColumn newColumnIndex).setHorizontalHeaderItem
        newColumnIndex newColumnName
      let timeValues := (List.range m1.rowCount).map
        (fun row => parseTimeItem qt (m1.item row sourceColumn))
      match timeValues.findSome? id with
      | none =>
          (⟨false, "未找到有效的时间数据".toList, -1, [], 0⟩,
            { w with m_dataModel := rollBackColumn m1 newColumnIndex })
      | some baseTime =>
          let m2 := setColumnItemsFrom newColumnIndex 0
            ((List.range m1.rowCount).map (fun row =>
              timeOnlyText qt baseTime config.outputUnit row (timeValues.getD row none))) m1
          let processedRows := (timeValues.filter Option.isSome).length
          finishTimeConversion qt w m2 newColumnIndex newColumnName unitText processedRows

/-! ## Concrete inputs used by the closed statements -/

/-- A table of one row and one column whose only cell holds the text `a` and whose
column has no header item. -/
def oneCellNoHeader : QStandardItemModel :=
  { rowCount := 1, columnCount := 1, items := fun _ _ => some ['a'],
    headerItems := fun _ => none }

/-- A 2 × 2 table with headers `t`, `p` and cells `1 2 / 3 (unset)`. -/
def sampleTable : QStandardItemModel :=
  { rowCount := 2, columnCount := 2
    items := fun i j =>
      if i = 0 ∧ j = 0 then some ['1'] else if i = 0 ∧ j = 1 then some ['2']
      else if i = 1 ∧ j = 0 then some ['3'] else none
    headerItems := fun j => if j = 0 then some ['t'] else some ['p'] }

/-- The row deletion `RowEditCommand(Delete, 1, ["x"])`. -/
def deleteRowOne : RowEditCommand :=
  { m_operation := Operation.Delete, m_row := 1, m_rowData := [['x']] }

/-- A widget holding the 2 × 2 sample table, with the display cap of the constructor
(10000 rows). -/
def sampleWidget : DataEditorWidget Nat :=
  { m_dataModel := sampleTable
    m_undoStack := { commands := [], index := 0 }
    m_columnDefinitions := []
    m_currentFilePath := []
    m_currentFileType := []
    m_dataModified := false
    m_largeFileMode := false
    m_maxDisplayRows := 10000 }

/-- A stand-in for the Excel and JSON loaders: fails and leaves the widget alone. -/
def failingLoader (w : DataEditorWidget Nat) (_content : QString) : LoadResult Nat :=
  ⟨false, [], w⟩

/-- The load configuration `startRow = 1, hasHeader = true, separator = ","`. -/
def commaConfig : LoadConfig :=
  { startRow := 1, hasHeader := true, encoding := "UTF-8".toList, separator := [','] }

/-- The load configuration `startRow = 1, hasHeader = true` with the empty separator. -/
def emptySeparatorConfig : LoadConfig :=
  { startRow := 1, hasHeader := true, encoding := "UTF-8".toList, separator := [] }

/-- A cell text the export and the import both leave alone: no white space at either
end, no double quote, no line feed, no carriage return. -/
def isPlainCell (t : QString) : Bool :=
  decide (trimmed t = t) && !t.contains dquote && !t.contains newline && !t.contains creturn

/-- A header text the export and the import both leave alone: a plain cell text that is
not empty and holds no comma. -/
def isPlainHeader (h : QString) : Bool :=
  !h.isEmpty && isPlainCell h && !h.contains ','

/-- A widget holding a 1 × 1 table with header `h` whose only cell holds a blank
followed by `x`. -/
def paddedWidget : DataEditorWidget Nat :=
  { sampleWidget with
    m_dataModel :=
      { rowCount := 1, columnCount := 1, items := fun _ _ => some [' ', 'x'],
        headerItems := fun _ => some ['h'] } }

/-! ## A small stand-in for the Qt library, used by the closed statements

Numbers are counted in thousandths (an `Int`), which is exact for the decimal texts with
at most three fractional digits and their differences. Only the time format `hh:mm:ss`
and the date format `yyyy-MM-dd` are understood. -/

/-- The value of a decimal digit character. -/
def digitValue (c : Char) : Option Nat :=
  if c.isDigit then some (c.toNat - 48) else none

/-- The number written by a list of digit characters, after the digits read so far. -/
def digitsValue : Nat → List Char → Option Nat
  | acc, [] => some acc
  | acc, c :: cs =>
      match digitValue c with
      | some d => digitsValue (acc * 10 + d) cs
      | none => none

/-- An unsigned decimal text `digits` or `digits.fraction` (one to three fractional
digits), in thousandths. -/
def parseUnsignedMilli (s : List Char) : Option Nat :=
  let whole := s.takeWhile (fun c => c != '.')
  let rest := s.dropWhile (fun c => c != '.')
  if whole.isEmpty then none
  else
    match digitsValue 0 whole, rest with
    | some n, [] => some (n * 1000)
    | some n, _ :: frac =>
        if frac.isEmpty || frac.length > 3 then none
        else
          match digitsValue 0 (frac ++ List.replicate (3 - frac.length) '0') with
          | some f => some (n * 1000 + f)
          | none => none
    | none, _ => none

/-- A decimal text with an optional minus sign, in thousandths. -/
def parseMilli (s : List Char) : Option Int :=
  match s with
  | '-' :: rest => (parseUnsignedMilli rest).map (fun n => - (n : Int))
  | _ => (parseUnsignedMilli s).map (fun n => (n : Int))

/-- A count of thousandths written with three decimals. -/
def renderMilli (x : Int) : List Char :=
  let n := x.natAbs
  let frac := Nat.toDigits 10 (n % 1000)
  (if x < 0 then ['-'] else []) ++ Nat.toDigits 10 (n / 1000) ++
    '.' :: (List.replicate (3 - frac.length) '0' ++ frac)

/-- A text `hh:mm:ss` with two digits in each place, as a time of day. -/
def parseClock (s : List Char) : Option QTime :=
  match s with
  | [h1, h2, ':', m1, m2, ':', s1, s2] =>
      match digitsValue 0 [h1, h2], digitsValue 0 [m1, m2], digitsValue 0 [s1, s2] with
      | some h, some m, some sec =>
          if h < 24 ∧ m < 60 ∧ sec < 60 then some ⟨((h * 60 + m) * 60 + sec) * 1000⟩ else none
      | _, _, _ => none
  | _ => none

/-- The number of days from 0000-03-01 to the given civil date. -/
def dayNumber (y m d : Nat) : Int :=
  let yy : Int := if m ≤ 2 then (y : Int) - 1 else y
  let mm : Int := if m ≤ 2 then (m : Int) + 9 else (m : Int) - 3
  365 * yy + yy / 4 - yy / 100 + yy / 400 + (153 * mm + 2) / 5 + (d : Int) - 1

/-- A text `yyyy-MM-dd` as a date (months 1 to 12, days 1 to 31). -/
def parseIsoDate (s : List Char) : Option QDate :=
  match s with
  | [y1, y2, y3, y4, '-', m1, m2, '-', d1, d2] =>
      match digitsValue 0 [y1, y2, y3, y4], digitsValue 0 [m1, m2], digitsValue 0 [d1, d2] with
      | some y, some m, some d =>
          if 1 ≤ m ∧ m ≤ 12 ∧ 1 ≤ d ∧ d ≤ 31 then some ⟨dayNumber y m d⟩ else none
      | _, _, _ => none
  | _ => none

/-- The stand-in library. -/
def milliLib : QtLib Int :=
  { zero := 0
    ofInt := fun n => n * 1000
    sub := fun a b => a - b
    div := fun a b => if b = 0 then 0 else a * 1000 / b
    toDouble := parseMilli
    number := fun x _ => renderMilli x
    toLower := toLower
    timeFromString := fun text format => if format = "hh:mm:ss".toList then parseClock text else none
    dateFromString := fun text format =>
      if format = "yyyy-MM-dd".toList then parseIsoDate text else none
    dateTimeSecsTo := fun d1 t1 d2 t2 => (d2.day - d1.day) * 86400 + t1.secsTo t2
    number_zero := by decide }

/-- A table given by its header texts and its rows of cell texts. -/
def tableOf (headers : List QString) (rows : List (List QString)) : QStandardItemModel :=
  { rowCount := rows.length
    columnCount := headers.length
    items := fun i j => (rows.getD i []).get? j
    headerItems := fun j => headers.get? j }

/-- A widget around a table, with no column definitions and the display cap of the
constructor. -/
def widgetOf (m : QStandardItemModel) : DataEditorWidget Int :=
  { m_dataModel := m
    m_undoStack := { commands := [], index := 0 }
    m_columnDefinitions := []
    m_currentFilePath := []
    m_currentFileType := []
    m_dataModified := false
    m_largeFileMode := false
    m_maxDisplayRows := 10000 }

/-- Three readings with pressures 30.0, 28.5 and 25.0 under the header `Pressure`. -/
def pressureWidget : DataEditorWidget Int :=
  widgetOf (tableOf ["Time".toList, "Pressure".toList]
    [["0".toList, "30.0".toList], ["1".toList, "28.5".toList], ["2".toList, "25.0".toList]])

/-- A table without pressure column. -/
def noPressureWidget : DataEditorWidget Int :=
  widgetOf (tableOf ["Time".toList, "Rate".toList] [["0".toList, "5".toList]])

/-- Four clock readings, the third before the baseline, the fourth unreadable. -/
def clockWidget : DataEditorWidget Int :=
  widgetOf (tableOf ["Clock".toList]
    [["10:00:00".toList], ["10:01:30".toList], ["09:59:00".toList], ["n/a".toList]])

/-- Two readings with a date and a clock column, across midnight. -/
def dateClockWidget : DataEditorWidget Int :=
  widgetOf (tableOf ["Date".toList, "Clock".toList]
    [["2024-01-01".toList, "23:59:00".toList], ["2024-01-02".toList, "00:01:00".toList]])

/-- Time-only conversion of column 0 to the given unit. -/
def clockConfig (unit : QString) : TimeConversionConfig :=
  { dateColumnIndex := -1, timeColumnIndex := -1, sourceTimeColumnIndex := 0,
    outputUnit := unit, newColumnName := "t".toList, useDateAndTime := false }

/-- Date+time conversion of columns 0 and 1 to the given unit. -/
def dateClockConfig (unit : QString) : TimeConversionConfig :=
  { dateColumnIndex := 0, timeColumnIndex := 1, sourceTimeColumnIndex := -1,
    outputUnit := unit, newColumnName := "t".toList, useDateAndTime := true }

/-! ## Comparing tables item by item -/

/-- Two tables are the same item by item: same row and column count, the same item
(null or text) in every cell and the same header item on every column. -/
def SameTable (a b : QStandardItemModel) : Prop :=
  a.rowCount = b.rowCount ∧ a.columnCount = b.columnCount ∧
    (∀ i j, a.item i j = b.item i j) ∧
    (∀ j, a.horizontalHeaderItem j = b.horizontalHeaderItem j)

/-- A table whose only column, headed `Clock`, holds no readable time. -/
def noClockWidget : DataEditorWidget Int :=
  widgetOf (tableOf ["Clock".toList] [["n/a".toList], ["soon".toList]])

/-! ## Separator detection -/

/-- A file of two lines, `a,,c` and `1,2,3`: the second header field is blank. -/
def blankHeaderFile : QString :=
  ['a', ',', ',', 'c', newline, '1', ',', '2', ',', '3', newline]

/-- A file of 10001 lines, each the single character `a`. -/
def longFile : QString :=
  ((List.replicate 10001 ['a']).map (fun l => l ++ [newline])).flatten

/-- The number of lines of a file content. -/
def lineCount (content : QString) : Nat := (readAllLines [] (decodeText content)).length


/-! ## Row cleaning: empty rows and duplicate rows -/

/-- The macro built by `beginMacro`, the pushes in between and `endMacro`: the redo
future is dropped, one group command holding the pushed commands is appended and the
index raised by one. -/
def QUndoStack.pushMacro (stack : QUndoStack) (children : List DataEditCommand) : QUndoStack :=
  { commands := stack.commands.take stack.index ++ [QUndoCommand.group children]
    index := stack.index + 1 }

/-- The loop `for (int row : rows)` of the cleaning functions: the row is captured, a
`RowEditCommand(Delete, row, rowData)` built and pushed (which runs its `redo`).
`children` are the commands the macro holds so far. -/
def deleteRowsLoop :
    List Nat → List DataEditCommand → QStandardItemModel →
      List DataEditCommand × QStandardItemModel
  | [], children, m => (children, m)
  | row :: rows, children, m =>
      deleteRowsLoop rows
        (children ++ [DataEditCommand.row
          (RowEditCommand.redo ⟨Operation.Delete, row, captureRow m row⟩ m).1])
        (RowEditCommand.redo ⟨Operation.Delete, row, captureRow m row⟩ m).2

/-- The call `std::sort(begin, end, std::greater<int>())`. -/
def sortDescending (rows : List Nat) : List Nat := rows.insertionSort (fun a b => a ≥ b)

/-- The inner loop of `removeEmptyRows`: a row is empty when no cell of it has an item
whose trimmed text is not empty. -/
def isEmptyRow (m : QStandardItemModel) (row : Nat) : Bool :=
  (List.range m.columnCount).all (fun col =>
    match m.item row col with
    | some t => (trimmed t).isEmpty
    | none => true)

/-- The rows deleted inside one macro, in descending order; nothing happens, and no
macro is recorded, when the list is empty. -/
def deleteRowsAsMacro {D : Type} (w : DataEditorWidget D) (rows : List Nat) :
    DataEditorWidget D :=
  if rows.isEmpty then w
  else
    { w with
      m_dataModel := (deleteRowsLoop (sortDescending rows) [] w.m_dataModel).2
      m_undoStack := w.m_undoStack.pushMacro
        (deleteRowsLoop (sortDescending rows) [] w.m_dataModel).1 }

/-- `DataEditorWidget::removeEmptyRows`. -/
def removeEmptyRows {D : Type} (w : DataEditorWidget D) : DataEditorWidget D :=
  deleteRowsAsMacro w
    ((List.range w.m_dataModel.rowCount).filter (isEmptyRow w.m_dataModel))

/-- The signature `removeDuplicates` computes for a row: the trimmed cell texts (empty
for a null item) joined with `|`. -/
def rowSignature (m : QStandardItemModel) (row : Nat) : QString :=
  joinWith '|' ((List.range m.columnCount).map (fun col =>
    match m.item row col with
    | some t => trimmed t
    | none => []))

/-- The scanning loop of `removeDuplicates` over the rows still to visit: a row whose
signature is already in `uniqueRows` is appended to `duplicateRows`, else its signature
is inserted in `uniqueRows`. -/
def scanDuplicates (m : QStandardItemModel) :
    List Nat → List QString → List Nat → List Nat
  | [], _, duplicateRows => duplicateRows
  | row :: rows, uniqueRows, duplicateRows =>
      if uniqueRows.contains (rowSignature m row) then
        scanDuplicates m rows uniqueRows (duplicateRows ++ [row])
      else scanDuplicates m rows (rowSignature m row :: uniqueRows) duplicateRows

/-- `DataEditorWidget::removeDuplicates`. -/
def removeDuplicates {D : Type} (w : DataEditorWidget D) : DataEditorWidget D :=
  deleteRowsAsMacro w (scanDuplicates w.m_dataModel (List.range w.m_dataModel.rowCount) [] [])

/-- A row is a duplicate, in the words of the specification, when its signature is the
signature of an earlier row. -/
def isDuplicateRow (m : QStandardItemModel) (row : Nat) : Bool :=
  (List.range row).any (fun earlier => rowSignature m earlier == rowSignature m row)

/-- The rows of `0 .. n-1` that a test does not select, in ascending order. -/
def keptRows (n : Nat) (selected : Nat → Bool) : List Nat :=
  (List.range n).filter (fun r => !selected r)

/-- A table with a blank row and a repeated row: `a 1 / (blank) / a 1 / b 2`, the
repeated row padded with blanks. -/
def messyWidget : DataEditorWidget Int :=
  widgetOf (tableOf ["k".toList, "v".toList]
    [["a".toList, "1".toList], [" ".toList, [] ], [" a".toList, "1 ".toList],
      ["b".toList, "2".toList]])


/-! ## Cleaning and statistics of numeric columns -/

/-- The arithmetic of `double` used by the cleaning and statistics functions, on top of
`QtLib`. Nothing is assumed of the operations or of the comparison: they may round, and
`lt` may be false both ways (as `<` is on NaN). -/
structure QtMath (D : Type) extends QtLib D where
  /-- Addition of doubles. -/
  add : D → D → D
  /-- Multiplication of doubles. -/
  mul : D → D → D
  /-- `std::pow(x, n)` for a whole exponent. -/
  pow : D → Nat → D
  /-- `std::sqrt`. -/
  sqrt : D → D
  /-- `std::abs`. -/
  abs : D → D
  /-- `a < b` on doubles; `a > b` is `lt b a`. -/
  lt : D → D → Bool
  /-- `QString::number(x, 'f', precision)` always writes at least one digit. -/
  number_ne_nil : ∀ x p, number x p ≠ []

/-- The first loop of `removeOutliers` and of `fillMissingValues` on a column: the rows
whose item exists and whose text `toDouble` accepts (`validRows`, `validIndices`), each
with its value (`values`, `numericValues`), top to bottom. -/
def collectNumeric {D : Type} (qt : QtLib D) (m : QStandardItemModel) (col : Nat) :
    List (Nat × D) :=
  (List.range m.rowCount).filterMap (fun row =>
    match m.item row col with
    | some t => (qt.toDouble t).map (fun v => (row, v))
    | none => none)

/-- The loop `sum = 0; for (val : values) sum += val`. -/
def sumOf {D : Type} (qt : QtMath D) (values : List D) : D :=
  values.foldl qt.add qt.zero

/-- The loop `variance = 0; for (val : values) variance += std::pow(val - mean, 2)`. -/
def squaredDeviations {D : Type} (qt : QtMath D) (values : List D) (mean : D) : D :=
  values.foldl (fun variance val => qt.add variance (qt.pow (qt.sub val mean) 2)) qt.zero

/-- The local `mean = sum / values.size()`. -/
def columnMean {D : Type} (qt : QtMath D) (values : List D) : D :=
  qt.div (sumOf qt values) (qt.ofInt values.length)

/-- The local `stdDev = std::sqrt(variance / values.size())`. -/
def columnStdDev {D : Type} (qt : QtMath D) (values : List D) : D :=
  qt.sqrt (qt.div (squaredDeviations qt values (columnMean qt values)) (qt.ofInt values.length))

/-- The test `std::abs(values[i] - mean) > threshold * stdDev`. -/
def isOutlier {D : Type} (qt : QtMath D) (threshold : D) (values : List D) (v : D) : Bool :=
  qt.lt (qt.mul threshold (columnStdDev qt values)) (qt.abs (qt.sub v (columnMean qt values)))

/-- The list `outlierRows` of a column, in the order it is collected. -/
def outlierRowsOf {D : Type} (qt : QtMath D) (threshold : D) (cells : List (Nat × D)) :
    List Nat :=
  (cells.filter (fun cell => isOutlier qt threshold (cells.map Prod.snd) cell.2)).map Prod.fst

/-- The loop `for (row : outlierRows) if (item) item->setText("")`. -/
def clearCells (col : Nat) : List Nat → QStandardItemModel → QStandardItemModel
  | [], m => m
  | row :: rows, m =>
      clearCells col rows
        (match m.item row col with
         | some _ => m.setItem row col []
         | none => m)

/-- The body of the column loop of `removeOutliers`. -/
def removeOutliersColumn {D : Type} (qt : QtMath D) (threshold : D)
    (m : QStandardItemModel) (col : Nat) : QStandardItemModel :=
  if (collectNumeric qt.toQtLib m col).length < 3 then m
  else if (outlierRowsOf qt threshold (collectNumeric qt.toQtLib m col)).isEmpty then m
  else clearCells col
    (sortDescending (outlierRowsOf qt threshold (collectNumeric qt.toQtLib m col))) m

/-- The column loop of `removeOutliers`. -/
def removeOutliersLoop {D : Type} (qt : QtMath D) (threshold : D) :
    List Nat → QStandardItemModel → QStandardItemModel
  | [], m => m
  | col :: cols, m => removeOutliersLoop qt threshold cols (removeOutliersColumn qt threshold m col)

/-- `DataEditorWidget::removeOutliers(threshold)`. -/
def removeOutliers {D : Type} (qt : QtMath D) (w : DataEditorWidget D) (threshold : D) :
    DataEditorWidget D :=
  { w with
    m_dataModel :=
      removeOutliersLoop qt threshold (List.range w.m_dataModel.columnCount) w.m_dataModel }

/-- The condition `!item || item->text().trimmed().isEmpty()`. -/
def isMissing (m : QStandardItemModel) (row col : Nat) : Bool :=
  match m.item row col with
  | some t => (trimmed t).isEmpty
  | none => true

/-- The loop of the method `forward`, from `prevRow + 1 = row` down to row 0: the text of
the first item met that is not empty after trimming, the empty text when there is none. -/
def forwardFillValue (m : QStandardItemModel) (col : Nat) : Nat → QString
  | 0 => []
  | prevRow + 1 =>
      match m.item prevRow col with
      | some t => if (trimmed t).isEmpty then forwardFillValue m col prevRow else t
      | none => forwardFillValue m col prevRow

/-- The local `fillValue` of `fillMissingValues` for the cell at `row`, `col`. -/
def fillValueOf {D : Type} (qt : QtMath D) (method : QString) (numericValues : List D)
    (m : QStandardItemModel) (row col : Nat) : QString :=
  if method = "zero".toList then ['0']
  else if method = "average".toList then
    qt.number (qt.div (sumOf qt numericValues) (qt.ofInt numericValues.length)) 3
  else if method = "interpolation".toList then
    match numericValues with
    | first :: _ => qt.number first 3
    | [] => []
  else if method = "forward".toList then forwardFillValue m col row
  else []

/-- The second row loop of `fillMissingValues` on a column. -/
def fillMissingCells {D : Type} (qt : QtMath D) (method : QString) (numericValues : List D)
    (col : Nat) : List Nat → QStandardItemModel → QStandardItemModel
  | [], m => m
  | row :: rows, m =>
      if isMissing m row col then
        if (fillValueOf qt method numericValues m row col).isEmpty then
          fillMissingCells qt method numericValues col rows m
        else
          fillMissingCells qt method numericValues col rows
            (m.setItem row col (fillValueOf qt method numericValues m row col))
      else fillMissingCells qt method numericValues col rows m

/-- The body of the column loop of `fillMissingValues`. -/
def fillMissingColumn {D : Type} (qt : QtMath D) (method : QString)
    (m : QStandardItemModel) (col : Nat) : QStandardItemModel :=
  if ((collectNumeric qt.toQtLib m col).map Prod.snd).isEmpty then m
  else fillMissingCells qt method ((collectNumeric qt.toQtLib m col).map Prod.snd) col
    (List.range m.rowCount) m

/-- The column loop of `fillMissingValues`. -/
def fillMissingLoop {D : Type} (qt : QtMath D) (method : QString) :
    List Nat → QStandardItemModel → QStandardItemModel
  | [], m => m
  | col :: cols, m => fillMissingLoop qt method cols (fillMissingColumn qt method m col)

/-- `DataEditorWidget::fillMissingValues(method)`. -/
def fillMissingValues {D : Type} (qt : QtMath D) (w : DataEditorWidget D) (method : QString) :
    DataEditorWidget D :=
  { w with
    m_dataModel :=
      fillMissingLoop qt method (List.range w.m_dataModel.columnCount) w.m_dataModel }

/-- `DataStatistics`. -/
structure DataStatistics (D : Type) where
  columnName : QString
  dataCount : Nat
  validCount : Nat
  invalidCount : Nat
  minimum : D
  maximum : D
  average : D
  median : D
  standardDeviation : D
  dataType : QString
  unit : QString

/-- The counters and lists built by the row loop of `calculateColumnStatistics`. -/
structure ColumnScan (D : Type) where
  validCount : Nat
  invalidCount : Nat
  numericValues : List D
  textValues : List QString

/-- The local `value = item ? item->text().trimmed() : ""` of `calculateColumnStatistics`. -/
def trimmedValue (m : QStandardItemModel) (row column : Nat) : QString :=
  match m.item row column with
  | some t => trimmed t
  | none => []

/-- The row loop of `calculateColumnStatistics`. -/
def scanColumn {D : Type} (qt : QtLib D) (m : QStandardItemModel) (column : Nat) :
    List Nat → ColumnScan D → ColumnScan D
  | [], s => s
  | row :: rows, s =>
      if (trimmedValue m row column).isEmpty then
        scanColumn qt m column rows { s with invalidCount := s.invalidCount + 1 }
      else
        match qt.toDouble (trimmedValue m row column) with
        | some numValue =>
            scanColumn qt m column rows
              { s with numericValues := s.numericValues ++ [numValue]
                       validCount := s.validCount + 1 }
        | none =>
            scanColumn qt m column rows
              { s with textValues := s.textValues ++ [trimmedValue m row column]
                       validCount := s.validCount + 1 }

/-- Modelled from the spec: `std::sort(begin, end)` puts a list of doubles in ascending
order of `<`. The model is an insertion sort with the comparison `<`; on values that `<`
orders, every sorting algorithm returns the same list. -/
def stdSort {D : Type} (qt : QtMath D) (values : List D) : List D :=
  values.insertionSort (fun a b => qt.lt b a = false)

/-- The comparison `<` is a strict weak ordering on the values of a list: `a < b` excludes
`b < a`, and when neither `b < a` nor `c < b` then not `c < a`. This is what `std::sort`
requires, and it holds of doubles none of which is NaN. -/
def OrderedValues {D : Type} (qt : QtMath D) (values : List D) : Prop :=
  (∀ a, a ∈ values → ∀ b, b ∈ values → qt.lt a b = true → qt.lt b a = false) ∧
  (∀ a, a ∈ values → ∀ b, b ∈ values → ∀ c, c ∈ values →
    qt.lt b a = false → qt.lt c b = false → qt.lt c a = false)

/-- `DataEditorWidget::calculateColumnStatistics(column)`. The struct `stats` is declared
without an initialiser, so its numbers start out indeterminate: `indeterminate` stands for
them (its texts are empty). -/
def calculateColumnStatistics {D : Type} (qt : QtMath D) (w : DataEditorWidget D)
    (indeterminate : DataStatistics D) (column : Int) : DataStatistics D :=
  if column < 0 ∨ column ≥ (w.m_dataModel.columnCount : Int) then
    { indeterminate with columnName := [], dataType := [], unit := [] }
  else
    let scan := scanColumn qt.toQtLib w.m_dataModel column.toNat
      (List.range w.m_dataModel.rowCount) ⟨0, 0, [], []⟩
    let columnName := w.m_dataModel.headerData column.toNat
    let unit :=
      match w.m_columnDefinitions.get? column.toNat with
      | some definition => definition.unit
      | none => []
    if scan.numericValues.length > scan.textValues.length then
      let numericValues := stdSort qt scan.numericValues
      let size := numericValues.length
      let average := qt.div (sumOf qt numericValues) (qt.ofInt size)
      { columnName := columnName
        dataCount := w.m_dataModel.rowCount
        validCount := scan.validCount
        invalidCount := scan.invalidCount
        minimum := numericValues.headD qt.zero
        maximum := numericValues.getLastD qt.zero
        average := average
        median :=
          if size % 2 = 0 then
            qt.div (qt.add (numericValues.getD (size / 2 - 1) qt.zero)
              (numericValues.getD (size / 2) qt.zero)) (qt.ofInt 2)
          else numericValues.getD (size / 2) qt.zero
        standardDeviation :=
          qt.sqrt (qt.div (squaredDeviations qt numericValues average) (qt.ofInt size))
        dataType := "数值型".toList
        unit := unit }
    else
      { columnName := columnName
        dataCount := w.m_dataModel.rowCount
        validCount := scan.validCount
        invalidCount := scan.invalidCount
        minimum := qt.zero
        maximum := qt.zero
        average := qt.zero
        median := qt.zero
        standardDeviation := qt.zero
        dataType := "文本型".toList
        unit := unit }

/-- The whole square root of a natural number, by Newton steps from above. -/
def isqrtLoop (n : Nat) : Nat → Nat → Nat
  | 0, x => x
  | fuel + 1, x => if (x + n / x) / 2 < x then isqrtLoop n fuel ((x + n / x) / 2) else x

/-- The whole square root of a natural number (exact for the numbers below `2 ^ 64`). -/
def isqrt (n : Nat) : Nat := if n = 0 then 0 else isqrtLoop n 80 n

/-- The power `x ^ n` on thousandths. -/
def powMilli (x : Int) : Nat → Int
  | 0 => 1000
  | n + 1 => x * powMilli x n / 1000

/-- The stand-in library with its arithmetic. -/
def milliMath : QtMath Int :=
  { milliLib with
    add := fun a b => a + b
    mul := fun a b => a * b / 1000
    pow := powMilli
    sqrt := fun x => (isqrt (x.toNat * 1000) : Int)
    abs := fun x => (x.natAbs : Int)
    lt := fun a b => decide (a < b)
    number_ne_nil := by
      intro x p hnil
      have := congrArg List.length hnil
      simp [milliLib, renderMilli] at this }

/-- A one-column table holding 10, 10, 10, 10, 100. -/
def outlierWidget : DataEditorWidget Int :=
  widgetOf (tableOf ["v".toList]
    [["10".toList], ["10".toList], ["10".toList], ["10".toList], ["100".toList]])

/-- A table with gaps: a numeric column and a column of words. -/
def gapWidget : DataEditorWidget Int :=
  widgetOf (tableOf ["v".toList, "w".toList]
    [[[], "x".toList], ["4".toList, []], [" ".toList, "y".toList], ["1".toList, []]])

/-- The cell holds a text that `toDouble` accepts and whose value the test of
`removeOutliers` rejects, the mean and the deviation being those of the numeric cells of
its column. -/
def isOutlierCell {D : Type} (qt : QtMath D) (threshold : D) (m : QStandardItemModel)
    (row col : Nat) : Bool :=
  match m.item row col with
  | some t =>
      match qt.toDouble t with
      | some v => isOutlier qt threshold ((collectNumeric qt.toQtLib m col).map Prod.snd) v
      | none => false
  | none => false

/-- The item `removeOutliers` leaves in a cell. -/
def outlierCleared {D : Type} (qt : QtMath D) (threshold : D) (m : QStandardItemModel)
    (row col : Nat) : Option QString :=
  if 3 ≤ (collectNumeric qt.toQtLib m col).length ∧ isOutlierCell qt threshold m row col = true
  then some [] else m.item row col

/-- The item the second row loop of `fillMissingValues` leaves in a cell of the column it
runs on: the fill value when the cell is missing and the fill value is not empty. -/
def filledCell {D : Type} (qt : QtMath D) (method : QString) (numericValues : List D)
    (m : QStandardItemModel) (row col : Nat) : Option QString :=
  if isMissing m row col = true ∧ (fillValueOf qt method numericValues m row col).isEmpty = false
  then some (fillValueOf qt method numericValues m row col)
  else m.item row col

/-- The item `fillMissingValues` leaves in a cell. -/
def filledItem {D : Type} (qt : QtMath D) (method : QString) (m : QStandardItemModel)
    (row col : Nat) : Option QString :=
  if row < m.rowCount ∧ ((collectNumeric qt.toQtLib m col).map Prod.snd).isEmpty = false
  then filledCell qt method ((collectNumeric qt.toQtLib m col).map Prod.snd) m row col
  else m.item row col

/-- The trimmed texts of a column that are not empty, top to bottom. -/
def nonEmptyCells (m : QStandardItemModel) (column : Nat) : List QString :=
  ((List.range m.rowCount).map (fun row => trimmed (m.text row column))).filter
    (fun value => !value.isEmpty)

/-- The values of the non-empty cells of a column that `toDouble` accepts. -/
def numericCellValues {D : Type} (qt : QtLib D) (m : QStandardItemModel) (column : Nat) :
    List D :=
  (nonEmptyCells m column).filterMap qt.toDouble

/-- The non-empty cells of a column that `toDouble` refuses. -/
def textCellValues {D : Type} (qt : QtLib D) (m : QStandardItemModel) (column : Nat) :
    List QString :=
  (nonEmptyCells m column).filter (fun value => (qt.toDouble value).isNone)

/-! ## The undo entry points of the widget -/

/-- `QUndoStack::canUndo`: some command is done. -/
def QUndoStack.canUndo (stack : QUndoStack) : Bool := decide (0 < stack.index)

/-- `DataEditorWidget::canUndo`. -/
def DataEditorWidget.canUndo {D : Type} (w : DataEditorWidget D) : Bool :=
  w.m_undoStack.canUndo

/-- `DataEditorWidget::undo`: when the stack can undo, its top command is undone and the
data marked as modified; otherwise nothing happens. -/
def DataEditorWidget.undo {D : Type} (w : DataEditorWidget D) : DataEditorWidget D :=
  if w.m_undoStack.canUndo then
    { w with
      m_undoStack := (Editor.undo ⟨w.m_undoStack, w.m_dataModel⟩).stack
      m_dataModel := (Editor.undo ⟨w.m_undoStack, w.m_dataModel⟩).model
      m_dataModified := true }
  else w

/-- A two-column table whose two rows differ in both cells but join to the same text
`a|b|c`. -/
def pipeWidget : DataEditorWidget Int :=
  widgetOf (tableOf ["k".toList, "v".toList]
    [["a|b".toList, "c".toList], ["a".toList, "b|c".toList]])

/-! ## Empty columns -/

/-- The inner loop of `removeEmptyColumns`: a column is empty when no cell of it has an
item whose trimmed text is not empty. -/
def isEmptyColumn (m : QStandardItemModel) (col : Nat) : Bool :=
  (List.range m.rowCount).all (fun row =>
    match m.item row col with
    | some t => (trimmed t).isEmpty
    | none => true)

/-- The loop `for (int col : emptyColumns)` of `removeEmptyColumns`: the header name and
the column are captured, a `ColumnEditCommand(Delete, col, headerName, columnData)` built
and pushed (which runs its `redo`). -/
def deleteColumnsLoop :
    List Nat → List DataEditCommand → QStandardItemModel →
      List DataEditCommand × QStandardItemModel
  | [], children, m => (children, m)
  | col :: cols, children, m =>
      deleteColumnsLoop cols
        (children ++ [DataEditCommand.column
          (ColumnEditCommand.redo ⟨Operation.Delete, col,
            (match m.horizontalHeaderItem col with
             | some t => t
             | none => '列' :: numberText (col + 1)),
            captureColumn m col⟩ m).1])
        (ColumnEditCommand.redo ⟨Operation.Delete, col,
            (match m.horizontalHeaderItem col with
             | some t => t
             | none => '列' :: numberText (col + 1)),
            captureColumn m col⟩ m).2

/-- `DataEditorWidget::removeEmptyColumns`: the empty columns are deleted inside one
macro, in descending order; the column definitions are not touched. -/
def removeEmptyColumns {D : Type} (w : DataEditorWidget D) : DataEditorWidget D :=
  if ((List.range w.m_dataModel.columnCount).filter (isEmptyColumn w.m_dataModel)).isEmpty
  then w
  else
    { w with
      m_dataModel := (deleteColumnsLoop
        (sortDescending
          ((List.range w.m_dataModel.columnCount).filter (isEmptyColumn w.m_dataModel)))
        [] w.m_dataModel).2
      m_undoStack := w.m_undoStack.pushMacro (deleteColumnsLoop
        (sortDescending
          ((List.range w.m_dataModel.columnCount).filter (isEmptyColumn w.m_dataModel)))
        [] w.m_dataModel).1 }

/-- A column definition of the default kind with the given name. -/
def customDefinition (name : QString) : ColumnDefinition Int :=
  { name := name, type := WellTestColumnType.Custom, unit := [], description := [],
    isRequired := false, minValue := -999999000, maxValue := 999999000, decimalPlaces := 3 }

/-- A table whose first column `A` is blank and whose second column `B` holds data, with
one definition per column. -/
def blankColumnWidget : DataEditorWidget Int :=
  { widgetOf (tableOf ["A".toList, "B".toList]
      [[[], "1".toList], [" ".toList, "2".toList]]) with
    m_columnDefinitions := [customDefinition "A".toList, customDefinition "B".toList] }

/-- The row a command deletes, when it is a row deletion. -/
def deletedRow : DataEditCommand → Option Nat
  | .row c => if c.m_operation = Operation.Delete then some c.m_row else none
  | _ => none

/-! ## Lines of quoted fields -/

/-- `QStringList::join(separator)`. -/
def joinStr (separator : QString) : List QString → QString
  | [] => []
  | [x] => x
  | x :: y :: rest => x ++ separator ++ joinStr separator (y :: rest)

/-- The line made of the fields, each wrapped in double quotes, joined with the
separator. -/
def quotedLine (separator : QString) (fields : List QString) : QString :=
  joinStr separator (fields.map (fun f => dquote :: (f ++ [dquote])))

/-! ## Validation -/

/-- `ValidationResult`; `columnErrors` is the map from column name to messages, kept as a
list of entries (the order of the keys is not modelled). -/
structure ValidationResult where
  isValid : Bool
  errors : List QString
  warnings : List QString
  totalRows : Nat
  validRows : Nat
  errorRows : Nat
  columnErrors : List (QString × List QString)

/-- The locals `isValid`, `emptyCount` and the out-parameter `errors` of
`validateColumnData`. -/
structure ColumnCheck where
  isValid : Bool
  emptyCount : Nat
  errors : List QString

/-- The column types whose values `validateColumnData` checks against the range. -/
def isRangeChecked (type : WellTestColumnType) : Bool :=
  type = WellTestColumnType.Pressure || type = WellTestColumnType.Temperature ||
    type = WellTestColumnType.FlowRate || type = WellTestColumnType.Time

/-- The row loop of `validateColumnData`. `arg` is `QString::arg(double)`. -/
def validateColumnRows {D : Type} (qt : QtMath D) (arg : D → QString)
    (m : QStandardItemModel) (columnIndex : Nat) (definition : ColumnDefinition D) :
    List Nat → ColumnCheck → ColumnCheck
  | [], s => s
  | row :: rows, s =>
      if (trimmedValue m row columnIndex).isEmpty then
        if definition.isRequired then
          validateColumnRows qt arg m columnIndex definition rows
            { isValid := false
              emptyCount := s.emptyCount + 1
              errors := s.errors ++ ['第' :: (numberText (row + 1) ++ "行缺少必需数据".toList)] }
        else
          validateColumnRows qt arg m columnIndex definition rows
            { s with emptyCount := s.emptyCount + 1 }
      else if isRangeChecked definition.type then
        match qt.toDouble (trimmedValue m row columnIndex) with
        | none =>
            validateColumnRows qt arg m columnIndex definition rows
              { s with
                isValid := false
                errors := s.errors ++
                  ['第' :: (numberText (row + 1) ++ "行数据格式错误，应为数值".toList)] }
        | some numValue =>
            if qt.lt numValue definition.minValue || qt.lt definition.maxValue numValue then
              validateColumnRows qt arg m columnIndex definition rows
                { s with
                  isValid := false
                  errors := s.errors ++
                    ['第' :: (numberText (row + 1) ++ "行数值超出范围 [".toList ++
                      arg definition.minValue ++ ", ".toList ++ arg definition.maxValue ++
                      "]".toList)] }
            else validateColumnRows qt arg m columnIndex definition rows s
      else validateColumnRows qt arg m columnIndex definition rows s

/-- `DataEditorWidget::validateColumnData`: the returned flag and the list `errors` after
the call. The test `emptyCount > rowCount * 0.5` is written on whole numbers. -/
def validateColumnData {D : Type} (qt : QtMath D) (arg : D → QString)
    (w : DataEditorWidget D) (columnIndex : Nat) (definition : ColumnDefinition D)
    (errors : List QString) : Bool × List QString :=
  if columnIndex ≥ w.m_dataModel.columnCount then (false, errors)
  else if definition.isRequired = true ∧
      (validateColumnRows qt arg w.m_dataModel columnIndex definition
        (List.range w.m_dataModel.rowCount) ⟨true, 0, errors⟩).emptyCount * 2
        > w.m_dataModel.rowCount then
    (false,
      (validateColumnRows qt arg w.m_dataModel columnIndex definition
        (List.range w.m_dataModel.rowCount) ⟨true, 0, errors⟩).errors ++
        ["必需列'".toList ++ definition.name ++ "'有超过50%的数据缺失".toList])
  else
    ((validateColumnRows qt arg w.m_dataModel columnIndex definition
        (List.range w.m_dataModel.rowCount) ⟨true, 0, errors⟩).isValid,
      (validateColumnRows qt arg w.m_dataModel columnIndex definition
        (List.range w.m_dataModel.rowCount) ⟨true, 0, errors⟩).errors)

/-- The statement `columnErrors[name].append(messages)` on the map. -/
def appendColumnErrors (name : QString) (messages : List QString) :
    List (QString × List QString) → List (QString × List QString)
  | [] => [(name, messages)]
  | entry :: rest =>
      if entry.1 = name then (entry.1, entry.2 ++ messages) :: rest
      else entry :: appendColumnErrors name messages rest

/-- The locals `hasError`, `isEmpty` of the row loop of `validateData`, with the map
`result.columnErrors`. -/
structure RowCheck where
  hasError : Bool
  isEmpty : Bool
  columnErrors : List (QString × List QString)

/-- The column loop of `validateData` on one row. -/
def validateRowCells {D : Type} (qt : QtMath D) (arg : D → QString)
    (w : DataEditorWidget D) (row : Nat) : List Nat → RowCheck → RowCheck
  | [], s => s
  | col :: cols, s =>
      if (trimmedValue w.m_dataModel row col).isEmpty then
        validateRowCells qt arg w row cols s
      else
        match w.m_columnDefinitions.get? col with
        | some definition =>
            if (validateColumnData qt arg w col definition []).1 then
              validateRowCells qt arg w row cols { s with isEmpty := false }
            else
              validateRowCells qt arg w row cols
                { hasError := true
                  isEmpty := false
                  columnErrors := appendColumnErrors definition.name
                    (validateColumnData qt arg w col definition []).2 s.columnErrors }
        | none => validateRowCells qt arg w row cols { s with isEmpty := false }

/-- The row loop of `validateData`. -/
def validateRows {D : Type} (qt : QtMath D) (arg : D → QString) (w : DataEditorWidget D) :
    List Nat → ValidationResult → ValidationResult
  | [], result => result
  | row :: rows, result =>
      if (validateRowCells qt arg w row (List.range w.m_dataModel.columnCount)
          ⟨false, true, result.columnErrors⟩).isEmpty then
        validateRows qt arg w rows
          { result with
            columnErrors := (validateRowCells qt arg w row
              (List.range w.m_dataModel.columnCount) ⟨false, true, result.columnErrors⟩).columnErrors
            warnings := result.warnings ++
              ['第' :: (numberText (row + 1) ++ "行为空行".toList)] }
      else if (validateRowCells qt arg w row (List.range w.m_dataModel.columnCount)
          ⟨false, true, result.columnErrors⟩).hasError then
        validateRows qt arg w rows
          { result with
            columnErrors := (validateRowCells qt arg w row
              (List.range w.m_dataModel.columnCount) ⟨false, true, result.columnErrors⟩).columnErrors
            errorRows := result.errorRows + 1 }
      else
        validateRows qt arg w rows
          { result with
            columnErrors := (validateRowCells qt arg w row
              (List.range w.m_dataModel.columnCount) ⟨false, true, result.columnErrors⟩).columnErrors
            validRows := result.validRows + 1 }

/-- `DataEditorWidget::validateData`. -/
def validateData {D : Type} (qt : QtMath D) (arg : D → QString) (w : DataEditorWidget D) :
    ValidationResult :=
  { validateRows qt arg w (List.range w.m_dataModel.rowCount)
      ⟨true, [], [], w.m_dataModel.rowCount, 0, 0, []⟩ with
    isValid := (validateRows qt arg w (List.range w.m_dataModel.rowCount)
      ⟨true, [], [], w.m_dataModel.rowCount, 0, 0, []⟩).errors.isEmpty }

/-- A table with one pressure column holding a word, a number and a blank. -/
def badPressureWidget : DataEditorWidget Int :=
  { widgetOf (tableOf ["P".toList] [["abc".toList], ["12.5".toList], [" ".toList]]) with
    m_columnDefinitions :=
      [{ customDefinition "P".toList with type := WellTestColumnType.Pressure }] }

/-! ## Arithmetic that does not round on a column -/

/-- The local `variance / values.size()` of `removeOutliers`, whose square root is
`stdDev`. -/
def columnVariance {D : Type} (qt : QtMath D) (values : List D) : D :=
  qt.div (squaredDeviations qt values (columnMean qt values)) (qt.ofInt values.length)

/-- On the numeric values of one column and for one threshold, no step of `removeOutliers`
rounds: read through `val` as elements of an ordered ring, the doubles the function
computes are the exact numbers. The sum is the sum of the values, the mean times the count
is the sum, the accumulated squared deviations are the sum of the squares of the
differences from the mean, the variance times the count is that sum, the deviation is the
non-negative square root of the variance, and the test of a value compares the exact
product `threshold * stdDev` with the exact distance from the mean. -/
structure ExactOnColumn {D K : Type} [LinearOrderedCommRing K] (qt : QtMath D) (val : D → K)
    (threshold : D) (values : List D) : Prop where
  sum_eq : val (sumOf qt values) = (values.map val).sum
  mean_eq : val (columnMean qt values) * (values.length : K) = val (sumOf qt values)
  deviations_eq : val (squaredDeviations qt values (columnMean qt values))
    = (values.map (fun v => (val v - val (columnMean qt values))
        * (val v - val (columnMean qt values)))).sum
  variance_eq : val (columnVariance qt values) * (values.length : K)
    = val (squaredDeviations qt values (columnMean qt values))
  stdDev_nonneg : 0 ≤ val (columnStdDev qt values)
  stdDev_sq : val (columnStdDev qt values) * val (columnStdDev qt values)
    = val (columnVariance qt values)
  outlier_iff : ∀ v, v ∈ values →
    (isOutlier qt threshold values v = true ↔
      val threshold * val (columnStdDev qt values) < |val v - val (columnMean qt values)|)

/-! ## A stand-in for IEEE 754 doubles

Used by the closed statements that depend on rounding or on NaN. A value is NaN or the
finite number `mant * 2 ^ exp` with `|mant| < 2 ^ 53` and `exp ≥ -1074`; every operation
returns the nearest such number to the exact result, ties to the even mantissa. Infinities
and the sign of zero are not modelled; a division by zero gives NaN. -/

/-- A double: NaN, or the finite value `mant * 2 ^ exp`. -/
inductive Binary64 where
  | nan
  | finite (mant : Int) (exp : Int)
  deriving DecidableEq, Repr

/-- The number of binary digits of a natural number, by repeated halving. -/
def bitLengthLoop : Nat → Nat → Nat
  | 0, _ => 0
  | fuel + 1, n => if n = 0 then 0 else bitLengthLoop fuel (n / 2) + 1

/-- The number of binary digits of a natural number below `2 ^ 4000`. -/
def bitLength (n : Nat) : Nat := bitLengthLoop 4000 n

/-- The quotient `p / (q * 2 ^ exp)` rounded to the nearest whole number, ties to even. -/
def scaledQuotient (p q : Nat) (exp : Int) : Nat :=
  let n := p * 2 ^ (-exp).toNat
  let d := q * 2 ^ exp.toNat
  if 2 * (n % d) > d ∨ (2 * (n % d) = d ∧ (n / d) % 2 = 1) then n / d + 1 else n / d

/-- The exponent of the double nearest to `p / q`, before the mantissa is rounded. -/
def quotientExponent (p q : Nat) : Int :=
  let e := max ((bitLength p : Int) - (bitLength q : Int) - 53) (-1074)
  if p * 2 ^ (-e).toNat / (q * 2 ^ e.toNat) ≥ 2 ^ 53 then e + 1 else e

/-- The double nearest to `± p / q` (`q > 0`), ties to even. -/
def roundNearest (negative : Bool) (p q : Nat) : Binary64 :=
  if p = 0 then Binary64.finite 0 (-1074)
  else if scaledQuotient p q (quotientExponent p q) = 2 ^ 53 then
    Binary64.finite (if negative then -(2 ^ 52) else 2 ^ 52) (quotientExponent p q + 1)
  else
    Binary64.finite
      (if negative then -(scaledQuotient p q (quotientExponent p q) : Int)
       else (scaledQuotient p q (quotientExponent p q) : Int))
      (if scaledQuotient p q (quotientExponent p q) = 0 then -1074
       else quotientExponent p q)

/-- The double nearest to `s * 2 ^ exp`. -/
def ofDyadic (s : Int) (exp : Int) : Binary64 :=
  roundNearest (decide (s < 0)) (s.natAbs * 2 ^ exp.toNat) (2 ^ (-exp).toNat)

namespace Binary64

/-- Rounded sum. -/
def add : Binary64 → Binary64 → Binary64
  | finite m1 e1, finite m2 e2 =>
      ofDyadic (m1 * 2 ^ (e1 - min e1 e2).toNat + m2 * 2 ^ (e2 - min e1 e2).toNat) (min e1 e2)
  | _, _ => nan

/-- The opposite number. -/
def neg : Binary64 → Binary64
  | finite m e => finite (-m) e
  | nan => nan

/-- Rounded difference. -/
def sub (a b : Binary64) : Binary64 := add a (neg b)

/-- Rounded product. -/
def mul : Binary64 → Binary64 → Binary64
  | finite m1 e1, finite m2 e2 => ofDyadic (m1 * m2) (e1 + e2)
  | _, _ => nan

/-- Rounded quotient; NaN when the divisor is zero. -/
def div : Binary64 → Binary64 → Binary64
  | finite m1 e1, finite m2 e2 =>
      if m2 = 0 then nan
      else
        roundNearest (decide (m1 < 0) != decide (m2 < 0))
          (m1.natAbs * 2 ^ (e1 - e2).toNat) (m2.natAbs * 2 ^ (e2 - e1).toNat)
  | _, _ => nan

/-- The absolute value. -/
def abs : Binary64 → Binary64
  | finite m e => finite (m.natAbs : Int) e
  | nan => nan

/-- The comparison `a < b`, false when either is NaN. -/
def lt : Binary64 → Binary64 → Bool
  | finite m1 e1, finite m2 e2 =>
      decide (m1 * 2 ^ (e1 - min e1 e2).toNat < m2 * 2 ^ (e2 - min e1 e2).toNat)
  | _, _ => false

/-- The power with a whole exponent, by rounded products. -/
def pow (x : Binary64) : Nat → Binary64
  | 0 => finite (2 ^ 52) (-52)
  | 1 => x
  | n + 2 => mul (pow x (n + 1)) x

/-- Rounded square root; NaN for a negative number. The radicand is scaled to a whole
number with more than 108 binary digits and an even exponent; a remainder is kept as one
more half. -/
def sqrt : Binary64 → Binary64
  | finite m e =>
      if m < 0 then nan
      else
        let k : Int := (e - 110) / 2
        let radicand : Nat := m.toNat * 2 ^ (e - 2 * k).toNat
        let root : Nat := isqrtLoop radicand 200 (2 ^ ((bitLength radicand + 1) / 2))
        if root * root = radicand then
          roundNearest false (root * 2 ^ k.toNat) (2 ^ (-k).toNat)
        else roundNearest false ((2 * root + 1) * 2 ^ k.toNat) (2 * 2 ^ (-k).toNat)
  | nan => nan

end Binary64

/-- The decimal point and exponent of a number text: the digits before and after the
point, and the text of the exponent (empty when there is none). -/
def splitNumberText (s : List Char) : List Char × List Char × List Char :=
  let mantissa := s.takeWhile (fun c => c != 'e' && c != 'E')
  let exponent := (s.dropWhile (fun c => c != 'e' && c != 'E')).drop 1
  (mantissa.takeWhile (fun c => c != '.'), (mantissa.dropWhile (fun c => c != '.')).drop 1,
    exponent)

/-- A whole number text with an optional sign. -/
def parseSigned (s : List Char) : Option Int :=
  match s with
  | '-' :: rest => if rest.isEmpty then none else (digitsValue 0 rest).map (fun n => - (n : Int))
  | '+' :: rest => if rest.isEmpty then none else (digitsValue 0 rest).map (fun n => (n : Int))
  | _ => if s.isEmpty then none else (digitsValue 0 s).map (fun n => (n : Int))

/-- An unsigned decimal text `digits[.digits][e[sign]digits]` as the pair of its digits
read as a whole number and its power of ten. -/
def parseDecimalText (s : List Char) : Option (Nat × Int) :=
  let parts := splitNumberText s
  if parts.1.isEmpty && parts.2.1.isEmpty then none
  else if s.contains '.' && parts.2.1.isEmpty then none
  else
    match digitsValue 0 (parts.1 ++ parts.2.1) with
    | none => none
    | some digits =>
        if s.contains 'e' || s.contains 'E' then
          match parseSigned parts.2.2 with
          | some e => some (digits, e - (parts.2.1.length : Int))
          | none => none
        else some (digits, - (parts.2.1.length : Int))

/-- The double a text denotes: `nan`, or a decimal number with an optional minus sign,
rounded to the nearest double. -/
def parseBinary64 (s : List Char) : Option Binary64 :=
  if s = "nan".toList then some Binary64.nan
  else
    match s with
    | '-' :: rest =>
        (parseDecimalText rest).map
          (fun r => roundNearest true (r.1 * 10 ^ r.2.toNat) (10 ^ (-r.2).toNat))
    | _ =>
        (parseDecimalText s).map
          (fun r => roundNearest false (r.1 * 10 ^ r.2.toNat) (10 ^ (-r.2).toNat))

/-- A double written with three decimals (the thousandths are rounded to nearest, ties
to even); `nan` for NaN. -/
def renderBinary64 : Binary64 → List Char
  | Binary64.nan => "nan".toList
  | Binary64.finite m e =>
      if m = 0 then renderMilli 0
      else renderMilli
        (if m < 0 then -(scaledQuotient (m.natAbs * 1000 * 2 ^ e.toNat) (2 ^ (-e).toNat) 0 : Int)
         else (scaledQuotient (m.natAbs * 1000 * 2 ^ e.toNat) (2 ^ (-e).toNat) 0 : Int))

/-- The stand-in library on doubles. -/
def ieeeMath : QtMath Binary64 :=
  { zero := Binary64.finite 0 (-1074)
    ofInt := fun n => ofDyadic n 0
    sub := Binary64.sub
    div := Binary64.div
    toDouble := parseBinary64
    number := fun x _ => renderBinary64 x
    toLower := toLower
    timeFromString := milliLib.timeFromString
    dateFromString := milliLib.dateFromString
    dateTimeSecsTo := milliLib.dateTimeSecsTo
    number_zero := by decide
    add := Binary64.add
    mul := Binary64.mul
    pow := Binary64.pow
    sqrt := Binary64.sqrt
    abs := Binary64.abs
    lt := Binary64.lt
    number_ne_nil := by
      intro x p hnil
      have h : renderBinary64 x = [] := hnil
      cases x with
      | nan => exact absurd h (by decide)
      | finite m e =>
        have hlen := congrArg List.length h
        simp only [renderBinary64] at hlen
        split_ifs at hlen <;> simp [renderMilli] at hlen }

/-- The rational number a double denotes (0 for NaN). -/
def Binary64.toRat : Binary64 → ℚ
  | Binary64.nan => 0
  | Binary64.finite m e => mkRat (m * 2 ^ e.toNat) (2 ^ (-e).toNat)

/-- A widget on doubles around a table, with no column definitions and the display cap of
the constructor. -/
def ieeeWidgetOf (m : QStandardItemModel) : DataEditorWidget Binary64 :=
  { m_dataModel := m
    m_undoStack := { commands := [], index := 0 }
    m_columnDefinitions := []
    m_currentFilePath := []
    m_currentFileType := []
    m_dataModified := false
    m_largeFileMode := false
    m_maxDisplayRows := 10000 }

/-- A one-column table holding 10, 10, 10, 10, 100, on doubles. -/
def exactWidget : DataEditorWidget Binary64 :=
  ieeeWidgetOf (tableOf ["v".toList]
    [["10".toList], ["10".toList], ["10".toList], ["10".toList], ["100".toList]])

/-- A one-column table holding 0.1, 0.1, 0.1, 3.3, 3.3, 3.3. -/
def roundingWidget : DataEditorWidget Binary64 :=
  ieeeWidgetOf (tableOf ["v".toList]
    [["0.1".toList], ["0.1".toList], ["0.1".toList], ["3.3".toList], ["3.3".toList],
      ["3.3".toList]])

/-- A one-column table holding seven times 1e-200. -/
def tinyWidget : DataEditorWidget Binary64 :=
  ieeeWidgetOf (tableOf ["v".toList]
    [["1e-200".toList], ["1e-200".toList], ["1e-200".toList], ["1e-200".toList],
      ["1e-200".toList], ["1e-200".toList], ["1e-200".toList]])

/-- A one-column table holding 3, 1, 4, 2, on doubles. -/
def ieeeStatsWidget : DataEditorWidget Binary64 :=
  ieeeWidgetOf (tableOf ["v".toList] [["3".toList], ["1".toList], ["4".toList], ["2".toList]])

/-- A one-column table holding 1, 5, nan, 2. -/
def nanWidget : DataEditorWidget Binary64 :=
  ieeeWidgetOf (tableOf ["v".toList] [["1".toList], ["5".toList], ["nan".toList], ["2".toList]])

/-- The indeterminate numbers used in the closed statements on doubles. -/
def ieeeStatistics : DataStatistics Binary64 :=
  ⟨[], 7, 7, 7, ofDyadic 7 0, ofDyadic 7 0, ofDyadic 7 0, ofDyadic 7 0, ofDyadic 7 0, [], []⟩

/-! ## Project parameters (`ModelParameter`)

The JSON values are a plain tree; a JSON object is the list of its members, read by key.
The JSON text codec, the path functions of `QFileInfo` and the double literals of the
source are parameters (`QtJson`); files are a map from path to bytes. -/

/-- `QJsonValue`. -/
inductive QJsonValue (D : Type) where
  | undefined
  | null
  | bool (b : Bool)
  | double (x : D)
  | string (s : QString)
  | array (items : List (QJsonValue D))
  | object (members : List (QString × QJsonValue D))

/-- `QJsonObject`: the members, each key at most once. -/
abbrev QJsonObject (D : Type) := List (QString × QJsonValue D)

/-- `QJsonArray`. -/
abbrev QJsonArray (D : Type) := List (QJsonValue D)

/-- `QJsonValue::toObject()`: the empty object for a value that is no object. -/
def QJsonValue.toObject {D : Type} : QJsonValue D → QJsonObject D
  | .object members => members
  | _ => []

/-- `QJsonValue::toDouble(defaultValue)`: the default for a value that is no number. -/
def QJsonValue.toDouble {D : Type} (v : QJsonValue D) (defaultValue : D) : D :=
  match v with
  | .double x => x
  | _ => defaultValue

/-- The member stored under a key, if any. -/
def jsonLookup {D : Type} (key : QString) : QJsonObject D → Option (QJsonValue D)
  | [] => none
  | member :: rest => if member.1 = key then some member.2 else jsonLookup key rest

/-- `QJsonObject::contains(key)`. -/
def jsonContains {D : Type} (o : QJsonObject D) (key : QString) : Bool :=
  (jsonLookup key o).isSome

/-- `QJsonObject::value(key)` and the reading `o[key]`: `Undefined` for a missing key. -/
def jsonValue {D : Type} (o : QJsonObject D) (key : QString) : QJsonValue D :=
  (jsonLookup key o).getD QJsonValue.undefined

/-- The assignment `o[key] = value`: the member is replaced, or added. -/
def jsonInsert {D : Type} (key : QString) (value : QJsonValue D) :
    QJsonObject D → QJsonObject D
  | [] => [(key, value)]
  | member :: rest =>
      if member.1 = key then (key, value) :: rest else member :: jsonInsert key value rest

/-- `QJsonDocument`: null (also the result of parsing an invalid text), an array or an
object. -/
inductive QJsonDocument (D : Type) where
  | null
  | array (items : QJsonArray D)
  | object (members : QJsonObject D)

/-- `QJsonDocument::isNull()`. -/
def QJsonDocument.isNull {D : Type} : QJsonDocument D → Bool
  | .null => true
  | _ => false

/-- `QJsonDocument::isObject()`. -/
def QJsonDocument.isObject {D : Type} : QJsonDocument D → Bool
  | .object _ => true
  | _ => false

/-- `QJsonDocument::object()`: the empty object for a document that holds no object. -/
def QJsonDocument.toObject {D : Type} : QJsonDocument D → QJsonObject D
  | .object members => members
  | _ => []

/-- The Qt functions `ModelParameter` relies on: the JSON codec on byte arrays `B`, the
path functions of `QFileInfo` and the double literals. Nothing is assumed of the codec:
what it reads back from a written object is stated where it is needed. -/
structure QtJson (D B : Type) where
  /-- `QJsonDocument::fromJson(bytes)`. -/
  fromJson : B → QJsonDocument D
  /-- `QJsonDocument(object).toJson()`. -/
  toJson : QJsonObject D → B
  /-- `QFileInfo(path).absolutePath()`. -/
  absolutePath : QString → QString
  /-- `QFileInfo(path).completeBaseName()`. -/
  completeBaseName : QString → QString
  /-- The double literal `mantissa / 10 ^ digits` (`0.05` is `decimal 5 2`). -/
  decimal : Int → Nat → D

/-- The files: the bytes of each file that can be opened for reading, and the paths that
can be opened for writing. -/
structure FileSystem (B : Type) where
  content : QString → Option B
  writable : QString → Bool

/-- `QFile(path).open(ReadOnly)` and `readAll()`: nothing for the empty path. -/
def FileSystem.read {B : Type} (fs : FileSystem B) (path : QString) : Option B :=
  if path.isEmpty then none else fs.content path

/-- The members of `ModelParameter`. -/
structure ModelParameter (D : Type) where
  m_hasLoaded : Bool
  m_projectPath : QString
  m_projectFilePath : QString
  m_fullProjectData : QJsonObject D
  m_phi : D
  m_h : D
  m_mu : D
  m_B : D
  m_Ct : D
  m_q : D
  m_rw : D

/-- `ModelParameter::ModelParameter`: nothing loaded, the parameters at their defaults. -/
def ModelParameter.initial {D B : Type} (qt : QtJson D B) : ModelParameter D :=
  { m_hasLoaded := false, m_projectPath := [], m_projectFilePath := []
    m_fullProjectData := []
    m_phi := qt.decimal 5 2, m_h := qt.decimal 20 0, m_mu := qt.decimal 5 1
    m_B := qt.decimal 105 2, m_Ct := qt.decimal 5 4, m_q := qt.decimal 50 0
    m_rw := qt.decimal 1 1 }

/-- The path `absolutePath + "/" + completeBaseName + "_chart.json"` made from a project
file path. -/
def chartFilePath {D B : Type} (qt : QtJson D B) (projectFilePath : QString) : QString :=
  qt.absolutePath projectFilePath ++ "/".toList ++ qt.completeBaseName projectFilePath
    ++ "_chart.json".toList

/-- `ModelParameter::getPlottingDataFilePath`. -/
def getPlottingDataFilePath {D B : Type} (qt : QtJson D B) (s : ModelParameter D) : QString :=
  if s.m_projectFilePath.isEmpty then [] else chartFilePath qt s.m_projectFilePath

/-- The first `if` of the parameter parsing in `loadProject`. -/
def readReservoir {D B : Type} (qt : QtJson D B) (full : QJsonObject D)
    (s : ModelParameter D) : ModelParameter D :=
  if jsonContains full "reservoir".toList then
    { s with
      m_q := (jsonValue (jsonValue full "reservoir".toList).toObject
        "productionRate".toList).toDouble (qt.decimal 50 0)
      m_phi := (jsonValue (jsonValue full "reservoir".toList).toObject
        "porosity".toList).toDouble (qt.decimal 5 2)
      m_h := (jsonValue (jsonValue full "reservoir".toList).toObject
        "thickness".toList).toDouble (qt.decimal 20 0)
      m_rw := (jsonValue (jsonValue full "reservoir".toList).toObject
        "wellRadius".toList).toDouble (qt.decimal 1 1) }
  else s

/-- The second `if` of the parameter parsing in `loadProject`. -/
def readPvt {D B : Type} (qt : QtJson D B) (full : QJsonObject D)
    (s : ModelParameter D) : ModelParameter D :=
  if jsonContains full "pvt".toList then
    { s with
      m_Ct := (jsonValue (jsonValue full "pvt".toList).toObject
        "compressibility".toList).toDouble (qt.decimal 5 4)
      m_mu := (jsonValue (jsonValue full "pvt".toList).toObject
        "viscosity".toList).toDouble (qt.decimal 5 1)
      m_B := (jsonValue (jsonValue full "pvt".toList).toObject
        "volumeFactor".toList).toDouble (qt.decimal 105 2) }
  else s

/-- The second part of `loadProject`: the chart file, when it can be read and holds an
object with the key `plotting_data`, gives the cached plot data. -/
def loadChartFile {D B : Type} (qt : QtJson D B) (fs : FileSystem B)
    (s : ModelParameter D) : ModelParameter D :=
  match fs.read (getPlottingDataFilePath qt s) with
  | none => s
  | some bytes =>
      match qt.fromJson bytes with
      | .object dataObj =>
          if jsonContains dataObj "plotting_data".toList then
            { s with
              m_fullProjectData := jsonInsert "plotting_data".toList
                (jsonValue dataObj "plotting_data".toList) s.m_fullProjectData }
          else s
      | _ => s

/-- `ModelParameter::loadProject(filePath)`: the returned flag and the state after the
call. -/
def loadProject {D B : Type} (qt : QtJson D B) (fs : FileSystem B) (s : ModelParameter D)
    (filePath : QString) : Bool × ModelParameter D :=
  match fs.read filePath with
  | none => (false, s)
  | some data =>
      if (qt.fromJson data).isNull then (false, s)
      else
        (true,
          loadChartFile qt fs
            { readPvt qt (qt.fromJson data).toObject
                (readReservoir qt (qt.fromJson data).toObject s) with
              m_fullProjectData := (qt.fromJson data).toObject
              m_projectFilePath := filePath
              m_projectPath := qt.absolutePath filePath
              m_hasLoaded := true })

/-- `ModelParameter::setParameters`; `fi.isFile()` is read as "the path can be opened". -/
def setParameters {D B : Type} (qt : QtJson D B) (fs : FileSystem B) (s : ModelParameter D)
    (phi h mu volumeFactor ct q rw : D) (path : QString) : ModelParameter D :=
  { m_phi := phi, m_h := h, m_mu := mu, m_B := volumeFactor, m_Ct := ct, m_q := q, m_rw := rw
    m_projectFilePath := path
    m_projectPath := if (fs.read path).isSome then qt.absolutePath path else path
    m_hasLoaded := true
    m_fullProjectData :=
      if s.m_fullProjectData.isEmpty then
        jsonInsert "pvt".toList
          (QJsonValue.object
            (jsonInsert "compressibility".toList (QJsonValue.double ct)
              (jsonInsert "volumeFactor".toList (QJsonValue.double volumeFactor)
                (jsonInsert "viscosity".toList (QJsonValue.double mu) []))))
          (jsonInsert "reservoir".toList
            (QJsonValue.object
              (jsonInsert "productionRate".toList (QJsonValue.double q)
                (jsonInsert "wellRadius".toList (QJsonValue.double rw)
                  (jsonInsert "thickness".toList (QJsonValue.double h)
                    (jsonInsert "porosity".toList (QJsonValue.double phi) [])))))
            s.m_fullProjectData)
      else s.m_fullProjectData }

/-- The text before the last occurrence of a character (all of it when there is none). -/
def beforeLast (c : Char) (s : QString) : QString :=
  if s.contains c then ((s.reverse.dropWhile (fun x => x != c)).drop 1).reverse else s

/-- The text after the last occurrence of a character (all of it when there is none). -/
def afterLast (c : Char) (s : QString) : QString :=
  (s.reverse.takeWhile (fun x => x != c)).reverse

/-- A stand-in for the JSON functions: the bytes of a file are the document itself, paths
are split at the last `/` and the last `.`, and numbers are counted in ten-thousandths. -/
def plainJson : QtJson Int (QJsonDocument Int) :=
  { fromJson := fun bytes => bytes
    toJson := fun o => QJsonDocument.object o
    absolutePath := fun path => beforeLast '/' path
    completeBaseName := fun path => beforeLast '.' (afterLast '/' path)
    decimal := fun mantissa digits => mantissa * 10 ^ (4 - digits) }

/-- The files of the closed statements: the project `/p/demo.pwt` holding the object
`{"name": "demo"}`, the project `/p/partial.pwt` holding
`{"reservoir": {"porosity": 0.2}}`, a file that is not JSON, and every path writable. -/
def demoFiles : FileSystem (QJsonDocument Int) :=
  { content := fun path =>
      if path = "/p/demo.pwt".toList then
        some (QJsonDocument.object [("name".toList, QJsonValue.string "demo".toList)])
      else if path = "/p/partial.pwt".toList then
        some (QJsonDocument.object
          [("reservoir".toList,
            QJsonValue.object [("porosity".toList, QJsonValue.double 2000)])])
      else if path = "/p/broken.pwt".toList then some QJsonDocument.null
      else none
    writable := fun _ => true }

/-- A state whose parameters were set by hand: porosity 0.3 and thickness 7. -/
def tunedParameters : ModelParameter Int :=
  setParameters plainJson demoFiles (ModelParameter.initial plainJson)
    3000 70000 5000 10500 5 500000 1000 "/p/old.pwt".toList

/-- The value `loadProject` gives a parameter: when the file's object has the section,
the number stored under the key in it, or the default when the key is missing or holds no
number; when the section is missing, the value held before the call. -/
def parameterOf {D : Type} (full : QJsonObject D) (section_ key : QString)
    (defaultValue previous : D) : D :=
  if jsonContains full section_ then
    (jsonValue (jsonValue full section_).toObject key).toDouble defaultValue
  else previous

/-! ## Reading the table after each operation -/

namespace QStandardItemModel

theorem text_eq (m : QStandardItemModel) (r c : Nat) : m.text r c = (m.item r c).getD [] := rfl

theorem item_of_lt (m : QStandardItemModel) {r c : Nat} (hr : r < m.rowCount)
    (hc : c < m.columnCount) : m.item r c = m.items r c := by
  simp [item, hr, hc]

theorem item_of_row_ge (m : QStandardItemModel) {r : Nat} (c : Nat) (hr : m.rowCount ≤ r) :
    m.item r c = none := by
  simp [item]; intro h; omega

theorem item_of_col_ge (m : QStandardItemModel) (r : Nat) {c : Nat} (hc : m.columnCount ≤ c) :
    m.item r c = none := by
  simp [item]; intro _ h; omega

theorem header_of_col_ge (m : QStandardItemModel) {c : Nat} (hc : m.columnCount ≤ c) :
    m.horizontalHeaderItem c = none := by
  simp [horizontalHeaderItem]; intro h; omega

theorem headerData_eq (m : QStandardItemModel) (c : Nat) :
    m.headerData c =
      if c < m.columnCount then
        (match m.horizontalHeaderItem c with
          | some t => t
          | none => numberText (c + 1))
      else [] := by
  unfold headerData horizontalHeaderItem
  by_cases h : c < m.columnCount <;> simp [h]

theorem rowCount_insertRow (m : QStandardItemModel) {r : Nat} (h : r ≤ m.rowCount) :
    (m.insertRow r).rowCount = m.rowCount + 1 := by
  simp [insertRow, h]

theorem columnCount_insertRow (m : QStandardItemModel) (r : Nat) :
    (m.insertRow r).columnCount = m.columnCount := by
  unfold insertRow; split <;> rfl

theorem header_insertRow (m : QStandardItemModel) (r c : Nat) :
    (m.insertRow r).horizontalHeaderItem c = m.horizontalHeaderItem c := by
  unfold insertRow; split <;> rfl

theorem item_insertRow (m : QStandardItemModel) {r : Nat} (h : r ≤ m.rowCount) (i j : Nat) :
    (m.insertRow r).item i j =
      if i < r then m.item i j else if i = r then none else m.item (i - 1) j := by
  simp only [insertRow, h, if_true]
  by_cases hi : i < m.rowCount + 1 ∧ j < m.columnCount
  · simp [item, hi]
  · have : (if i < r then m.item i j else if i = r then none else m.item (i - 1) j) = none := by
      by_cases h1 : i < r
      · simp only [h1, if_true]
        by_cases hj : j < m.columnCount
        · exact absurd ⟨by omega, hj⟩ hi
        · exact m.item_of_col_ge i (by omega)
      · by_cases h2 : i = r
        · simp [h2]
        · simp only [h1, h2, if_false]
          by_cases hj : j < m.columnCount
          · exact m.item_of_row_ge j (by have := fun h => hi ⟨h, hj⟩; omega)
          · exact m.item_of_col_ge _ (by omega)
    rw [this]
    simp only [item]
    rw [if_neg hi]

theorem rowCount_removeRow (m : QStandardItemModel) {r : Nat} (h : r < m.rowCount) :
    (m.removeRow r).rowCount = m.rowCount - 1 := by
  simp [removeRow, h]

theorem columnCount_removeRow (m : QStandardItemModel) (r : Nat) :
    (m.removeRow r).columnCount = m.columnCount := by
  unfold removeRow; split <;> rfl

theorem header_removeRow (m : QStandardItemModel) (r c : Nat) :
    (m.removeRow r).horizontalHeaderItem c = m.horizontalHeaderItem c := by
  unfold removeRow; split <;> rfl

theorem item_removeRow (m : QStandardItemModel) {r : Nat} (h : r < m.rowCount) (i j : Nat) :
    (m.removeRow r).item i j = if i < r then m.item i j else m.item (i + 1) j := by
  simp only [removeRow, h, if_true]
  by_cases hi : i < m.rowCount - 1 ∧ j < m.columnCount
  · simp [item, hi]
  · have : (if i < r then m.item i j else m.item (i + 1) j) = none := by
      by_cases hj : j < m.columnCount
      · have hi2 : ¬ i < m.rowCount - 1 := fun h => hi ⟨h, hj⟩
        by_cases h1 : i < r
        · omega
        · simp only [h1, if_false]
          exact m.item_of_row_ge j (by omega)
      · split
        · exact m.item_of_col_ge _ (by omega)
        · exact m.item_of_col_ge _ (by omega)
    rw [this]
    simp only [item]
    rw [if_neg hi]

theorem rowCount_setItem (m : QStandardItemModel) (r c : Nat) (t : QString) :
    (m.setItem r c t).rowCount = max m.rowCount (r + 1) := rfl

theorem columnCount_setItem (m : QStandardItemModel) (r c : Nat) (t : QString) :
    (m.setItem r c t).columnCount = max m.columnCount (c + 1) := rfl

theorem item_setItem (m : QStandardItemModel) (r c : Nat) (t : QString) (i j : Nat) :
    (m.setItem r c t).item i j = if i = r ∧ j = c then some t else m.item i j := by
  by_cases h : i = r ∧ j = c
  · obtain ⟨rfl, rfl⟩ := h
    simp [item, setItem]
  · simp only [h, if_false]
    by_cases hi : i < max m.rowCount (r + 1) ∧ j < max m.columnCount (c + 1)
    · simp only [item, setItem, hi, h, and_self, if_true, if_false]
    · have : m.item i j = none := by
        by_cases hr : i < m.rowCount
        · exact m.item_of_col_ge _ (by
            have := fun h => hi ⟨by omega, h⟩
            omega)
        · exact m.item_of_row_ge _ (by omega)
      rw [this]
      simp only [item, setItem]
      rw [if_neg hi]

theorem header_setItem (m : QStandardItemModel) (r c : Nat) (t : QString) (j : Nat) :
    (m.setItem r c t).horizontalHeaderItem j = m.horizontalHeaderItem j := by
  by_cases hj : j < m.columnCount
  · have : j < max m.columnCount (c + 1) := by omega
    simp [horizontalHeaderItem, setItem, hj, this]
  · simp [horizontalHeaderItem, setItem, hj]

theorem rowCount_insertColumn (m : QStandardItemModel) (c : Nat) :
    (m.insertColumn c).rowCount = m.rowCount := by
  unfold insertColumn; split <;> rfl

theorem columnCount_insertColumn (m : QStandardItemModel) {c : Nat} (h : c ≤ m.columnCount) :
    (m.insertColumn c).columnCount = m.columnCount + 1 := by
  simp [insertColumn, h]

theorem item_insertColumn (m : QStandardItemModel) {c : Nat} (h : c ≤ m.columnCount)
    (i j : Nat) :
    (m.insertColumn c).item i j =
      if j < c then m.item i j else if j = c then none else m.item i (j - 1) := by
  simp only [insertColumn, h, if_true]
  by_cases hi : i < m.rowCount ∧ j < m.columnCount + 1
  · simp [item, hi]
  · have : (if j < c then m.item i j else if j = c then none else m.item i (j - 1)) = none := by
      by_cases hr : i < m.rowCount
      · have hj : ¬ j < m.columnCount + 1 := fun h => hi ⟨hr, h⟩
        by_cases h1 : j < c
        · omega
        · by_cases h2 : j = c
          · omega
          · simp only [h1, h2, if_false]
            exact m.item_of_col_ge _ (by omega)
      · have h0 : ∀ k, m.item i k = none := fun k => m.item_of_row_ge k (by omega)
        simp [h0]
    rw [this]
    simp only [item]
    rw [if_neg hi]

theorem header_insertColumn (m : QStandardItemModel) {c : Nat} (h : c ≤ m.columnCount)
    (j : Nat) :
    (m.insertColumn c).horizontalHeaderItem j =
      if j < c then m.horizontalHeaderItem j
      else if j = c then none else m.horizontalHeaderItem (j - 1) := by
  simp only [insertColumn, h, if_true]
  by_cases hj : j < m.columnCount + 1
  · simp [horizontalHeaderItem, hj]
  · have : (if j < c then m.horizontalHeaderItem j
        else if j = c then none else m.horizontalHeaderItem (j - 1)) = none := by
      by_cases h1 : j < c
      · omega
      · by_cases h2 : j = c
        · omega
        · simp only [h1, h2, if_false]
          exact m.header_of_col_ge (by omega)
    rw [this]
    simp only [horizontalHeaderItem]
    rw [if_neg hj]

theorem rowCount_removeColumn (m : QStandardItemModel) (c : Nat) :
    (m.removeColumn c).rowCount = m.rowCount := by
  unfold removeColumn; split <;> rfl

theorem columnCount_removeColumn (m : QStandardItemModel) {c : Nat} (h : c < m.columnCount) :
    (m.removeColumn c).columnCount = m.columnCount - 1 := by
  simp [removeColumn, h]

theorem item_removeColumn (m : QStandardItemModel) {c : Nat} (h : c < m.columnCount)
    (i j : Nat) :
    (m.removeColumn c).item i j = if j < c then m.item i j else m.item i (j + 1) := by
  simp only [removeColumn, h, if_true]
  by_cases hi : i < m.rowCount ∧ j < m.columnCount - 1
  · simp [item, hi]
  · have : (if j < c then m.item i j else m.item i (j + 1)) = none := by
      by_cases hr : i < m.rowCount
      · have hj : ¬ j < m.columnCount - 1 := fun h => hi ⟨hr, h⟩
        by_cases h1 : j < c
        · omega
        · simp only [h1, if_false]
          exact m.item_of_col_ge _ (by omega)
      · have h0 : ∀ k, m.item i k = none := fun k => m.item_of_row_ge k (by omega)
        simp [h0]
    rw [this]
    simp only [item]
    rw [if_neg hi]

theorem header_removeColumn (m : QStandardItemModel) {c : Nat} (h : c < m.columnCount)
    (j : Nat) :
    (m.removeColumn c).horizontalHeaderItem j =
      if j < c then m.horizontalHeaderItem j else m.horizontalHeaderItem (j + 1) := by
  simp only [removeColumn, h, if_true]
  by_cases hj : j < m.columnCount - 1
  · simp [horizontalHeaderItem, hj]
  · have : (if j < c then m.horizontalHeaderItem j else m.horizontalHeaderItem (j + 1))
        = none := by
      by_cases h1 : j < c
      · omega
      · simp only [h1, if_false]
        exact m.header_of_col_ge (by omega)
    rw [this]
    simp only [horizontalHeaderItem]
    rw [if_neg hj]

theorem rowCount_setHeader (m : QStandardItemModel) (c : Nat) (t : QString) :
    (m.setHorizontalHeaderItem c t).rowCount = m.rowCount := rfl

theorem columnCount_setHeader (m : QStandardItemModel) (c : Nat) (t : QString) :
    (m.setHorizontalHeaderItem c t).columnCount = max m.columnCount (c + 1) := rfl

theorem item_setHeader (m : QStandardItemModel) {c : Nat} (t : QString)
    (h : c < m.columnCount) (i j : Nat) :
    (m.setHorizontalHeaderItem c t).item i j = m.item i j := by
  have hmax : max m.columnCount (c + 1) = m.columnCount := by omega
  by_cases hi : i < m.rowCount ∧ j < m.columnCount
  · simp [item, setHorizontalHeaderItem, hmax, hi]
  · simp [item, setHorizontalHeaderItem, hmax, hi]

theorem header_setHeader (m : QStandardItemModel) (c : Nat) (t : QString) (j : Nat) :
    (m.setHorizontalHeaderItem c t).horizontalHeaderItem j =
      if j = c then some t else m.horizontalHeaderItem j := by
  by_cases h : j = c
  · subst h
    simp [horizontalHeaderItem, setHorizontalHeaderItem]
  · simp only [h, if_false]
    by_cases hj : j < m.columnCount
    · have : j < max m.columnCount (c + 1) := by omega
      simp [horizontalHeaderItem, setHorizontalHeaderItem, hj, this, h]
    · simp [horizontalHeaderItem, setHorizontalHeaderItem, hj, h]

end QStandardItemModel

/-! ## Filling a row or a column inside the table -/

theorem setRowItemsFrom_inside (row : Nat) (vs : List QString) :
    ∀ (col : Nat) (m : QStandardItemModel), row < m.rowCount →
      col + vs.length ≤ m.columnCount →
      (setRowItemsFrom row col vs m).rowCount = m.rowCount ∧
      (setRowItemsFrom row col vs m).columnCount = m.columnCount ∧
      (∀ j, (setRowItemsFrom row col vs m).horizontalHeaderItem j = m.horizontalHeaderItem j) ∧
      (∀ i j, (setRowItemsFrom row col vs m).item i j =
        if i = row ∧ col ≤ j ∧ j < col + vs.length then vs.get? (j - col) else m.item i j) := by
  induction vs with
  | nil =>
    intro col m _ _
    refine ⟨rfl, rfl, fun _ => rfl, fun i j => ?_⟩
    simp only [setRowItemsFrom, List.length_nil, Nat.add_zero]
    have : ¬ (i = row ∧ col ≤ j ∧ j < col) := by omega
    rw [if_neg this]
  | cons v vs ih =>
    intro col m hr hc
    simp only [List.length_cons] at hc
    have hr1 : row < (m.setItem row col v).rowCount := by
      rw [QStandardItemModel.rowCount_setItem]; omega
    have hc1 : col + 1 + vs.length ≤ (m.setItem row col v).columnCount := by
      rw [QStandardItemModel.columnCount_setItem]; omega
    obtain ⟨h1, h2, h3, h4⟩ := ih (col + 1) (m.setItem row col v) hr1 hc1
    simp only [setRowItemsFrom]
    refine ⟨?_, ?_, ?_, ?_⟩
    · rw [h1, QStandardItemModel.rowCount_setItem]; omega
    · rw [h2, QStandardItemModel.columnCount_setItem]; omega
    · intro j; rw [h3, QStandardItemModel.header_setItem]
    · intro i j
      rw [h4, QStandardItemModel.item_setItem]
      by_cases hi : i = row
      · subst hi
        by_cases hj : j = col
        · subst hj; simp
        · by_cases hlt : col ≤ j ∧ j < col + (vs.length + 1)
          · have e : j - col = (j - (col + 1)) + 1 := by omega
            have : col + 1 ≤ j ∧ j < col + 1 + vs.length := by omega
            simp [hj, hlt, this, e]
          · have : ¬ (col + 1 ≤ j ∧ j < col + 1 + vs.length) := by omega
            simp [hj, hlt, this]
      · simp [hi]

theorem setColumnItemsFrom_inside (column : Nat) (vs : List QString) :
    ∀ (row : Nat) (m : QStandardItemModel), column < m.columnCount →
      row + vs.length ≤ m.rowCount →
      (setColumnItemsFrom column row vs m).rowCount = m.rowCount ∧
      (setColumnItemsFrom column row vs m).columnCount = m.columnCount ∧
      (∀ j, (setColumnItemsFrom column row vs m).horizontalHeaderItem j =
        m.horizontalHeaderItem j) ∧
      (∀ i j, (setColumnItemsFrom column row vs m).item i j =
        if j = column ∧ row ≤ i ∧ i < row + vs.length then vs.get? (i - row)
        else m.item i j) := by
  induction vs with
  | nil =>
    intro row m _ _
    refine ⟨rfl, rfl, fun _ => rfl, fun i j => ?_⟩
    simp only [setColumnItemsFrom, List.length_nil, Nat.add_zero]
    have : ¬ (j = column ∧ row ≤ i ∧ i < row) := by omega
    rw [if_neg this]
  | cons v vs ih =>
    intro row m hc hr
    simp only [List.length_cons] at hr
    have hc1 : column < (m.setItem row column v).columnCount := by
      rw [QStandardItemModel.columnCount_setItem]; omega
    have hr1 : row + 1 + vs.length ≤ (m.setItem row column v).rowCount := by
      rw [QStandardItemModel.rowCount_setItem]; omega
    obtain ⟨h1, h2, h3, h4⟩ := ih (row + 1) (m.setItem row column v) hc1 hr1
    simp only [setColumnItemsFrom]
    refine ⟨?_, ?_, ?_, ?_⟩
    · rw [h1, QStandardItemModel.rowCount_setItem]; omega
    · rw [h2, QStandardItemModel.columnCount_setItem]; omega
    · intro j; rw [h3, QStandardItemModel.header_setItem]
    · intro i j
      rw [h4, QStandardItemModel.item_setItem]
      by_cases hj : j = column
      · subst hj
        by_cases hi : i = row
        · subst hi; simp
        · by_cases hlt : row ≤ i ∧ i < row + (vs.length + 1)
          · have e : i - row = (i - (row + 1)) + 1 := by omega
            have : row + 1 ≤ i ∧ i < row + 1 + vs.length := by omega
            simp [hi, hlt, this, e]
          · have : ¬ (row + 1 ≤ i ∧ i < row + 1 + vs.length) := by omega
            simp [hi, hlt, this]
      · simp [hj]

theorem captureRow_length (m : QStandardItemModel) (r : Nat) :
    (captureRow m r).length = m.columnCount := by
  simp [captureRow]

theorem captureRow_get (m : QStandardItemModel) (r : Nat) {j : Nat} (h : j < m.columnCount) :
    (captureRow m r).get? j = some (m.text r j) := by
  simp [captureRow, List.getElem?_map, List.getElem?_range h]

theorem captureColumn_length (m : QStandardItemModel) (c : Nat) :
    (captureColumn m c).length = m.rowCount := by
  simp [captureColumn]

theorem captureColumn_get (m : QStandardItemModel) (c : Nat) {i : Nat} (h : i < m.rowCount) :
    (captureColumn m c).get? i = some (m.text i c) := by
  simp [captureColumn, List.getElem?_map, List.getElem?_range h]

/-! ## Single-command round trips -/

/-- C2: for every table and every row index `r < rowCount`, `RowEdit(Delete, r)` redo
followed by its undo gives a table with the same row and column count, the same headers
and the same text in every cell (unset cells read as empty), whatever snapshot was
passed to the constructor; the snapshot the undo writes back is the one the redo
captured from the table. -/
theorem rowDelete_redo_undo (m : QStandardItemModel) (r : Nat) (snapshot : List QString)
    (h : r < m.rowCount) :
    (RowEditCommand.redo ⟨Operation.Delete, r, snapshot⟩ m).1.m_rowData = captureRow m r ∧
    TableEq
      ((RowEditCommand.redo ⟨Operation.Delete, r, snapshot⟩ m).1.undo
        (RowEditCommand.redo ⟨Operation.Delete, r, snapshot⟩ m).2) m := by
  have hredo : RowEditCommand.redo ⟨Operation.Delete, r, snapshot⟩ m =
      (⟨Operation.Delete, r, captureRow m r⟩, m.removeRow r) := by
    simp [RowEditCommand.redo, h]
  rw [hredo]
  refine ⟨rfl, ?_⟩
  simp only [RowEditCommand.undo]
  have hrc : (m.removeRow r).rowCount = m.rowCount - 1 := m.rowCount_removeRow h
  have hle : r ≤ (m.removeRow r).rowCount := by omega
  have h1 : r < ((m.removeRow r).insertRow r).rowCount := by
    rw [QStandardItemModel.rowCount_insertRow _ hle]; omega
  have h2 : 0 + (captureRow m r).length ≤ ((m.removeRow r).insertRow r).columnCount := by
    rw [captureRow_length, QStandardItemModel.columnCount_insertRow,
      QStandardItemModel.columnCount_removeRow]; omega
  obtain ⟨e1, e2, e3, e4⟩ := setRowItemsFrom_inside r (captureRow m r) 0 _ h1 h2
  have hcols : (setRowItemsFrom r 0 (captureRow m r) ((m.removeRow r).insertRow r)).columnCount
      = m.columnCount := by
    rw [e2, QStandardItemModel.columnCount_insertRow, QStandardItemModel.columnCount_removeRow]
  refine ⟨?_, hcols, ?_, ?_⟩
  · rw [e1, QStandardItemModel.rowCount_insertRow _ hle, hrc]; omega
  · intro i j
    rw [QStandardItemModel.text_eq, QStandardItemModel.text_eq, e4,
      QStandardItemModel.item_insertRow _ hle, captureRow_length]
    by_cases hj : j < m.columnCount
    · by_cases hi : i = r
      · subst hi
        have : i = i ∧ 0 ≤ j ∧ j < 0 + m.columnCount := ⟨rfl, by omega, by omega⟩
        rw [if_pos this, Nat.sub_zero, captureRow_get m i hj]
        rfl
      · have : ¬ (i = r ∧ 0 ≤ j ∧ j < 0 + m.columnCount) := fun h => hi h.1
        rw [if_neg this]
        by_cases hlt : i < r
        · rw [if_pos hlt, QStandardItemModel.item_removeRow _ h, if_pos hlt]
        · rw [if_neg hlt, if_neg hi, QStandardItemModel.item_removeRow _ h,
            if_neg (by omega)]
          have : i - 1 + 1 = i := by omega
          rw [this]
    · have hn : ¬ (i = r ∧ 0 ≤ j ∧ j < 0 + m.columnCount) := by omega
      rw [if_neg hn, m.item_of_col_ge i (by omega)]
      have : ∀ k, (m.removeRow r).item k j = none := fun k =>
        QStandardItemModel.item_of_col_ge _ k (by
          rw [QStandardItemModel.columnCount_removeRow]; omega)
      simp [this]
  · intro j
    rw [QStandardItemModel.headerData_eq, QStandardItemModel.headerData_eq, hcols, e3,
      QStandardItemModel.header_insertRow, QStandardItemModel.header_removeRow]

/-- Witness of C2 on the 2 × 2 sample table, row 1 deleted and restored. -/
theorem rowDelete_redo_undo_witness :
    (RowEditCommand.redo ⟨Operation.Delete, 1, []⟩ sampleTable).1.m_rowData
        = captureRow sampleTable 1 ∧
    TableEq
      ((RowEditCommand.redo ⟨Operation.Delete, 1, []⟩ sampleTable).1.undo
        (RowEditCommand.redo ⟨Operation.Delete, 1, []⟩ sampleTable).2) sampleTable :=
  rowDelete_redo_undo sampleTable 1 [] (by decide)

/-- The header name a column deletion records: the header item text, or 列 followed by
the 1-based column number when the column has no header item. -/
theorem columnDelete_redo_eq (m : QStandardItemModel) (c : Nat) (name : QString)
    (snapshot : List QString) (h : c < m.columnCount) :
    ColumnEditCommand.redo ⟨Operation.Delete, c, name, snapshot⟩ m =
      (⟨Operation.Delete, c,
          (match m.horizontalHeaderItem c with
            | some t => t
            | none => '列' :: numberText (c + 1)),
          captureColumn m c⟩, m.removeColumn c) := by
  simp [ColumnEditCommand.redo, h]

/-- C3 (amended): for every table and every column index `c < columnCount`,
`ColumnEdit(Delete, c)` redo followed by its undo gives a table with the same shape and
the same text in every cell (unset cells read as empty); the header item of every other
column is as before, and column `c` carries a header item whose text is the original
header item text, or 列 followed by the 1-based column number when the column had no
header item. -/
theorem columnDelete_redo_undo (m : QStandardItemModel) (c : Nat) (name : QString)
    (snapshot : List QString) (h : c < m.columnCount) :
    let m2 := (ColumnEditCommand.redo ⟨Operation.Delete, c, name, snapshot⟩ m).1.undo
      (ColumnEditCommand.redo ⟨Operation.Delete, c, name, snapshot⟩ m).2
    m2.rowCount = m.rowCount ∧ m2.columnCount = m.columnCount ∧
    (∀ i j, m2.text i j = m.text i j) ∧
    (∀ j, j ≠ c → m2.horizontalHeaderItem j = m.horizontalHeaderItem j) ∧
    (∀ j, j ≠ c → m2.headerData j = m.headerData j) ∧
    m2.horizontalHeaderItem c =
      some (match m.horizontalHeaderItem c with
        | some t => t
        | none => '列' :: numberText (c + 1)) := by
  intro m2
  have hm2 : m2 = setColumnItemsFrom c 0 (captureColumn m c)
      (((m.removeColumn c).insertColumn c).setHorizontalHeaderItem c
        (match m.horizontalHeaderItem c with
          | some t => t
          | none => '列' :: numberText (c + 1))) := by
    simp only [m2, columnDelete_redo_eq m c name snapshot h, ColumnEditCommand.undo]
  have hcc : (m.removeColumn c).columnCount = m.columnCount - 1 :=
    m.columnCount_removeColumn h
  have hle : c ≤ (m.removeColumn c).columnCount := by omega
  have hic : ((m.removeColumn c).insertColumn c).columnCount = m.columnCount := by
    rw [QStandardItemModel.columnCount_insertColumn _ hle, hcc]; omega
  have hlt : c < ((m.removeColumn c).insertColumn c).columnCount := by omega
  generalize hname : (match m.horizontalHeaderItem c with
          | some t => t
          | none => '列' :: numberText (c + 1)) = name2 at hm2 ⊢
  have h1 : c < (((m.removeColumn c).insertColumn c).setHorizontalHeaderItem c
      name2).columnCount := by
    rw [QStandardItemModel.columnCount_setHeader]; omega
  have h2 : 0 + (captureColumn m c).length ≤
      (((m.removeColumn c).insertColumn c).setHorizontalHeaderItem c name2).rowCount := by
    rw [captureColumn_length, QStandardItemModel.rowCount_setHeader,
      QStandardItemModel.rowCount_insertColumn, QStandardItemModel.rowCount_removeColumn]
    omega
  obtain ⟨e1, e2, e3, e4⟩ := setColumnItemsFrom_inside c (captureColumn m c) 0 _ h1 h2
  rw [← hm2] at e1 e2 e3 e4
  have hcols : m2.columnCount = m.columnCount := by
    rw [e2, QStandardItemModel.columnCount_setHeader, hic]; omega
  have hhdr : ∀ j, j ≠ c → m2.horizontalHeaderItem j = m.horizontalHeaderItem j := by
    intro j hj
    rw [e3, QStandardItemModel.header_setHeader, if_neg hj,
      QStandardItemModel.header_insertColumn _ hle]
    by_cases hjc : j < c
    · rw [if_pos hjc, QStandardItemModel.header_removeColumn _ h, if_pos hjc]
    · rw [if_neg hjc, if_neg hj, QStandardItemModel.header_removeColumn _ h,
        if_neg (by omega)]
      have : j - 1 + 1 = j := by omega
      rw [this]
  refine ⟨?_, hcols, ?_, hhdr, ?_, ?_⟩
  · rw [e1, QStandardItemModel.rowCount_setHeader, QStandardItemModel.rowCount_insertColumn,
      QStandardItemModel.rowCount_removeColumn]
  · intro i j
    rw [QStandardItemModel.text_eq, QStandardItemModel.text_eq, e4,
      QStandardItemModel.item_setHeader _ _ hlt,
      QStandardItemModel.item_insertColumn _ hle, captureColumn_length]
    by_cases hi : i < m.rowCount
    · by_cases hj : j = c
      · subst hj
        have : j = j ∧ 0 ≤ i ∧ i < 0 + m.rowCount := ⟨rfl, by omega, by omega⟩
        rw [if_pos this, Nat.sub_zero, captureColumn_get m j hi]
        rfl
      · have : ¬ (j = c ∧ 0 ≤ i ∧ i < 0 + m.rowCount) := fun h => hj h.1
        rw [if_neg this]
        by_cases hjc : j < c
        · rw [if_pos hjc, QStandardItemModel.item_removeColumn _ h, if_pos hjc]
        · rw [if_neg hjc, if_neg hj, QStandardItemModel.item_removeColumn _ h,
            if_neg (by omega)]
          have : j - 1 + 1 = j := by omega
          rw [this]
    · have hn : ¬ (j = c ∧ 0 ≤ i ∧ i < 0 + m.rowCount) := by omega
      rw [if_neg hn, m.item_of_row_ge j (by omega)]
      have : ∀ k, (m.removeColumn c).item i k = none := fun k =>
        QStandardItemModel.item_of_row_ge _ k (by
          rw [QStandardItemModel.rowCount_removeColumn]; omega)
      simp [this]
  · intro j hj
    rw [QStandardItemModel.headerData_eq, QStandardItemModel.headerData_eq, hcols, hhdr j hj]
  · rw [e3, QStandardItemModel.header_setHeader, if_pos rfl]

/-- Witness of C3 (amended) on the 2 × 2 sample table, column 0 deleted and restored. -/
theorem columnDelete_redo_undo_witness :
    let m2 := (ColumnEditCommand.redo ⟨Operation.Delete, 0, [], []⟩ sampleTable).1.undo
      (ColumnEditCommand.redo ⟨Operation.Delete, 0, [], []⟩ sampleTable).2
    m2.rowCount = sampleTable.rowCount ∧ m2.columnCount = sampleTable.columnCount ∧
    (∀ i j, m2.text i j = sampleTable.text i j) ∧
    (∀ j, j ≠ 0 → m2.horizontalHeaderItem j = sampleTable.horizontalHeaderItem j) ∧
    (∀ j, j ≠ 0 → m2.headerData j = sampleTable.headerData j) ∧
    m2.horizontalHeaderItem 0 =
      some (match sampleTable.horizontalHeaderItem 0 with
        | some t => t
        | none => '列' :: numberText (0 + 1)) :=
  columnDelete_redo_undo sampleTable 0 [] [] (by decide)

/-- C3 fails as stated: on a 1 × 1 table whose column has no header item (its header
text is its number, `1`), deleting column 0 and undoing the deletion leaves the header
text 列1, so the table is not header-by-header equal to the original. -/
theorem columnDelete_redo_undo_changes_unset_header :
    oneCellNoHeader.headerData 0 = ['1'] ∧
    ((ColumnEditCommand.redo ⟨Operation.Delete, 0, [], []⟩ oneCellNoHeader).1.undo
      (ColumnEditCommand.redo ⟨Operation.Delete, 0, [], []⟩ oneCellNoHeader).2).headerData 0
      = ['列', '1'] ∧
    ¬ TableEq
      ((ColumnEditCommand.redo ⟨Operation.Delete, 0, [], []⟩ oneCellNoHeader).1.undo
        (ColumnEditCommand.redo ⟨Operation.Delete, 0, [], []⟩ oneCellNoHeader).2)
      oneCellNoHeader := by
  have h1 : oneCellNoHeader.headerData 0 = ['1'] := by decide
  have h2 : ((ColumnEditCommand.redo ⟨Operation.Delete, 0, [], []⟩ oneCellNoHeader).1.undo
      (ColumnEditCommand.redo ⟨Operation.Delete, 0, [], []⟩ oneCellNoHeader).2).headerData 0
      = ['列', '1'] := by decide
  refine ⟨h1, h2, fun h => ?_⟩
  have := h.2.2.2 0
  rw [h1, h2] at this
  exact absurd this (by decide)

/-! ## The splitting loop: fuel, termination, divergence -/

theorem splitCSVLoop_mono (sep : QString) :
    ∀ (fuel : Nat) (rest current : QString) (q : Bool) (result r : List QString),
      splitCSVLoop sep fuel rest current q result = some r →
      ∀ fuel2, fuel ≤ fuel2 → splitCSVLoop sep fuel2 rest current q result = some r := by
  intro fuel
  induction fuel with
  | zero => intro rest current q result r h; simp [splitCSVLoop] at h
  | succ n ih =>
    intro rest current q result r h fuel2 hle
    obtain ⟨k, rfl⟩ : ∃ k, fuel2 = k + 1 := ⟨fuel2 - 1, by omega⟩
    have hk : n ≤ k := by omega
    cases rest with
    | nil => simpa [splitCSVLoop] using h
    | cons ch tl =>
      simp only [splitCSVLoop] at h ⊢
      split at h
      · rename_i h1; rw [if_pos h1]; exact ih _ _ _ _ _ h k hk
      · rename_i h1
        rw [if_neg h1]
        split at h
        · rename_i h2; rw [if_pos h2]; exact ih _ _ _ _ _ h k hk
        · rename_i h2; rw [if_neg h2]; exact ih _ _ _ _ _ h k hk

/-- With the empty separator, a character other than a double quote met outside quotes
is never passed: the loop does not end, whatever the fuel. -/
theorem splitCSVLoop_empty_separator_diverges (ch : Char) (tl : QString) (hch : ch ≠ dquote) :
    ∀ (fuel : Nat) (current : QString) (result : List QString),
      splitCSVLoop [] fuel (ch :: tl) current false result = none := by
  intro fuel
  induction fuel with
  | zero => intro current result; rfl
  | succ n ih =>
    intro current result
    simp only [splitCSVLoop, if_neg hch]
    simpa using ih [] (result ++ [trimmed current])

/-- A run of the splitting loop that ends at all ends within one iteration more than the
remaining line has characters. -/
theorem splitCSVLoop_complete (sep : QString) :
    ∀ (fuel : Nat) (rest current : QString) (q : Bool) (result r : List QString),
      splitCSVLoop sep fuel rest current q result = some r →
      splitCSVLoop sep (rest.length + 1) rest current q result = some r := by
  intro fuel
  induction fuel with
  | zero => intro rest current q result r h; simp [splitCSVLoop] at h
  | succ n ih =>
    intro rest current q result r h
    cases rest with
    | nil => simpa [splitCSVLoop] using h
    | cons ch tl =>
      simp only [splitCSVLoop, List.length_cons] at h ⊢
      split at h
      · rename_i h1; rw [if_pos h1]; exact ih _ _ _ _ _ h
      · rename_i h1
        rw [if_neg h1]
        split at h
        · rename_i h2
          rw [if_pos h2]
          have hq : q = false := by
            cases q <;> simp_all
          subst hq
          cases sep with
          | nil =>
            simp only [List.length_nil, List.drop_zero] at h
            rw [splitCSVLoop_empty_separator_diverges ch tl h1] at h
            exact absurd h (by simp)
          | cons s ss =>
            have := ih _ _ _ _ _ h
            refine splitCSVLoop_mono _ _ _ _ _ _ _ this _ ?_
            simp only [List.length_cons, List.drop_succ_cons, List.length_drop]
            omega
        · rename_i h2; rw [if_neg h2]; exact ih _ _ _ _ _ h

/-- With a non-empty separator the splitting loop ends within one iteration more than
the remaining line has characters. -/
theorem splitCSVLoop_terminates (sep : QString) (hsep : sep ≠ []) :
    ∀ (n : Nat) (rest current : QString) (q : Bool) (result : List QString),
      rest.length ≤ n → ∃ r, splitCSVLoop sep (n + 1) rest current q result = some r := by
  intro n
  induction n with
  | zero =>
    intro rest current q result h
    cases rest with
    | nil => exact ⟨_, rfl⟩
    | cons c cs => simp at h
  | succ n ih =>
    intro rest current q result h
    cases rest with
    | nil => exact ⟨_, rfl⟩
    | cons ch tl =>
      simp only [List.length_cons, Nat.add_le_add_iff_right] at h
      simp only [splitCSVLoop]
      split
      · exact ih _ _ _ _ h
      · split
        · refine ih _ _ _ _ ?_
          cases sep with
          | nil => exact absurd rfl hsep
          | cons s ss =>
            simp only [List.length_cons, List.drop_succ_cons, List.length_drop]
            omega
        · exact ih _ _ _ _ h

/-- `splitCSVLine` returns for every line when the separator is not empty. -/
theorem splitCSVLine_terminates (line sep : QString) (hsep : sep ≠ []) :
    ∃ fields, splitCSVLine line sep = some fields :=
  splitCSVLoop_terminates sep hsep line.length line [] false [] (Nat.le_refl _)

/-- The fields `splitCSVLine` returns are never an empty list. -/
theorem splitCSVLoop_ne_nil (sep : QString) :
    ∀ (fuel : Nat) (rest current : QString) (q : Bool) (result r : List QString),
      splitCSVLoop sep fuel rest current q result = some r → r ≠ [] := by
  intro fuel
  induction fuel with
  | zero => intro rest current q result r h; simp [splitCSVLoop] at h
  | succ n ih =>
    intro rest current q result r h
    cases rest with
    | nil =>
      simp only [splitCSVLoop, Option.some.injEq] at h
      rw [← h]; simp
    | cons ch tl =>
      simp only [splitCSVLoop] at h
      split at h
      · exact ih _ _ _ _ _ h
      · split at h
        · exact ih _ _ _ _ _ h
        · exact ih _ _ _ _ _ h

/-! ## The splitting loop on the lines `saveCsvFile` writes -/

theorem splitCSVLoop_quote (sep : QString) (fuel : Nat) (rest current : QString) (q : Bool)
    (result : List QString) :
    splitCSVLoop sep (fuel + 1) (dquote :: rest) current q result =
      splitCSVLoop sep fuel rest current (!q) result := by
  simp [splitCSVLoop]

theorem splitCSVLoop_in_quotes (sep : QString) (t : QString) (ht : dquote ∉ t) :
    ∀ (fuel : Nat) (rest current : QString) (result : List QString),
      splitCSVLoop sep (fuel + t.length) (t ++ rest) current true result =
        splitCSVLoop sep fuel rest (current ++ t) true result := by
  induction t with
  | nil => intro fuel rest current result; simp
  | cons c cs ih =>
    intro fuel rest current result
    have hc : c ≠ dquote := fun h => ht (by simp [h])
    have hcs : dquote ∉ cs := fun h => ht (by simp [h])
    have e : fuel + (c :: cs).length = (fuel + cs.length) + 1 := by simp; omega
    rw [e]
    simp only [List.cons_append, splitCSVLoop, if_neg hc]
    simp only [Bool.not_true, Bool.false_and, Bool.false_eq_true, if_false, List.append_eq]
    rw [ih hcs]
    simp

theorem splitCSVLoop_separator (s : Char) (hs : s ≠ dquote) (fuel : Nat)
    (rest current : QString) (result : List QString) :
    splitCSVLoop [s] (fuel + 1) (s :: rest) current false result =
      splitCSVLoop [s] fuel rest [] false (result ++ [trimmed current]) := by
  simp [splitCSVLoop, hs]

theorem splitCSVLoop_raw (s : Char) (t : QString) (ht : dquote ∉ t) (hs : s ∉ t) :
    ∀ (fuel : Nat) (rest current : QString) (result : List QString),
      splitCSVLoop [s] (fuel + t.length) (t ++ rest) current false result =
        splitCSVLoop [s] fuel rest (current ++ t) false result := by
  induction t with
  | nil => intro fuel rest current result; simp
  | cons c cs ih =>
    intro fuel rest current result
    have hc : c ≠ dquote := fun h => ht (by simp [h])
    have hcs : dquote ∉ cs := fun h => ht (by simp [h])
    have hc2 : c ≠ s := fun h => hs (by simp [h])
    have hcs2 : s ∉ cs := fun h => hs (by simp [h])
    have e : fuel + (c :: cs).length = (fuel + cs.length) + 1 := by simp; omega
    rw [e]
    simp only [List.cons_append, splitCSVLoop, if_neg hc, List.append_eq]
    have : ¬ ((!false && decide (List.take [s].length (c :: (cs ++ rest)) = [s])) = true) := by
      simp [hc2]
    rw [if_neg this, ih hcs hcs2]
    simp

theorem replaceChar_of_not_mem (t : QString) (c : Char) (r : QString) (h : c ∉ t) :
    replaceChar t c r = t := by
  induction t with
  | nil => rfl
  | cons x xs ih =>
    have hx : x ≠ c := fun e => h (by simp [e])
    have hxs : c ∉ xs := fun e => h (by simp [e])
    have := ih hxs
    simp only [replaceChar] at this ⊢
    simp [List.flatMap_cons, hx, this]

theorem containsChar_iff (t : QString) (c : Char) : containsChar t c = true ↔ c ∈ t := by
  simp [containsChar]

/-- The field written for a text without double quote is the text itself, or the text
between two double quotes. -/
theorem csvField_cases (t : QString) (ht : dquote ∉ t) :
    (csvField t = t ∧ ',' ∉ t) ∨ csvField t = dquote :: (t ++ [dquote]) := by
  unfold csvField
  by_cases h : (containsChar t ',' || containsChar t dquote || containsChar t newline) = true
  · right
    rw [if_pos h, replaceChar_of_not_mem t dquote _ ht]
  · left
    rw [if_neg h]
    refine ⟨rfl, fun hm => h ?_⟩
    simp [containsChar, hm]

/-- The splitting loop, outside quotes at the start of a written field, reads the field
back as the text it was written for. -/
theorem splitCSVLoop_csvField (t : QString) (ht : dquote ∉ t) (fuel : Nat)
    (rest current : QString) (result : List QString) :
    splitCSVLoop [','] (fuel + (csvField t).length) (csvField t ++ rest) current false result =
      splitCSVLoop [','] fuel rest (current ++ t) false result := by
  rcases csvField_cases t ht with ⟨h, hc⟩ | h
  · rw [h]
    exact splitCSVLoop_raw ',' t ht hc fuel rest current result
  · rw [h]
    have e : fuel + (dquote :: (t ++ [dquote])).length = (fuel + 1 + t.length) + 1 := by
      simp; omega
    rw [e, List.cons_append, splitCSVLoop_quote, List.append_assoc]
    simp only [Bool.not_false]
    rw [splitCSVLoop_in_quotes [','] t ht]
    simp only [List.singleton_append]
    rw [splitCSVLoop_quote]
    simp

theorem joinWith_cons_cons (sep : Char) (s t : QString) (rest : List QString) :
    joinWith sep (s :: t :: rest) = s ++ sep :: joinWith sep (t :: rest) := rfl

theorem splitCSVLoop_joined (ts : List QString) :
    ∀ (t : QString) (result : List QString), dquote ∉ t → (∀ u ∈ ts, dquote ∉ u) →
      splitCSVLoop [','] ((joinWith ',' ((t :: ts).map csvField)).length + 1)
        (joinWith ',' ((t :: ts).map csvField)) [] false result =
        some (result ++ (t :: ts).map trimmed) := by
  induction ts with
  | nil =>
    intro t result ht _
    simp only [List.map_cons, List.map_nil, joinWith]
    have := splitCSVLoop_csvField t ht 1 [] [] result
    rw [List.append_nil, Nat.add_comm] at this
    rw [this]
    simp [splitCSVLoop]
  | cons u us ih =>
    intro t result ht hts
    have hu : dquote ∉ u := hts u (by simp)
    have hus : ∀ v ∈ us, dquote ∉ v := fun v hv => hts v (by simp [hv])
    simp only [List.map_cons, joinWith_cons_cons]
    have hd : (',' : Char) ≠ dquote := by decide
    have e : (csvField t ++ ',' :: joinWith ',' (csvField u :: us.map csvField)).length + 1
        = ((joinWith ',' (csvField u :: us.map csvField)).length + 1 + 1)
          + (csvField t).length := by
      simp; omega
    rw [e, splitCSVLoop_csvField t ht, splitCSVLoop_separator ',' hd]
    have := ih u (result ++ [trimmed ([] ++ t)]) hu hus
    simp only [List.map_cons] at this
    rw [this]
    simp

/-- `splitCSVLine` with the comma separator, on the comma-joined written fields of a
non-empty list of texts without double quote, returns the trimmed texts. -/
theorem splitCSVLine_joined (ts : List QString) (hne : ts ≠ [])
    (hts : ∀ u ∈ ts, dquote ∉ u) :
    splitCSVLine (joinWith ',' (ts.map csvField)) [','] = some (ts.map trimmed) := by
  cases ts with
  | nil => exact absurd rfl hne
  | cons t ts =>
    have := splitCSVLoop_joined ts t [] (hts t (by simp)) (fun u hu => hts u (by simp [hu]))
    simpa [splitCSVLine] using this

/-! ## Reading back the written text -/

theorem decodeText_of_not_mem (s : QString) (h : creturn ∉ s) : decodeText s = s := by
  unfold decodeText
  rw [List.filter_eq_self]
  intro c hc
  have : c ≠ creturn := fun e => h (e ▸ hc)
  simpa using this

theorem readAllLines_line (l : QString) (hl : newline ∉ l) :
    ∀ (current rest : QString),
      readAllLines current (l ++ newline :: rest) = (current ++ l) :: readAllLines [] rest := by
  induction l with
  | nil => intro current rest; simp [readAllLines]
  | cons c cs ih =>
    intro current rest
    have hc : c ≠ newline := fun e => hl (by simp [e])
    have hcs : newline ∉ cs := fun e => hl (by simp [e])
    simp only [List.cons_append, readAllLines, if_neg hc, List.append_eq]
    rw [ih hcs]
    simp

theorem readAllLines_flatten (ls : List QString) (h : ∀ l ∈ ls, newline ∉ l) :
    readAllLines [] ((ls.map (fun l => l ++ [newline])).flatten) = ls := by
  induction ls with
  | nil => rfl
  | cons l ls ih =>
    simp only [List.map_cons, List.flatten_cons, List.append_assoc, List.singleton_append]
    rw [readAllLines_line l (h l (by simp)), ih (fun x hx => h x (by simp [hx]))]
    simp

theorem not_mem_joinWith (c sep : Char) (hc : c ≠ sep) :
    ∀ (fs : List QString), (∀ f ∈ fs, c ∉ f) → c ∉ joinWith sep fs := by
  intro fs
  induction fs with
  | nil => intro _; simp [joinWith]
  | cons f fs ih =>
    intro h
    cases fs with
    | nil => simpa [joinWith] using h f (by simp)
    | cons g gs =>
      rw [joinWith_cons_cons]
      have h1 := h f (by simp)
      have h2 := ih (fun x hx => h x (by simp [hx]))
      simp only [List.mem_append, List.mem_cons, not_or]
      exact ⟨h1, hc, h2⟩

theorem not_mem_csvField (c : Char) (t : QString) (hc : c ≠ dquote) (ht : c ∉ t)
    (hq : dquote ∉ t) : c ∉ csvField t := by
  rcases csvField_cases t hq with ⟨h, _⟩ | h
  · rw [h]; exact ht
  · rw [h]
    simp only [List.mem_cons, List.mem_append, List.mem_singleton, not_or]
    exact ⟨hc, ht, hc, List.not_mem_nil c⟩

theorem saveCsvFile_eq (m : QStandardItemModel) :
    saveCsvFile m =
      ((csvHeaderLine m :: (List.range m.rowCount).map (csvRowLine m)).map
        (fun l => l ++ [newline])).flatten := by
  simp [saveCsvFile, List.map_map, Function.comp_def]

theorem isPlainCell_iff (t : QString) :
    isPlainCell t = true ↔ trimmed t = t ∧ dquote ∉ t ∧ newline ∉ t ∧ creturn ∉ t := by
  simp [isPlainCell, and_assoc]

theorem isPlainHeader_iff (h : QString) :
    isPlainHeader h = true ↔ h ≠ [] ∧ isPlainCell h = true ∧ ',' ∉ h := by
  simp [isPlainHeader, and_assoc]

theorem csvField_of_plainHeader (h : QString) (hh : isPlainHeader h = true) :
    csvField h = h := by
  obtain ⟨_, hc, hcomma⟩ := (isPlainHeader_iff h).1 hh
  obtain ⟨_, hq, hn, _⟩ := (isPlainCell_iff h).1 hc
  simp [csvField, containsChar, hcomma, hq, hn]

/-! ## Building the table from the parsed lines -/

theorem setHeaderLabelsFrom_inside (labels : List QString) :
    ∀ (col : Nat) (m : QStandardItemModel), col + labels.length ≤ m.columnCount →
      (QStandardItemModel.setHeaderLabelsFrom col labels m).rowCount = m.rowCount ∧
      (QStandardItemModel.setHeaderLabelsFrom col labels m).columnCount = m.columnCount ∧
      (∀ i j, (QStandardItemModel.setHeaderLabelsFrom col labels m).item i j = m.item i j) ∧
      (∀ j, (QStandardItemModel.setHeaderLabelsFrom col labels m).horizontalHeaderItem j =
        if col ≤ j ∧ j < col + labels.length then labels.get? (j - col)
        else m.horizontalHeaderItem j) := by
  induction labels with
  | nil =>
    intro col m _
    refine ⟨rfl, rfl, fun _ _ => rfl, fun j => ?_⟩
    simp only [QStandardItemModel.setHeaderLabelsFrom, List.length_nil, Nat.add_zero]
    have : ¬ (col ≤ j ∧ j < col) := by omega
    rw [if_neg this]
  | cons l ls ih =>
    intro col m h
    simp only [List.length_cons] at h
    have hlt : col < m.columnCount := by omega
    have hcc : (m.setHorizontalHeaderItem col l).columnCount = m.columnCount := by
      rw [QStandardItemModel.columnCount_setHeader]; omega
    obtain ⟨h1, h2, h3, h4⟩ := ih (col + 1) (m.setHorizontalHeaderItem col l) (by omega)
    simp only [QStandardItemModel.setHeaderLabelsFrom]
    refine ⟨?_, ?_, ?_, ?_⟩
    · rw [h1]; rfl
    · rw [h2, hcc]
    · intro i j; rw [h3, QStandardItemModel.item_setHeader _ _ hlt]
    · intro j
      rw [h4, QStandardItemModel.header_setHeader]
      by_cases hj : j = col
      · subst hj; simp
      · by_cases hr : col ≤ j ∧ j < col + (ls.length + 1)
        · have e : j - col = (j - (col + 1)) + 1 := by omega
          have : col + 1 ≤ j ∧ j < col + 1 + ls.length := by omega
          simp [hj, hr, this, e]
        · have : ¬ (col + 1 ≤ j ∧ j < col + 1 + ls.length) := by omega
          simp [hj, hr, this]

theorem normalizeFields_length (columns : Nat) (fields : List QString) :
    (normalizeFields columns fields).length = columns := by
  simp [normalizeFields]; omega

theorem normalizeFields_of_length (columns : Nat) (fields : List QString)
    (h : fields.length = columns) : normalizeFields columns fields = fields := by
  simp [normalizeFields, h]

/-- The row loop on lines that all split: it returns, appends one row per line below the
rows already there, keeps the columns and headers, and writes the trimmed normalised
fields of line `i` into row `k + i`. -/
theorem loadRows_spec (sep : QString) (columns : Nat) :
    ∀ (lines : List QString) (fs : List (List QString)) (k : Nat) (m : QStandardItemModel),
      List.Forall₂ (fun line f => splitCSVLine line sep = some f) lines fs →
      m.rowCount = k → m.columnCount = columns →
      ∃ m2, loadRows sep columns k lines m = some m2 ∧
        m2.rowCount = k + lines.length ∧ m2.columnCount = columns ∧
        (∀ j, m2.horizontalHeaderItem j = m.horizontalHeaderItem j) ∧
        (∀ i j, i < k → m2.item i j = m.item i j) ∧
        (∀ i f, fs.get? i = some f → ∀ j, j < columns →
          m2.item (k + i) j = ((normalizeFields columns f).map trimmed).get? j) := by
  intro lines fs k m hall
  induction hall generalizing k m with
  | nil =>
    intro hk hc
    exact ⟨m, rfl, by simpa using hk, hc, fun _ => rfl, fun _ _ _ => rfl, by simp⟩
  | @cons line f lines fs hsplit _ ih =>
    intro hk hc
    have hins : k ≤ m.rowCount := by omega
    have hr : k < (m.insertRow k).rowCount := by
      rw [QStandardItemModel.rowCount_insertRow _ hins]; omega
    have hlen : 0 + ((normalizeFields columns f).map trimmed).length ≤
        (m.insertRow k).columnCount := by
      rw [List.length_map, normalizeFields_length, QStandardItemModel.columnCount_insertRow]
      omega
    obtain ⟨e1, e2, e3, e4⟩ := setRowItemsFrom_inside k
      ((normalizeFields columns f).map trimmed) 0 _ hr hlen
    have hk1 : (setRowItemsFrom k 0 ((normalizeFields columns f).map trimmed)
        (m.insertRow k)).rowCount = k + 1 := by
      rw [e1, QStandardItemModel.rowCount_insertRow _ hins, hk]
    have hc1 : (setRowItemsFrom k 0 ((normalizeFields columns f).map trimmed)
        (m.insertRow k)).columnCount = columns := by
      rw [e2, QStandardItemModel.columnCount_insertRow, hc]
    obtain ⟨m2, g0, g1, g2, g3, g4, g5⟩ := ih (k + 1) _ hk1 hc1
    refine ⟨m2, ?_, ?_, g2, ?_, ?_, ?_⟩
    · simp only [loadRows, hsplit]
      exact g0
    · rw [g1]; simp; omega
    · intro j; rw [g3, e3, QStandardItemModel.header_insertRow]
    · intro i j hi
      rw [g4 i j (by omega), e4, QStandardItemModel.item_insertRow _ hins]
      have : ¬ (i = k ∧ 0 ≤ j ∧ j < 0 + ((normalizeFields columns f).map trimmed).length) := by
        omega
      rw [if_neg this, if_pos hi]
    · intro i g hg j hj
      cases i with
      | zero =>
        simp only [List.get?_cons_zero, Option.some.injEq] at hg
        subst hg
        rw [Nat.add_zero, g4 k j (by omega), e4]
        have : k = k ∧ 0 ≤ j ∧ j < 0 + ((normalizeFields columns f).map trimmed).length := by
          rw [List.length_map, normalizeFields_length]; omega
        rw [if_pos this, Nat.sub_zero]
      | succ i =>
        simp only [List.get?_cons_succ] at hg
        have := g5 i g hg j hj
        rw [← this]
        congr 1
        omega

/-! ## The import, step by step -/

/-- The path of `loadCsvFileWithConfig` that returns `true`: the line at `startRow`
splits, the headers are not empty, and every data line splits. -/
theorem loadCsvFileWithConfig_success {D : Type} (w : DataEditorWidget D) (content : QString)
    (config : LoadConfig) (first : QString) (fields : List QString) (m2 : QStandardItemModel)
    (hstart : 1 ≤ config.startRow)
    (hfirst : (readLines w.m_maxDisplayRows content).get? (config.startRow - 1) = some first)
    (hsplit : splitCSVLine first config.separator = some fields)
    (hrows : loadRows config.separator
      (if config.hasHeader then headersFromFields 0 fields
        else syntheticHeaders fields.length).length 0
      ((readLines w.m_maxDisplayRows content).drop
        (if config.hasHeader then config.startRow - 1 + 1 else config.startRow - 1))
      ((w.m_dataModel.setColumnCount
          (if config.hasHeader then headersFromFields 0 fields
            else syntheticHeaders fields.length).length).setHorizontalHeaderLabels
        (if config.hasHeader then headersFromFields 0 fields
          else syntheticHeaders fields.length)) = some m2)
    (hne : (if config.hasHeader then headersFromFields 0 fields
        else syntheticHeaders fields.length) ≠ []) :
    ∃ r, loadCsvFileWithConfig w (some content) config = some r ∧ r.success = true ∧
      r.errorMessage = [] ∧ r.widget.m_dataModel = m2 ∧
      r.widget.m_columnDefinitions = w.m_columnDefinitions ∧
      r.widget.m_largeFileMode =
        (w.m_largeFileMode ||
          decide ((readLines w.m_maxDisplayRows content).length ≥ w.m_maxDisplayRows)) := by
  have hlen : config.startRow - 1 < (readLines w.m_maxDisplayRows content).length := by
    by_contra hcon
    rw [List.get?_eq_none.2 (by omega)] at hfirst
    exact absurd hfirst (by simp)
  have h1 : (readLines w.m_maxDisplayRows content).isEmpty = false := by
    cases hl : readLines w.m_maxDisplayRows content with
    | nil => rw [hl] at hlen; simp at hlen
    | cons a as => rfl
  have h2 : ¬ config.startRow > (readLines w.m_maxDisplayRows content).length := by omega
  have h3 : ¬ config.startRow = 0 := by omega
  have h4 : (if config.hasHeader then headersFromFields 0 fields
        else syntheticHeaders fields.length).isEmpty = false := by
    cases hh : (if config.hasHeader then headersFromFields 0 fields
        else syntheticHeaders fields.length) with
    | nil => exact absurd hh hne
    | cons a as => rfl
  by_cases hbig : (readLines w.m_maxDisplayRows content).length ≥ w.m_maxDisplayRows
  · refine ⟨⟨true, [], { { w with m_largeFileMode := true } with m_dataModel := m2 }⟩,
      ?_, rfl, rfl, rfl, rfl, ?_⟩
    · simp only [loadCsvFileWithConfig, h1, h2, h3, hbig, if_true, if_false, hfirst, hsplit,
        h4, Bool.false_eq_true]
      rw [hrows]
    · simp [hbig]
  · refine ⟨⟨true, [], { w with m_dataModel := m2 }⟩, ?_, rfl, rfl, rfl, rfl, ?_⟩
    · simp only [loadCsvFileWithConfig, h1, h2, h3, hbig, if_true, if_false, hfirst, hsplit,
        h4, Bool.false_eq_true]
      rw [hrows]
    · simp [hbig]

theorem headersFromFields_of_plain :
    ∀ (fields : List QString) (n : Nat), (∀ f ∈ fields, trimmed f = f ∧ f ≠ []) →
      headersFromFields n fields = fields := by
  intro fields
  induction fields with
  | nil => intro n _; rfl
  | cons f fs ih =>
    intro n h
    obtain ⟨h1, h2⟩ := h f (by simp)
    have h3 : (trimmed f).isEmpty = false := by
      rw [h1]; cases f with
      | nil => exact absurd rfl h2
      | cons a as => rfl
    have h4 : f.isEmpty = false := by rw [← h1]; exact h3
    simp only [headersFromFields, h1, h4, Bool.false_eq_true, if_false]
    rw [ih (n + 1) (fun g hg => h g (by simp [hg]))]

/-! ## Export then import -/

theorem csvHeaderLine_eq (m : QStandardItemModel)
    (hH : ∀ c, c < m.columnCount → isPlainHeader (m.headerData c) = true) :
    csvHeaderLine m = joinWith ',' (((List.range m.columnCount).map m.headerData).map csvField) := by
  unfold csvHeaderLine
  congr 1
  rw [List.map_map]
  apply List.map_congr_left
  intro c hc
  rw [List.mem_range] at hc
  exact (csvField_of_plainHeader _ (hH c hc)).symm

theorem csvRowLine_eq (m : QStandardItemModel) (r : Nat) :
    csvRowLine m r =
      joinWith ',' (((List.range m.columnCount).map (fun c => m.text r c)).map csvField) := by
  unfold csvRowLine
  rw [List.map_map]
  rfl

/-- The written text read back line by line: the header line, then one line per row. -/
theorem readLines_saveCsvFile (m : QStandardItemModel) (cap : Nat)
    (hcap : m.rowCount + 1 ≤ cap)
    (hH : ∀ c, c < m.columnCount → isPlainHeader (m.headerData c) = true)
    (hC : ∀ r, r < m.rowCount → ∀ c, c < m.columnCount → isPlainCell (m.text r c) = true) :
    readLines cap (saveCsvFile m) =
      csvHeaderLine m :: (List.range m.rowCount).map (csvRowLine m) := by
  have hline : ∀ (x : Char), x ≠ ',' → x ≠ dquote →
      (∀ c, c < m.columnCount → x ∉ m.headerData c) →
      (∀ r c, r < m.rowCount → c < m.columnCount → x ∉ m.text r c) →
      ∀ l ∈ csvHeaderLine m :: (List.range m.rowCount).map (csvRowLine m), x ∉ l := by
    intro x hx1 hx2 hxh hxc l hl
    rcases List.mem_cons.1 hl with rfl | hl
    · unfold csvHeaderLine
      apply not_mem_joinWith x ',' hx1
      intro f hf
      obtain ⟨c, hc, rfl⟩ := List.mem_map.1 hf
      exact hxh c (List.mem_range.1 hc)
    · obtain ⟨r, hr, rfl⟩ := List.mem_map.1 hl
      unfold csvRowLine
      apply not_mem_joinWith x ',' hx1
      intro f hf
      obtain ⟨c, hc, rfl⟩ := List.mem_map.1 hf
      have hcell := (isPlainCell_iff _).1 (hC r (List.mem_range.1 hr) c (List.mem_range.1 hc))
      exact not_mem_csvField x _ hx2 (hxc r c (List.mem_range.1 hr) (List.mem_range.1 hc))
        hcell.2.1
  have hhead : ∀ c, c < m.columnCount → newline ∉ m.headerData c ∧ creturn ∉ m.headerData c := by
    intro c hc
    have := (isPlainCell_iff _).1 ((isPlainHeader_iff _).1 (hH c hc)).2.1
    exact ⟨this.2.2.1, this.2.2.2⟩
  have hcell : ∀ r c, r < m.rowCount → c < m.columnCount →
      newline ∉ m.text r c ∧ creturn ∉ m.text r c := by
    intro r c hr hc
    have := (isPlainCell_iff _).1 (hC r hr c hc)
    exact ⟨this.2.2.1, this.2.2.2⟩
  have hnl := hline newline (by decide) (by decide) (fun c hc => (hhead c hc).1)
    (fun r c hr hc => (hcell r c hr hc).1)
  have hcr := hline creturn (by decide) (by decide) (fun c hc => (hhead c hc).2)
    (fun r c hr hc => (hcell r c hr hc).2)
  have hcrt : creturn ∉ saveCsvFile m := by
    rw [saveCsvFile_eq]
    intro hmem
    obtain ⟨l, hl, hin⟩ := List.mem_flatten.1 hmem
    obtain ⟨l0, hl0, rfl⟩ := List.mem_map.1 hl
    rcases List.mem_append.1 hin with h | h
    · exact hcr l0 hl0 h
    · simp only [List.mem_singleton] at h
      exact absurd h (by decide)
  unfold readLines
  rw [decodeText_of_not_mem _ hcrt, saveCsvFile_eq, readAllLines_flatten _ hnl]
  apply List.take_of_length_le
  simp
  omega

/-- C4 (amended): for a table with at least one column and fewer rows than the display
cap, whose header texts are non-empty, free of white space at the ends and free of
commas, double quotes, line feeds and carriage returns, and whose cell texts (unset
cells read as empty) are free of white space at the ends and of double quotes, line
feeds and carriage returns, writing it with `saveCsvFile` and importing the written text
into the cleared widget with `startRow = 1, hasHeader = true, separator = ","` succeeds
and gives a table with the same column count, header texts, row count and cell texts;
every cell of the imported table is set. -/
theorem csv_export_import_roundtrip {D : Type} (w : DataEditorWidget D)
    (hcols : 0 < w.m_dataModel.columnCount)
    (hcap : w.m_dataModel.rowCount + 1 ≤ w.m_maxDisplayRows)
    (hH : ∀ c, c < w.m_dataModel.columnCount →
      isPlainHeader (w.m_dataModel.headerData c) = true)
    (hC : ∀ r, r < w.m_dataModel.rowCount → ∀ c, c < w.m_dataModel.columnCount →
      isPlainCell (w.m_dataModel.text r c) = true) :
    ∃ res, loadCsvFileWithConfig (clearData w) (some (saveCsvFile w.m_dataModel)) commaConfig
        = some res ∧ res.success = true ∧
      TableEq res.widget.m_dataModel w.m_dataModel ∧
      (∀ r c, r < w.m_dataModel.rowCount → c < w.m_dataModel.columnCount →
        res.widget.m_dataModel.item r c = some (w.m_dataModel.text r c)) := by
  generalize hm : w.m_dataModel = m at hcols hcap hH hC ⊢
  have hread := readLines_saveCsvFile m w.m_maxDisplayRows hcap hH hC
  -- the header line
  have hhq : ∀ u ∈ (List.range m.columnCount).map m.headerData, dquote ∉ u := by
    intro u hu
    obtain ⟨c, hc, rfl⟩ := List.mem_map.1 hu
    exact ((isPlainCell_iff _).1 ((isPlainHeader_iff _).1 (hH c (List.mem_range.1 hc))).2.1).2.1
  have hhne : (List.range m.columnCount).map m.headerData ≠ [] := by
    intro h
    have := congrArg List.length h
    simp at this
    omega
  have hhtrim : ((List.range m.columnCount).map m.headerData).map trimmed
      = (List.range m.columnCount).map m.headerData := by
    rw [List.map_map]
    apply List.map_congr_left
    intro c hc
    exact ((isPlainCell_iff _).1 ((isPlainHeader_iff _).1 (hH c (List.mem_range.1 hc))).2.1).1
  have hsplit : splitCSVLine (csvHeaderLine m) [','] =
      some ((List.range m.columnCount).map m.headerData) := by
    rw [csvHeaderLine_eq m hH, splitCSVLine_joined _ hhne hhq, hhtrim]
  have hheaders : headersFromFields 0 ((List.range m.columnCount).map m.headerData)
      = (List.range m.columnCount).map m.headerData := by
    apply headersFromFields_of_plain
    intro f hf
    obtain ⟨c, hc, rfl⟩ := List.mem_map.1 hf
    have h1 := (isPlainHeader_iff _).1 (hH c (List.mem_range.1 hc))
    exact ⟨((isPlainCell_iff _).1 h1.2.1).1, h1.1⟩
  -- the data lines
  have hall : List.Forall₂ (fun line f => splitCSVLine line [','] = some f)
      ((List.range m.rowCount).map (csvRowLine m))
      ((List.range m.rowCount).map
        (fun r => (List.range m.columnCount).map (fun c => m.text r c))) := by
    rw [List.forall₂_map_left_iff, List.forall₂_map_right_iff, List.forall₂_same]
    intro r hr
    have hq : ∀ u ∈ (List.range m.columnCount).map (fun c => m.text r c), dquote ∉ u := by
      intro u hu
      obtain ⟨c, hc, rfl⟩ := List.mem_map.1 hu
      exact ((isPlainCell_iff _).1 (hC r (List.mem_range.1 hr) c (List.mem_range.1 hc))).2.1
    have hne : (List.range m.columnCount).map (fun c => m.text r c) ≠ [] := by
      intro h
      have := congrArg List.length h
      simp at this
      omega
    rw [csvRowLine_eq, splitCSVLine_joined _ hne hq, List.map_map]
    congr 1
    apply List.map_congr_left
    intro c hc
    exact ((isPlainCell_iff _).1 (hC r (List.mem_range.1 hr) c (List.mem_range.1 hc))).1
  -- the table before the rows are loaded
  have hlen : ((List.range m.columnCount).map m.headerData).length = m.columnCount := by simp
  obtain ⟨a1, a2, a3, a4⟩ := setHeaderLabelsFrom_inside
    ((List.range m.columnCount).map m.headerData) 0
    ((QStandardItemModel.clear m).setColumnCount m.columnCount) (by simp [QStandardItemModel.setColumnCount])
  have hm1 : ((QStandardItemModel.clear m).setColumnCount
        ((List.range m.columnCount).map m.headerData).length).setHorizontalHeaderLabels
        ((List.range m.columnCount).map m.headerData)
      = QStandardItemModel.setHeaderLabelsFrom 0 ((List.range m.columnCount).map m.headerData)
        ((QStandardItemModel.clear m).setColumnCount m.columnCount) := by
    simp [QStandardItemModel.setHorizontalHeaderLabels, QStandardItemModel.setColumnCount]
  obtain ⟨m2, g0, g1, g2, g3, g4, g5⟩ := loadRows_spec [','] m.columnCount _ _ 0
    (QStandardItemModel.setHeaderLabelsFrom 0 ((List.range m.columnCount).map m.headerData)
      ((QStandardItemModel.clear m).setColumnCount m.columnCount)) hall
    (by rw [a1]; rfl) (by rw [a2]; rfl)
  have hfirst : (readLines (clearData w).m_maxDisplayRows (saveCsvFile m)).get? (commaConfig.startRow - 1)
      = some (csvHeaderLine m) := by
    show (readLines w.m_maxDisplayRows (saveCsvFile m)).get? 0 = _
    rw [hread]; rfl
  obtain ⟨res, r1, r2, _, r4, _, _⟩ := loadCsvFileWithConfig_success (clearData w) (saveCsvFile m)
    commaConfig (csvHeaderLine m) ((List.range m.columnCount).map m.headerData) m2
    (by decide) hfirst hsplit
    (by
      show loadRows [','] (headersFromFields 0 _).length 0
        ((readLines w.m_maxDisplayRows (saveCsvFile m)).drop 1)
        (((QStandardItemModel.clear w.m_dataModel).setColumnCount
          (headersFromFields 0 _).length).setHorizontalHeaderLabels (headersFromFields 0 _))
        = some m2
      rw [hheaders, hread, hm, hm1, hlen]
      exact g0)
    (by
      show headersFromFields 0 _ ≠ []
      rw [hheaders]; exact hhne)
  refine ⟨res, r1, r2, ?_⟩
  rw [r4]
  have hrows : m2.rowCount = m.rowCount := by rw [g1]; simp
  have hitem : ∀ r c, r < m.rowCount → c < m.columnCount → m2.item r c = some (m.text r c) := by
    intro r c hr hc
    have := g5 r ((List.range m.columnCount).map (fun c => m.text r c))
      (by simp [List.getElem?_map, List.getElem?_range hr]) c hc
    rw [Nat.zero_add] at this
    rw [this, normalizeFields_of_length _ _ (by simp)]
    simp only [List.get?_eq_getElem?, List.getElem?_map, List.getElem?_range hc, Option.map_some']
    congr 1
    exact ((isPlainCell_iff _).1 (hC r hr c hc)).1
  refine ⟨⟨hrows, g2, ?_, ?_⟩, hitem⟩
  · intro r c
    by_cases hr : r < m.rowCount
    · by_cases hc : c < m.columnCount
      · rw [QStandardItemModel.text_eq, hitem r c hr hc]; rfl
      · rw [QStandardItemModel.text_eq, QStandardItemModel.text_eq,
          m2.item_of_col_ge r (by omega), m.item_of_col_ge r (by omega)]
    · rw [QStandardItemModel.text_eq, QStandardItemModel.text_eq,
        m2.item_of_row_ge c (by omega), m.item_of_row_ge c (by omega)]
  · intro c
    rw [QStandardItemModel.headerData_eq, QStandardItemModel.headerData_eq, g2, g3, a4]
    by_cases hc : c < m.columnCount
    · have : 0 ≤ c ∧ c < 0 + ((List.range m.columnCount).map m.headerData).length := by
        rw [hlen]; omega
      rw [if_pos hc, if_pos hc, if_pos this]
      simp only [Nat.sub_zero, List.get?_eq_getElem?, List.getElem?_map,
        List.getElem?_range hc, Option.map_some']
      rw [QStandardItemModel.headerData_eq, if_pos hc]
    · rw [if_neg hc, if_neg hc]

/-- Witness of C4 (amended): the 2 × 2 sample table survives export and import. -/
theorem csv_export_import_roundtrip_witness :
    ∃ res, loadCsvFileWithConfig (clearData sampleWidget)
        (some (saveCsvFile sampleWidget.m_dataModel)) commaConfig = some res ∧
      res.success = true ∧
      TableEq res.widget.m_dataModel sampleWidget.m_dataModel ∧
      (∀ r c, r < sampleWidget.m_dataModel.rowCount → c < sampleWidget.m_dataModel.columnCount →
        res.widget.m_dataModel.item r c = some (sampleWidget.m_dataModel.text r c)) :=
  csv_export_import_roundtrip sampleWidget (by decide) (by decide) (by decide) (by decide)

/-- C4 fails as stated: a 1 × 1 table with header `h` whose cell holds a blank followed
by `x` is written as the lines `h` and ` x`; the import succeeds and the cell comes back
as `x`, the blank trimmed away. -/
theorem csv_roundtrip_trims_cell :
    paddedWidget.m_dataModel.text 0 0 = [' ', 'x'] ∧
    (loadCsvFileWithConfig (clearData paddedWidget)
        (some (saveCsvFile paddedWidget.m_dataModel)) commaConfig).map
      (fun res => (res.success, res.widget.m_dataModel.rowCount,
        res.widget.m_dataModel.columnCount, res.widget.m_dataModel.text 0 0))
      = some (true, 1, 1, ['x']) := by
  constructor
  · decide
  · decide

/-! ## Failure of the import -/

/-- A failed `loadCsvFileWithConfig` leaves the table, the undo stack and the column
definitions of the widget it was called on as they were, and reports a non-empty
message. -/
theorem loadCsvFileWithConfig_failure {D : Type} (w : DataEditorWidget D)
    (file : Option QString) (config : LoadConfig) (r : LoadResult D)
    (h : loadCsvFileWithConfig w file config = some r) (hf : r.success = false) :
    r.widget.m_dataModel = w.m_dataModel ∧ r.widget.m_undoStack = w.m_undoStack ∧
    r.widget.m_columnDefinitions = w.m_columnDefinitions ∧ r.errorMessage ≠ [] := by
  cases file with
  | none =>
    simp only [loadCsvFileWithConfig, Option.some.injEq] at h
    subst h
    refine ⟨rfl, rfl, rfl, ?_⟩
    intro hnil
    have := congrArg List.length hnil
    simp at this
  | some content =>
    by_cases h1 : (readLines w.m_maxDisplayRows content).isEmpty = true
    · simp only [loadCsvFileWithConfig, Bool.false_eq_true, h1, if_true, Option.some.injEq] at h
      subst h
      refine ⟨rfl, rfl, rfl, ?_⟩
      intro hnil
      have := congrArg List.length hnil
      simp at this
    by_cases h2 : config.startRow > (readLines w.m_maxDisplayRows content).length
    · simp only [loadCsvFileWithConfig, Bool.false_eq_true, h1, h2, if_true, if_false, Option.some.injEq] at h
      subst h
      refine ⟨rfl, rfl, rfl, ?_⟩
      intro hnil
      have := congrArg List.length hnil
      simp at this
    by_cases h3 : config.startRow = 0
    · simp only [loadCsvFileWithConfig, Bool.false_eq_true, h1, h2, h3, if_true, if_false] at h
      exact absurd h (by simp)
    have hw : ∀ (b : Prop) [Decidable b],
        (if b then { w with m_largeFileMode := true } else w).m_dataModel = w.m_dataModel ∧
        (if b then { w with m_largeFileMode := true } else w).m_undoStack = w.m_undoStack ∧
        (if b then { w with m_largeFileMode := true } else w).m_columnDefinitions
          = w.m_columnDefinitions := by
      intro b _
      by_cases hb : b <;> simp [hb]
    cases h4 : (readLines w.m_maxDisplayRows content).get? (config.startRow - 1) with
    | none =>
      simp only [loadCsvFileWithConfig, Bool.false_eq_true, h1, h2, h3, h4, if_true, if_false,
        Option.some.injEq] at h
      subst h
      refine ⟨(hw _).1, (hw _).2.1, (hw _).2.2, ?_⟩
      intro hnil
      have := congrArg List.length hnil
      simp at this
    | some first =>
      cases h5 : splitCSVLine first config.separator with
      | none =>
        simp only [loadCsvFileWithConfig, Bool.false_eq_true, h1, h2, h3, h4, h5, if_true, if_false] at h
        exact absurd h (by simp)
      | some fields =>
        by_cases h6 : (if config.hasHeader then headersFromFields 0 fields
            else syntheticHeaders fields.length).isEmpty = true
        · simp only [loadCsvFileWithConfig, Bool.false_eq_true, h1, h2, h3, h4, h5, h6, if_true, if_false,
            Option.some.injEq] at h
          subst h
          refine ⟨(hw _).1, (hw _).2.1, (hw _).2.2, ?_⟩
          intro hnil
          have := congrArg List.length hnil
          simp at this
        · simp only [loadCsvFileWithConfig, Bool.false_eq_true, h1, h2, h3, h4, h5, h6, if_true, if_false] at h
          split at h
          · exact absurd h (by simp)
          · simp only [Option.some.injEq] at h
            subst h
            exact absurd hf (by simp)

/-- C5 (amended): when `loadDataWithConfig` is called on an existing, readable file of
type txt or csv, or of a type other than excel and json, and the import fails, the live
table has been cleared: it has no rows and no columns (so no header and no cell), the
undo stack and the column definitions are empty, and the error message is not empty.
The table is emptied before the import starts, never left partly filled. -/
theorem loadDataWithConfig_failure_clears {D : Type}
    (loadExcelFileOptimized loadJsonFile : DataEditorWidget D → QString → LoadResult D)
    (w : DataEditorWidget D) (content filePath fileType : QString) (config : LoadConfig)
    (r : LoadResult D)
    (hexcel : toLower fileType ≠ "excel".toList) (hjson : toLower fileType ≠ "json".toList)
    (h : loadDataWithConfig loadExcelFileOptimized loadJsonFile w (some content) filePath
      fileType config = some r)
    (hf : r.success = false) :
    r.widget.m_dataModel.rowCount = 0 ∧ r.widget.m_dataModel.columnCount = 0 ∧
    (∀ i j, r.widget.m_dataModel.item i j = none) ∧
    (∀ j, r.widget.m_dataModel.horizontalHeaderItem j = none) ∧
    r.widget.m_undoStack.commands = [] ∧ r.widget.m_columnDefinitions = [] ∧
    r.errorMessage ≠ [] := by
  have key : r.widget.m_dataModel = w.m_dataModel.clear ∧
      r.widget.m_undoStack = { commands := [], index := 0 } ∧
      r.widget.m_columnDefinitions = [] ∧ r.errorMessage ≠ [] := by
    unfold loadDataWithConfig at h
    simp only at h
    split at h
    · exact loadCsvFileWithConfig_failure _ _ _ _ h hf
    · simp only [if_neg hexcel, if_neg hjson, Option.some.injEq] at h
      subst h
      refine ⟨rfl, rfl, rfl, ?_⟩
      intro hnil
      have := congrArg List.length hnil
      simp at this
  obtain ⟨k1, k2, k3, k4⟩ := key
  rw [k1, k2]
  exact ⟨rfl, rfl, fun _ _ => rfl, fun _ => rfl, rfl, k3, k4⟩

/-- Witness of C5 (amended): an empty csv file loaded over the 2 × 2 sample table. -/
theorem loadDataWithConfig_failure_clears_witness :
    (loadDataWithConfig failingLoader failingLoader sampleWidget (some []) ['f'] "csv".toList
      commaConfig).isSome = true ∧
    ∀ r, loadDataWithConfig failingLoader failingLoader sampleWidget (some []) ['f']
        "csv".toList commaConfig = some r → r.success = false →
      r.widget.m_dataModel.rowCount = 0 ∧ r.widget.m_dataModel.columnCount = 0 ∧
      (∀ i j, r.widget.m_dataModel.item i j = none) ∧
      (∀ j, r.widget.m_dataModel.horizontalHeaderItem j = none) ∧
      r.widget.m_undoStack.commands = [] ∧ r.widget.m_columnDefinitions = [] ∧
      r.errorMessage ≠ [] :=
  ⟨by decide, fun r h hf =>
    loadDataWithConfig_failure_clears failingLoader failingLoader sampleWidget [] ['f']
      "csv".toList commaConfig r (by decide) (by decide) h hf⟩

/-- C5 fails as stated: loading an existing, empty csv file over the 2 × 2 sample table
fails and leaves a table with no rows and no columns, not the table held before. -/
theorem loadDataWithConfig_failure_loses_table :
    sampleWidget.m_dataModel.rowCount = 2 ∧ sampleWidget.m_dataModel.columnCount = 2 ∧
    (loadDataWithConfig failingLoader failingLoader sampleWidget (some []) ['f'] "csv".toList
        commaConfig).map
      (fun r => (r.success, r.widget.m_dataModel.rowCount, r.widget.m_dataModel.columnCount,
        r.widget.m_dataModel.text 0 0))
      = some (false, 0, 0, []) ∧
    sampleWidget.m_dataModel.text 0 0 = ['1'] := by
  refine ⟨by decide, by decide, by decide, by decide⟩

/-! ## Termination of the import -/

theorem loadRows_terminates (sep : QString) (hsep : sep ≠ []) (columns : Nat) :
    ∀ (lines : List QString) (k : Nat) (m : QStandardItemModel),
      ∃ m2, loadRows sep columns k lines m = some m2 := by
  intro lines
  induction lines with
  | nil => intro k m; exact ⟨m, rfl⟩
  | cons line lines ih =>
    intro k m
    obtain ⟨fields, hfields⟩ := splitCSVLine_terminates line sep hsep
    simp only [loadRows, hfields]
    exact ih _ _

theorem loadRows_ne_none (sep : QString) (hsep : sep ≠ []) (columns : Nat)
    (lines : List QString) (k : Nat) (m : QStandardItemModel) :
    loadRows sep columns k lines m ≠ none := by
  obtain ⟨m2, hm2⟩ := loadRows_terminates sep hsep columns lines k m
  rw [hm2]
  simp

/-- With a non-empty separator and `startRow ≥ 1`, `loadCsvFileWithConfig` returns for
every file content, with `true` or with a non-empty error message. -/
theorem loadCsvFileWithConfig_returns {D : Type} (w : DataEditorWidget D)
    (file : Option QString) (config : LoadConfig) (hsep : config.separator ≠ [])
    (hstart : 1 ≤ config.startRow) :
    ∃ r, loadCsvFileWithConfig w file config = some r ∧
      (r.success = true ∨ r.errorMessage ≠ []) := by
  have hret : ∃ r, loadCsvFileWithConfig w file config = some r := by
    cases file with
    | none => exact ⟨_, rfl⟩
    | some content =>
      by_cases h1 : (readLines w.m_maxDisplayRows content).isEmpty = true
      · simp only [loadCsvFileWithConfig, Bool.false_eq_true, h1, if_true]
        exact ⟨_, rfl⟩
      by_cases h2 : config.startRow > (readLines w.m_maxDisplayRows content).length
      · simp only [loadCsvFileWithConfig, Bool.false_eq_true, h1, h2, if_true, if_false]
        exact ⟨_, rfl⟩
      have h3 : ¬ config.startRow = 0 := by omega
      cases h4 : (readLines w.m_maxDisplayRows content).get? (config.startRow - 1) with
      | none =>
        simp only [loadCsvFileWithConfig, Bool.false_eq_true, h1, h2, h3, h4, if_true, if_false]
        exact ⟨_, rfl⟩
      | some first =>
        obtain ⟨fields, h5⟩ := splitCSVLine_terminates first config.separator hsep
        by_cases h6 : (if config.hasHeader then headersFromFields 0 fields
            else syntheticHeaders fields.length).isEmpty = true
        · simp only [loadCsvFileWithConfig, Bool.false_eq_true, h1, h2, h3, h4, h5, h6,
            if_true, if_false]
          exact ⟨_, rfl⟩
        · simp only [loadCsvFileWithConfig, Bool.false_eq_true, h1, h2, h3, h4, h5, h6,
            if_true, if_false]
          split
          · rename_i heq
            exact absurd heq (loadRows_ne_none _ hsep _ _ _ _)
          · exact ⟨_, rfl⟩
  obtain ⟨r, hr⟩ := hret
  refine ⟨r, hr, ?_⟩
  cases hs : r.success with
  | true => exact Or.inl rfl
  | false => exact Or.inr (loadCsvFileWithConfig_failure w file config r hr hs).2.2.2

/-- C6, at the failing input: with the empty separator the loop of `splitCSVLine` on
the line `a` never ends, whatever the number of iterations granted, so `splitCSVLine`
does not return and neither does `loadCsvFileWithConfig` on a file made of that line. -/
theorem loadCsvFileWithConfig_empty_separator_never_returns :
    (∀ fuel, splitCSVLoop [] fuel ['a'] [] false [] = none) ∧
    splitCSVLine ['a'] [] = none ∧
    (loadCsvFileWithConfig sampleWidget (some ['a', newline]) emptySeparatorConfig).isNone
      = true := by
  refine ⟨fun fuel => splitCSVLoop_empty_separator_diverges 'a' [] (by decide) fuel [] [],
    splitCSVLoop_empty_separator_diverges 'a' [] (by decide) _ [] [], by decide⟩

/-! ## Undo then redo -/

/-- C1, at the failing input: on a table of no rows and one column,
`RowEdit(Delete, 1, ["x"])` is pushed (its redo does nothing, the table keeps 0 rows);
the undo writes the snapshot into row 1 and so grows the table to 2 rows; the redo then
deletes row 1 and leaves 1 row. The table after undo and redo is not the table after
the push. -/
theorem undo_redo_after_push_differs :
    ((Editor.start (blankModel 0 1)).pushAll [DataEditCommand.row deleteRowOne]).model.rowCount
      = 0 ∧
    ((Editor.start (blankModel 0 1)).pushAll
      [DataEditCommand.row deleteRowOne]).undo.model.rowCount = 2 ∧
    ((Editor.start (blankModel 0 1)).pushAll
      [DataEditCommand.row deleteRowOne]).undo.redo.model.rowCount = 1 ∧
    ¬ TableEq
      ((Editor.start (blankModel 0 1)).pushAll
        [DataEditCommand.row deleteRowOne]).undo.redo.model
      ((Editor.start (blankModel 0 1)).pushAll [DataEditCommand.row deleteRowOne]).model := by
  refine ⟨by decide, by decide, by decide, fun h => ?_⟩
  exact absurd h.1 (by decide)

/-! ## A derived column inserted after its source -/

/-- The table after `insertColumn(k)` and `setHorizontalHeaderItem(k, name)` for a
position `k` inside or just after the table: one more column, the same rows, and every
column before `k` as it was. -/
theorem insertHeaded_spec (m : QStandardItemModel) (k : Nat) (name : QString)
    (hk : k ≤ m.columnCount) :
    ((m.insertColumn k).setHorizontalHeaderItem k name).rowCount = m.rowCount ∧
    ((m.insertColumn k).setHorizontalHeaderItem k name).columnCount = m.columnCount + 1 ∧
    (∀ i j, j < k →
      ((m.insertColumn k).setHorizontalHeaderItem k name).item i j = m.item i j) := by
  have hc : (m.insertColumn k).columnCount = m.columnCount + 1 :=
    m.columnCount_insertColumn hk
  refine ⟨?_, ?_, ?_⟩
  · rw [QStandardItemModel.rowCount_setHeader, QStandardItemModel.rowCount_insertColumn]
  · rw [QStandardItemModel.columnCount_setHeader, hc]; omega
  · intro i j hj
    rw [QStandardItemModel.item_setHeader _ _ (by omega),
      QStandardItemModel.item_insertColumn _ hk, if_pos hj]

theorem trimmed_nil : trimmed [] = [] := rfl

/-- The value the collecting loop takes for a cell is the pressure of its text: the
parsed trimmed text, or 0 when the cell is unset, empty or unparsable. -/
theorem pressureValueOfItem_eq {D : Type} (qt : QtLib D) (m : QStandardItemModel) (r c : Nat) :
    pressureValueOfItem qt (m.item r c) = pressureOfText qt (m.text r c) := by
  rw [QStandardItemModel.text_eq]
  cases h : m.item r c with
  | none => simp [pressureValueOfItem, pressureOfText, trimmed_nil]
  | some t =>
    simp only [pressureValueOfItem, pressureOfText, Option.getD_some, isValidPressureData]
    by_cases he : (trimmed t).isEmpty = true
    · simp [he]
    · have he2 : (trimmed t).isEmpty = false := by simpa using he
      simp only [he2, Bool.not_false, Bool.true_and, Bool.false_eq_true, if_false]
      cases qt.toDouble (trimmed t) <;> simp

theorem findPressureColumn_lt {D : Type} (qt : QtLib D) (w : DataEditorWidget D) (pc : Nat)
    (h : findPressureColumn qt w = some pc) : pc < w.m_dataModel.columnCount := by
  unfold findPressureColumn at h
  split at h
  · rename_i i hi
    simp only [Option.some.injEq] at h
    subst h
    have := List.mem_of_find?_eq_some hi
    rw [List.mem_range] at this
    omega
  · have := List.mem_of_find?_eq_some h
    rw [List.mem_range] at this
    exact this

/-- C7: whenever a pressure column `pc` is located, `calculatePressureDrop` succeeds,
adds one column at `pc + 1` and writes there `0.000` in row 0 and, in every row `r > 0`,
the 3-decimal rendering of `p0 - pr`, where `pi` is the trimmed pressure text of row `i`
parsed as a number, taken as 0 when it is empty or does not parse (number parsing,
subtraction and rendering are those of the Qt library, whatever they are); with the
stand-in library, the pressures 30.0, 28.5, 25.0 give the column 0.000, 1.500, 5.000. -/
theorem calculatePressureDrop_values :
    (∀ (D : Type) (qt : QtLib D) (w : DataEditorWidget D) (pc : Nat),
      findPressureColumn qt w = some pc →
      (calculatePressureDrop qt w).1.success = true ∧
      (calculatePressureDrop qt w).1.addedColumnIndex = (pc : Int) + 1 ∧
      (calculatePressureDrop qt w).2.m_dataModel.rowCount = w.m_dataModel.rowCount ∧
      (calculatePressureDrop qt w).2.m_dataModel.columnCount = w.m_dataModel.columnCount + 1 ∧
      (0 < w.m_dataModel.rowCount →
        (calculatePressureDrop qt w).2.m_dataModel.item 0 (pc + 1) = some "0.000".toList) ∧
      (∀ r, 0 < r → r < w.m_dataModel.rowCount →
        (calculatePressureDrop qt w).2.m_dataModel.item r (pc + 1) =
          some (qt.number (qt.sub (pressureOfText qt (w.m_dataModel.text 0 pc))
            (pressureOfText qt (w.m_dataModel.text r pc))) 3))) ∧
    (List.range 3).map
        (fun r => (pressureWidget.m_dataModel.text r 1,
          (calculatePressureDrop milliLib pressureWidget).2.m_dataModel.text r 2))
      = [("30.0".toList, "0.000".toList), ("28.5".toList, "1.500".toList),
          ("25.0".toList, "5.000".toList)] := by
  refine ⟨?_, by decide⟩
  intro D qt w pc hpc
  have hlt := findPressureColumn_lt qt w pc hpc
  generalize hname : ("压降".toList ++ backslash ::
    (if (getPressureUnit qt w).isEmpty then "MPa".toList else getPressureUnit qt w)) = name
  obtain ⟨a1, a2, a3⟩ := insertHeaded_spec w.m_dataModel (pc + 1) name (by omega)
  generalize hm1 : (w.m_dataModel.insertColumn (pc + 1)).setHorizontalHeaderItem (pc + 1) name
    = m1 at a1 a2 a3
  have hvals : (List.range m1.rowCount).map
      (fun row => pressureValueOfItem qt (m1.item row pc)) =
      (List.range w.m_dataModel.rowCount).map
        (fun row => pressureOfText qt (w.m_dataModel.text row pc)) := by
    rw [a1]
    apply List.map_congr_left
    intro row _
    rw [a3 row pc (by omega), pressureValueOfItem_eq]
  generalize hpv : (List.range w.m_dataModel.rowCount).map
        (fun row => pressureOfText qt (w.m_dataModel.text row pc)) = pv at hvals
  have hget : ∀ r, r < w.m_dataModel.rowCount →
      pv.getD r qt.zero = pressureOfText qt (w.m_dataModel.text r pc) := by
    intro r hr
    rw [← hpv]
    simp [List.getD_eq_getElem?_getD, List.getElem?_map, List.getElem?_range hr]
  have hhead : 0 < w.m_dataModel.rowCount →
      pv.headD qt.zero = pressureOfText qt (w.m_dataModel.text 0 pc) := by
    intro h0
    rw [← hget 0 h0]
    cases pv <;> rfl
  have hout : calculatePressureDrop qt w =
      (⟨true, [], ((pc + 1 : Nat) : Int), name, m1.rowCount⟩,
        { w with
          m_dataModel := setColumnItemsFrom (pc + 1) 0
            ((List.range m1.rowCount).map (pressureDropText qt (pv.headD qt.zero) pv)) m1
          m_columnDefinitions :=
            if pc + 1 < w.m_columnDefinitions.length then
              insertAt (pc + 1)
                { name := name, type := WellTestColumnType.PressureDrop,
                  unit := (if (getPressureUnit qt w).isEmpty then "MPa".toList
                    else getPressureUnit qt w),
                  description := "压力降".toList, isRequired := false,
                  minValue := qt.ofInt (-999999), maxValue := qt.ofInt 999999,
                  decimalPlaces := 3 } w.m_columnDefinitions
            else w.m_columnDefinitions ++
              [{ name := name, type := WellTestColumnType.PressureDrop,
                  unit := (if (getPressureUnit qt w).isEmpty then "MPa".toList
                    else getPressureUnit qt w),
                  description := "压力降".toList, isRequired := false,
                  minValue := qt.ofInt (-999999), maxValue := qt.ofInt 999999,
                  decimalPlaces := 3 }] }) := by
    simp only [calculatePressureDrop, hpc, hname, hm1, hvals]
  rw [hout]
  obtain ⟨e1, e2, _, e4⟩ := setColumnItemsFrom_inside (pc + 1)
    ((List.range m1.rowCount).map (pressureDropText qt (pv.headD qt.zero) pv)) 0 m1
    (by omega) (by simp)
  have hitem : ∀ r, r < w.m_dataModel.rowCount →
      (setColumnItemsFrom (pc + 1) 0
        ((List.range m1.rowCount).map (pressureDropText qt (pv.headD qt.zero) pv)) m1).item
        r (pc + 1) = some (pressureDropText qt (pv.headD qt.zero) pv r) := by
    intro r hr
    rw [e4]
    have : pc + 1 = pc + 1 ∧ 0 ≤ r ∧ r < 0 + ((List.range m1.rowCount).map
        (pressureDropText qt (pv.headD qt.zero) pv)).length := by
      simp; omega
    rw [if_pos this]
    simp [List.getElem?_map, List.getElem?_range (show r < m1.rowCount by omega)]
  refine ⟨rfl, by simp, ?_, ?_, ?_, ?_⟩
  · show (setColumnItemsFrom _ _ _ _).rowCount = _
    rw [e1, a1]
  · show (setColumnItemsFrom _ _ _ _).columnCount = _
    rw [e2, a2]
  · intro h0
    show (setColumnItemsFrom _ _ _ _).item 0 (pc + 1) = _
    rw [hitem 0 h0]
    simp only [pressureDropText, if_true, qt.number_zero]
    rfl
  · intro r hr0 hr
    show (setColumnItemsFrom _ _ _ _).item r (pc + 1) = _
    rw [hitem r hr]
    have hne : ¬ r = 0 := by omega
    simp only [pressureDropText, hne, if_false]
    rw [hhead (by omega), hget r hr]

/-- Witness of C7: the general statement applied to the three-reading table, whose
pressure column is column 1. -/
theorem calculatePressureDrop_values_witness :
    (calculatePressureDrop milliLib pressureWidget).1.success = true ∧
    (calculatePressureDrop milliLib pressureWidget).1.addedColumnIndex = ((1 : Nat) : Int) + 1 ∧
    (calculatePressureDrop milliLib pressureWidget).2.m_dataModel.rowCount
      = pressureWidget.m_dataModel.rowCount ∧
    (calculatePressureDrop milliLib pressureWidget).2.m_dataModel.columnCount
      = pressureWidget.m_dataModel.columnCount + 1 ∧
    (0 < pressureWidget.m_dataModel.rowCount →
      (calculatePressureDrop milliLib pressureWidget).2.m_dataModel.item 0 (1 + 1)
        = some "0.000".toList) ∧
    (∀ r, 0 < r → r < pressureWidget.m_dataModel.rowCount →
      (calculatePressureDrop milliLib pressureWidget).2.m_dataModel.item r (1 + 1) =
        some (milliLib.number (milliLib.sub
          (pressureOfText milliLib (pressureWidget.m_dataModel.text 0 1))
          (pressureOfText milliLib (pressureWidget.m_dataModel.text r 1))) 3)) :=
  calculatePressureDrop_values.1 Int milliLib pressureWidget 1 (by decide)

/-- `findPressureColumn` finds nothing exactly when no column definition at an index
below the column count has type Pressure and no lower-cased header passes the header
test. -/
theorem findPressureColumn_eq_none_iff {D : Type} (qt : QtLib D) (w : DataEditorWidget D) :
    findPressureColumn qt w = none ↔
      (∀ i d, i < w.m_dataModel.columnCount → w.m_columnDefinitions.get? i = some d →
        d.type ≠ WellTestColumnType.Pressure) ∧
      (∀ col, col < w.m_dataModel.columnCount →
        isPressureHeader (qt.toLower (w.m_dataModel.headerData col)) = false) := by
  unfold findPressureColumn
  constructor
  · intro h
    split at h
    · exact absurd h (by simp)
    · rename_i hdefs
      rw [List.find?_eq_none] at hdefs h
      constructor
      · intro i d hi hd
        have hlen : i < w.m_columnDefinitions.length := by
          by_contra hcon
          rw [List.get?_eq_none.2 (by omega)] at hd
          exact absurd hd (by simp)
        have := hdefs i (List.mem_range.2 (by omega))
        rw [hd] at this
        simpa using this
      · intro col hcol
        have := h col (List.mem_range.2 hcol)
        simpa using this
  · rintro ⟨h1, h2⟩
    have hdefs : (List.range (min w.m_columnDefinitions.length w.m_dataModel.columnCount)).find?
        (fun i => (w.m_columnDefinitions.get? i).any
          (fun d => d.type == WellTestColumnType.Pressure)) = none := by
      rw [List.find?_eq_none]
      intro i hi
      rw [List.mem_range] at hi
      cases hd : w.m_columnDefinitions.get? i with
      | none => simp
      | some d =>
        have := h1 i d (by omega) hd
        simpa using this
    rw [hdefs]
    simp only
    rw [List.find?_eq_none]
    intro col hcol
    rw [List.mem_range] at hcol
    simp [h2 col hcol]

/-- C8: `calculatePressureDrop` returns `success = false` exactly when no column
definition at an index below the column count has type Pressure and no column's
lower-cased header contains `pressure`, 压力 or 压强 or equals `p`; in that case the
error message is not empty and the widget (table and column definitions) is unchanged. -/
theorem calculatePressureDrop_fails_iff {D : Type} (qt : QtLib D) (w : DataEditorWidget D) :
    ((calculatePressureDrop qt w).1.success = false ↔
      (∀ i d, i < w.m_dataModel.columnCount → w.m_columnDefinitions.get? i = some d →
        d.type ≠ WellTestColumnType.Pressure) ∧
      (∀ col, col < w.m_dataModel.columnCount →
        isPressureHeader (qt.toLower (w.m_dataModel.headerData col)) = false)) ∧
    ((calculatePressureDrop qt w).1.success = false →
      (calculatePressureDrop qt w).1.errorMessage ≠ [] ∧
      (calculatePressureDrop qt w).2 = w) := by
  rw [← findPressureColumn_eq_none_iff]
  cases hf : findPressureColumn qt w with
  | none =>
    simp only [calculatePressureDrop, hf, true_and, iff_true, forall_const]
    refine ⟨?_, trivial⟩
    intro hnil
    have := congrArg List.length hnil
    simp at this
  | some pc =>
    simp [calculatePressureDrop, hf]

/-- Witness of C8 on a table with the headers `Time` and `Rate` and no column
definition: the call fails, reports a message and leaves the widget as it was. -/
theorem calculatePressureDrop_fails_iff_witness :
    (calculatePressureDrop milliLib noPressureWidget).1.success = false ∧
    (calculatePressureDrop milliLib noPressureWidget).1.errorMessage ≠ [] ∧
    (calculatePressureDrop milliLib noPressureWidget).2 = noPressureWidget :=
  ⟨by decide,
    (calculatePressureDrop_fails_iff milliLib noPressureWidget).2 (by decide)⟩

/-! ## Time normalisation -/

theorem findSome_range' {α : Type} (g : Nat → Option α) (v : α) :
    ∀ (n s b : Nat), s ≤ b → b < s + n → g b = some v → (∀ i, s ≤ i → i < b → g i = none) →
      (List.range' s n).findSome? g = some v := by
  intro n
  induction n with
  | zero => intro s b h1 h2; omega
  | succ n ih =>
    intro s b h1 h2 hg hfirst
    rw [List.range'_succ, List.findSome?_cons]
    by_cases hs : s = b
    · subst hs; rw [hg]
    · rw [hfirst s (Nat.le_refl _) (by omega)]
      exact ih (s + 1) b (by omega) (by omega) hg (fun i hi hib => hfirst i (by omega) hib)

/-- The first row of `0 .. n-1` on which `g` answers is row `b` when `g` answers on `b`
and on no earlier row. -/
theorem findSome_range {α : Type} (g : Nat → Option α) (v : α) (n b : Nat) (hb : b < n)
    (hg : g b = some v) (hfirst : ∀ i, i < b → g i = none) :
    (List.range n).findSome? g = some v := by
  rw [List.range_eq_range']
  exact findSome_range' g v n 0 b (Nat.zero_le _) (by omega) hg (fun i _ hi => hfirst i hi)

theorem parseTimeString_nil {D : Type} (qt : QtLib D) : parseTimeString qt [] = none := rfl

theorem parseDateString_nil {D : Type} (qt : QtLib D) : parseDateString qt [] = none := rfl

/-- Parsing a source item is parsing the trimmed text read from the cell. -/
theorem parseTimeItem_eq {D : Type} (qt : QtLib D) (m : QStandardItemModel) (r c : Nat) :
    parseTimeItem qt (m.item r c) = parseTimeString qt (trimmed (m.text r c)) := by
  rw [QStandardItemModel.text_eq]
  cases m.item r c with
  | none => rfl
  | some t => rfl

/-- A cell whose trimmed text parses as a time lies inside the table. -/
theorem inside_of_parseTime {D : Type} (qt : QtLib D) (m : QStandardItemModel) (r c : Nat)
    (t : QTime) (h : parseTimeString qt (trimmed (m.text r c)) = some t) :
    r < m.rowCount ∧ c < m.columnCount ∧ ∃ s, m.item r c = some s := by
  have hne : m.item r c ≠ none := by
    intro hn
    rw [QStandardItemModel.text_eq, hn] at h
    exact absurd h (by simp [trimmed_nil, parseTimeString_nil])
  refine ⟨?_, ?_, ?_⟩
  · by_contra hcon; exact hne (m.item_of_row_ge c (by omega))
  · by_contra hcon; exact hne (m.item_of_col_ge r (by omega))
  · cases hi : m.item r c with
    | none => exact absurd hi hne
    | some s => exact ⟨s, rfl⟩

/-- A cell whose trimmed text parses as a date lies inside the table. -/
theorem inside_of_parseDate {D : Type} (qt : QtLib D) (m : QStandardItemModel) (r c : Nat)
    (d : QDate) (h : parseDateString qt (trimmed (m.text r c)) = some d) :
    r < m.rowCount ∧ c < m.columnCount ∧ ∃ s, m.item r c = some s := by
  have hne : m.item r c ≠ none := by
    intro hn
    rw [QStandardItemModel.text_eq, hn] at h
    exact absurd h (by simp [trimmed_nil, parseDateString_nil])
  refine ⟨?_, ?_, ?_⟩
  · by_contra hcon; exact hne (m.item_of_row_ge c (by omega))
  · by_contra hcon; exact hne (m.item_of_col_ge r (by omega))
  · cases hi : m.item r c with
    | none => exact absurd hi hne
    | some s => exact ⟨s, rfl⟩

/-- A writing loop whose texts do not depend on the column being written: inside the
table it keeps the shape and writes, in each row it visits, the text computed from the
table the loop started on. -/
theorem fillColumnFrom_spec (cellText : QStandardItemModel → Nat → QString) (column : Nat)
    (hinv : ∀ (m : QStandardItemModel) (r : Nat) (v : QString) (i : Nat),
      cellText (m.setItem r column v) i = cellText m i) :
    ∀ (count row : Nat) (m : QStandardItemModel), column < m.columnCount →
      row + count ≤ m.rowCount →
      (fillColumnFrom cellText column row count m).rowCount = m.rowCount ∧
      (fillColumnFrom cellText column row count m).columnCount = m.columnCount ∧
      (∀ i j, (fillColumnFrom cellText column row count m).item i j =
        if j = column ∧ row ≤ i ∧ i < row + count then some (cellText m i) else m.item i j) := by
  intro count
  induction count with
  | zero =>
    intro row m _ _
    refine ⟨rfl, rfl, fun i j => ?_⟩
    have : ¬ (j = column ∧ row ≤ i ∧ i < row + 0) := by omega
    rw [if_neg this]
    rfl
  | succ n ih =>
    intro row m hc hr
    have hc1 : column < (m.setItem row column (cellText m row)).columnCount := by
      rw [QStandardItemModel.columnCount_setItem]; omega
    have hr1 : row + 1 + n ≤ (m.setItem row column (cellText m row)).rowCount := by
      rw [QStandardItemModel.rowCount_setItem]; omega
    obtain ⟨h1, h2, h3⟩ := ih (row + 1) _ hc1 hr1
    simp only [fillColumnFrom]
    refine ⟨?_, ?_, ?_⟩
    · rw [h1, QStandardItemModel.rowCount_setItem]; omega
    · rw [h2, QStandardItemModel.columnCount_setItem]; omega
    · intro i j
      rw [h3, QStandardItemModel.item_setItem, hinv]
      by_cases hj : j = column
      · subst hj
        by_cases hi : i = row
        · subst hi
          have : ¬ (j = j ∧ i + 1 ≤ i ∧ i < i + 1 + n) := by omega
          rw [if_neg this]
          simp
        · by_cases hlt : row ≤ i ∧ i < row + (n + 1)
          · have : j = j ∧ row + 1 ≤ i ∧ i < row + 1 + n := by omega
            rw [if_pos this, if_pos ⟨rfl, hlt⟩]
          · have : ¬ (j = j ∧ row + 1 ≤ i ∧ i < row + 1 + n) := by omega
            rw [if_neg this, if_neg (fun h => hi h.1), if_neg (fun h => hlt h.2)]
      · have h1 : ¬ (j = column ∧ row + 1 ≤ i ∧ i < row + 1 + n) := fun h => hj h.1
        have h2 : ¬ (j = column ∧ row ≤ i ∧ i < row + (n + 1)) := fun h => hj h.1
        have h3 : ¬ (i = row ∧ j = column) := fun h => hj h.2
        rw [if_neg h1, if_neg h3, if_neg h2]

theorem finishTimeConversion_model {D : Type} (qt : QtLib D) (w : DataEditorWidget D)
    (m : QStandardItemModel) (k : Nat) (name unit : QString) (n : Nat) :
    (finishTimeConversion qt w m k name unit n).1.success = true ∧
    (finishTimeConversion qt w m k name unit n).1.addedColumnIndex = (k : Int) ∧
    (finishTimeConversion qt w m k name unit n).2.m_dataModel = m :=
  ⟨rfl, rfl, rfl⟩

/-- Time-only mode with a source column inside the table and a baseline: what
`convertTimeColumn` returns. -/
theorem convertTimeColumn_timeOnly_eq {D : Type} (qt : QtLib D) (w : DataEditorWidget D)
    (config : TimeConversionConfig) (src b : Nat) (tb : QTime)
    (hmode : config.useDateAndTime = false) (hsrc : config.sourceTimeColumnIndex = (src : Int))
    (hb : parseTimeString qt (trimmed (w.m_dataModel.text b src)) = some tb)
    (hfirst : ∀ i, i < b → parseTimeString qt (trimmed (w.m_dataModel.text i src)) = none) :
    (convertTimeColumn qt w config).1.success = true ∧
    (convertTimeColumn qt w config).1.addedColumnIndex = (src : Int) + 1 ∧
    (convertTimeColumn qt w config).2.m_dataModel.rowCount = w.m_dataModel.rowCount ∧
    (convertTimeColumn qt w config).2.m_dataModel.columnCount = w.m_dataModel.columnCount + 1 ∧
    ∀ r, r < w.m_dataModel.rowCount →
      (convertTimeColumn qt w config).2.m_dataModel.item r (src + 1) =
        some (timeOnlyText qt tb config.outputUnit r
          (parseTimeString qt (trimmed (w.m_dataModel.text r src)))) := by
  obtain ⟨hbr, hsc, _⟩ := inside_of_parseTime qt w.m_dataModel b src tb hb
  generalize hname : config.newColumnName ++ backslash :: unitTextOf config.outputUnit = name
  obtain ⟨a1, a2, a3⟩ := insertHeaded_spec w.m_dataModel (src + 1) name (by omega)
  generalize hm1 : (w.m_dataModel.insertColumn (src + 1)).setHorizontalHeaderItem (src + 1) name
    = m1 at a1 a2 a3
  have hvals : (List.range m1.rowCount).map (fun row => parseTimeItem qt (m1.item row src)) =
      (List.range w.m_dataModel.rowCount).map
        (fun row => parseTimeString qt (trimmed (w.m_dataModel.text row src))) := by
    rw [a1]
    apply List.map_congr_left
    intro row _
    rw [a3 row src (by omega), parseTimeItem_eq]
  have hbase : ((List.range w.m_dataModel.rowCount).map
      (fun row => parseTimeString qt (trimmed (w.m_dataModel.text row src)))).findSome? id
      = some tb := by
    rw [List.findSome?_map]
    exact findSome_range _ tb _ b hbr hb hfirst
  have hget : ∀ r, r < w.m_dataModel.rowCount →
      ((List.range w.m_dataModel.rowCount).map
        (fun row => parseTimeString qt (trimmed (w.m_dataModel.text row src)))).getD r none
      = parseTimeString qt (trimmed (w.m_dataModel.text r src)) := by
    intro r hr
    simp [List.getD_eq_getElem?_getD, List.getElem?_map, List.getElem?_range hr]
  have hcond : ¬ (config.sourceTimeColumnIndex < 0 ∨
      config.sourceTimeColumnIndex ≥ (w.m_dataModel.columnCount : Int)) := by
    rw [hsrc]; omega
  have hnat : config.sourceTimeColumnIndex.toNat = src := by rw [hsrc]; simp
  have hout : convertTimeColumn qt w config =
      finishTimeConversion qt w
        (setColumnItemsFrom (src + 1) 0
          ((List.range m1.rowCount).map (fun row =>
            timeOnlyText qt tb config.outputUnit row
              (((List.range w.m_dataModel.rowCount).map
                (fun row => parseTimeString qt (trimmed (w.m_dataModel.text row src)))).getD
                  row none))) m1)
        (src + 1) name (unitTextOf config.outputUnit)
        (((List.range w.m_dataModel.rowCount).map
          (fun row => parseTimeString qt (trimmed (w.m_dataModel.text row src)))).filter
            Option.isSome).length := by
    simp only [convertTimeColumn, hmode, Bool.false_eq_true, if_false, hcond, hnat, hname, hm1,
      hvals, hbase]
  rw [hout]
  obtain ⟨e1, e2, _, e4⟩ := setColumnItemsFrom_inside (src + 1)
    ((List.range m1.rowCount).map (fun row =>
      timeOnlyText qt tb config.outputUnit row
        (((List.range w.m_dataModel.rowCount).map
          (fun row => parseTimeString qt (trimmed (w.m_dataModel.text row src)))).getD
            row none))) 0 m1 (by omega) (by simp)
  refine ⟨rfl, by simp [finishTimeConversion], ?_, ?_, ?_⟩
  · show (setColumnItemsFrom _ _ _ _).rowCount = _
    rw [e1, a1]
  · show (setColumnItemsFrom _ _ _ _).columnCount = _
    rw [e2, a2]
  · intro r hr
    show (setColumnItemsFrom _ _ _ _).item r (src + 1) = _
    rw [e4]
    have : src + 1 = src + 1 ∧ 0 ≤ r ∧ r < 0 + ((List.range m1.rowCount).map (fun row =>
        timeOnlyText qt tb config.outputUnit row
          (((List.range w.m_dataModel.rowCount).map
            (fun row => parseTimeString qt (trimmed (w.m_dataModel.text row src)))).getD
              row none))).length := by
      simp; omega
    rw [if_pos this]
    simp only [Nat.sub_zero, List.get?_eq_getElem?, List.getElem?_map,
      List.getElem?_range (show r < m1.rowCount by omega), Option.map_some']
    rw [hget r hr]

theorem dateTimeText_setItem {D : Type} (qt : QtLib D) (baseDate : QDate) (baseTime : QTime)
    (unit : QString) (dc tc column : Nat) (hdc : dc ≠ column) (htc : tc ≠ column)
    (m : QStandardItemModel) (r : Nat) (v : QString) (i : Nat) :
    dateTimeText qt baseDate baseTime unit dc tc (m.setItem r column v) i =
      dateTimeText qt baseDate baseTime unit dc tc m i := by
  unfold dateTimeText
  rw [QStandardItemModel.item_setItem, QStandardItemModel.item_setItem,
    if_neg (fun h => hdc h.2), if_neg (fun h => htc h.2)]

/-- Date+time mode with both source columns inside the table and a baseline: what
`convertTimeColumn` returns. -/
theorem convertTimeColumn_dateTime_eq {D : Type} (qt : QtLib D) (w : DataEditorWidget D)
    (config : TimeConversionConfig) (dc tc b : Nat) (db : QDate) (tb : QTime)
    (hmode : config.useDateAndTime = true) (hdc : config.dateColumnIndex = (dc : Int))
    (htc : config.timeColumnIndex = (tc : Int))
    (hdcin : dc < w.m_dataModel.columnCount) (htcin : tc < w.m_dataModel.columnCount)
    (hbr : b < w.m_dataModel.rowCount)
    (hb : parseDateTimeItems qt (w.m_dataModel.item b dc) (w.m_dataModel.item b tc)
      = some (db, tb))
    (hfirst : ∀ i, i < b →
      parseDateTimeItems qt (w.m_dataModel.item i dc) (w.m_dataModel.item i tc) = none) :
    (convertTimeColumn qt w config).1.success = true ∧
    (convertTimeColumn qt w config).1.addedColumnIndex = ((max dc tc : Nat) : Int) + 1 ∧
    (convertTimeColumn qt w config).2.m_dataModel.rowCount = w.m_dataModel.rowCount ∧
    (convertTimeColumn qt w config).2.m_dataModel.columnCount = w.m_dataModel.columnCount + 1 ∧
    ∀ r, r < w.m_dataModel.rowCount →
      (convertTimeColumn qt w config).2.m_dataModel.item r (max dc tc + 1) =
        some (dateTimeText qt db tb config.outputUnit dc tc w.m_dataModel r) := by
  generalize hname : config.newColumnName ++ backslash :: unitTextOf config.outputUnit = name
  obtain ⟨a1, a2, a3⟩ := insertHeaded_spec w.m_dataModel (max dc tc + 1) name (by omega)
  generalize hm1 : (w.m_dataModel.insertColumn (max dc tc + 1)).setHorizontalHeaderItem
    (max dc tc + 1) name = m1 at a1 a2 a3
  have hitems : ∀ row, parseDateTimeItems qt (m1.item row dc) (m1.item row tc) =
      parseDateTimeItems qt (w.m_dataModel.item row dc) (w.m_dataModel.item row tc) := by
    intro row
    rw [a3 row dc (by omega), a3 row tc (by omega)]
  have hfun : (fun row => parseDateTimeItems qt (m1.item row dc) (m1.item row tc)) =
      (fun row => parseDateTimeItems qt (w.m_dataModel.item row dc)
        (w.m_dataModel.item row tc)) := funext hitems
  have hbase : (List.range m1.rowCount).findSome?
      (fun row => parseDateTimeItems qt (m1.item row dc) (m1.item row tc)) = some (db, tb) := by
    rw [hfun, a1]
    exact findSome_range _ (db, tb) _ b hbr hb hfirst
  have hcond : ¬ (config.dateColumnIndex < 0 ∨
      config.dateColumnIndex ≥ (w.m_dataModel.columnCount : Int) ∨
      config.timeColumnIndex < 0 ∨
      config.timeColumnIndex ≥ (w.m_dataModel.columnCount : Int)) := by
    rw [hdc, htc]; omega
  have hnat1 : config.dateColumnIndex.toNat = dc := by rw [hdc]; simp
  have hnat2 : config.timeColumnIndex.toNat = tc := by rw [htc]; simp
  have hout : convertTimeColumn qt w config =
      finishTimeConversion qt w
        (fillColumnFrom (dateTimeText qt db tb config.outputUnit dc tc) (max dc tc + 1) 0
          m1.rowCount m1)
        (max dc tc + 1) name (unitTextOf config.outputUnit)
        ((List.range m1.rowCount).filter (fun row =>
          (parseDateTimeItems qt (m1.item row dc) (m1.item row tc)).isSome)).length := by
    simp only [convertTimeColumn, hmode, if_true, hcond, if_false, hnat1, hnat2, hname, hm1,
      hbase]
  rw [hout]
  obtain ⟨e1, e2, e3⟩ := fillColumnFrom_spec (dateTimeText qt db tb config.outputUnit dc tc)
    (max dc tc + 1)
    (dateTimeText_setItem qt db tb config.outputUnit dc tc (max dc tc + 1) (by omega) (by omega))
    m1.rowCount 0 m1 (by omega) (by omega)
  refine ⟨rfl, by simp [finishTimeConversion], ?_, ?_, ?_⟩
  · show (fillColumnFrom _ _ _ _ _).rowCount = _
    rw [e1, a1]
  · show (fillColumnFrom _ _ _ _ _).columnCount = _
    rw [e2, a2]
  · intro r hr
    show (fillColumnFrom _ _ _ _ _).item r (max dc tc + 1) = _
    rw [e3]
    have : max dc tc + 1 = max dc tc + 1 ∧ 0 ≤ r ∧ r < 0 + m1.rowCount := by omega
    rw [if_pos this]
    unfold dateTimeText
    rw [hitems r]

/-- C9: in both modes of `convertTimeColumn`, when the source text(s) of row 0 parse (a
time in time-only mode; a date and a time in date+time mode), the conversion succeeds
and the derived cell of row 0, in the column just added, is exactly the text `0.000`,
whatever the output unit. -/
theorem convertTimeColumn_row_zero {D : Type} (qt : QtLib D) (w : DataEditorWidget D)
    (config : TimeConversionConfig) :
    (config.useDateAndTime = false → ∀ (src : Nat) (t0 : QTime),
      config.sourceTimeColumnIndex = (src : Int) →
      parseTimeString qt (trimmed (w.m_dataModel.text 0 src)) = some t0 →
      (convertTimeColumn qt w config).1.success = true ∧
      (convertTimeColumn qt w config).1.addedColumnIndex = (src : Int) + 1 ∧
      (convertTimeColumn qt w config).2.m_dataModel.item 0 (src + 1) = some "0.000".toList) ∧
    (config.useDateAndTime = true → ∀ (dc tc : Nat) (d0 : QDate) (t0 : QTime),
      config.dateColumnIndex = (dc : Int) → config.timeColumnIndex = (tc : Int) →
      parseDateString qt (trimmed (w.m_dataModel.text 0 dc)) = some d0 →
      parseTimeString qt (trimmed (w.m_dataModel.text 0 tc)) = some t0 →
      (convertTimeColumn qt w config).1.success = true ∧
      (convertTimeColumn qt w config).1.addedColumnIndex = ((max dc tc : Nat) : Int) + 1 ∧
      (convertTimeColumn qt w config).2.m_dataModel.item 0 (max dc tc + 1)
        = some "0.000".toList) := by
  constructor
  · intro hmode src t0 hsrc h0
    obtain ⟨hr, _, _⟩ := inside_of_parseTime qt w.m_dataModel 0 src t0 h0
    obtain ⟨g1, g2, _, _, g5⟩ := convertTimeColumn_timeOnly_eq qt w config src 0 t0 hmode hsrc h0
      (fun i hi => absurd hi (Nat.not_lt_zero i))
    refine ⟨g1, g2, ?_⟩
    rw [g5 0 hr, h0]
    rfl
  · intro hmode dc tc d0 t0 hdc htc hd ht
    obtain ⟨hr, hdcin, sd, hsd⟩ := inside_of_parseDate qt w.m_dataModel 0 dc d0 hd
    obtain ⟨_, htcin, st, hst⟩ := inside_of_parseTime qt w.m_dataModel 0 tc t0 ht
    have hb : parseDateTimeItems qt (w.m_dataModel.item 0 dc) (w.m_dataModel.item 0 tc)
        = some (d0, t0) := by
      rw [QStandardItemModel.text_eq, hsd] at hd
      rw [QStandardItemModel.text_eq, hst] at ht
      simp only [Option.getD_some] at hd ht
      simp only [hsd, hst, parseDateTimeItems, hd, ht]
    obtain ⟨g1, g2, _, _, g5⟩ := convertTimeColumn_dateTime_eq qt w config dc tc 0 d0 t0 hmode
      hdc htc hdcin htcin hr hb (fun i hi => absurd hi (Nat.not_lt_zero i))
    refine ⟨g1, g2, ?_⟩
    rw [g5 0 hr]
    simp only [dateTimeText, hb, if_true]

/-- Witness of C9: the clock table converted to minutes (time-only mode) and the
date-and-clock table converted to hours (date+time mode). -/
theorem convertTimeColumn_row_zero_witness :
    ((convertTimeColumn milliLib clockWidget (clockConfig ['m'])).1.success = true ∧
      (convertTimeColumn milliLib clockWidget (clockConfig ['m'])).1.addedColumnIndex
        = ((0 : Nat) : Int) + 1 ∧
      (convertTimeColumn milliLib clockWidget (clockConfig ['m'])).2.m_dataModel.item 0 (0 + 1)
        = some "0.000".toList) ∧
    ((convertTimeColumn milliLib dateClockWidget (dateClockConfig ['h'])).1.success = true ∧
      (convertTimeColumn milliLib dateClockWidget (dateClockConfig ['h'])).1.addedColumnIndex
        = ((max 0 1 : Nat) : Int) + 1 ∧
      (convertTimeColumn milliLib dateClockWidget
        (dateClockConfig ['h'])).2.m_dataModel.item 0 (max 0 1 + 1) = some "0.000".toList) :=
  ⟨(convertTimeColumn_row_zero milliLib clockWidget (clockConfig ['m'])).1 rfl 0
      ⟨36000000⟩ rfl (by decide),
    (convertTimeColumn_row_zero milliLib dateClockWidget (dateClockConfig ['h'])).2 rfl 0 1
      ⟨dayNumber 2024 1 1⟩ ⟨86340000⟩ rfl rfl (by decide) (by decide)⟩

/-- C10: in time-only mode, with the baseline `tb` the time of the first row whose text
parses, the conversion succeeds; every row `r > 0` whose text parses as `t` gets the
3-decimal rendering of `d'` converted to the output unit, where `d` is the whole-second
difference from `tb` to `t`, `d' = d` when `d ≥ 0` and `d' = d + 86400` when `d < 0`;
every row whose text does not parse gets an empty cell; the conversion to the unit is
`d'` for `s`, `d'/60` for `m` and `d'/3600` for `h`. -/
theorem convertTimeColumn_timeOnly_values {D : Type} (qt : QtLib D) (w : DataEditorWidget D)
    (config : TimeConversionConfig) (src b : Nat) (tb : QTime)
    (hmode : config.useDateAndTime = false) (hsrc : config.sourceTimeColumnIndex = (src : Int))
    (hb : parseTimeString qt (trimmed (w.m_dataModel.text b src)) = some tb)
    (hfirst : ∀ i, i < b → parseTimeString qt (trimmed (w.m_dataModel.text i src)) = none) :
    (convertTimeColumn qt w config).1.success = true ∧
    (∀ r t, 0 < r → parseTimeString qt (trimmed (w.m_dataModel.text r src)) = some t →
      (convertTimeColumn qt w config).2.m_dataModel.item r (src + 1) =
        some (qt.number (convertTimeToUnit qt
          (qt.ofInt (if 0 ≤ tb.secsTo t then tb.secsTo t else tb.secsTo t + 86400))
          config.outputUnit) 3)) ∧
    (∀ r, r < w.m_dataModel.rowCount →
      parseTimeString qt (trimmed (w.m_dataModel.text r src)) = none →
      (convertTimeColumn qt w config).2.m_dataModel.item r (src + 1) = some []) ∧
    (∀ x : D, convertTimeToUnit qt x ['s'] = x ∧
      convertTimeToUnit qt x ['m'] = qt.div x (qt.ofInt 60) ∧
      convertTimeToUnit qt x ['h'] = qt.div x (qt.ofInt 3600)) := by
  obtain ⟨g1, _, _, _, g5⟩ := convertTimeColumn_timeOnly_eq qt w config src b tb hmode hsrc hb
    hfirst
  refine ⟨g1, ?_, ?_, ?_⟩
  · intro r t hr0 ht
    obtain ⟨hr, _, _⟩ := inside_of_parseTime qt w.m_dataModel r src t ht
    rw [g5 r hr, ht]
    have hne : ¬ r = 0 := by omega
    simp only [timeOnlyText, hne, if_false, calculateTimeDifference, wrappedSeconds]
    by_cases hd : tb.secsTo t < 0
    · rw [if_pos hd, if_neg (by omega)]
      have e : (24 : Int) * 3600 = 86400 := by norm_num
      rw [e]
    · rw [if_neg hd, if_pos (by omega)]
  · intro r hr hnone
    rw [g5 r hr, hnone]
    rfl
  · intro x
    refine ⟨by simp [convertTimeToUnit], ?_, ?_⟩
    · simp [convertTimeToUnit]
    · simp [convertTimeToUnit]

/-- Witness of C10: the clock table (10:00:00, 10:01:30, 09:59:00, unreadable) converted
to seconds; the derived column reads 0.000, 90.000, 86340.000 and an empty cell. -/
theorem convertTimeColumn_timeOnly_values_witness :
    ((convertTimeColumn milliLib clockWidget (clockConfig ['s'])).1.success = true ∧
      (∀ r t, 0 < r →
        parseTimeString milliLib (trimmed (clockWidget.m_dataModel.text r 0)) = some t →
        (convertTimeColumn milliLib clockWidget (clockConfig ['s'])).2.m_dataModel.item r (0 + 1)
          = some (milliLib.number (convertTimeToUnit milliLib
            (milliLib.ofInt (if 0 ≤ QTime.secsTo ⟨36000000⟩ t then QTime.secsTo ⟨36000000⟩ t
              else QTime.secsTo ⟨36000000⟩ t + 86400))
            (clockConfig ['s']).outputUnit) 3)) ∧
      (∀ r, r < clockWidget.m_dataModel.rowCount →
        parseTimeString milliLib (trimmed (clockWidget.m_dataModel.text r 0)) = none →
        (convertTimeColumn milliLib clockWidget (clockConfig ['s'])).2.m_dataModel.item r (0 + 1)
          = some []) ∧
      (∀ x : Int, convertTimeToUnit milliLib x ['s'] = x ∧
        convertTimeToUnit milliLib x ['m'] = milliLib.div x (milliLib.ofInt 60) ∧
        convertTimeToUnit milliLib x ['h'] = milliLib.div x (milliLib.ofInt 3600))) ∧
    (List.range 4).map
        (fun r => (convertTimeColumn milliLib clockWidget
          (clockConfig ['s'])).2.m_dataModel.text r 1)
      = ["0.000".toList, "90.000".toList, "86340.000".toList, []] :=
  ⟨convertTimeColumn_timeOnly_values milliLib clockWidget (clockConfig ['s']) 0 0 ⟨36000000⟩
      rfl rfl (by decide) (by decide),
    by decide⟩

/-! ## Roll-back of the derived column -/

theorem SameTable.tableEq {a b : QStandardItemModel} (h : SameTable a b) : TableEq a b := by
  obtain ⟨h1, h2, h3, h4⟩ := h
  refine ⟨h1, h2, fun r c => ?_, fun c => ?_⟩
  · rw [QStandardItemModel.text_eq, QStandardItemModel.text_eq, h3]
  · rw [QStandardItemModel.headerData_eq, QStandardItemModel.headerData_eq, h2, h4]

theorem SameTable.refl (a : QStandardItemModel) : SameTable a a :=
  ⟨rfl, rfl, fun _ _ => rfl, fun _ => rfl⟩

/-- Inserting a headed column at a position inside or just after the table and removing
it again gives back the table, item by item. -/
theorem rollBackColumn_insertHeaded (m : QStandardItemModel) (k : Nat) (name : QString)
    (hk : k ≤ m.columnCount) :
    SameTable (rollBackColumn ((m.insertColumn k).setHorizontalHeaderItem k name) k) m := by
  have hc : (m.insertColumn k).columnCount = m.columnCount + 1 :=
    m.columnCount_insertColumn hk
  have hc1 : ((m.insertColumn k).setHorizontalHeaderItem k name).columnCount
      = m.columnCount + 1 := by
    rw [QStandardItemModel.columnCount_setHeader, hc]; omega
  have hlt : k < ((m.insertColumn k).setHorizontalHeaderItem k name).columnCount := by
    rw [hc1]; omega
  unfold rollBackColumn
  rw [if_pos hlt]
  refine ⟨?_, ?_, ?_, ?_⟩
  · rw [QStandardItemModel.rowCount_removeColumn, QStandardItemModel.rowCount_setHeader,
      QStandardItemModel.rowCount_insertColumn]
  · rw [QStandardItemModel.columnCount_removeColumn _ hlt, hc1]; omega
  · intro i j
    rw [QStandardItemModel.item_removeColumn _ hlt]
    by_cases hj : j < k
    · rw [if_pos hj, QStandardItemModel.item_setHeader _ _ (by omega),
        QStandardItemModel.item_insertColumn _ hk, if_pos hj]
    · rw [if_neg hj, QStandardItemModel.item_setHeader _ _ (by omega),
        QStandardItemModel.item_insertColumn _ hk, if_neg (by omega), if_neg (by omega)]
      rfl
  · intro j
    rw [QStandardItemModel.header_removeColumn _ hlt]
    by_cases hj : j < k
    · rw [if_pos hj, QStandardItemModel.header_setHeader, if_neg (by omega),
        QStandardItemModel.header_insertColumn _ hk, if_pos hj]
    · rw [if_neg hj, QStandardItemModel.header_setHeader, if_neg (by omega),
        QStandardItemModel.header_insertColumn _ hk, if_neg (by omega), if_neg (by omega)]
      rfl

/-- Parsing the two source items of a row is parsing the trimmed texts read from the two
cells. -/
theorem parseDateTimeItems_eq_none {D : Type} (qt : QtLib D) (m : QStandardItemModel)
    (r dc tc : Nat)
    (h : ¬ ∃ d t, parseDateString qt (trimmed (m.text r dc)) = some d ∧
      parseTimeString qt (trimmed (m.text r tc)) = some t) :
    parseDateTimeItems qt (m.item r dc) (m.item r tc) = none := by
  rw [QStandardItemModel.text_eq, QStandardItemModel.text_eq] at h
  cases h1 : m.item r dc with
  | none => rfl
  | some sd =>
    cases h2 : m.item r tc with
    | none => rfl
    | some st =>
      rw [h1, h2] at h
      simp only [Option.getD_some] at h
      simp only [parseDateTimeItems]
      cases h3 : parseDateString qt (trimmed sd) with
      | none => rfl
      | some d =>
        cases h4 : parseTimeString qt (trimmed st) with
        | none => rfl
        | some t => exact absurd ⟨d, t, h3, h4⟩ h

/-- C11: when no row yields a baseline (time-only mode: the source column index is
outside the table, or no row's source text parses as a time; date+time mode: a column
index is outside the table, or no row has both a date text and a time text that parse),
`convertTimeColumn` returns `success = false` with a non-empty error message, and the
table is item by item and header by header the table before the call (the inserted
column is removed again); the column definitions are unchanged. -/
theorem convertTimeColumn_no_baseline {D : Type} (qt : QtLib D) (w : DataEditorWidget D)
    (config : TimeConversionConfig)
    (hno : (config.useDateAndTime = false ∧
        ∀ r, r < w.m_dataModel.rowCount → 0 ≤ config.sourceTimeColumnIndex →
          parseTimeString qt
            (trimmed (w.m_dataModel.text r config.sourceTimeColumnIndex.toNat)) = none) ∨
      (config.useDateAndTime = true ∧
        ∀ r, r < w.m_dataModel.rowCount → 0 ≤ config.dateColumnIndex →
          0 ≤ config.timeColumnIndex →
          parseDateString qt
              (trimmed (w.m_dataModel.text r config.dateColumnIndex.toNat)) = none ∨
            parseTimeString qt
              (trimmed (w.m_dataModel.text r config.timeColumnIndex.toNat)) = none)) :
    (convertTimeColumn qt w config).1.success = false ∧
    (convertTimeColumn qt w config).1.errorMessage ≠ [] ∧
    SameTable (convertTimeColumn qt w config).2.m_dataModel w.m_dataModel ∧
    TableEq (convertTimeColumn qt w config).2.m_dataModel w.m_dataModel ∧
    (convertTimeColumn qt w config).2.m_columnDefinitions = w.m_columnDefinitions := by
  have hmsg : ∀ (s : String) (t : QString), s.toList = t → t.length ≠ 0 → t ≠ [] := by
    intro s t _ h hnil
    rw [hnil] at h
    exact h rfl
  suffices hmain : (convertTimeColumn qt w config).1.success = false ∧
      (convertTimeColumn qt w config).1.errorMessage ≠ [] ∧
      SameTable (convertTimeColumn qt w config).2.m_dataModel w.m_dataModel ∧
      (convertTimeColumn qt w config).2.m_columnDefinitions = w.m_columnDefinitions from
    ⟨hmain.1, hmain.2.1, hmain.2.2.1, hmain.2.2.1.tableEq, hmain.2.2.2⟩
  rcases hno with ⟨hmode, hrows⟩ | ⟨hmode, hrows⟩
  · by_cases hcond : config.sourceTimeColumnIndex < 0 ∨
        config.sourceTimeColumnIndex ≥ (w.m_dataModel.columnCount : Int)
    · simp only [convertTimeColumn, hmode, Bool.false_eq_true, if_false, hcond, if_true]
      refine ⟨trivial, ?_, SameTable.refl _, trivial⟩
      intro hnil
      have := congrArg List.length hnil
      simp at this
    · have hnn : 0 ≤ config.sourceTimeColumnIndex := by omega
      have hsrc : config.sourceTimeColumnIndex.toNat < w.m_dataModel.columnCount := by omega
      generalize hs : config.sourceTimeColumnIndex.toNat = src at hsrc hrows
      generalize hname : config.newColumnName ++ backslash :: unitTextOf config.outputUnit
        = name
      obtain ⟨a1, _, a3⟩ := insertHeaded_spec w.m_dataModel (src + 1) name (by omega)
      have hnone : ((List.range ((w.m_dataModel.insertColumn (src + 1)).setHorizontalHeaderItem
          (src + 1) name).rowCount).map
          (fun row => parseTimeItem qt
            (((w.m_dataModel.insertColumn (src + 1)).setHorizontalHeaderItem
              (src + 1) name).item row src))).findSome? id = none := by
        rw [List.findSome?_eq_none_iff]
        intro x hx
        obtain ⟨row, hrow, rfl⟩ := List.mem_map.1 hx
        rw [List.mem_range, a1] at hrow
        rw [a3 row src (by omega), parseTimeItem_eq]
        exact hrows row hrow hnn
      simp only [convertTimeColumn, hmode, Bool.false_eq_true, if_false, hcond, hs, hname,
        hnone]
      refine ⟨trivial, ?_, rollBackColumn_insertHeaded _ _ _ (by omega), trivial⟩
      intro hnil
      have := congrArg List.length hnil
      simp at this
  · by_cases hcond : config.dateColumnIndex < 0 ∨
        config.dateColumnIndex ≥ (w.m_dataModel.columnCount : Int) ∨
        config.timeColumnIndex < 0 ∨
        config.timeColumnIndex ≥ (w.m_dataModel.columnCount : Int)
    · simp only [convertTimeColumn, hmode, if_true, hcond]
      refine ⟨trivial, ?_, SameTable.refl _, trivial⟩
      intro hnil
      have := congrArg List.length hnil
      simp at this
    · have hnn1 : 0 ≤ config.dateColumnIndex := by omega
      have hnn2 : 0 ≤ config.timeColumnIndex := by omega
      have hdc : config.dateColumnIndex.toNat < w.m_dataModel.columnCount := by omega
      have htc : config.timeColumnIndex.toNat < w.m_dataModel.columnCount := by omega
      generalize hd : config.dateColumnIndex.toNat = dc at hdc hrows
      generalize ht : config.timeColumnIndex.toNat = tc at htc hrows
      generalize hname : config.newColumnName ++ backslash :: unitTextOf config.outputUnit
        = name
      obtain ⟨a1, _, a3⟩ := insertHeaded_spec w.m_dataModel (max dc tc + 1) name (by omega)
      have hnone : (List.range ((w.m_dataModel.insertColumn
          (max dc tc + 1)).setHorizontalHeaderItem (max dc tc + 1) name).rowCount).findSome?
          (fun row => parseDateTimeItems qt
            (((w.m_dataModel.insertColumn (max dc tc + 1)).setHorizontalHeaderItem
              (max dc tc + 1) name).item row dc)
            (((w.m_dataModel.insertColumn (max dc tc + 1)).setHorizontalHeaderItem
              (max dc tc + 1) name).item row tc)) = none := by
        rw [List.findSome?_eq_none_iff]
        intro row hrow
        rw [List.mem_range, a1] at hrow
        rw [a3 row dc (by omega), a3 row tc (by omega)]
        apply parseDateTimeItems_eq_none
        rintro ⟨d, t, h1, h2⟩
        rcases hrows row hrow hnn1 hnn2 with h | h
        · rw [h] at h1; exact absurd h1 (by simp)
        · rw [h] at h2; exact absurd h2 (by simp)
      simp only [convertTimeColumn, hmode, if_true, hcond, if_false, hd, ht, hname, hnone]
      refine ⟨trivial, ?_, rollBackColumn_insertHeaded _ _ _ (by omega), trivial⟩
      intro hnil
      have := congrArg List.length hnil
      simp at this

/-- Witness of C11: the conversion of a column holding no readable time, in time-only
mode. -/
theorem convertTimeColumn_no_baseline_witness :
    (convertTimeColumn milliLib noClockWidget (clockConfig ['s'])).1.success = false ∧
    (convertTimeColumn milliLib noClockWidget (clockConfig ['s'])).1.errorMessage ≠ [] ∧
    SameTable (convertTimeColumn milliLib noClockWidget (clockConfig ['s'])).2.m_dataModel
      noClockWidget.m_dataModel ∧
    TableEq (convertTimeColumn milliLib noClockWidget (clockConfig ['s'])).2.m_dataModel
      noClockWidget.m_dataModel ∧
    (convertTimeColumn milliLib noClockWidget (clockConfig ['s'])).2.m_columnDefinitions
      = noClockWidget.m_columnDefinitions :=
  convertTimeColumn_no_baseline milliLib noClockWidget (clockConfig ['s'])
    (Or.inl ⟨rfl, by decide⟩)

/-! ## Separator detection -/

theorem loadRows_some_split (sep : QString) (columns : Nat) :
    ∀ (lines : List QString) (k : Nat) (m m2 : QStandardItemModel),
      loadRows sep columns k lines m = some m2 →
      ∃ fs, List.Forall₂ (fun line f => splitCSVLine line sep = some f) lines fs := by
  intro lines
  induction lines with
  | nil => intro k m m2 _; exact ⟨[], List.Forall₂.nil⟩
  | cons line lines ih =>
    intro k m m2 h
    cases hs : splitCSVLine line sep with
    | none => simp [loadRows, hs] at h
    | some f =>
      simp only [loadRows, hs] at h
      obtain ⟨fs, hfs⟩ := ih _ _ _ h
      exact ⟨f :: fs, List.Forall₂.cons hs hfs⟩

/-- A call of `loadCsvFileWithConfig` that returns `true` went through every step: the
line at `startRow` exists and splits, the headers are not empty, the row loop ran to its
end, and the widget holds the table the row loop built. -/
theorem loadCsvFileWithConfig_success_inv {D : Type} (w : DataEditorWidget D)
    (content : QString) (config : LoadConfig) (r : LoadResult D)
    (h : loadCsvFileWithConfig w (some content) config = some r) (hs : r.success = true) :
    ∃ first fields m2, 1 ≤ config.startRow ∧
      (readLines w.m_maxDisplayRows content).get? (config.startRow - 1) = some first ∧
      splitCSVLine first config.separator = some fields ∧
      loadRows config.separator
        (if config.hasHeader then headersFromFields 0 fields
          else syntheticHeaders fields.length).length 0
        ((readLines w.m_maxDisplayRows content).drop
          (if config.hasHeader then config.startRow - 1 + 1 else config.startRow - 1))
        ((w.m_dataModel.setColumnCount
            (if config.hasHeader then headersFromFields 0 fields
              else syntheticHeaders fields.length).length).setHorizontalHeaderLabels
          (if config.hasHeader then headersFromFields 0 fields
            else syntheticHeaders fields.length)) = some m2 ∧
      r.widget.m_dataModel = m2 ∧
      r.widget.m_largeFileMode =
        (w.m_largeFileMode ||
          decide ((readLines w.m_maxDisplayRows content).length ≥ w.m_maxDisplayRows)) := by
  by_cases h1 : (readLines w.m_maxDisplayRows content).isEmpty = true
  · simp only [loadCsvFileWithConfig, Bool.false_eq_true, h1, if_true, Option.some.injEq] at h
    subst h
    exact absurd hs (by simp)
  by_cases h2 : config.startRow > (readLines w.m_maxDisplayRows content).length
  · simp only [loadCsvFileWithConfig, Bool.false_eq_true, h1, h2, if_true, if_false,
      Option.some.injEq] at h
    subst h
    exact absurd hs (by simp)
  by_cases h3 : config.startRow = 0
  · simp only [loadCsvFileWithConfig, Bool.false_eq_true, h1, h2, h3, if_true, if_false] at h
    exact absurd h (by simp)
  have hw : ∀ (b : Prop) [Decidable b],
      (if b then { w with m_largeFileMode := true } else w).m_dataModel = w.m_dataModel ∧
      (if b then { w with m_largeFileMode := true } else w).m_largeFileMode
        = (w.m_largeFileMode || decide b) := by
    intro b _
    by_cases hb : b <;> simp [hb]
  cases h4 : (readLines w.m_maxDisplayRows content).get? (config.startRow - 1) with
  | none =>
    simp only [loadCsvFileWithConfig, Bool.false_eq_true, h1, h2, h3, h4, if_true, if_false,
      Option.some.injEq] at h
    subst h
    exact absurd hs (by simp)
  | some first =>
    cases h5 : splitCSVLine first config.separator with
    | none =>
      simp only [loadCsvFileWithConfig, Bool.false_eq_true, h1, h2, h3, h4, h5, if_true,
        if_false] at h
      exact absurd h (by simp)
    | some fields =>
      by_cases h6 : (if config.hasHeader then headersFromFields 0 fields
          else syntheticHeaders fields.length).isEmpty = true
      · simp only [loadCsvFileWithConfig, Bool.false_eq_true, h1, h2, h3, h4, h5, h6, if_true,
          if_false, Option.some.injEq] at h
        subst h
        exact absurd hs (by simp)
      · simp only [loadCsvFileWithConfig, Bool.false_eq_true, h1, h2, h3, h4, h5, h6, if_true,
          if_false] at h
        split at h
        · exact absurd h (by simp)
        · rename_i m2 hm2
          simp only [Option.some.injEq] at h
          subst h
          rw [(hw _).1] at hm2
          exact ⟨first, fields, m2, by omega, rfl, h5, hm2, rfl, (hw _).2⟩

theorem headersFromFields_length :
    ∀ (fields : List QString) (count : Nat),
      (headersFromFields count fields).length = fields.length := by
  intro fields
  induction fields with
  | nil => intro _; rfl
  | cons f fs ih => intro count; simp [headersFromFields, ih]

theorem headersFromFields_get :
    ∀ (fields : List QString) (count n : Nat) (f : QString), fields.get? n = some f →
      (headersFromFields count fields).get? n =
        some (if (trimmed f).isEmpty then '列' :: numberText (count + n + 1) else trimmed f) := by
  intro fields
  induction fields with
  | nil => intro count n f h; simp at h
  | cons g gs ih =>
    intro count n f h
    cases n with
    | zero =>
      simp only [List.get?_cons_zero, Option.some.injEq] at h
      subst h
      simp [headersFromFields]
    | succ n =>
      simp only [List.get?_cons_succ] at h
      simp only [headersFromFields, List.get?_cons_succ]
      rw [ih (count + 1) n f h]
      have : count + 1 + n + 1 = count + (n + 1) + 1 := by omega
      rw [this]

theorem syntheticHeaders_length (n : Nat) : (syntheticHeaders n).length = n := by
  simp [syntheticHeaders]

/-- The table after `setColumnCount(labels.size())` and `setHorizontalHeaderLabels`: the
rows are untouched, there is one column per label, column `j` carries the label `j`. -/
theorem headedTable_spec (m : QStandardItemModel) (labels : List QString) :
    ((m.setColumnCount labels.length).setHorizontalHeaderLabels labels).rowCount
      = m.rowCount ∧
    ((m.setColumnCount labels.length).setHorizontalHeaderLabels labels).columnCount
      = labels.length ∧
    (∀ j, j < labels.length →
      ((m.setColumnCount labels.length).setHorizontalHeaderLabels labels).horizontalHeaderItem j
        = labels.get? j) := by
  have hm1 : (m.setColumnCount labels.length).setHorizontalHeaderLabels labels
      = QStandardItemModel.setHeaderLabelsFrom 0 labels (m.setColumnCount labels.length) := by
    simp [QStandardItemModel.setHorizontalHeaderLabels, QStandardItemModel.setColumnCount]
  rw [hm1]
  obtain ⟨a1, a2, _, a4⟩ := setHeaderLabelsFrom_inside labels 0
    (m.setColumnCount labels.length) (by simp [QStandardItemModel.setColumnCount])
  refine ⟨by rw [a1]; rfl, by rw [a2]; rfl, fun j hj => ?_⟩
  rw [a4, if_pos ⟨Nat.zero_le _, by omega⟩, Nat.sub_zero]

/-- The fields `splitCSVLine` returns are never an empty list. -/
theorem splitCSVLine_ne_nil (line sep : QString) (fields : List QString)
    (h : splitCSVLine line sep = some fields) : fields ≠ [] :=
  splitCSVLoop_ne_nil sep _ _ _ _ _ _ h

theorem forall₂_get {α β : Type} {R : α → β → Prop} {l : List α} {fs : List β}
    (h : List.Forall₂ R l fs) :
    ∀ (i : Nat) (x : α), l.get? i = some x → ∃ f, fs.get? i = some f ∧ R x f := by
  induction h with
  | nil => intro i x hx; simp at hx
  | cons hr _ ih =>
    intro i x hx
    cases i with
    | zero =>
      simp only [List.get?_cons_zero, Option.some.injEq] at hx
      subst hx
      exact ⟨_, rfl, hr⟩
    | succ i =>
      simp only [List.get?_cons_succ] at hx
      exact ih i x hx

/-- C19 (amended): when `loadCsvFileWithConfig`, called on a widget whose table has no
rows, succeeds with `hasHeader = true`, the table has one column per field of the line
at `startRow`; the header of column `n` (1-based) is that line's `n`-th field trimmed,
or 列 followed by `n` (列2 for the second column) when that field is blank; the table
has one row per line after `startRow`, and its first row holds the trimmed fields of
the line following `startRow`, padded or cut to the header count. -/
theorem loadCsvFileWithConfig_header_row {D : Type} (w : DataEditorWidget D)
    (content : QString) (config : LoadConfig) (r : LoadResult D)
    (hempty : w.m_dataModel.rowCount = 0) (hhdr : config.hasHeader = true)
    (h : loadCsvFileWithConfig w (some content) config = some r) (hs : r.success = true) :
    ∃ first fields,
      (readLines w.m_maxDisplayRows content).get? (config.startRow - 1) = some first ∧
      splitCSVLine first config.separator = some fields ∧
      r.widget.m_dataModel.columnCount = fields.length ∧
      (∀ n f, fields.get? n = some f →
        r.widget.m_dataModel.headerData n =
          if (trimmed f).isEmpty then '列' :: numberText (n + 1) else trimmed f) ∧
      r.widget.m_dataModel.rowCount
        = (readLines w.m_maxDisplayRows content).length - config.startRow ∧
      (∀ line, (readLines w.m_maxDisplayRows content).get? config.startRow = some line →
        ∃ lineFields, splitCSVLine line config.separator = some lineFields ∧
          ∀ j, j < fields.length →
            r.widget.m_dataModel.item 0 j =
              ((normalizeFields fields.length lineFields).map trimmed).get? j) := by
  obtain ⟨first, fields, m2, hstart, hfirst, hsplit, hrows, hm2, _⟩ :=
    loadCsvFileWithConfig_success_inv w content config r h hs
  simp only [hhdr, if_true] at hrows
  have hstart2 : config.startRow - 1 + 1 = config.startRow := by omega
  rw [hstart2, headersFromFields_length] at hrows
  obtain ⟨b1, b2, b3⟩ := headedTable_spec w.m_dataModel (headersFromFields 0 fields)
  rw [headersFromFields_length] at b1 b2 b3
  obtain ⟨fs, hfs⟩ := loadRows_some_split _ _ _ _ _ _ hrows
  obtain ⟨m2', g0, g1, g2, g3, _, g5⟩ := loadRows_spec config.separator fields.length _ fs 0
    _ hfs (by rw [b1, hempty]) b2
  rw [hrows, Option.some.injEq] at g0
  subst g0
  refine ⟨first, fields, hfirst, hsplit, ?_, ?_, ?_, ?_⟩
  · rw [hm2, g2]
  · intro n f hf
    have hn : n < fields.length := by
      by_contra hcon
      rw [List.get?_eq_none.2 (by omega)] at hf
      exact absurd hf (by simp)
    rw [hm2, QStandardItemModel.headerData_eq, g2, if_pos hn, g3, b3 n hn,
      headersFromFields_get fields 0 n f hf, Nat.zero_add]
  · rw [hm2, g1]
    simp
  · intro line hline
    have hdrop : (List.drop config.startRow (readLines w.m_maxDisplayRows content)).get? 0
        = some line := by
      rw [List.get?_eq_getElem?, List.getElem?_drop, Nat.add_zero, ← List.get?_eq_getElem?,
        hline]
    obtain ⟨f, hf, hl⟩ := forall₂_get hfs 0 line hdrop
    refine ⟨f, hl, fun j hj => ?_⟩
    have := g5 0 f hf j hj
    rw [Nat.zero_add] at this
    rw [hm2, this]

/-- Witness of C19 (amended): the two-line file `a,,c / 1,2,3` loaded with the comma
configuration into the cleared sample widget. -/
theorem loadCsvFileWithConfig_header_row_witness :
    ∃ r, loadCsvFileWithConfig (clearData sampleWidget) (some blankHeaderFile) commaConfig
        = some r ∧ r.success = true ∧
    ∃ first fields,
      (readLines (clearData sampleWidget).m_maxDisplayRows blankHeaderFile).get?
        (commaConfig.startRow - 1) = some first ∧
      splitCSVLine first commaConfig.separator = some fields ∧
      r.widget.m_dataModel.columnCount = fields.length ∧
      (∀ n f, fields.get? n = some f →
        r.widget.m_dataModel.headerData n =
          if (trimmed f).isEmpty then '列' :: numberText (n + 1) else trimmed f) ∧
      r.widget.m_dataModel.rowCount
        = (readLines (clearData sampleWidget).m_maxDisplayRows blankHeaderFile).length
          - commaConfig.startRow ∧
      (∀ line, (readLines (clearData sampleWidget).m_maxDisplayRows blankHeaderFile).get?
          commaConfig.startRow = some line →
        ∃ lineFields, splitCSVLine line commaConfig.separator = some lineFields ∧
          ∀ j, j < fields.length →
            r.widget.m_dataModel.item 0 j =
              ((normalizeFields fields.length lineFields).map trimmed).get? j) := by
  have hmap : (loadCsvFileWithConfig (clearData sampleWidget) (some blankHeaderFile)
      commaConfig).map (fun r => r.success) = some true := by decide
  obtain ⟨r, h⟩ := Option.isSome_iff_exists.1
    (show (loadCsvFileWithConfig (clearData sampleWidget) (some blankHeaderFile)
      commaConfig).isSome = true by decide)
  have hs : r.success = true := by
    rw [h] at hmap
    simpa using hmap
  exact ⟨r, h, hs,
    loadCsvFileWithConfig_header_row (clearData sampleWidget) blankHeaderFile commaConfig r
      rfl rfl h hs⟩

/-- C19 fails as stated: loading the file `a,,c / 1,2,3` with `hasHeader = true`
succeeds, and the header of the second column, whose field is blank, is 列2, not
`Column2`. -/
theorem loadCsvFileWithConfig_blank_header_name :
    (loadCsvFileWithConfig (clearData sampleWidget) (some blankHeaderFile) commaConfig).map
      (fun r => (r.success, r.widget.m_dataModel.columnCount,
        r.widget.m_dataModel.headerData 0, r.widget.m_dataModel.headerData 1,
        r.widget.m_dataModel.headerData 2))
      = some (true, 3, ['a'], ['列', '2'], ['c']) ∧
    ['列', '2'] ≠ "Column2".toList := by
  constructor
  · decide
  · decide

/-! ## The display cap -/

theorem readLines_length (cap : Nat) (content : QString) :
    (readLines cap content).length = min (lineCount content) cap := by
  simp [readLines, lineCount, Nat.min_comm]

/-- C20 (amended): `loadCsvFileWithConfig` reads at most `m_maxDisplayRows` lines. Called
with a non-empty separator and a `startRow` between 1 and the number of lines read, on a
widget whose table has no rows, it succeeds; the table's row count is the number of
lines read, `min(line count, cap)`, minus `startRow - 1`, minus one more when
`hasHeader` is true; every row has a cell set in every column (as many cells as there
are headers); and the large-input flag is raised exactly when the input has at least
`cap` lines. Lines beyond the cap are not imported. -/
theorem loadCsvFileWithConfig_row_count {D : Type} (w : DataEditorWidget D)
    (content : QString) (config : LoadConfig)
    (hempty : w.m_dataModel.rowCount = 0) (hsep : config.separator ≠ [])
    (hstart : 1 ≤ config.startRow)
    (hle : config.startRow ≤ min (lineCount content) w.m_maxDisplayRows) :
    ∃ r, loadCsvFileWithConfig w (some content) config = some r ∧ r.success = true ∧
      r.widget.m_dataModel.rowCount =
        min (lineCount content) w.m_maxDisplayRows - (config.startRow - 1)
          - (if config.hasHeader then 1 else 0) ∧
      (∀ i j, i < r.widget.m_dataModel.rowCount → j < r.widget.m_dataModel.columnCount →
        (r.widget.m_dataModel.item i j).isSome = true) ∧
      r.widget.m_largeFileMode =
        (w.m_largeFileMode || decide (w.m_maxDisplayRows ≤ lineCount content)) := by
  rw [← readLines_length] at hle
  have hlt : config.startRow - 1 < (readLines w.m_maxDisplayRows content).length := by omega
  obtain ⟨first, hfirst⟩ : ∃ first,
      (readLines w.m_maxDisplayRows content).get? (config.startRow - 1) = some first :=
    ⟨_, List.get?_eq_get hlt⟩
  obtain ⟨fields, hsplit⟩ := splitCSVLine_terminates first config.separator hsep
  have hfne : fields ≠ [] := splitCSVLine_ne_nil _ _ _ hsplit
  have hflen : 0 < fields.length := List.length_pos.2 hfne
  generalize hH : (if config.hasHeader then headersFromFields 0 fields
      else syntheticHeaders fields.length) = H
  have hHlen : H.length = fields.length := by
    rw [← hH]
    split
    · exact headersFromFields_length _ _
    · exact syntheticHeaders_length _
  have hHne : H ≠ [] := by
    intro hnil
    rw [hnil] at hHlen
    simp at hHlen
    omega
  obtain ⟨b1, b2, _⟩ := headedTable_spec w.m_dataModel H
  obtain ⟨m2, hm2⟩ := loadRows_terminates config.separator hsep H.length
    ((readLines w.m_maxDisplayRows content).drop
      (if config.hasHeader then config.startRow - 1 + 1 else config.startRow - 1)) 0
    ((w.m_dataModel.setColumnCount H.length).setHorizontalHeaderLabels H)
  obtain ⟨r, r1, r2, _, r4, _, r6⟩ := loadCsvFileWithConfig_success w content config first
    fields m2 hstart hfirst hsplit (by rw [hH]; exact hm2) (by rw [hH]; exact hHne)
  obtain ⟨fs, hfs⟩ := loadRows_some_split _ _ _ _ _ _ hm2
  obtain ⟨m2', g0, g1, g2, _, _, g5⟩ := loadRows_spec config.separator H.length _ fs 0
    _ hfs (by rw [b1, hempty]) b2
  rw [hm2, Option.some.injEq] at g0
  subst g0
  refine ⟨r, r1, r2, ?_, ?_, ?_⟩
  · rw [r4, g1, ← readLines_length]
    by_cases hh : config.hasHeader = true
    · simp only [hh, if_true, List.length_drop]; omega
    · simp only [hh, Bool.false_eq_true, if_false, List.length_drop]; omega
  · intro i j hi hj
    rw [r4] at hi hj ⊢
    rw [g1, Nat.zero_add] at hi
    rw [g2] at hj
    have hfsl := hfs.length_eq
    have hi2 : i < fs.length := by omega
    have := g5 i (fs.get ⟨i, hi2⟩) (List.get?_eq_get hi2) j hj
    rw [Nat.zero_add] at this
    rw [this, List.get?_eq_getElem?, List.getElem?_eq_getElem (by
      rw [List.length_map, normalizeFields_length]; exact hj)]
    rfl
  · rw [r6, readLines_length]
    congr 1
    by_cases hc : w.m_maxDisplayRows ≤ lineCount content
    · simp [hc]
    · simp [hc]

/-- Witness of C20 (amended): the two-line file `a,,c / 1,2,3`. -/
theorem loadCsvFileWithConfig_row_count_witness :
    ∃ r, loadCsvFileWithConfig (clearData sampleWidget) (some blankHeaderFile) commaConfig
        = some r ∧ r.success = true ∧
      r.widget.m_dataModel.rowCount =
        min (lineCount blankHeaderFile) (clearData sampleWidget).m_maxDisplayRows
          - (commaConfig.startRow - 1) - (if commaConfig.hasHeader then 1 else 0) ∧
      (∀ i j, i < r.widget.m_dataModel.rowCount → j < r.widget.m_dataModel.columnCount →
        (r.widget.m_dataModel.item i j).isSome = true) ∧
      r.widget.m_largeFileMode =
        ((clearData sampleWidget).m_largeFileMode ||
          decide ((clearData sampleWidget).m_maxDisplayRows ≤ lineCount blankHeaderFile)) :=
  loadCsvFileWithConfig_row_count (clearData sampleWidget) blankHeaderFile commaConfig rfl
    (by decide) (by decide) (by decide)

theorem lineCount_longFile : lineCount longFile = 10001 := by
  have hcr : creturn ∉ longFile := by
    unfold longFile
    intro hmem
    obtain ⟨l, hl, hin⟩ := List.mem_flatten.1 hmem
    obtain ⟨l0, hl0, rfl⟩ := List.mem_map.1 hl
    rw [List.eq_of_mem_replicate hl0] at hin
    exact absurd hin (by decide)
  unfold lineCount
  rw [decodeText_of_not_mem _ hcr]
  unfold longFile
  rw [readAllLines_flatten]
  · exact List.length_replicate _ _
  · intro l hl
    rw [List.eq_of_mem_replicate hl]
    decide

/-- C20 fails as stated: a file of 10001 lines, loaded with `startRow = 1` and
`hasHeader = true` under the display cap of 10000, gives a table of 9999 rows (the
10000 lines read, less the header line), not the 10000 rows of the claim: line 10001
is not imported. -/
theorem loadCsvFileWithConfig_stops_at_cap :
    lineCount longFile = 10001 ∧ (clearData sampleWidget).m_maxDisplayRows = 10000 ∧
    ∃ r, loadCsvFileWithConfig (clearData sampleWidget) (some longFile) commaConfig = some r ∧
      r.success = true ∧ r.widget.m_dataModel.rowCount = 9999 ∧
      r.widget.m_dataModel.rowCount ≠ lineCount longFile - (commaConfig.startRow - 1) - 1 ∧
      r.widget.m_largeFileMode = true := by
  refine ⟨lineCount_longFile, rfl, ?_⟩
  have hcap : (clearData sampleWidget).m_maxDisplayRows = 10000 := rfl
  obtain ⟨r, r1, r2, r3, _, r5⟩ := loadCsvFileWithConfig_row_count (clearData sampleWidget)
    longFile commaConfig rfl (by decide) (by decide)
    (by rw [lineCount_longFile, hcap]; decide)
  rw [lineCount_longFile, hcap] at r3 r5
  have hrows : r.widget.m_dataModel.rowCount = 9999 := by
    rw [r3]; decide
  refine ⟨r, r1, r2, hrows, ?_, ?_⟩
  · rw [hrows, lineCount_longFile]; decide
  · rw [r5]; decide


/-! ## Deleting a selection of rows in descending order -/

theorem sortDescending_filter_range (n : Nat) (p : Nat → Bool) :
    sortDescending ((List.range n).filter p) = ((List.range n).filter p).reverse := by
  unfold sortDescending
  apply List.eq_of_perm_of_sorted (r := fun a b : Nat => a ≥ b)
  · exact (List.perm_insertionSort _ _).trans (List.reverse_perm _).symm
  · exact List.sorted_insertionSort _ _
  · show List.Pairwise _ _
    rw [List.pairwise_reverse]
    have h : List.Pairwise (fun a b : Nat => a < b) ((List.range n).filter p) :=
      (List.pairwise_lt_range n).filter _
    exact h.imp (fun hab => Nat.le_of_lt hab)

theorem deleteRowsLoop_model_children :
    ∀ (rows : List Nat) (c1 c2 : List DataEditCommand) (m : QStandardItemModel),
      (deleteRowsLoop rows c1 m).2 = (deleteRowsLoop rows c2 m).2 := by
  intro rows
  induction rows with
  | nil => intro _ _ _; rfl
  | cons r rs ih => intro c1 c2 m; simp only [deleteRowsLoop]; exact ih _ _ _

theorem getD_append_left {l1 l2 : List Nat} {k : Nat} (h : k < l1.length) :
    (l1 ++ l2).getD k 0 = l1.getD k 0 := by
  simp [List.getD_eq_getElem?_getD, List.getElem?_append_left h]

theorem getD_append_right {l1 l2 : List Nat} {k : Nat} (h : l1.length ≤ k) :
    (l1 ++ l2).getD k 0 = l2.getD (k - l1.length) 0 := by
  simp [List.getD_eq_getElem?_getD, List.getElem?_append_right h]

theorem getD_range' (s n k : Nat) (h : k < n) : (List.range' s n).getD k 0 = s + k := by
  rw [List.getD_eq_getElem?_getD, List.getElem?_eq_getElem (by simpa using h)]
  simp

theorem getD_mem {l : List Nat} {k : Nat} (h : k < l.length) : l.getD k 0 ∈ l := by
  rw [List.getD_eq_getElem?_getD, List.getElem?_eq_getElem h]
  exact List.getElem_mem h

/-- The rows selected by `p` among the first `n` rows, deleted from the last to the
first: the columns and headers are untouched, and the rows left are, in order, the rows
below `n` that `p` does not select followed by the rows from `n` on. -/
theorem deleteRowsLoop_filter (p : Nat → Bool) :
    ∀ (n : Nat) (m : QStandardItemModel) (children : List DataEditCommand),
      n ≤ m.rowCount →
      (deleteRowsLoop ((List.range n).filter p).reverse children m).2.columnCount
        = m.columnCount ∧
      (∀ j, (deleteRowsLoop ((List.range n).filter p).reverse children
        m).2.horizontalHeaderItem j = m.horizontalHeaderItem j) ∧
      (deleteRowsLoop ((List.range n).filter p).reverse children m).2.rowCount
        = (keptRows n p ++ List.range' n (m.rowCount - n)).length ∧
      (∀ k c, k < (keptRows n p ++ List.range' n (m.rowCount - n)).length →
        (deleteRowsLoop ((List.range n).filter p).reverse children m).2.item k c
          = m.item ((keptRows n p ++ List.range' n (m.rowCount - n)).getD k 0) c) := by
  intro n
  induction n with
  | zero =>
    intro m children _
    simp only [List.range_zero, List.filter_nil, List.reverse_nil, deleteRowsLoop, keptRows,
      List.nil_append, Nat.sub_zero, List.length_range']
    refine ⟨trivial, fun _ => trivial, trivial, fun k c hk => ?_⟩
    rw [getD_range' 0 _ k hk, Nat.zero_add]
  | succ n ih =>
    intro m children hn
    by_cases hp : p n = true
    · have hlist : ((List.range (n + 1)).filter p).reverse
          = n :: ((List.range n).filter p).reverse := by
        rw [List.range_succ, List.filter_append]
        simp [hp]
      have hkept : keptRows (n + 1) p = keptRows n p := by
        unfold keptRows
        rw [List.range_succ, List.filter_append]
        simp [hp]
      have hlt : n < m.rowCount := by omega
      have hredo : (RowEditCommand.redo ⟨Operation.Delete, n, captureRow m n⟩ m).2
          = m.removeRow n := by
        simp [RowEditCommand.redo, hlt]
      have hrc : (m.removeRow n).rowCount = m.rowCount - 1 := m.rowCount_removeRow hlt
      rw [hlist, hkept]
      simp only [deleteRowsLoop, hredo]
      obtain ⟨i1, i2, i3, i4⟩ := ih (m.removeRow n)
        (children ++ [DataEditCommand.row
          (RowEditCommand.redo ⟨Operation.Delete, n, captureRow m n⟩ m).1]) (by omega)
      have hlen : (keptRows n p ++ List.range' n ((m.removeRow n).rowCount - n)).length
          = (keptRows n p ++ List.range' (n + 1) (m.rowCount - (n + 1))).length := by
        simp only [List.length_append, List.length_range', hrc]; omega
      refine ⟨?_, ?_, ?_, ?_⟩
      · rw [i1, QStandardItemModel.columnCount_removeRow]
      · intro j; rw [i2, QStandardItemModel.header_removeRow]
      · rw [i3, hlen]
      · intro k c hk
        rw [i4 k c (by rw [hlen]; exact hk), QStandardItemModel.item_removeRow _ hlt]
        by_cases hkl : k < (keptRows n p).length
        · rw [getD_append_left hkl, getD_append_left hkl]
          have hmem : (keptRows n p).getD k 0 ∈ keptRows n p := getD_mem hkl
          have hlt2 : (keptRows n p).getD k 0 < n := by
            have := (List.mem_filter.1 hmem).1
            exact List.mem_range.1 this
          rw [if_pos hlt2]
        · have hge : (keptRows n p).length ≤ k := by omega
          simp only [List.length_append, List.length_range'] at hk
          rw [getD_append_right hge, getD_append_right hge,
            getD_range' _ _ _ (by rw [hrc]; omega), getD_range' _ _ _ (by omega),
            if_neg (by omega)]
          congr 1
          omega
    · have hpf : p n = false := by simpa using hp
      have hlist : ((List.range (n + 1)).filter p).reverse
          = ((List.range n).filter p).reverse := by
        rw [List.range_succ, List.filter_append]
        simp [hpf]
      have hkept : keptRows (n + 1) p ++ List.range' (n + 1) (m.rowCount - (n + 1))
          = keptRows n p ++ List.range' n (m.rowCount - n) := by
        unfold keptRows
        rw [List.range_succ, List.filter_append]
        have h1 : m.rowCount - n = (m.rowCount - (n + 1)) + 1 := by omega
        rw [h1, List.range'_succ]
        simp [hpf]
      rw [hlist, hkept]
      exact ih m children (by omega)

/-- The rows selected by `p` deleted in one macro: the columns and headers are
untouched, and the rows left are, in order and item by item, the rows `p` does not
select. -/
theorem deleteRowsAsMacro_spec {D : Type} (w : DataEditorWidget D) (p : Nat → Bool) :
    (deleteRowsAsMacro w ((List.range w.m_dataModel.rowCount).filter p)).m_dataModel.columnCount
      = w.m_dataModel.columnCount ∧
    (∀ j, (deleteRowsAsMacro w
      ((List.range w.m_dataModel.rowCount).filter p)).m_dataModel.horizontalHeaderItem j
        = w.m_dataModel.horizontalHeaderItem j) ∧
    (deleteRowsAsMacro w ((List.range w.m_dataModel.rowCount).filter p)).m_dataModel.rowCount
      = (keptRows w.m_dataModel.rowCount p).length ∧
    (∀ k c, k < (keptRows w.m_dataModel.rowCount p).length →
      (deleteRowsAsMacro w ((List.range w.m_dataModel.rowCount).filter p)).m_dataModel.item k c
        = w.m_dataModel.item ((keptRows w.m_dataModel.rowCount p).getD k 0) c) ∧
    (deleteRowsAsMacro w
      ((List.range w.m_dataModel.rowCount).filter p)).m_columnDefinitions
        = w.m_columnDefinitions := by
  obtain ⟨i1, i2, i3, i4⟩ := deleteRowsLoop_filter p w.m_dataModel.rowCount w.m_dataModel []
    (Nat.le_refl _)
  simp only [Nat.sub_self, List.range'_zero, List.append_nil] at i3 i4
  by_cases he : ((List.range w.m_dataModel.rowCount).filter p).isEmpty = true
  · have hnil : (List.range w.m_dataModel.rowCount).filter p = [] := by
      simpa using he
    rw [hnil] at i1 i2 i3 i4
    simp only [List.reverse_nil, deleteRowsLoop] at i1 i2 i3 i4
    rw [hnil]
    simp only [deleteRowsAsMacro, List.isEmpty_nil, if_true]
    exact ⟨trivial, fun _ => trivial, i3, i4, trivial⟩
  · simp only [deleteRowsAsMacro, he, Bool.false_eq_true, if_false,
      sortDescending_filter_range]
    exact ⟨i1, i2, i3, i4, trivial⟩


/-! ## Empty rows -/

theorem isEmptyRow_congr (a b : QStandardItemModel) (k k2 : Nat)
    (hc : a.columnCount = b.columnCount) (h : ∀ c, a.item k c = b.item k2 c) :
    isEmptyRow a k = isEmptyRow b k2 := by
  unfold isEmptyRow
  rw [hc]
  congr 1
  funext col
  rw [h col]

theorem isEmptyRow_eq_false_iff (m : QStandardItemModel) (r : Nat) :
    isEmptyRow m r = false ↔ ∃ c, c < m.columnCount ∧ trimmed (m.text r c) ≠ [] := by
  unfold isEmptyRow
  rw [← Bool.not_eq_true, List.all_eq_true]
  constructor
  · intro h
    by_contra hcon
    apply h
    intro c hc
    rw [List.mem_range] at hc
    cases hi : m.item r c with
    | none => rfl
    | some t =>
      by_contra hne
      apply hcon
      refine ⟨c, hc, ?_⟩
      rw [QStandardItemModel.text_eq, hi]
      intro hnil
      apply hne
      show (trimmed t).isEmpty = true
      simp only [Option.getD_some] at hnil
      rw [hnil]
      rfl
  · rintro ⟨c, hc, hne⟩ h
    have := h c (List.mem_range.2 hc)
    rw [QStandardItemModel.text_eq] at hne
    cases hi : m.item r c with
    | none => rw [hi] at hne; exact hne trimmed_nil
    | some t =>
      rw [hi] at this hne
      simp only [Option.getD_some] at hne
      simp only [List.isEmpty_eq_true] at this
      exact hne this

theorem mem_keptRows {n : Nat} {p : Nat → Bool} {r : Nat} :
    r ∈ keptRows n p ↔ r < n ∧ p r = false := by
  simp [keptRows]

/-- C14: after `removeEmptyRows` the column count and the headers are unchanged, and the
rows of the table are, in their original order and item by item, the original rows that
are not empty, a row being not empty exactly when at least one of its cells has a text
that is not empty after trimming; no remaining row is empty. -/
theorem removeEmptyRows_spec {D : Type} (w : DataEditorWidget D) :
    (removeEmptyRows w).m_dataModel.columnCount = w.m_dataModel.columnCount ∧
    (∀ j, (removeEmptyRows w).m_dataModel.horizontalHeaderItem j
      = w.m_dataModel.horizontalHeaderItem j) ∧
    (∀ j, (removeEmptyRows w).m_dataModel.headerData j = w.m_dataModel.headerData j) ∧
    (removeEmptyRows w).m_dataModel.rowCount
      = (keptRows w.m_dataModel.rowCount (isEmptyRow w.m_dataModel)).length ∧
    (∀ k c, k < (removeEmptyRows w).m_dataModel.rowCount →
      (removeEmptyRows w).m_dataModel.item k c =
        w.m_dataModel.item
          ((keptRows w.m_dataModel.rowCount (isEmptyRow w.m_dataModel)).getD k 0) c) ∧
    (∀ r, r ∈ keptRows w.m_dataModel.rowCount (isEmptyRow w.m_dataModel) ↔
      r < w.m_dataModel.rowCount ∧
        ∃ c, c < w.m_dataModel.columnCount ∧ trimmed (w.m_dataModel.text r c) ≠ []) ∧
    (List.Pairwise (fun a b => a < b)
      (keptRows w.m_dataModel.rowCount (isEmptyRow w.m_dataModel))) ∧
    (∀ k, k < (removeEmptyRows w).m_dataModel.rowCount →
      isEmptyRow (removeEmptyRows w).m_dataModel k = false) := by
  have hdef : removeEmptyRows w = deleteRowsAsMacro w
      ((List.range w.m_dataModel.rowCount).filter (isEmptyRow w.m_dataModel)) := rfl
  obtain ⟨i1, i2, i3, i4, _⟩ := deleteRowsAsMacro_spec w (isEmptyRow w.m_dataModel)
  rw [← hdef] at i1 i2 i3 i4
  have hitem : ∀ k c, k < (removeEmptyRows w).m_dataModel.rowCount →
      (removeEmptyRows w).m_dataModel.item k c =
        w.m_dataModel.item
          ((keptRows w.m_dataModel.rowCount (isEmptyRow w.m_dataModel)).getD k 0) c := by
    intro k c hk
    exact i4 k c (by rw [← i3]; exact hk)
  refine ⟨i1, i2, ?_, i3, hitem, ?_, ?_, ?_⟩
  · intro j
    rw [QStandardItemModel.headerData_eq, QStandardItemModel.headerData_eq]
    rw [i1, i2 j]
  · intro r
    rw [mem_keptRows, isEmptyRow_eq_false_iff]
  · exact (List.pairwise_lt_range _).filter _
  · intro k hk
    have hk2 : k < (keptRows w.m_dataModel.rowCount (isEmptyRow w.m_dataModel)).length := by
      rw [← i3]; exact hk
    rw [isEmptyRow_congr _ w.m_dataModel k _ i1 (fun c => hitem k c hk)]
    exact (mem_keptRows.1 (getD_mem hk2)).2

/-! ## Duplicate rows -/

theorem rowSignature_congr (a b : QStandardItemModel) (k k2 : Nat)
    (hc : a.columnCount = b.columnCount) (h : ∀ c, a.item k c = b.item k2 c) :
    rowSignature a k = rowSignature b k2 := by
  unfold rowSignature
  rw [hc]
  congr 2
  funext col
  rw [h col]

theorem isDuplicateRow_iff (m : QStandardItemModel) (r : Nat) :
    isDuplicateRow m r = true ↔ ∃ e, e < r ∧ rowSignature m e = rowSignature m r := by
  simp [isDuplicateRow]

theorem scanDuplicates_range' (m : QStandardItemModel) :
    ∀ (n s : Nat) (uniqueRows : List QString) (duplicateRows : List Nat),
      (∀ x, x ∈ uniqueRows ↔ ∃ e, e < s ∧ rowSignature m e = x) →
      scanDuplicates m (List.range' s n) uniqueRows duplicateRows
        = duplicateRows ++ (List.range' s n).filter (isDuplicateRow m) := by
  intro n
  induction n with
  | zero => intro s u d _; simp [scanDuplicates]
  | succ n ih =>
    intro s u d hinv
    rw [List.range'_succ]
    simp only [scanDuplicates, List.filter_cons]
    by_cases hdup : isDuplicateRow m s = true
    · have hmem : rowSignature m s ∈ u := (hinv _).2 ((isDuplicateRow_iff m s).1 hdup)
      have hc : u.contains (rowSignature m s) = true := by simpa using hmem
      rw [if_pos hc, if_pos hdup]
      rw [ih (s + 1) u (d ++ [s])]
      · simp
      · intro x
        rw [hinv x]
        constructor
        · rintro ⟨e, he, hx⟩; exact ⟨e, by omega, hx⟩
        · rintro ⟨e, he, hx⟩
          by_cases hes : e = s
          · subst hes
            rw [← hx]
            exact (isDuplicateRow_iff m e).1 hdup
          · exact ⟨e, by omega, hx⟩
    · have hnm : rowSignature m s ∉ u := by
        intro hmem
        exact hdup ((isDuplicateRow_iff m s).2 ((hinv _).1 hmem))
      have hc : ¬ u.contains (rowSignature m s) = true := by simpa using hnm
      rw [if_neg hc, if_neg hdup]
      rw [ih (s + 1) (rowSignature m s :: u) d]
      intro x
      rw [List.mem_cons, hinv x]
      constructor
      · rintro (rfl | ⟨e, he, hx⟩)
        · exact ⟨s, by omega, rfl⟩
        · exact ⟨e, by omega, hx⟩
      · rintro ⟨e, he, hx⟩
        by_cases hes : e = s
        · subst hes; exact Or.inl hx.symm
        · exact Or.inr ⟨e, by omega, hx⟩

/-- The scanning loop of `removeDuplicates` lists, in ascending order, the rows whose
signature is the signature of an earlier row. -/
theorem scanDuplicates_eq (m : QStandardItemModel) :
    scanDuplicates m (List.range m.rowCount) [] []
      = (List.range m.rowCount).filter (isDuplicateRow m) := by
  rw [List.range_eq_range', scanDuplicates_range' m m.rowCount 0 [] []]
  · simp
  · intro x
    simp

/-- The rows left by `removeDuplicates`: the rows that are not duplicates of an earlier row,
in their original order. -/
theorem removeDuplicates_rows {D : Type} (w : DataEditorWidget D) :
    (removeDuplicates w).m_dataModel.columnCount = w.m_dataModel.columnCount ∧
    (∀ j, (removeDuplicates w).m_dataModel.horizontalHeaderItem j
      = w.m_dataModel.horizontalHeaderItem j) ∧
    (removeDuplicates w).m_dataModel.rowCount
      = (keptRows w.m_dataModel.rowCount (isDuplicateRow w.m_dataModel)).length ∧
    (∀ k c, k < (removeDuplicates w).m_dataModel.rowCount →
      (removeDuplicates w).m_dataModel.item k c =
        w.m_dataModel.item
          ((keptRows w.m_dataModel.rowCount (isDuplicateRow w.m_dataModel)).getD k 0) c) ∧
    (∀ r, r ∈ keptRows w.m_dataModel.rowCount (isDuplicateRow w.m_dataModel) ↔
      r < w.m_dataModel.rowCount ∧
        ¬ ∃ e, e < r ∧ rowSignature w.m_dataModel e = rowSignature w.m_dataModel r) ∧
    (List.Pairwise (fun a b => a < b)
      (keptRows w.m_dataModel.rowCount (isDuplicateRow w.m_dataModel))) := by
  have hdef : removeDuplicates w = deleteRowsAsMacro w
      ((List.range w.m_dataModel.rowCount).filter (isDuplicateRow w.m_dataModel)) := by
    unfold removeDuplicates
    rw [scanDuplicates_eq]
  obtain ⟨i1, i2, i3, i4, _⟩ := deleteRowsAsMacro_spec w (isDuplicateRow w.m_dataModel)
  rw [← hdef] at i1 i2 i3 i4
  refine ⟨i1, i2, i3, fun k c hk => i4 k c (by rw [← i3]; exact hk), ?_, ?_⟩
  · intro r
    rw [mem_keptRows, ← isDuplicateRow_iff, Bool.not_eq_true]
  · exact (List.pairwise_lt_range _).filter _

theorem getD_lt_of_pairwise {l : List Nat} (h : List.Pairwise (fun a b => a < b) l)
    {i j : Nat} (hij : i < j) (hj : j < l.length) : l.getD i 0 < l.getD j 0 := by
  rw [List.getD_eq_getElem?_getD, List.getD_eq_getElem?_getD,
    List.getElem?_eq_getElem (by omega), List.getElem?_eq_getElem hj]
  simp only [Option.getD_some]
  exact List.pairwise_iff_getElem.1 h i j (by omega) hj hij

/-- C13: running `removeDuplicates` twice in succession gives the same widget (table,
undo stack and all) as running it once: on the table left by the first pass the scan
finds no duplicate row, so the second pass removes no row and changes no cell. -/
theorem removeDuplicates_idempotent {D : Type} (w : DataEditorWidget D) :
    scanDuplicates (removeDuplicates w).m_dataModel
        (List.range (removeDuplicates w).m_dataModel.rowCount) [] [] = [] ∧
    removeDuplicates (removeDuplicates w) = removeDuplicates w ∧
    SameTable (removeDuplicates (removeDuplicates w)).m_dataModel
      (removeDuplicates w).m_dataModel := by
  obtain ⟨i1, _, i3, i4, i5, i6⟩ := removeDuplicates_rows w
  have hscan : scanDuplicates (removeDuplicates w).m_dataModel
      (List.range (removeDuplicates w).m_dataModel.rowCount) [] [] = [] := by
    rw [scanDuplicates_eq, List.filter_eq_nil_iff]
    intro r hr hdup
    rw [List.mem_range] at hr
    obtain ⟨e, he, hsig⟩ := (isDuplicateRow_iff _ r).1 hdup
    have hr2 : r < (keptRows w.m_dataModel.rowCount (isDuplicateRow w.m_dataModel)).length := by
      rw [← i3]; exact hr
    rw [rowSignature_congr _ w.m_dataModel e _ i1 (fun c => i4 e c (by omega)),
      rowSignature_congr _ w.m_dataModel r _ i1 (fun c => i4 r c hr)] at hsig
    exact ((i5 _).1 (getD_mem hr2)).2 ⟨_, getD_lt_of_pairwise i6 he hr2, hsig⟩
  have heq : removeDuplicates (removeDuplicates w) = removeDuplicates w := by
    show deleteRowsAsMacro (removeDuplicates w) _ = _
    rw [hscan]
    rfl
  refine ⟨hscan, heq, ?_⟩
  rw [heq]
  exact SameTable.refl _


/-! ## Outliers -/

theorem item_some_bounds {m : QStandardItemModel} {r c : Nat} {t : QString}
    (h : m.item r c = some t) : r < m.rowCount ∧ c < m.columnCount := by
  constructor
  · by_contra hr
    rw [m.item_of_row_ge _ (by omega)] at h
    cases h
  · by_contra hc
    rw [m.item_of_col_ge _ (by omega)] at h
    cases h

theorem clearCells_spec (col : Nat) :
    ∀ (rows : List Nat) (m : QStandardItemModel),
      (clearCells col rows m).rowCount = m.rowCount ∧
      (clearCells col rows m).columnCount = m.columnCount ∧
      (∀ j, (clearCells col rows m).horizontalHeaderItem j = m.horizontalHeaderItem j) ∧
      (∀ r c, (clearCells col rows m).item r c =
        if c = col ∧ r ∈ rows ∧ (m.item r col).isSome = true then some [] else m.item r c) := by
  intro rows
  induction rows with
  | nil => intro m; simp [clearCells]
  | cons row rows ih =>
    intro m
    simp only [clearCells]
    cases hi : m.item row col with
    | none =>
      obtain ⟨a, b, c, d⟩ := ih m
      refine ⟨a, b, c, ?_⟩
      intro r k
      rw [d r k]
      by_cases hr : r = row
      · subst hr
        simp [hi]
      · simp [hr]
    | some t =>
      obtain ⟨hr, hc⟩ := item_some_bounds hi
      obtain ⟨a, b, c, d⟩ := ih (m.setItem row col [])
      refine ⟨?_, ?_, ?_, ?_⟩
      · rw [a, QStandardItemModel.rowCount_setItem]; omega
      · rw [b, QStandardItemModel.columnCount_setItem]; omega
      · intro j; rw [c j, QStandardItemModel.header_setItem]
      · intro r k
        rw [d r k]
        simp only [QStandardItemModel.item_setItem]
        by_cases hk : k = col
        · subst hk
          by_cases hrr : r = row
          · subst hrr
            simp [hi]
          · simp [hrr]
        · simp [hk]

theorem mem_sortDescending {rows : List Nat} {r : Nat} : r ∈ sortDescending rows ↔ r ∈ rows :=
  (List.perm_insertionSort _ rows).mem_iff

theorem mem_collectNumeric {D : Type} (qt : QtLib D) (m : QStandardItemModel) (col row : Nat)
    (v : D) :
    (row, v) ∈ collectNumeric qt m col ↔
      row < m.rowCount ∧ ∃ t, m.item row col = some t ∧ qt.toDouble t = some v := by
  unfold collectNumeric
  rw [List.mem_filterMap]
  constructor
  · rintro ⟨r, hr, h⟩
    rw [List.mem_range] at hr
    cases hi : m.item r col with
    | none => simp [hi] at h
    | some t =>
      cases hd : qt.toDouble t with
      | none => simp [hi, hd] at h
      | some v2 =>
        simp only [hi, hd, Option.map_some', Option.some.injEq, Prod.mk.injEq] at h
        obtain ⟨rfl, rfl⟩ := h
        exact ⟨hr, t, hi, hd⟩
  · rintro ⟨hr, t, hi, hd⟩
    exact ⟨row, List.mem_range.2 hr, by simp [hi, hd]⟩

theorem collectNumeric_congr {D : Type} (qt : QtLib D) (a b : QStandardItemModel) (col : Nat)
    (hr : a.rowCount = b.rowCount) (h : ∀ r, a.item r col = b.item r col) :
    collectNumeric qt a col = collectNumeric qt b col := by
  unfold collectNumeric
  rw [hr]
  congr 1
  funext row
  rw [h row]

theorem mem_outlierRowsOf {D : Type} (qt : QtMath D) (threshold : D) (m : QStandardItemModel)
    (col row : Nat) :
    row ∈ outlierRowsOf qt threshold (collectNumeric qt.toQtLib m col) ↔
      isOutlierCell qt threshold m row col = true := by
  unfold outlierRowsOf isOutlierCell
  rw [List.mem_map]
  constructor
  · rintro ⟨⟨r, v⟩, hmem, rfl⟩
    rw [List.mem_filter] at hmem
    obtain ⟨hc, ho⟩ := hmem
    obtain ⟨_, t, hi, hd⟩ := (mem_collectNumeric _ _ _ _ _).1 hc
    simp only [hi, hd]
    exact ho
  · intro h
    cases hi : m.item row col with
    | none => simp [hi] at h
    | some t =>
      cases hd : qt.toDouble t with
      | none => simp [hi, hd] at h
      | some v =>
        simp only [hi, hd] at h
        refine ⟨(row, v), ?_, rfl⟩
        rw [List.mem_filter]
        exact ⟨(mem_collectNumeric _ _ _ _ _).2 ⟨(item_some_bounds hi).1, t, hi, hd⟩, h⟩

theorem isOutlierCell_isSome {D : Type} (qt : QtMath D) (threshold : D) (m : QStandardItemModel)
    (row col : Nat) (h : isOutlierCell qt threshold m row col = true) :
    (m.item row col).isSome = true := by
  unfold isOutlierCell at h
  cases hi : m.item row col with
  | none => simp [hi] at h
  | some t => rfl

theorem removeOutliersColumn_spec {D : Type} (qt : QtMath D) (threshold : D)
    (m : QStandardItemModel) (col : Nat) :
    (removeOutliersColumn qt threshold m col).rowCount = m.rowCount ∧
    (removeOutliersColumn qt threshold m col).columnCount = m.columnCount ∧
    (∀ j, (removeOutliersColumn qt threshold m col).horizontalHeaderItem j
      = m.horizontalHeaderItem j) ∧
    (∀ r c, (removeOutliersColumn qt threshold m col).item r c =
      if c = col then outlierCleared qt threshold m r col else m.item r c) := by
  unfold removeOutliersColumn outlierCleared
  by_cases h3 : (collectNumeric qt.toQtLib m col).length < 3
  · rw [if_pos h3]
    refine ⟨rfl, rfl, fun _ => rfl, ?_⟩
    intro r c
    have : ¬ 3 ≤ (collectNumeric qt.toQtLib m col).length := by omega
    by_cases hc : c = col
    · subst hc; simp [this]
    · simp [hc]
  · rw [if_neg h3]
    have h3b : 3 ≤ (collectNumeric qt.toQtLib m col).length := by omega
    by_cases he : (outlierRowsOf qt threshold (collectNumeric qt.toQtLib m col)).isEmpty = true
    · rw [if_pos he]
      refine ⟨rfl, rfl, fun _ => rfl, ?_⟩
      intro r c
      by_cases hc : c = col
      · subst hc
        have hno : ¬ isOutlierCell qt threshold m r c = true := by
          intro ho
          have := (mem_outlierRowsOf qt threshold m c r).2 ho
          rw [List.isEmpty_iff] at he
          rw [he] at this
          cases this
        simp [hno]
      · simp [hc]
    · rw [if_neg he]
      obtain ⟨a, b, c, d⟩ := clearCells_spec col
        (sortDescending (outlierRowsOf qt threshold (collectNumeric qt.toQtLib m col))) m
      refine ⟨a, b, c, ?_⟩
      intro r k
      rw [d r k]
      have hmem : r ∈ sortDescending (outlierRowsOf qt threshold (collectNumeric qt.toQtLib m col))
          ↔ isOutlierCell qt threshold m r col = true :=
        mem_sortDescending.trans (mem_outlierRowsOf qt threshold m col r)
      by_cases hk : k = col
      · subst hk
        by_cases ho : isOutlierCell qt threshold m r k = true
        · rw [if_pos ⟨rfl, hmem.2 ho, isOutlierCell_isSome qt threshold m r k ho⟩, if_pos rfl,
            if_pos ⟨h3b, ho⟩]
        · rw [if_neg (fun h => ho (hmem.1 h.2.1)), if_pos rfl, if_neg (fun h => ho h.2)]
      · rw [if_neg (fun h => hk h.1), if_neg hk]

theorem outlierCleared_congr {D : Type} (qt : QtMath D) (threshold : D)
    (a b : QStandardItemModel) (col : Nat)
    (hr : a.rowCount = b.rowCount) (h : ∀ r, a.item r col = b.item r col) (r : Nat) :
    outlierCleared qt threshold a r col = outlierCleared qt threshold b r col := by
  unfold outlierCleared isOutlierCell
  rw [collectNumeric_congr qt.toQtLib a b col hr h, h r]

theorem removeOutliersLoop_spec {D : Type} (qt : QtMath D) (threshold : D) :
    ∀ (cols : List Nat) (m : QStandardItemModel), cols.Nodup →
      (removeOutliersLoop qt threshold cols m).rowCount = m.rowCount ∧
      (removeOutliersLoop qt threshold cols m).columnCount = m.columnCount ∧
      (∀ j, (removeOutliersLoop qt threshold cols m).horizontalHeaderItem j
        = m.horizontalHeaderItem j) ∧
      (∀ r c, (removeOutliersLoop qt threshold cols m).item r c =
        if c ∈ cols then outlierCleared qt threshold m r c else m.item r c) := by
  intro cols
  induction cols with
  | nil => intro m _; simp [removeOutliersLoop]
  | cons col cols ih =>
    intro m hnd
    obtain ⟨hnot, hnd2⟩ := List.nodup_cons.1 hnd
    obtain ⟨a1, b1, c1, d1⟩ := removeOutliersColumn_spec qt threshold m col
    obtain ⟨a2, b2, c2, d2⟩ := ih (removeOutliersColumn qt threshold m col) hnd2
    simp only [removeOutliersLoop]
    refine ⟨a2.trans a1, b2.trans b1, fun j => (c2 j).trans (c1 j), ?_⟩
    intro r c
    rw [d2 r c]
    by_cases hc : c ∈ cols
    · have hne : c ≠ col := fun h => hnot (h ▸ hc)
      rw [if_pos hc, if_pos (List.mem_cons_of_mem _ hc)]
      exact outlierCleared_congr qt threshold _ m c a1
        (fun r2 => by rw [d1 r2 c, if_neg hne]) r
    · rw [if_neg hc, d1 r c]
      by_cases hcc : c = col
      · subst hcc
        simp
      · simp [hcc, hc]

/-- C15: `removeOutliers(threshold)` keeps the row count, the column count and the headers;
in every column with at least 3 cells that `toDouble` accepts it leaves the empty text in
exactly the cells whose value `v` has `|v - mean| > threshold * stdDev`, where `mean` is
the sum of the column's numeric values divided by their number and `stdDev` the square
root of the mean squared deviation from `mean`; every other cell, and every cell of a
column with fewer than 3 numeric values, keeps its item. -/
theorem removeOutliers_spec {D : Type} (qt : QtMath D) (w : DataEditorWidget D) (threshold : D)
    (row col : Nat) :
    (removeOutliers qt w threshold).m_dataModel.rowCount = w.m_dataModel.rowCount ∧
    (removeOutliers qt w threshold).m_dataModel.columnCount = w.m_dataModel.columnCount ∧
    (∀ j, (removeOutliers qt w threshold).m_dataModel.horizontalHeaderItem j
      = w.m_dataModel.horizontalHeaderItem j) ∧
    (removeOutliers qt w threshold).m_dataModel.item row col =
      (if 3 ≤ (collectNumeric qt.toQtLib w.m_dataModel col).length ∧
          isOutlierCell qt threshold w.m_dataModel row col = true
       then some [] else w.m_dataModel.item row col) ∧
    (isOutlierCell qt threshold w.m_dataModel row col = true ↔
      ∃ t v, w.m_dataModel.item row col = some t ∧ qt.toDouble t = some v ∧
        qt.lt
          (qt.mul threshold
            (columnStdDev qt ((collectNumeric qt.toQtLib w.m_dataModel col).map Prod.snd)))
          (qt.abs (qt.sub v
            (columnMean qt ((collectNumeric qt.toQtLib w.m_dataModel col).map Prod.snd))))
          = true) ∧
    (∀ v, v ∈ (collectNumeric qt.toQtLib w.m_dataModel col).map Prod.snd ↔
      ∃ r t, r < w.m_dataModel.rowCount ∧ w.m_dataModel.item r col = some t ∧
        qt.toDouble t = some v) ∧
    (removeOutliers qt w threshold).m_undoStack = w.m_undoStack ∧
    (removeOutliers qt w threshold).m_columnDefinitions = w.m_columnDefinitions := by
  obtain ⟨a, b, c, d⟩ := removeOutliersLoop_spec qt threshold
    (List.range w.m_dataModel.columnCount) w.m_dataModel (List.nodup_range _)
  refine ⟨a, b, c, ?_, ?_, ?_, rfl, rfl⟩
  · show (removeOutliersLoop qt threshold (List.range w.m_dataModel.columnCount)
      w.m_dataModel).item row col = _
    rw [d row col]
    by_cases hc : col ∈ List.range w.m_dataModel.columnCount
    · rw [if_pos hc]
      rfl
    · rw [if_neg hc]
      have hnone : w.m_dataModel.item row col = none :=
        w.m_dataModel.item_of_col_ge _ (by
          rw [List.mem_range] at hc
          omega)
      have hno : ¬ isOutlierCell qt threshold w.m_dataModel row col = true := by
        intro ho
        have := isOutlierCell_isSome qt threshold _ _ _ ho
        rw [hnone] at this
        cases this
      rw [if_neg (fun h => hno h.2)]
  · unfold isOutlierCell isOutlier
    constructor
    · intro h
      cases hi : w.m_dataModel.item row col with
      | none => simp [hi] at h
      | some t =>
        cases hd : qt.toDouble t with
        | none => simp [hi, hd] at h
        | some v =>
          simp only [hi, hd] at h
          exact ⟨t, v, rfl, hd, h⟩
    · rintro ⟨t, v, hi, hd, h⟩
      simp only [hi, hd]
      exact h
  · intro v
    rw [List.mem_map]
    constructor
    · rintro ⟨⟨r, v2⟩, hmem, rfl⟩
      obtain ⟨hr, t, hi, hd⟩ := (mem_collectNumeric _ _ _ _ _).1 hmem
      exact ⟨r, t, hr, hi, hd⟩
    · rintro ⟨r, t, hr, hi, hd⟩
      exact ⟨(r, v), (mem_collectNumeric _ _ _ _ _).2 ⟨hr, t, hi, hd⟩, rfl⟩

set_option maxRecDepth 100000 in
/-- On the column 10, 10, 10, 10, 100 the mean is 28 and the deviation 36, so with the
threshold 2 the cell holding 100 is kept, as is every other cell; with the threshold 1 it
is cleared. -/
theorem removeOutliers_spec_witness :
    (collectNumeric milliMath.toQtLib outlierWidget.m_dataModel 0).map Prod.snd
      = [10000, 10000, 10000, 10000, 100000] ∧
    columnMean milliMath [10000, 10000, 10000, 10000, 100000] = 28000 ∧
    columnStdDev milliMath [10000, 10000, 10000, 10000, 100000] = 36000 ∧
    (removeOutliers milliMath outlierWidget 2000).m_dataModel.item 4 0 = some "100".toList ∧
    (∀ r, r < 5 → (removeOutliers milliMath outlierWidget 2000).m_dataModel.item r 0
      = outlierWidget.m_dataModel.item r 0) ∧
    (removeOutliers milliMath outlierWidget 1000).m_dataModel.item 4 0 = some [] :=
  ⟨by decide, by decide, by decide,
    (removeOutliers_spec milliMath outlierWidget 2000 4 0).2.2.2.1.trans (by decide),
    by decide,
    (removeOutliers_spec milliMath outlierWidget 1000 4 0).2.2.2.1.trans (by decide)⟩

/-! ## Missing values -/

theorem forwardFillValue_trimmed (m : QStandardItemModel) (col : Nat) :
    ∀ s, forwardFillValue m col s = [] ∨ (trimmed (forwardFillValue m col s)).isEmpty = false := by
  intro s
  induction s with
  | zero => exact Or.inl rfl
  | succ p ih =>
    simp only [forwardFillValue]
    cases hi : m.item p col with
    | none => exact ih
    | some t =>
      by_cases ht : (trimmed t).isEmpty = true
      · simp only [ht, if_true]; exact ih
      · simp only [ht]
        right
        simpa using ht

theorem forwardFillValue_filled (m m0 : QStandardItemModel) (col : Nat) :
    ∀ s, (∀ r, r < s → m.item r col =
        if isMissing m0 r col = true ∧ (forwardFillValue m0 col r).isEmpty = false
        then some (forwardFillValue m0 col r) else m0.item r col) →
      forwardFillValue m col s = forwardFillValue m0 col s := by
  intro s
  induction s with
  | zero => intro _; rfl
  | succ p ih =>
    intro h
    have ihp := ih (fun r hr => h r (by omega))
    have hp := h p (by omega)
    by_cases hmiss : isMissing m0 p col = true
    · have h0 : forwardFillValue m0 col (p + 1) = forwardFillValue m0 col p := by
        simp only [forwardFillValue]
        unfold isMissing at hmiss
        cases hi : m0.item p col with
        | none => rfl
        | some t =>
          simp only [hi] at hmiss
          simp only [hmiss, if_true]
      rw [h0]
      by_cases hfv : (forwardFillValue m0 col p).isEmpty = false
      · rw [if_pos ⟨hmiss, hfv⟩] at hp
        simp only [forwardFillValue, hp]
        rcases forwardFillValue_trimmed m0 col p with hnil | hne
        · rw [hnil] at hfv; cases hfv
        · simp only [hne, Bool.false_eq_true, if_false]
      · rw [if_neg (fun hh => hfv hh.2)] at hp
        simp only [forwardFillValue, hp]
        unfold isMissing at hmiss
        cases hi : m0.item p col with
        | none => exact ihp
        | some t =>
          simp only [hi] at hmiss
          simp only [hmiss, if_true]
          exact ihp
    · rw [if_neg (fun hh => hmiss hh.1)] at hp
      simp only [forwardFillValue, hp]
      unfold isMissing at hmiss
      cases hi : m0.item p col with
      | none => simp [hi] at hmiss
      | some t =>
        simp only [hi] at hmiss
        simp only [hmiss, Bool.false_eq_true, if_false]

theorem fillValueOf_filled {D : Type} (qt : QtMath D) (method : QString) (nums : List D)
    (m m0 : QStandardItemModel) (col s : Nat)
    (h : ∀ r, r < s → m.item r col = filledCell qt method nums m0 r col) :
    fillValueOf qt method nums m s col = fillValueOf qt method nums m0 s col := by
  unfold fillValueOf
  by_cases h1 : method = "zero".toList
  · rw [if_pos h1, if_pos h1]
  rw [if_neg h1, if_neg h1]
  by_cases h2 : method = "average".toList
  · rw [if_pos h2, if_pos h2]
  rw [if_neg h2, if_neg h2]
  by_cases h3 : method = "interpolation".toList
  · rw [if_pos h3, if_pos h3]
  rw [if_neg h3, if_neg h3]
  by_cases h4 : method = "forward".toList
  · rw [if_pos h4, if_pos h4]
    apply forwardFillValue_filled
    intro r hr
    rw [h r hr]
    unfold filledCell fillValueOf
    rw [if_neg h1, if_neg h2, if_neg h3, if_pos h4]
  · rw [if_neg h4, if_neg h4]

theorem isMissing_congr (a b : QStandardItemModel) (r c r2 c2 : Nat)
    (h : a.item r c = b.item r2 c2) : isMissing a r c = isMissing b r2 c2 := by
  unfold isMissing
  rw [h]

theorem fillMissingCells_spec {D : Type} (qt : QtMath D) (method : QString) (nums : List D)
    (col : Nat) (m0 : QStandardItemModel) (hcol : col < m0.columnCount) :
    ∀ (n s : Nat) (m : QStandardItemModel),
      m.rowCount = m0.rowCount → m.columnCount = m0.columnCount → s + n ≤ m0.rowCount →
      (∀ j, m.horizontalHeaderItem j = m0.horizontalHeaderItem j) →
      (∀ r c, m.item r c =
        if c = col ∧ r < s then filledCell qt method nums m0 r col else m0.item r c) →
      (fillMissingCells qt method nums col (List.range' s n) m).rowCount = m0.rowCount ∧
      (fillMissingCells qt method nums col (List.range' s n) m).columnCount = m0.columnCount ∧
      (∀ j, (fillMissingCells qt method nums col (List.range' s n) m).horizontalHeaderItem j
        = m0.horizontalHeaderItem j) ∧
      (∀ r c, (fillMissingCells qt method nums col (List.range' s n) m).item r c =
        if c = col ∧ r < s + n then filledCell qt method nums m0 r col else m0.item r c) := by
  intro n
  induction n with
  | zero =>
    intro s m hr hc _ hh hi
    exact ⟨hr, hc, hh, hi⟩
  | succ n ih =>
    intro s m hr hc hs hh hi
    rw [List.range'_succ]
    have hitem : m.item s col = m0.item s col := by
      rw [hi s col, if_neg (fun h => by omega)]
    have hmiss : isMissing m s col = isMissing m0 s col := isMissing_congr _ _ _ _ _ _ hitem
    have hfv : fillValueOf qt method nums m s col = fillValueOf qt method nums m0 s col :=
      fillValueOf_filled qt method nums m m0 col s (fun r hr2 => by
        rw [hi r col, if_pos ⟨rfl, hr2⟩])
    have key : ∀ m2 : QStandardItemModel,
        m2.rowCount = m0.rowCount → m2.columnCount = m0.columnCount →
        (∀ j, m2.horizontalHeaderItem j = m0.horizontalHeaderItem j) →
        (∀ r c, m2.item r c =
          if c = col ∧ r < s + 1 then filledCell qt method nums m0 r col else m0.item r c) →
        (fillMissingCells qt method nums col (List.range' (s + 1) n) m2).rowCount
            = m0.rowCount ∧
        (fillMissingCells qt method nums col (List.range' (s + 1) n) m2).columnCount
            = m0.columnCount ∧
        (∀ j, (fillMissingCells qt method nums col (List.range' (s + 1) n)
            m2).horizontalHeaderItem j = m0.horizontalHeaderItem j) ∧
        (∀ r c, (fillMissingCells qt method nums col (List.range' (s + 1) n) m2).item r c =
          if c = col ∧ r < s + (n + 1) then filledCell qt method nums m0 r col
          else m0.item r c) := by
      intro m2 a b c d
      obtain ⟨x1, x2, x3, x4⟩ := ih (s + 1) m2 a b (by omega) c d
      refine ⟨x1, x2, x3, ?_⟩
      intro r k
      rw [x4 r k]
      have : s + 1 + n = s + (n + 1) := by omega
      rw [this]
    have hsame : ∀ r c, filledCell qt method nums m0 s col = m0.item s col →
        m.item r c =
          if c = col ∧ r < s + 1 then filledCell qt method nums m0 r col else m0.item r c := by
      intro r c hsc
      rw [hi r c]
      by_cases hc2 : c = col
      · subst hc2
        by_cases hrs : r < s
        · rw [if_pos ⟨rfl, hrs⟩, if_pos ⟨rfl, by omega⟩]
        · rw [if_neg (fun h => hrs h.2)]
          by_cases hrs2 : r = s
          · subst hrs2
            rw [if_pos ⟨rfl, by omega⟩, hsc]
          · rw [if_neg (fun h => by omega)]
      · rw [if_neg (fun h => hc2 h.1), if_neg (fun h => hc2 h.1)]
    simp only [fillMissingCells]
    by_cases hm : isMissing m s col = true
    · rw [if_pos hm]
      by_cases he : (fillValueOf qt method nums m s col).isEmpty = true
      · rw [if_pos he]
        apply key m hr hc hh
        intro r c
        apply hsame
        unfold filledCell
        rw [if_neg]
        rw [← hfv, he]
        simp
      · rw [if_neg he]
        apply key
        · rw [QStandardItemModel.rowCount_setItem, hr]; omega
        · rw [QStandardItemModel.columnCount_setItem, hc]; omega
        · intro j; rw [QStandardItemModel.header_setItem, hh j]
        · intro r c
          rw [QStandardItemModel.item_setItem, hi r c]
          have hfc : filledCell qt method nums m0 s col
              = some (fillValueOf qt method nums m s col) := by
            unfold filledCell
            rw [if_pos, hfv]
            rw [← hmiss, ← hfv]
            exact ⟨hm, by simpa using he⟩
          by_cases hc2 : c = col
          · subst hc2
            by_cases hrs2 : r = s
            · subst hrs2
              rw [if_pos ⟨rfl, rfl⟩, if_pos ⟨rfl, by omega⟩, hfc]
            · rw [if_neg (fun h => hrs2 h.1)]
              by_cases hrs : r < s
              · rw [if_pos ⟨rfl, hrs⟩, if_pos ⟨rfl, by omega⟩]
              · rw [if_neg (fun h => hrs h.2), if_neg (fun h => by omega)]
          · rw [if_neg (fun h => hc2 h.2), if_neg (fun h => hc2 h.1),
              if_neg (fun h => hc2 h.1)]
    · rw [if_neg hm]
      apply key m hr hc hh
      intro r c
      apply hsame
      unfold filledCell
      rw [if_neg]
      rw [← hmiss]
      exact fun h => hm h.1

theorem forwardFillValue_congr (a b : QStandardItemModel) (col : Nat)
    (h : ∀ r, a.item r col = b.item r col) :
    ∀ s, forwardFillValue a col s = forwardFillValue b col s := by
  intro s
  induction s with
  | zero => rfl
  | succ p ih => simp only [forwardFillValue, h p, ih]

theorem forwardFillValue_step_missing (m : QStandardItemModel) (col p : Nat)
    (h : isMissing m p col = true) :
    forwardFillValue m col (p + 1) = forwardFillValue m col p := by
  simp only [forwardFillValue]
  unfold isMissing at h
  cases hi : m.item p col with
  | none => rfl
  | some t =>
    simp only [hi] at h
    simp only [h, if_true]

theorem forwardFillValue_nearest (m : QStandardItemModel) (col p : Nat) (t : QString)
    (hi : m.item p col = some t) (ht : (trimmed t).isEmpty = false) :
    ∀ row, p < row → (∀ q, p < q → q < row → isMissing m q col = true) →
      forwardFillValue m col row = t := by
  intro row
  induction row with
  | zero => intro h; omega
  | succ k ih =>
    intro hp hq
    by_cases hk : k = p
    · subst hk
      simp only [forwardFillValue, hi, ht, Bool.false_eq_true, if_false]
    · rw [forwardFillValue_step_missing m col k (hq k (by omega) (by omega))]
      exact ih (by omega) (fun q h1 h2 => hq q h1 (by omega))

theorem forwardFillValue_none (m : QStandardItemModel) (col : Nat) :
    ∀ row, (∀ q, q < row → isMissing m q col = true) → forwardFillValue m col row = [] := by
  intro row
  induction row with
  | zero => intro _; rfl
  | succ k ih =>
    intro hq
    rw [forwardFillValue_step_missing m col k (hq k (by omega))]
    exact ih (fun q h => hq q (by omega))

theorem filledItem_congr {D : Type} (qt : QtMath D) (method : QString)
    (a b : QStandardItemModel) (col : Nat)
    (hr : a.rowCount = b.rowCount) (h : ∀ r, a.item r col = b.item r col) (r : Nat) :
    filledItem qt method a r col = filledItem qt method b r col := by
  have hf : ∀ nums : List D, fillValueOf qt method nums a r col
      = fillValueOf qt method nums b r col := by
    intro nums
    unfold fillValueOf
    rw [forwardFillValue_congr a b col h r]
  unfold filledItem filledCell
  rw [collectNumeric_congr qt.toQtLib a b col hr h, h r, hr, hf,
    isMissing_congr a b r col r col (h r)]

theorem fillMissingColumn_spec {D : Type} (qt : QtMath D) (method : QString)
    (m : QStandardItemModel) (col : Nat) (hcol : col < m.columnCount) :
    (fillMissingColumn qt method m col).rowCount = m.rowCount ∧
    (fillMissingColumn qt method m col).columnCount = m.columnCount ∧
    (∀ j, (fillMissingColumn qt method m col).horizontalHeaderItem j
      = m.horizontalHeaderItem j) ∧
    (∀ r c, (fillMissingColumn qt method m col).item r c =
      if c = col then filledItem qt method m r col else m.item r c) := by
  unfold fillMissingColumn filledItem
  by_cases he : ((collectNumeric qt.toQtLib m col).map Prod.snd).isEmpty = true
  · rw [if_pos he]
    refine ⟨rfl, rfl, fun _ => rfl, ?_⟩
    intro r c
    by_cases hc : c = col
    · subst hc
      rw [if_pos rfl, if_neg (fun h => by rw [he] at h; cases h.2)]
    · rw [if_neg hc]
  · rw [if_neg he]
    have he2 : ((collectNumeric qt.toQtLib m col).map Prod.snd).isEmpty = false := by
      simpa using he
    obtain ⟨a, b, c, d⟩ := fillMissingCells_spec qt method
      ((collectNumeric qt.toQtLib m col).map Prod.snd) col m hcol m.rowCount 0 m rfl rfl
      (by omega) (fun _ => rfl) (fun r c => by rw [if_neg (fun h => by omega)])
    rw [← List.range_eq_range'] at a b c d
    refine ⟨a, b, c, ?_⟩
    intro r k
    rw [d r k]
    by_cases hk : k = col
    · subst hk
      rw [if_pos rfl]
      by_cases hr : r < m.rowCount
      · rw [if_pos ⟨rfl, by omega⟩, if_pos ⟨hr, he2⟩]
      · rw [if_neg (fun h => by omega), if_neg (fun h => hr h.1)]
    · rw [if_neg (fun h => hk h.1), if_neg hk]

theorem fillMissingLoop_spec {D : Type} (qt : QtMath D) (method : QString) :
    ∀ (cols : List Nat) (m : QStandardItemModel), cols.Nodup →
      (∀ c, c ∈ cols → c < m.columnCount) →
      (fillMissingLoop qt method cols m).rowCount = m.rowCount ∧
      (fillMissingLoop qt method cols m).columnCount = m.columnCount ∧
      (∀ j, (fillMissingLoop qt method cols m).horizontalHeaderItem j
        = m.horizontalHeaderItem j) ∧
      (∀ r c, (fillMissingLoop qt method cols m).item r c =
        if c ∈ cols then filledItem qt method m r c else m.item r c) := by
  intro cols
  induction cols with
  | nil => intro m _ _; simp [fillMissingLoop]
  | cons col cols ih =>
    intro m hnd hlt
    obtain ⟨hnot, hnd2⟩ := List.nodup_cons.1 hnd
    obtain ⟨a1, b1, c1, d1⟩ := fillMissingColumn_spec qt method m col
      (hlt col (List.mem_cons_self _ _))
    obtain ⟨a2, b2, c2, d2⟩ := ih (fillMissingColumn qt method m col) hnd2
      (fun c hc => by rw [b1]; exact hlt c (List.mem_cons_of_mem _ hc))
    simp only [fillMissingLoop]
    refine ⟨a2.trans a1, b2.trans b1, fun j => (c2 j).trans (c1 j), ?_⟩
    intro r c
    rw [d2 r c]
    by_cases hc : c ∈ cols
    · have hne : c ≠ col := fun h => hnot (h ▸ hc)
      rw [if_pos hc, if_pos (List.mem_cons_of_mem _ hc)]
      exact filledItem_congr qt method _ m c a1 (fun r2 => by rw [d1 r2 c, if_neg hne]) r
    · rw [if_neg hc, d1 r c]
      by_cases hcc : c = col
      · subst hcc
        simp
      · simp [hcc, hc]

theorem collectNumeric_nil_of_col_ge {D : Type} (qt : QtLib D) (m : QStandardItemModel)
    (col : Nat) (h : m.columnCount ≤ col) : collectNumeric qt m col = [] := by
  unfold collectNumeric
  rw [List.filterMap_eq_nil_iff]
  intro r _
  rw [m.item_of_col_ge _ h]

theorem fillMissingValues_item {D : Type} (qt : QtMath D) (w : DataEditorWidget D)
    (method : QString) (row col : Nat) :
    (fillMissingValues qt w method).m_dataModel.item row col
      = filledItem qt method w.m_dataModel row col := by
  obtain ⟨_, _, _, d⟩ := fillMissingLoop_spec qt method
    (List.range w.m_dataModel.columnCount) w.m_dataModel (List.nodup_range _)
    (fun c hc => List.mem_range.1 hc)
  show (fillMissingLoop qt method (List.range w.m_dataModel.columnCount)
    w.m_dataModel).item row col = _
  rw [d row col]
  by_cases hc : col ∈ List.range w.m_dataModel.columnCount
  · rw [if_pos hc]
  · rw [if_neg hc]
    unfold filledItem
    rw [collectNumeric_nil_of_col_ge _ _ _ (by
      rw [List.mem_range] at hc
      omega)]
    simp

theorem collectNumeric_values {D : Type} (qt : QtLib D) (m : QStandardItemModel) (col : Nat) :
    (collectNumeric qt m col).map Prod.snd
      = (List.range m.rowCount).filterMap (fun r => (m.item r col).bind qt.toDouble) := by
  unfold collectNumeric
  rw [List.map_filterMap]
  congr 1
  funext r
  cases hi : m.item r col with
  | none => rfl
  | some t =>
    cases hd : qt.toDouble t with
    | none => simp [hd]
    | some v => simp [hd]

/-- C16: `fillMissingValues(method)` keeps the row count, the column count and the
headers. In a column with at least one cell that `toDouble` accepts, a cell of the table
that is unset or empty after trimming receives: `0` for the method `zero`; the mean of the
column's numeric values written with 3 decimals for `average`; the topmost numeric value
written with 3 decimals for `interpolation`; for `forward` the text of the nearest cell
above it that is not empty after trimming, and it keeps its item when every cell above is
missing. A cell that is not empty after trimming, and every cell of a column without a
numeric value, keeps its item. -/
theorem fillMissingValues_spec {D : Type} (qt : QtMath D) (w : DataEditorWidget D)
    (method : QString) (row col : Nat) :
    (fillMissingValues qt w method).m_dataModel.rowCount = w.m_dataModel.rowCount ∧
    (fillMissingValues qt w method).m_dataModel.columnCount = w.m_dataModel.columnCount ∧
    (∀ j, (fillMissingValues qt w method).m_dataModel.horizontalHeaderItem j
      = w.m_dataModel.horizontalHeaderItem j) ∧
    ((collectNumeric qt.toQtLib w.m_dataModel col).map Prod.snd
      = (List.range w.m_dataModel.rowCount).filterMap
          (fun r => (w.m_dataModel.item r col).bind qt.toDouble)) ∧
    ((collectNumeric qt.toQtLib w.m_dataModel col).map Prod.snd = [] →
      (fillMissingValues qt w method).m_dataModel.item row col = w.m_dataModel.item row col) ∧
    (isMissing w.m_dataModel row col = false →
      (fillMissingValues qt w method).m_dataModel.item row col = w.m_dataModel.item row col) ∧
    (row < w.m_dataModel.rowCount →
      (collectNumeric qt.toQtLib w.m_dataModel col).map Prod.snd ≠ [] →
      isMissing w.m_dataModel row col = true →
        (method = "zero".toList →
          (fillMissingValues qt w method).m_dataModel.item row col = some ['0']) ∧
        (method = "average".toList →
          (fillMissingValues qt w method).m_dataModel.item row col =
            some (qt.number
              (columnMean qt ((collectNumeric qt.toQtLib w.m_dataModel col).map Prod.snd)) 3)) ∧
        (method = "interpolation".toList →
          ∃ first rest,
            (collectNumeric qt.toQtLib w.m_dataModel col).map Prod.snd = first :: rest ∧
            (fillMissingValues qt w method).m_dataModel.item row col
              = some (qt.number first 3)) ∧
        (method = "forward".toList →
          (∀ p t, p < row → w.m_dataModel.item p col = some t →
            (trimmed t).isEmpty = false →
            (∀ q, q < row → p < q → isMissing w.m_dataModel q col = true) →
            (fillMissingValues qt w method).m_dataModel.item row col = some t) ∧
          ((∀ q, q < row → isMissing w.m_dataModel q col = true) →
            (fillMissingValues qt w method).m_dataModel.item row col
              = w.m_dataModel.item row col))) ∧
    (fillMissingValues qt w method).m_undoStack = w.m_undoStack := by
  obtain ⟨a, b, c, _⟩ := fillMissingLoop_spec qt method
    (List.range w.m_dataModel.columnCount) w.m_dataModel (List.nodup_range _)
    (fun c hc => List.mem_range.1 hc)
  refine ⟨a, b, c, collectNumeric_values _ _ _, ?_, ?_, ?_, rfl⟩
  · intro hnil
    rw [fillMissingValues_item]
    unfold filledItem
    rw [hnil]
    simp
  · intro hm
    rw [fillMissingValues_item]
    unfold filledItem filledCell
    rw [hm]
    simp
  · intro hrow hne hm
    have hne2 : ((collectNumeric qt.toQtLib w.m_dataModel col).map Prod.snd).isEmpty = false := by
      cases hx : (collectNumeric qt.toQtLib w.m_dataModel col).map Prod.snd with
      | nil => exact absurd hx hne
      | cons _ _ => rfl
    have hitem : (fillMissingValues qt w method).m_dataModel.item row col
        = filledCell qt method ((collectNumeric qt.toQtLib w.m_dataModel col).map Prod.snd)
            w.m_dataModel row col := by
      rw [fillMissingValues_item]
      unfold filledItem
      rw [if_pos ⟨hrow, hne2⟩]
    have hcell : ∀ fv : QString,
        fillValueOf qt method ((collectNumeric qt.toQtLib w.m_dataModel col).map Prod.snd)
          w.m_dataModel row col = fv → fv ≠ [] →
        (fillMissingValues qt w method).m_dataModel.item row col = some fv := by
      intro fv hfv hnn
      rw [hitem]
      unfold filledCell
      rw [hfv, if_pos]
      refine ⟨hm, ?_⟩
      cases fv with
      | nil => exact absurd rfl hnn
      | cons _ _ => rfl
    refine ⟨?_, ?_, ?_, ?_⟩
    · intro hz
      apply hcell
      · unfold fillValueOf; rw [if_pos hz]
      · intro h; cases h
    · intro hz
      apply hcell
      · unfold fillValueOf
        rw [if_neg (by rw [hz]; decide), if_pos hz]
        rfl
      · exact qt.number_ne_nil _ _
    · intro hz
      cases hx : (collectNumeric qt.toQtLib w.m_dataModel col).map Prod.snd with
      | nil => exact absurd hx hne
      | cons first rest =>
        refine ⟨first, rest, rfl, ?_⟩
        apply hcell
        · unfold fillValueOf
          rw [if_neg (by rw [hz]; decide), if_neg (by rw [hz]; decide), if_pos hz, hx]
        · exact qt.number_ne_nil _ _
    · intro hz
      have hfw : fillValueOf qt method
          ((collectNumeric qt.toQtLib w.m_dataModel col).map Prod.snd) w.m_dataModel row col
          = forwardFillValue w.m_dataModel col row := by
        unfold fillValueOf
        rw [if_neg (by rw [hz]; decide), if_neg (by rw [hz]; decide),
          if_neg (by rw [hz]; decide), if_pos hz]
      constructor
      · intro p t hp hi ht hq
        apply hcell
        · rw [hfw]
          exact forwardFillValue_nearest _ _ _ _ hi ht row hp (fun q h1 h2 => hq q h2 h1)
        · intro hnil
          rw [hnil] at ht
          simp [trimmed_nil] at ht
      · intro hq
        rw [hitem]
        unfold filledCell
        rw [hfw, forwardFillValue_none _ _ row hq]
        simp

set_option maxRecDepth 100000 in
/-- On a table whose first column holds (empty), 4, (blank), 1 and whose second column
holds only words: the blank cell of row 2 becomes 0, 2.500 (the mean of 4 and 1), 4.000
(the topmost number) or 4 (the text above it) according to the method; with `forward` the
empty cell of row 0 stays empty; the cells holding 4 and the second column are kept. -/
theorem fillMissingValues_spec_witness :
    (fillMissingValues milliMath gapWidget "zero".toList).m_dataModel.item 2 0
      = some "0".toList ∧
    (fillMissingValues milliMath gapWidget "average".toList).m_dataModel.item 2 0
      = some "2.500".toList ∧
    (fillMissingValues milliMath gapWidget "interpolation".toList).m_dataModel.item 2 0
      = some "4.000".toList ∧
    (fillMissingValues milliMath gapWidget "forward".toList).m_dataModel.item 2 0
      = some "4".toList ∧
    (fillMissingValues milliMath gapWidget "forward".toList).m_dataModel.item 0 0 = some [] ∧
    (fillMissingValues milliMath gapWidget "zero".toList).m_dataModel.item 1 0
      = some "4".toList ∧
    (fillMissingValues milliMath gapWidget "zero".toList).m_dataModel.item 1 1 = some [] :=
  ⟨((fillMissingValues_spec milliMath gapWidget "zero".toList 2 0).2.2.2.2.2.2.1
      (by decide) (by decide) (by decide)).1 rfl,
    (((fillMissingValues_spec milliMath gapWidget "average".toList 2 0).2.2.2.2.2.2.1
      (by decide) (by decide) (by decide)).2.1 rfl).trans (by decide),
    by decide,
    ((fillMissingValues_spec milliMath gapWidget "forward".toList 2 0).2.2.2.2.2.2.1
      (by decide) (by decide) (by decide)).2.2.2 rfl |>.1 1 "4".toList (by decide) (by decide)
      (by decide) (by decide),
    (((fillMissingValues_spec milliMath gapWidget "forward".toList 0 0).2.2.2.2.2.2.1
      (by decide) (by decide) (by decide)).2.2.2 rfl |>.2 (by decide)).trans (by decide),
    ((fillMissingValues_spec milliMath gapWidget "zero".toList 1 0).2.2.2.2.2.1
      (by decide)).trans (by decide),
    ((fillMissingValues_spec milliMath gapWidget "zero".toList 1 1).2.2.2.2.1
      (by decide)).trans (by decide)⟩

/-! ## Column statistics -/

theorem trimmedValue_eq (m : QStandardItemModel) (row column : Nat) :
    trimmedValue m row column = trimmed (m.text row column) := by
  unfold trimmedValue
  rw [QStandardItemModel.text_eq]
  cases m.item row column with
  | none => exact trimmed_nil.symm
  | some t => rfl

theorem scanColumn_spec {D : Type} (qt : QtLib D) (m : QStandardItemModel) (column : Nat) :
    ∀ (rows : List Nat) (s : ColumnScan D),
      (scanColumn qt m column rows s).validCount = s.validCount +
        ((rows.map (fun row => trimmed (m.text row column))).filter
          (fun value => !value.isEmpty)).length ∧
      (scanColumn qt m column rows s).invalidCount = s.invalidCount +
        ((rows.map (fun row => trimmed (m.text row column))).filter
          (fun value => value.isEmpty)).length ∧
      (scanColumn qt m column rows s).numericValues = s.numericValues ++
        (((rows.map (fun row => trimmed (m.text row column))).filter
          (fun value => !value.isEmpty)).filterMap qt.toDouble) ∧
      (scanColumn qt m column rows s).textValues = s.textValues ++
        (((rows.map (fun row => trimmed (m.text row column))).filter
          (fun value => !value.isEmpty)).filter (fun value => (qt.toDouble value).isNone)) := by
  intro rows
  induction rows with
  | nil => intro s; simp [scanColumn]
  | cons row rows ih =>
    intro s
    simp only [scanColumn, trimmedValue_eq, List.map_cons, List.filter_cons]
    by_cases he : (trimmed (m.text row column)).isEmpty = true
    · simp only [he, if_true, Bool.not_true, Bool.false_eq_true, if_false]
      obtain ⟨a, b, c, d⟩ := ih { s with invalidCount := s.invalidCount + 1 }
      refine ⟨a, ?_, c, d⟩
      rw [b]
      simp only [List.length_cons]
      omega
    · have he2 : (trimmed (m.text row column)).isEmpty = false := by simpa using he
      simp only [he2, Bool.false_eq_true, if_false, Bool.not_false, if_true]
      cases hd : qt.toDouble (trimmed (m.text row column)) with
      | some v =>
        simp only []
        obtain ⟨a, b, c, d⟩ := ih
          { s with numericValues := s.numericValues ++ [v], validCount := s.validCount + 1 }
        refine ⟨?_, b, ?_, ?_⟩
        · rw [a]; simp only [List.length_cons]; omega
        · rw [c]; simp [List.filterMap_cons, hd]
        · rw [d]; simp [List.filter_cons, hd]
      | none =>
        simp only []
        obtain ⟨a, b, c, d⟩ := ih
          { s with textValues := s.textValues ++ [trimmed (m.text row column)],
                   validCount := s.validCount + 1 }
        refine ⟨?_, b, ?_, ?_⟩
        · rw [a]; simp only [List.length_cons]; omega
        · rw [c]; simp [List.filterMap_cons, hd]
        · rw [d]; simp [List.filter_cons, hd]

theorem stdSort_perm {D : Type} (qt : QtMath D) (values : List D) :
    (stdSort qt values).Perm values :=
  List.perm_insertionSort _ values

theorem orderedInsert_pairwise_on {D : Type} (r : D → D → Prop) [DecidableRel r]
    (S : D → Prop) (htotal : ∀ a b, S a → S b → r a b ∨ r b a)
    (htrans : ∀ a b c, S a → S b → S c → r a b → r b c → r a c) (a : D) (ha : S a) :
    ∀ l : List D, (∀ x, x ∈ l → S x) → l.Pairwise r → (l.orderedInsert r a).Pairwise r := by
  intro l
  induction l with
  | nil => intro _ _; simp
  | cons b l ih =>
    intro hS hp
    obtain ⟨hb, hp2⟩ := List.pairwise_cons.1 hp
    have hSb : S b := hS b (List.mem_cons_self _ _)
    have hSl : ∀ x, x ∈ l → S x := fun x hx => hS x (List.mem_cons_of_mem _ hx)
    simp only [List.orderedInsert]
    by_cases hab : r a b
    · rw [if_pos hab]
      refine List.pairwise_cons.2 ⟨?_, hp⟩
      intro x hx
      rcases List.mem_cons.1 hx with rfl | hx
      · exact hab
      · exact htrans a b x ha hSb (hSl x hx) hab (hb x hx)
    · rw [if_neg hab]
      have hba : r b a := (htotal a b ha hSb).resolve_left hab
      refine List.pairwise_cons.2 ⟨?_, ih hSl hp2⟩
      intro x hx
      rcases List.mem_cons.1 ((List.perm_orderedInsert r a l).mem_iff.1 hx) with rfl | hx
      · exact hba
      · exact hb x hx

theorem insertionSort_pairwise_on {D : Type} (r : D → D → Prop) [DecidableRel r]
    (S : D → Prop) (htotal : ∀ a b, S a → S b → r a b ∨ r b a)
    (htrans : ∀ a b c, S a → S b → S c → r a b → r b c → r a c) :
    ∀ l : List D, (∀ x, x ∈ l → S x) → (l.insertionSort r).Pairwise r := by
  intro l
  induction l with
  | nil => intro _; simp
  | cons a l ih =>
    intro hS
    simp only [List.insertionSort]
    apply orderedInsert_pairwise_on r S htotal htrans a (hS a (List.mem_cons_self _ _))
    · intro x hx
      exact hS x (List.mem_cons_of_mem _ ((List.perm_insertionSort r l).mem_iff.1 hx))
    · exact ih (fun x hx => hS x (List.mem_cons_of_mem _ hx))

theorem stdSort_sorted {D : Type} (qt : QtMath D) (values : List D)
    (hord : OrderedValues qt values) :
    (stdSort qt values).Pairwise (fun a b => qt.lt b a = false) := by
  apply insertionSort_pairwise_on (fun a b => qt.lt b a = false) (fun x => x ∈ values)
  · intro a b ha hb
    cases h : qt.lt b a with
    | false => exact Or.inl rfl
    | true => exact Or.inr (hord.1 b hb a ha h)
  · intro a b c ha hb hc h1 h2
    exact hord.2 a ha b hb c hc h1 h2
  · intro x hx
    exact hx

theorem lt_irrefl_of {D : Type} (qt : QtMath D) (values : List D)
    (hord : OrderedValues qt values) (a : D) (ha : a ∈ values) : qt.lt a a = false := by
  cases h : qt.lt a a with
  | false => rfl
  | true => exact (hord.1 a ha a ha h).symm.trans h |>.symm ▸ rfl

theorem stdSort_head_min {D : Type} (qt : QtMath D) (values : List D) (hne : values ≠ [])
    (hord : OrderedValues qt values) :
    (stdSort qt values).headD qt.zero ∈ values ∧
    ∀ v, v ∈ values → qt.lt v ((stdSort qt values).headD qt.zero) = false := by
  have hp := stdSort_perm qt values
  have hs := stdSort_sorted qt values hord
  cases hx : stdSort qt values with
  | nil =>
    rw [hx] at hp
    exact absurd hp.symm.eq_nil hne
  | cons x xs =>
    rw [hx] at hp hs
    simp only [List.headD_cons]
    refine ⟨hp.mem_iff.1 (List.mem_cons_self _ _), ?_⟩
    intro v hv
    rcases List.mem_cons.1 (hp.mem_iff.2 hv) with rfl | hmem
    · exact lt_irrefl_of qt values hord _ hv
    · exact (List.pairwise_cons.1 hs).1 v hmem

theorem stdSort_last_max {D : Type} (qt : QtMath D) (values : List D) (hne : values ≠ [])
    (hord : OrderedValues qt values) :
    (stdSort qt values).getLastD qt.zero ∈ values ∧
    ∀ v, v ∈ values → qt.lt ((stdSort qt values).getLastD qt.zero) v = false := by
  have hp := stdSort_perm qt values
  have hs := stdSort_sorted qt values hord
  have hne2 : stdSort qt values ≠ [] := fun h => hne (by rw [h] at hp; exact hp.symm.eq_nil)
  have hlast : (stdSort qt values).getLastD qt.zero = (stdSort qt values).getLast hne2 := by
    rw [List.getLastD_eq_getLast?, List.getLast?_eq_getLast _ hne2]
    rfl
  rw [hlast]
  refine ⟨hp.mem_iff.1 (List.getLast_mem hne2), ?_⟩
  intro v hv
  have hv2 := hp.mem_iff.2 hv
  rw [← List.dropLast_append_getLast hne2] at hv2 hs
  rcases List.mem_append.1 hv2 with hmem | hmem
  · exact (List.pairwise_append.1 hs).2.2 v hmem _ (List.mem_singleton_self _)
  · rw [List.mem_singleton] at hmem
    rw [hmem]
    exact lt_irrefl_of qt values hord _ (hp.mem_iff.1 (List.getLast_mem hne2))

theorem binary64_lt_iff (m1 e1 m2 e2 base : Int) (h1 : base ≤ e1) (h2 : base ≤ e2) :
    Binary64.lt (Binary64.finite m1 e1) (Binary64.finite m2 e2) = true ↔
      m1 * 2 ^ (e1 - base).toNat < m2 * 2 ^ (e2 - base).toNat := by
  have hb : base ≤ min e1 e2 := le_min h1 h2
  have hm1 : min e1 e2 ≤ e1 := min_le_left _ _
  have hm2 : min e1 e2 ≤ e2 := min_le_right _ _
  have p1 : (e1 - base).toNat = (e1 - min e1 e2).toNat + (min e1 e2 - base).toNat := by omega
  have p2 : (e2 - base).toNat = (e2 - min e1 e2).toNat + (min e1 e2 - base).toNat := by omega
  have hpos : (0 : Int) < 2 ^ (min e1 e2 - base).toNat := by positivity
  simp only [Binary64.lt, decide_eq_true_eq]
  rw [p1, p2, pow_add, pow_add, ← mul_assoc, ← mul_assoc]
  exact (mul_lt_mul_right hpos).symm

/-- On the stand-in for doubles, `<` is a strict weak ordering on every list of values
none of which is NaN. -/
theorem ieeeMath_ordered (values : List Binary64) (h : Binary64.nan ∉ values) :
    OrderedValues ieeeMath values := by
  refine ⟨fun a ha b hb hab => ?_, fun a ha b hb c hc h1 h2 => ?_⟩
  · cases a with
    | nan => exact absurd ha h
    | finite m1 e1 =>
      cases b with
      | nan => exact absurd hb h
      | finite m2 e2 =>
        have k1 := (binary64_lt_iff m1 e1 m2 e2 (min e1 e2) (min_le_left _ _)
          (min_le_right _ _)).1 hab
        cases hx : ieeeMath.lt (Binary64.finite m2 e2) (Binary64.finite m1 e1) with
        | false => rfl
        | true =>
          have k2 := (binary64_lt_iff m2 e2 m1 e1 (min e1 e2) (min_le_right _ _)
            (min_le_left _ _)).1 hx
          exact absurd k1 (not_lt.2 (le_of_lt k2))
  · cases a with
    | nan => exact absurd ha h
    | finite m1 e1 =>
      cases b with
      | nan => exact absurd hb h
      | finite m2 e2 =>
        cases c with
        | nan => exact absurd hc h
        | finite m3 e3 =>
          have b1 : min e1 (min e2 e3) ≤ e1 := min_le_left _ _
          have b2 : min e1 (min e2 e3) ≤ e2 := le_trans (min_le_right _ _) (min_le_left _ _)
          have b3 : min e1 (min e2 e3) ≤ e3 := le_trans (min_le_right _ _) (min_le_right _ _)
          cases hx : ieeeMath.lt (Binary64.finite m3 e3) (Binary64.finite m1 e1) with
          | false => rfl
          | true =>
            have k3 := (binary64_lt_iff m3 e3 m1 e1 _ b3 b1).1 hx
            have k1 : ¬ m2 * 2 ^ (e2 - min e1 (min e2 e3)).toNat
                < m1 * 2 ^ (e1 - min e1 (min e2 e3)).toNat := fun hlt =>
              Bool.false_ne_true (h1.symm.trans ((binary64_lt_iff m2 e2 m1 e1 _ b2 b1).2 hlt))
            have k2 : ¬ m3 * 2 ^ (e3 - min e1 (min e2 e3)).toNat
                < m2 * 2 ^ (e2 - min e1 (min e2 e3)).toNat := fun hlt =>
              Bool.false_ne_true (h2.symm.trans ((binary64_lt_iff m3 e3 m2 e2 _ b3 b2).2 hlt))
            exact absurd k3 (not_lt.2 (le_trans (not_lt.1 k1) (not_lt.1 k2)))

theorem scanColumn_range {D : Type} (qt : QtLib D) (m : QStandardItemModel) (column : Nat) :
    (scanColumn qt m column (List.range m.rowCount) ⟨0, 0, [], []⟩).validCount
      = (nonEmptyCells m column).length ∧
    (scanColumn qt m column (List.range m.rowCount) ⟨0, 0, [], []⟩).invalidCount
      = (((List.range m.rowCount).map (fun row => trimmed (m.text row column))).filter
          (fun value => value.isEmpty)).length ∧
    (scanColumn qt m column (List.range m.rowCount) ⟨0, 0, [], []⟩).numericValues
      = numericCellValues qt m column ∧
    (scanColumn qt m column (List.range m.rowCount) ⟨0, 0, [], []⟩).textValues
      = textCellValues qt m column := by
  obtain ⟨a, b, c, d⟩ := scanColumn_spec qt m column (List.range m.rowCount) ⟨0, 0, [], []⟩
  refine ⟨?_, ?_, ?_, ?_⟩
  · rw [a]; simp [nonEmptyCells]
  · rw [b]; simp
  · rw [c]; simp [numericCellValues, nonEmptyCells]
  · rw [d]; simp [textCellValues, nonEmptyCells]

theorem filter_length_add {α : Type} (p : α → Bool) (l : List α) :
    (l.filter (fun x => !p x)).length + (l.filter p).length = l.length := by
  induction l with
  | nil => rfl
  | cons x xs ih =>
    simp only [List.filter_cons]
    cases hp : p x <;> simp <;> omega

/-- C17 (amended): for a column of the table in which the non-empty cells that `toDouble`
accepts outnumber those it refuses, and on whose numeric values `<` is a strict weak
ordering (as it is on doubles none of which is NaN), `calculateColumnStatistics` returns:
as minimum and maximum a numeric value of the column that no other is below, respectively
above; as average the sum
of the (sorted) numeric values divided by their number; as median the middle element of
the sorted values, or for an even count the sum of the two middle elements divided by 2;
as standard deviation the square root of the sum of squared deviations from the average
divided by the number of values. `validCount` counts the cells that are not empty after
trimming, `invalidCount` the empty ones, and the two add up to `dataCount`, the row
count. -/
theorem calculateColumnStatistics_numeric {D : Type} (qt : QtMath D) (w : DataEditorWidget D)
    (indeterminate : DataStatistics D) (column : Nat)
    (hcol : column < w.m_dataModel.columnCount)
    (hnum : (textCellValues qt.toQtLib w.m_dataModel column).length
      < (numericCellValues qt.toQtLib w.m_dataModel column).length)
    (hord : OrderedValues qt (numericCellValues qt.toQtLib w.m_dataModel column)) :
    (calculateColumnStatistics qt w indeterminate column).dataCount = w.m_dataModel.rowCount ∧
    (calculateColumnStatistics qt w indeterminate column).validCount
      = (nonEmptyCells w.m_dataModel column).length ∧
    (calculateColumnStatistics qt w indeterminate column).invalidCount
      = (((List.range w.m_dataModel.rowCount).map
          (fun row => trimmed (w.m_dataModel.text row column))).filter
            (fun value => value.isEmpty)).length ∧
    (calculateColumnStatistics qt w indeterminate column).validCount
      + (calculateColumnStatistics qt w indeterminate column).invalidCount
      = (calculateColumnStatistics qt w indeterminate column).dataCount ∧
    ((calculateColumnStatistics qt w indeterminate column).minimum
        ∈ numericCellValues qt.toQtLib w.m_dataModel column ∧
      ∀ v, v ∈ numericCellValues qt.toQtLib w.m_dataModel column →
        qt.lt v (calculateColumnStatistics qt w indeterminate column).minimum = false) ∧
    ((calculateColumnStatistics qt w indeterminate column).maximum
        ∈ numericCellValues qt.toQtLib w.m_dataModel column ∧
      ∀ v, v ∈ numericCellValues qt.toQtLib w.m_dataModel column →
        qt.lt (calculateColumnStatistics qt w indeterminate column).maximum v = false) ∧
    ((stdSort qt (numericCellValues qt.toQtLib w.m_dataModel column)).Perm
        (numericCellValues qt.toQtLib w.m_dataModel column) ∧
      (stdSort qt (numericCellValues qt.toQtLib w.m_dataModel column)).Pairwise
        (fun a b => qt.lt b a = false)) ∧
    (calculateColumnStatistics qt w indeterminate column).average
      = qt.div (sumOf qt (stdSort qt (numericCellValues qt.toQtLib w.m_dataModel column)))
          (qt.ofInt (numericCellValues qt.toQtLib w.m_dataModel column).length) ∧
    (calculateColumnStatistics qt w indeterminate column).median
      = (if (numericCellValues qt.toQtLib w.m_dataModel column).length % 2 = 0 then
          qt.div
            (qt.add
              ((stdSort qt (numericCellValues qt.toQtLib w.m_dataModel column)).getD
                ((numericCellValues qt.toQtLib w.m_dataModel column).length / 2 - 1) qt.zero)
              ((stdSort qt (numericCellValues qt.toQtLib w.m_dataModel column)).getD
                ((numericCellValues qt.toQtLib w.m_dataModel column).length / 2) qt.zero))
            (qt.ofInt 2)
        else
          (stdSort qt (numericCellValues qt.toQtLib w.m_dataModel column)).getD
            ((numericCellValues qt.toQtLib w.m_dataModel column).length / 2) qt.zero) ∧
    (calculateColumnStatistics qt w indeterminate column).standardDeviation
      = qt.sqrt (qt.div
          (squaredDeviations qt (stdSort qt (numericCellValues qt.toQtLib w.m_dataModel column))
            (calculateColumnStatistics qt w indeterminate column).average)
          (qt.ofInt (numericCellValues qt.toQtLib w.m_dataModel column).length)) := by
  obtain ⟨s1, s2, s3, s4⟩ := scanColumn_range qt.toQtLib w.m_dataModel column
  have hlen : (stdSort qt (numericCellValues qt.toQtLib w.m_dataModel column)).length
      = (numericCellValues qt.toQtLib w.m_dataModel column).length :=
    (stdSort_perm qt _).length_eq
  have hne : numericCellValues qt.toQtLib w.m_dataModel column ≠ [] := by
    intro h
    rw [h] at hnum
    simp at hnum
  have hguard : ¬ (((column : Nat) : Int) < 0 ∨
      ((column : Nat) : Int) ≥ (w.m_dataModel.columnCount : Int)) := by omega
  have hcalc : calculateColumnStatistics qt w indeterminate column =
      { columnName := w.m_dataModel.headerData column
        dataCount := w.m_dataModel.rowCount
        validCount := (nonEmptyCells w.m_dataModel column).length
        invalidCount := (((List.range w.m_dataModel.rowCount).map
          (fun row => trimmed (w.m_dataModel.text row column))).filter
            (fun value => value.isEmpty)).length
        minimum := (stdSort qt (numericCellValues qt.toQtLib w.m_dataModel column)).headD qt.zero
        maximum :=
          (stdSort qt (numericCellValues qt.toQtLib w.m_dataModel column)).getLastD qt.zero
        average :=
          qt.div (sumOf qt (stdSort qt (numericCellValues qt.toQtLib w.m_dataModel column)))
            (qt.ofInt (numericCellValues qt.toQtLib w.m_dataModel column).length)
        median :=
          (if (numericCellValues qt.toQtLib w.m_dataModel column).length % 2 = 0 then
            qt.div
              (qt.add
                ((stdSort qt (numericCellValues qt.toQtLib w.m_dataModel column)).getD
                  ((numericCellValues qt.toQtLib w.m_dataModel column).length / 2 - 1) qt.zero)
                ((stdSort qt (numericCellValues qt.toQtLib w.m_dataModel column)).getD
                  ((numericCellValues qt.toQtLib w.m_dataModel column).length / 2) qt.zero))
              (qt.ofInt 2)
          else
            (stdSort qt (numericCellValues qt.toQtLib w.m_dataModel column)).getD
              ((numericCellValues qt.toQtLib w.m_dataModel column).length / 2) qt.zero)
        standardDeviation :=
          qt.sqrt (qt.div
            (squaredDeviations qt
              (stdSort qt (numericCellValues qt.toQtLib w.m_dataModel column))
              (qt.div (sumOf qt (stdSort qt (numericCellValues qt.toQtLib w.m_dataModel column)))
                (qt.ofInt (numericCellValues qt.toQtLib w.m_dataModel column).length)))
            (qt.ofInt (numericCellValues qt.toQtLib w.m_dataModel column).length))
        dataType := "数值型".toList
        unit :=
          match w.m_columnDefinitions.get? column with
          | some definition => definition.unit
          | none => [] } := by
    unfold calculateColumnStatistics
    rw [if_neg hguard]
    simp only [Int.toNat_ofNat, s1, s2, s3, s4, hlen]
    rw [if_pos hnum]
  rw [hcalc]
  refine ⟨rfl, rfl, rfl, ?_, stdSort_head_min qt _ hne hord, stdSort_last_max qt _ hne hord,
    ⟨stdSort_perm qt _, stdSort_sorted qt _ hord⟩, rfl, rfl, rfl⟩
  show (nonEmptyCells w.m_dataModel column).length + _ = w.m_dataModel.rowCount
  unfold nonEmptyCells
  rw [filter_length_add (fun value : QString => value.isEmpty)]
  simp

/-- On the column 3, 1, 4, 2 in doubles, which `<` orders: four valid cells and no invalid
one, minimum 1, maximum 4, mean 2.5, median 2.5, and the standard deviation is the square
root of 1.25. -/
theorem calculateColumnStatistics_numeric_witness :
    (calculateColumnStatistics ieeeMath ieeeStatsWidget ieeeStatistics 0).dataCount = 4 ∧
    (calculateColumnStatistics ieeeMath ieeeStatsWidget ieeeStatistics 0).validCount = 4 ∧
    (calculateColumnStatistics ieeeMath ieeeStatsWidget ieeeStatistics 0).invalidCount = 0 ∧
    (calculateColumnStatistics ieeeMath ieeeStatsWidget ieeeStatistics 0).minimum
      = ieeeMath.ofInt 1 ∧
    (calculateColumnStatistics ieeeMath ieeeStatsWidget ieeeStatistics 0).maximum
      = ieeeMath.ofInt 4 ∧
    ieeeMath.toDouble "2.5".toList
      = some (calculateColumnStatistics ieeeMath ieeeStatsWidget ieeeStatistics 0).average ∧
    ieeeMath.toDouble "2.5".toList
      = some (calculateColumnStatistics ieeeMath ieeeStatsWidget ieeeStatistics 0).median ∧
    (ieeeMath.toDouble "1.25".toList).map ieeeMath.sqrt
      = some
        (calculateColumnStatistics ieeeMath ieeeStatsWidget ieeeStatistics 0).standardDeviation ∧
    stdSort ieeeMath (numericCellValues ieeeMath.toQtLib ieeeStatsWidget.m_dataModel 0)
      = [ieeeMath.ofInt 1, ieeeMath.ofInt 2, ieeeMath.ofInt 3, ieeeMath.ofInt 4] :=
  ⟨(calculateColumnStatistics_numeric ieeeMath ieeeStatsWidget ieeeStatistics 0
      (by decide!) (by decide!) (ieeeMath_ordered _ (by decide!))).1.trans (by decide!),
    (calculateColumnStatistics_numeric ieeeMath ieeeStatsWidget ieeeStatistics 0
      (by decide!) (by decide!) (ieeeMath_ordered _ (by decide!))).2.1.trans (by decide!),
    by decide!, by decide!, by decide!, by decide!, by decide!, by decide!, by decide!⟩

/-- C17 fails as stated on a column with a NaN. In the column 1, 5, nan, 2 all four cells
are numeric (`toDouble` accepts `nan`), `<` is false both ways between NaN and any number,
the sort leaves the values in the order 1, 5, nan, 2, and the maximum returned is 2 although
5 is a numeric value of the column and `2 < 5`; the mean and the median are NaN. -/
theorem calculateColumnStatistics_nan_maximum :
    (textCellValues ieeeMath.toQtLib nanWidget.m_dataModel 0).length = 0 ∧
    numericCellValues ieeeMath.toQtLib nanWidget.m_dataModel 0
      = [ieeeMath.ofInt 1, ieeeMath.ofInt 5, Binary64.nan, ieeeMath.ofInt 2] ∧
    stdSort ieeeMath (numericCellValues ieeeMath.toQtLib nanWidget.m_dataModel 0)
      = [ieeeMath.ofInt 1, ieeeMath.ofInt 5, Binary64.nan, ieeeMath.ofInt 2] ∧
    (calculateColumnStatistics ieeeMath nanWidget ieeeStatistics 0).maximum
      = ieeeMath.ofInt 2 ∧
    ieeeMath.lt (ieeeMath.ofInt 2) (ieeeMath.ofInt 5) = true ∧
    (calculateColumnStatistics ieeeMath nanWidget ieeeStatistics 0).average = Binary64.nan ∧
    (calculateColumnStatistics ieeeMath nanWidget ieeeStatistics 0).median = Binary64.nan ∧
    ¬ OrderedValues ieeeMath (numericCellValues ieeeMath.toQtLib nanWidget.m_dataModel 0) := by
  refine ⟨by decide!, by decide!, by decide!, by decide!, by decide!, by decide!, by decide!,
    ?_⟩
  intro h
  exact absurd
    (h.2 (ieeeMath.ofInt 5) (by decide!) Binary64.nan (by decide!) (ieeeMath.ofInt 2)
      (by decide!) (by decide!) (by decide!))
    (by decide!)

/-! ## Deleting a row outside the table -/

theorem rowCount_setRowItemsFrom (row : Nat) :
    ∀ (data : List QString) (col : Nat) (m : QStandardItemModel),
      (setRowItemsFrom row col data m).rowCount
        = if data = [] then m.rowCount else max m.rowCount (row + 1) := by
  intro data
  induction data with
  | nil => intro col m; rfl
  | cons v vs ih =>
    intro col m
    simp only [setRowItemsFrom]
    rw [ih (col + 1) (m.setItem row col v), QStandardItemModel.rowCount_setItem]
    by_cases hvs : vs = []
    · simp [hvs]
    · simp [hvs]

/-- C21, where it fails: for a row index `r ≥ rowCount` the redo of `RowEdit(Delete, r)`
is a no-op (the command and the table are returned as they were), but the undo that
follows is not: when `r = rowCount` the unguarded `insertRow(r)` appends a row, and when
the constructor snapshot is not empty the `setItem(r, col, ...)` calls enlarge the table
to `r + 1` rows. In both cases the table after the undo has `r + 1` rows, more than
before. -/
theorem rowDelete_out_of_range_undo_grows (m : QStandardItemModel) (r : Nat)
    (snapshot : List QString) (h : m.rowCount ≤ r)
    (hs : snapshot ≠ [] ∨ r = m.rowCount) :
    RowEditCommand.redo ⟨Operation.Delete, r, snapshot⟩ m
      = (⟨Operation.Delete, r, snapshot⟩, m) ∧
    ((RowEditCommand.redo ⟨Operation.Delete, r, snapshot⟩ m).1.undo
      (RowEditCommand.redo ⟨Operation.Delete, r, snapshot⟩ m).2).rowCount = r + 1 ∧
    ¬ TableEq
      ((RowEditCommand.redo ⟨Operation.Delete, r, snapshot⟩ m).1.undo
        (RowEditCommand.redo ⟨Operation.Delete, r, snapshot⟩ m).2) m := by
  have hredo : RowEditCommand.redo ⟨Operation.Delete, r, snapshot⟩ m
      = (⟨Operation.Delete, r, snapshot⟩, m) := by
    simp only [RowEditCommand.redo]
    rw [if_neg (by omega)]
  have hrows : ((RowEditCommand.redo ⟨Operation.Delete, r, snapshot⟩ m).1.undo
      (RowEditCommand.redo ⟨Operation.Delete, r, snapshot⟩ m).2).rowCount = r + 1 := by
    rw [hredo]
    simp only [RowEditCommand.undo]
    rw [rowCount_setRowItemsFrom]
    by_cases heq : r = m.rowCount
    · rw [QStandardItemModel.rowCount_insertRow _ (by omega)]
      by_cases hnil : snapshot = []
      · rw [if_pos hnil]; omega
      · rw [if_neg hnil]; omega
    · have hnil : snapshot ≠ [] := by
        rcases hs with hs | hs
        · exact hs
        · exact absurd hs heq
      have hins : m.insertRow r = m := by
        unfold QStandardItemModel.insertRow
        rw [if_neg (by omega)]
      rw [if_neg hnil, hins]
      omega
  refine ⟨hredo, hrows, fun ht => ?_⟩
  have := ht.1
  rw [hrows] at this
  omega

/-- On the 2 × 2 sample table, `RowEdit(Delete, 2)` with an empty snapshot: the redo does
nothing and the undo leaves 3 rows. -/
theorem rowDelete_out_of_range_undo_grows_witness :
    sampleTable.rowCount = 2 ∧
    ((RowEditCommand.redo ⟨Operation.Delete, 2, []⟩ sampleTable).1.undo
      (RowEditCommand.redo ⟨Operation.Delete, 2, []⟩ sampleTable).2).rowCount = 3 :=
  ⟨rfl, (rowDelete_out_of_range_undo_grows sampleTable 2 [] (by decide) (Or.inr rfl)).2.1⟩

/-! ## Cleaning and the undo stack -/

set_option maxRecDepth 100000 in
/-- C22, where it fails: `removeOutliers` and `fillMissingValues` write into the items
directly and leave the undo stack as it was. On the column 10, 10, 10, 10, 100 with the
threshold 1 the cell holding 100 is cleared, yet `canUndo` is false and `undo` leaves the
cleared cell; on the table with gaps, filling with `zero` writes 0 into the blank cell of
row 2, and again `canUndo` is false and `undo` changes nothing. -/
theorem cleaning_pushes_no_command {D : Type} (qt : QtMath D) (w : DataEditorWidget D)
    (threshold : D) (method : QString) :
    (removeOutliers qt w threshold).m_undoStack = w.m_undoStack ∧
    (fillMissingValues qt w method).m_undoStack = w.m_undoStack ∧
    (outlierWidget.m_dataModel.item 4 0 = some "100".toList ∧
      (removeOutliers milliMath outlierWidget 1000).m_dataModel.item 4 0 = some [] ∧
      (removeOutliers milliMath outlierWidget 1000).canUndo = false ∧
      (removeOutliers milliMath outlierWidget 1000).undo.m_dataModel.item 4 0 = some [] ∧
      ¬ TableEq (removeOutliers milliMath outlierWidget 1000).undo.m_dataModel
        outlierWidget.m_dataModel) ∧
    (gapWidget.m_dataModel.item 2 0 = some " ".toList ∧
      (fillMissingValues milliMath gapWidget "zero".toList).m_dataModel.item 2 0
        = some "0".toList ∧
      (fillMissingValues milliMath gapWidget "zero".toList).canUndo = false ∧
      (fillMissingValues milliMath gapWidget "zero".toList).undo.m_dataModel.item 2 0
        = some "0".toList ∧
      ¬ TableEq (fillMissingValues milliMath gapWidget "zero".toList).undo.m_dataModel
        gapWidget.m_dataModel) := by
  refine ⟨rfl, rfl, ⟨by decide, by decide, by decide, by decide, fun h => ?_⟩,
    ⟨by decide, by decide, by decide, by decide, fun h => ?_⟩⟩
  · exact absurd (h.2.2.1 4 0) (by decide)
  · exact absurd (h.2.2.1 2 0) (by decide)

/-! ## Signatures that collide -/

/-- C28, where it fails: the rows `a|b`, `c` and `a`, `b|c` differ in both trimmed cells,
but both join to the signature `a|b|c`; `removeDuplicates` takes the second for a
duplicate of the first and deletes it. -/
theorem removeDuplicates_removes_distinct_row :
    trimmed (pipeWidget.m_dataModel.text 1 0) ≠ trimmed (pipeWidget.m_dataModel.text 0 0) ∧
    trimmed (pipeWidget.m_dataModel.text 1 1) ≠ trimmed (pipeWidget.m_dataModel.text 0 1) ∧
    rowSignature pipeWidget.m_dataModel 0 = "a|b|c".toList ∧
    rowSignature pipeWidget.m_dataModel 1 = "a|b|c".toList ∧
    scanDuplicates pipeWidget.m_dataModel (List.range pipeWidget.m_dataModel.rowCount) [] []
      = [1] ∧
    pipeWidget.m_dataModel.rowCount = 2 ∧
    (removeDuplicates pipeWidget).m_dataModel.rowCount = 1 ∧
    (removeDuplicates pipeWidget).m_dataModel.item 0 0 = some "a|b".toList := by
  refine ⟨by decide, by decide, by decide, by decide, by decide, by decide, by decide,
    by decide⟩

/-! ## Column definitions after a column is removed -/

/-- C23, where it fails: `removeEmptyColumns` deletes table columns and leaves the list
of column definitions as it was. On a table with the blank column `A` and the data column
`B`, with one definition per column before the call, the call leaves the single column
`B` and still two definitions: the list no longer has one entry per column, and entry 0,
the definition of `A`, now sits at the index of column `B`. -/
theorem removeEmptyColumns_keeps_definitions {D : Type} (w : DataEditorWidget D) :
    (removeEmptyColumns w).m_columnDefinitions = w.m_columnDefinitions ∧
    (blankColumnWidget.m_columnDefinitions.length = blankColumnWidget.m_dataModel.columnCount ∧
      (blankColumnWidget.m_columnDefinitions.map (fun d => d.name))
        = [blankColumnWidget.m_dataModel.headerData 0,
            blankColumnWidget.m_dataModel.headerData 1] ∧
      (removeEmptyColumns blankColumnWidget).m_dataModel.columnCount = 1 ∧
      (removeEmptyColumns blankColumnWidget).m_dataModel.headerData 0 = "B".toList ∧
      (removeEmptyColumns blankColumnWidget).m_columnDefinitions.length = 2 ∧
      ((removeEmptyColumns blankColumnWidget).m_columnDefinitions.map (fun d => d.name))
        = ["A".toList, "B".toList]) := by
  refine ⟨?_, by decide, by decide, by decide, by decide, by decide, by decide⟩
  unfold removeEmptyColumns
  split <;> rfl

/-! ## Undoing a macro of row deletions -/

theorem headerData_congr (a b : QStandardItemModel) (hc : a.columnCount = b.columnCount)
    (h : ∀ j, a.horizontalHeaderItem j = b.horizontalHeaderItem j) (j : Nat) :
    a.headerData j = b.headerData j := by
  rw [QStandardItemModel.headerData_eq, QStandardItemModel.headerData_eq, hc, h j]

theorem deleteRowsLoop_children :
    ∀ (rows : List Nat) (children : List DataEditCommand) (m : QStandardItemModel),
      (deleteRowsLoop rows children m).1 = children ++ (deleteRowsLoop rows [] m).1 := by
  intro rows
  induction rows with
  | nil => intro children m; simp [deleteRowsLoop]
  | cons r rs ih =>
    intro children m
    simp only [deleteRowsLoop]
    rw [ih, ih ([] ++ _)]
    simp

theorem undoChildren_append (a b : List DataEditCommand) (x : QStandardItemModel) :
    undoChildren (a ++ b) x = undoChildren a (undoChildren b x) := by
  induction a with
  | nil => rfl
  | cons c cs ih => simp only [List.cons_append, undoChildren, List.append_eq, ih]

/-- Undoing the deletion of row `r` on a table that reads like the table without row `r`
gives a table that reads like the original. -/
theorem rowDelete_undo_tableEq (m x : QStandardItemModel) (r : Nat) (h : r < m.rowCount)
    (hx : TableEq x (m.removeRow r)) :
    TableEq (RowEditCommand.undo ⟨Operation.Delete, r, captureRow m r⟩ x) m := by
  obtain ⟨x1, x2, x3, x4⟩ := hx
  rw [QStandardItemModel.rowCount_removeRow _ h] at x1
  rw [QStandardItemModel.columnCount_removeRow] at x2
  simp only [RowEditCommand.undo]
  have hle : r ≤ x.rowCount := by omega
  have h1 : r < (x.insertRow r).rowCount := by
    rw [QStandardItemModel.rowCount_insertRow _ hle]; omega
  have h2 : 0 + (captureRow m r).length ≤ (x.insertRow r).columnCount := by
    rw [captureRow_length, QStandardItemModel.columnCount_insertRow]; omega
  obtain ⟨e1, e2, e3, e4⟩ := setRowItemsFrom_inside r (captureRow m r) 0 _ h1 h2
  have hcols : (setRowItemsFrom r 0 (captureRow m r) (x.insertRow r)).columnCount
      = m.columnCount := by
    rw [e2, QStandardItemModel.columnCount_insertRow, x2]
  refine ⟨?_, hcols, ?_, ?_⟩
  · rw [e1, QStandardItemModel.rowCount_insertRow _ hle, x1]; omega
  · intro i j
    rw [QStandardItemModel.text_eq, e4 i j, QStandardItemModel.item_insertRow _ hle]
    by_cases hi : i = r
    · subst hi
      by_cases hj : j < m.columnCount
      · rw [if_pos ⟨rfl, by omega, by rw [captureRow_length]; omega⟩]
        rw [Nat.sub_zero, captureRow_get m i hj]
        rfl
      · rw [if_neg (fun hh => hj (by have := hh.2.2; rw [captureRow_length] at this; omega))]
        rw [if_neg (by omega), if_pos rfl]
        rw [QStandardItemModel.text_eq, m.item_of_col_ge _ (by omega)]
    · rw [if_neg (fun hh => hi hh.1)]
      by_cases hlt : i < r
      · rw [if_pos hlt]
        have := x3 i j
        rw [QStandardItemModel.text_eq, QStandardItemModel.text_eq,
          QStandardItemModel.item_removeRow _ h, if_pos hlt] at this
        rw [this, QStandardItemModel.text_eq]
      · rw [if_neg hlt, if_neg hi]
        have := x3 (i - 1) j
        rw [QStandardItemModel.text_eq, QStandardItemModel.text_eq,
          QStandardItemModel.item_removeRow _ h, if_neg (by omega)] at this
        rw [this, QStandardItemModel.text_eq]
        have hi1 : i - 1 + 1 = i := by omega
        rw [hi1]
  · intro j
    rw [headerData_congr _ x (by rw [e2, QStandardItemModel.columnCount_insertRow])
      (fun k => by rw [e3 k, QStandardItemModel.header_insertRow]) j, x4 j]
    exact headerData_congr _ m (QStandardItemModel.columnCount_removeRow _ _)
      (fun k => QStandardItemModel.header_removeRow _ _ _) j

theorem tableEq_refl (m : QStandardItemModel) : TableEq m m :=
  ⟨rfl, rfl, fun _ _ => rfl, fun _ => rfl⟩

/-- Rows deleted in strictly descending order and then undone, last deletion first,
give back a table that reads like the original. -/
theorem undoChildren_deleteRowsLoop :
    ∀ (rows : List Nat) (m : QStandardItemModel),
      rows.Pairwise (fun a b => b < a) → (∀ r, r ∈ rows → r < m.rowCount) →
      TableEq (undoChildren (deleteRowsLoop rows [] m).1 (deleteRowsLoop rows [] m).2) m := by
  intro rows
  induction rows with
  | nil => intro m _ _; exact tableEq_refl m
  | cons r rs ih =>
    intro m hp hlt
    obtain ⟨hr, hp2⟩ := List.pairwise_cons.1 hp
    have hrm : r < m.rowCount := hlt r (List.mem_cons_self _ _)
    have hredo : RowEditCommand.redo ⟨Operation.Delete, r, captureRow m r⟩ m
        = (⟨Operation.Delete, r, captureRow m r⟩, m.removeRow r) := by
      simp [RowEditCommand.redo, hrm]
    simp only [deleteRowsLoop]
    rw [hredo, deleteRowsLoop_children, deleteRowsLoop_model_children rs _ [],
      undoChildren_append]
    simp only [List.nil_append, undoChildren, DataEditCommand.undo]
    apply rowDelete_undo_tableEq m _ r hrm
    apply ih (m.removeRow r) hp2
    intro r2 hr2
    rw [QStandardItemModel.rowCount_removeRow _ hrm]
    have := hr r2 hr2
    omega

theorem deletedRow_deleteRowsLoop :
    ∀ (rows : List Nat) (m : QStandardItemModel),
      (deleteRowsLoop rows [] m).1.map deletedRow = rows.map some := by
  intro rows
  induction rows with
  | nil => intro m; rfl
  | cons r rs ih =>
    intro m
    simp only [deleteRowsLoop]
    rw [deleteRowsLoop_children, List.map_append, ih]
    have : deletedRow (DataEditCommand.row
        (RowEditCommand.redo ⟨Operation.Delete, r, captureRow m r⟩ m).1) = some r := by
      simp only [RowEditCommand.redo]
      split <;> rfl
    simp [this]

theorem get?_pushMacro (stack : QUndoStack) (children : List DataEditCommand)
    (h : stack.index ≤ stack.commands.length) :
    (stack.pushMacro children).commands.get? stack.index
      = some (QUndoCommand.group children) := by
  unfold QUndoStack.pushMacro
  simp only [List.get?_eq_getElem?]
  rw [List.getElem?_append_right (by simp [h])]
  simp [Nat.min_eq_left h]

/-- C25: when `removeEmptyRows` has removed `k ≥ 1` rows, the undo stack can undo, its
top entry is one macro holding the `k` row deletions in the order they were issued, with
descending row index, and a single `undo` undoes them last first, that is with ascending
row index; the table after that undo has the row count, the column count, the headers and
every cell text (untrimmed, unset cells read as empty) of the table before the
cleaning. -/
theorem removeEmptyRows_undo_restores {D : Type} (w : DataEditorWidget D)
    (hstack : w.m_undoStack.index ≤ w.m_undoStack.commands.length)
    (hk : (List.range w.m_dataModel.rowCount).filter (isEmptyRow w.m_dataModel) ≠ []) :
    (removeEmptyRows w).canUndo = true ∧
    (removeEmptyRows w).m_dataModel.rowCount
        + ((List.range w.m_dataModel.rowCount).filter (isEmptyRow w.m_dataModel)).length
      = w.m_dataModel.rowCount ∧
    (∃ children,
      (removeEmptyRows w).m_undoStack.commands.get? w.m_undoStack.index
        = some (QUndoCommand.group children) ∧
      children.map deletedRow
        = (((List.range w.m_dataModel.rowCount).filter (isEmptyRow w.m_dataModel)).reverse).map
            some ∧
      (removeEmptyRows w).undo.m_dataModel
        = undoChildren children (removeEmptyRows w).m_dataModel) ∧
    (removeEmptyRows w).undo.m_undoStack.index = w.m_undoStack.index ∧
    TableEq (removeEmptyRows w).undo.m_dataModel w.m_dataModel := by
  have hne : ((List.range w.m_dataModel.rowCount).filter (isEmptyRow w.m_dataModel)).isEmpty
      = false := by
    cases hx : (List.range w.m_dataModel.rowCount).filter (isEmptyRow w.m_dataModel) with
    | nil => exact absurd hx hk
    | cons _ _ => rfl
  have hdef : removeEmptyRows w =
      { w with
        m_dataModel := (deleteRowsLoop
          ((List.range w.m_dataModel.rowCount).filter (isEmptyRow w.m_dataModel)).reverse
          [] w.m_dataModel).2
        m_undoStack := w.m_undoStack.pushMacro (deleteRowsLoop
          ((List.range w.m_dataModel.rowCount).filter (isEmptyRow w.m_dataModel)).reverse
          [] w.m_dataModel).1 } := by
    unfold removeEmptyRows deleteRowsAsMacro
    rw [hne, sortDescending_filter_range]
    rfl
  have hcan : (removeEmptyRows w).canUndo = true := by
    rw [hdef]
    simp [DataEditorWidget.canUndo, QUndoStack.canUndo, QUndoStack.pushMacro]
  have hget := get?_pushMacro w.m_undoStack (deleteRowsLoop
    ((List.range w.m_dataModel.rowCount).filter (isEmptyRow w.m_dataModel)).reverse
    [] w.m_dataModel).1 hstack
  have hundo : (removeEmptyRows w).undo.m_dataModel
      = undoChildren (deleteRowsLoop
          ((List.range w.m_dataModel.rowCount).filter (isEmptyRow w.m_dataModel)).reverse
          [] w.m_dataModel).1 (removeEmptyRows w).m_dataModel ∧
      (removeEmptyRows w).undo.m_undoStack.index = w.m_undoStack.index := by
    unfold DataEditorWidget.undo
    have hcan2 : (removeEmptyRows w).m_undoStack.canUndo = true := hcan
    rw [if_pos hcan2]
    simp only [Editor.undo]
    have hidx : (removeEmptyRows w).m_undoStack.index = w.m_undoStack.index + 1 := by
      rw [hdef]; rfl
    rw [hidx]
    simp only []
    have hget2 : (removeEmptyRows w).m_undoStack.commands.get? w.m_undoStack.index
        = some (QUndoCommand.group (deleteRowsLoop
          ((List.range w.m_dataModel.rowCount).filter (isEmptyRow w.m_dataModel)).reverse
          [] w.m_dataModel).1) := by
      rw [hdef]; exact hget
    rw [hget2]
    exact ⟨rfl, rfl⟩
  have hrows := (deleteRowsAsMacro_spec w (isEmptyRow w.m_dataModel)).2.2.1
  have hkept : (keptRows w.m_dataModel.rowCount (isEmptyRow w.m_dataModel)).length
      + ((List.range w.m_dataModel.rowCount).filter (isEmptyRow w.m_dataModel)).length
      = w.m_dataModel.rowCount := by
    unfold keptRows
    rw [filter_length_add (isEmptyRow w.m_dataModel)]
    simp
  refine ⟨hcan, ?_, ⟨_, by rw [hdef]; exact hget, deletedRow_deleteRowsLoop _ _, hundo.1⟩,
    hundo.2, ?_⟩
  · show (deleteRowsAsMacro w _).m_dataModel.rowCount + _ = _
    rw [hrows]
    exact hkept
  · rw [hundo.1]
    have hm : (removeEmptyRows w).m_dataModel = (deleteRowsLoop
        ((List.range w.m_dataModel.rowCount).filter (isEmptyRow w.m_dataModel)).reverse
        [] w.m_dataModel).2 := by
      rw [hdef]
    rw [hm]
    apply undoChildren_deleteRowsLoop
    · rw [List.pairwise_reverse]
      exact (List.pairwise_lt_range _).filter _
    · intro r hr
      rw [List.mem_reverse, List.mem_filter, List.mem_range] at hr
      exact hr.1

set_option maxRecDepth 100000 in
/-- On the table `a 1 / (blank) / a 1 / b 2`, whose row 1 holds a blank and an empty
text: the cleaning leaves 3 rows, the undo brings back 4 rows and row 1 reads again as a
blank and an empty text. -/
theorem removeEmptyRows_undo_restores_witness :
    (removeEmptyRows messyWidget).m_dataModel.rowCount = 3 ∧
    (removeEmptyRows messyWidget).canUndo = true ∧
    (removeEmptyRows messyWidget).undo.m_dataModel.rowCount = 4 ∧
    (removeEmptyRows messyWidget).undo.m_dataModel.text 1 0 = " ".toList ∧
    TableEq (removeEmptyRows messyWidget).undo.m_dataModel messyWidget.m_dataModel :=
  ⟨by decide,
    (removeEmptyRows_undo_restores messyWidget (by decide) (by decide)).1,
    by decide, by decide,
    (removeEmptyRows_undo_restores messyWidget (by decide) (by decide)).2.2.2.2⟩

/-! ## The splitting loop on quoted fields -/

theorem splitCSVLoop_separator_text (sep : QString) (hsep : sep ≠ []) (hq : dquote ∉ sep)
    (fuel : Nat) (rest current : QString) (result : List QString) :
    splitCSVLoop sep (fuel + 1) (sep ++ rest) current false result =
      splitCSVLoop sep fuel rest [] false (result ++ [trimmed current]) := by
  cases sep with
  | nil => exact absurd rfl hsep
  | cons s ss =>
    have hs : s ≠ dquote := fun h => hq (by simp [h])
    simp only [List.cons_append, splitCSVLoop, if_neg hs, List.append_eq]
    have hdrop : List.drop (s :: ss).length (s :: (ss ++ rest)) = rest := by
      simp
    have hcond : (!false && decide (List.take (s :: ss).length (s :: (ss ++ rest)) = s :: ss))
        = true := by
      simp
    rw [if_pos hcond, hdrop]

theorem splitCSVLoop_quoted (sep : QString) (hsep : sep ≠ []) (hq : dquote ∉ sep) :
    ∀ (fields : List QString), fields ≠ [] → (∀ f, f ∈ fields → dquote ∉ f) →
      ∀ result : List QString, ∃ fuel,
        splitCSVLoop sep fuel (quotedLine sep fields) [] false result
          = some (result ++ fields.map trimmed) := by
  intro fields
  induction fields with
  | nil => intro h; exact absurd rfl h
  | cons f fs ih =>
    intro _ hf result
    have hff : dquote ∉ f := hf f (List.mem_cons_self _ _)
    cases fs with
    | nil =>
      refine ⟨((0 + 1 + 1) + f.length) + 1, ?_⟩
      show splitCSVLoop sep (((0 + 1 + 1) + f.length) + 1) (dquote :: (f ++ [dquote])) [] false
        result = _
      rw [splitCSVLoop_quote]
      simp only [Bool.not_false]
      rw [splitCSVLoop_in_quotes sep f hff, splitCSVLoop_quote]
      simp [splitCSVLoop]
    | cons g gs =>
      obtain ⟨k, hk⟩ := ih (by simp) (fun x hx => hf x (List.mem_cons_of_mem _ hx))
        (result ++ [trimmed f])
      refine ⟨((k + 1 + 1) + f.length) + 1, ?_⟩
      have hline : quotedLine sep (f :: g :: gs)
          = dquote :: (f ++ (dquote :: (sep ++ quotedLine sep (g :: gs)))) := by
        simp [quotedLine, joinStr]
      rw [hline, splitCSVLoop_quote]
      simp only [Bool.not_false]
      rw [splitCSVLoop_in_quotes sep f hff, splitCSVLoop_quote]
      simp only [Bool.not_true, List.nil_append]
      rw [splitCSVLoop_separator_text sep hsep hq, hk]
      simp

/-- C26: for every non-empty separator without double quote and every non-empty list of
fields without double quote (the fields may contain the separator), `splitCSVLine`
applied to the line made of the fields, each wrapped in double quotes, joined with the
separator, returns exactly the trimmed fields, in order. -/
theorem splitCSVLine_quoted (sep : QString) (fields : List QString)
    (hsep : sep ≠ []) (hq : dquote ∉ sep) (hne : fields ≠ [])
    (hf : ∀ f, f ∈ fields → dquote ∉ f) :
    splitCSVLine (quotedLine sep fields) sep = some (fields.map trimmed) := by
  obtain ⟨fuel, h⟩ := splitCSVLoop_quoted sep hsep hq fields hne hf []
  have := splitCSVLoop_complete sep fuel _ _ _ _ _ h
  simpa [splitCSVLine] using this

/-- The fields `a;;b`, ` c ` and the empty field, quoted and joined with `;;`, split
back into `a;;b`, `c` and the empty field. -/
theorem splitCSVLine_quoted_witness :
    splitCSVLine
        (quotedLine ";;".toList ["a;;b".toList, " c ".toList, []]) ";;".toList
      = some ["a;;b".toList, "c".toList, []] :=
  (splitCSVLine_quoted ";;".toList ["a;;b".toList, " c ".toList, []]
    (by decide) (by decide) (by decide) (by decide)).trans (by decide)

/-! ## Validation -/

theorem validateRows_spec {D : Type} (qt : QtMath D) (arg : D → QString)
    (w : DataEditorWidget D) :
    ∀ (rows : List Nat) (result : ValidationResult),
      (validateRows qt arg w rows result).errors = result.errors ∧
      (validateRows qt arg w rows result).totalRows = result.totalRows ∧
      (validateRows qt arg w rows result).validRows
          + (validateRows qt arg w rows result).errorRows
          + (validateRows qt arg w rows result).warnings.length
        = result.validRows + result.errorRows + result.warnings.length + rows.length := by
  intro rows
  induction rows with
  | nil => intro result; exact ⟨rfl, rfl, rfl⟩
  | cons row rows ih =>
    intro result
    simp only [validateRows]
    split
    · obtain ⟨a, b, c⟩ := ih { result with
        columnErrors := (validateRowCells qt arg w row
          (List.range w.m_dataModel.columnCount) ⟨false, true, result.columnErrors⟩).columnErrors
        warnings := result.warnings ++
          ['第' :: (numberText (row + 1) ++ "行为空行".toList)] }
      refine ⟨a, b, ?_⟩
      rw [c]
      simp only [List.length_append, List.length_cons, List.length_nil]
      omega
    · split
      · obtain ⟨a, b, c⟩ := ih { result with
          columnErrors := (validateRowCells qt arg w row
            (List.range w.m_dataModel.columnCount)
            ⟨false, true, result.columnErrors⟩).columnErrors
          errorRows := result.errorRows + 1 }
        refine ⟨a, b, ?_⟩
        rw [c]
        simp only [List.length_cons]
        omega
      · obtain ⟨a, b, c⟩ := ih { result with
          columnErrors := (validateRowCells qt arg w row
            (List.range w.m_dataModel.columnCount)
            ⟨false, true, result.columnErrors⟩).columnErrors
          validRows := result.validRows + 1 }
        refine ⟨a, b, ?_⟩
        rw [c]
        simp only [List.length_cons]
        omega

set_option maxRecDepth 100000 in
/-- C29, where it fails: `validateData` records the failures of the column checks in
`columnErrors` and `errorRows` but computes `isValid` from the list `errors`, which the
row loop never writes: for every table and every list of definitions the result has
`isValid = true` and no `errors`. On a table whose pressure column holds the word `abc`,
the number 12.5 and a blank, the result counts 2 error rows and has messages under the
column `P`, and `isValid` is true all the same. The count identity holds in every result:
`totalRows`, the row count, is `validRows + errorRows` plus the number of empty-row
warnings. -/
theorem validateData_always_valid {D : Type} (qt : QtMath D) (arg : D → QString)
    (w : DataEditorWidget D) :
    (validateData qt arg w).isValid = true ∧
    (validateData qt arg w).errors = [] ∧
    (validateData qt arg w).totalRows = w.m_dataModel.rowCount ∧
    (validateData qt arg w).totalRows
      = (validateData qt arg w).validRows + (validateData qt arg w).errorRows
        + (validateData qt arg w).warnings.length ∧
    ((validateData milliMath renderMilli badPressureWidget).isValid = true ∧
      (validateData milliMath renderMilli badPressureWidget).errorRows = 2 ∧
      (validateData milliMath renderMilli badPressureWidget).validRows = 0 ∧
      (validateData milliMath renderMilli badPressureWidget).warnings.length = 1 ∧
      (validateData milliMath renderMilli badPressureWidget).columnErrors.map Prod.fst
        = ["P".toList] ∧
      (validateColumnData milliMath renderMilli badPressureWidget 0
        { customDefinition "P".toList with type := WellTestColumnType.Pressure } []).1
        = false) := by
  obtain ⟨a, b, c⟩ := validateRows_spec qt arg w (List.range w.m_dataModel.rowCount)
    ⟨true, [], [], w.m_dataModel.rowCount, 0, 0, []⟩
  refine ⟨?_, a, b, ?_, by decide, by decide, by decide, by decide, by decide, by decide⟩
  · show (validateRows qt arg w (List.range w.m_dataModel.rowCount)
      ⟨true, [], [], w.m_dataModel.rowCount, 0, 0, []⟩).errors.isEmpty = true
    rw [a]
    rfl
  · show (validateRows qt arg w (List.range w.m_dataModel.rowCount)
      ⟨true, [], [], w.m_dataModel.rowCount, 0, 0, []⟩).totalRows = _
    rw [b]
    have hc : (validateRows qt arg w (List.range w.m_dataModel.rowCount)
          ⟨true, [], [], w.m_dataModel.rowCount, 0, 0, []⟩).validRows
        + (validateRows qt arg w (List.range w.m_dataModel.rowCount)
          ⟨true, [], [], w.m_dataModel.rowCount, 0, 0, []⟩).errorRows
        + (validateRows qt arg w (List.range w.m_dataModel.rowCount)
          ⟨true, [], [], w.m_dataModel.rowCount, 0, 0, []⟩).warnings.length
        = w.m_dataModel.rowCount := by
      rw [c]
      simp
    exact hc.symm

/-! ## How many cells an outlier pass can clear -/

theorem filter_length_mul_le {D K : Type} [LinearOrderedCommRing K] (f : D → K)
    (p : D → Bool) (c : K) (hf : ∀ v, 0 ≤ f v) :
    ∀ l : List D, (∀ v, v ∈ l → p v = true → c ≤ f v) →
      ((l.filter p).length : K) * c ≤ (l.map f).sum := by
  intro l
  induction l with
  | nil => intro _; simp
  | cons x xs ih =>
    intro hp
    have ih2 := ih (fun v hv => hp v (List.mem_cons_of_mem _ hv))
    simp only [List.filter_cons, List.map_cons, List.sum_cons]
    by_cases hx : p x = true
    · rw [if_pos hx]
      simp only [List.length_cons, Nat.cast_add, Nat.cast_one]
      have := hp x (List.mem_cons_self _ _) hx
      nlinarith
    · rw [if_neg hx]
      have := hf x
      linarith

theorem filter_length_mul_lt {D K : Type} [LinearOrderedCommRing K] (f : D → K)
    (p : D → Bool) (c : K) (hf : ∀ v, 0 ≤ f v) :
    ∀ l : List D, (∀ v, v ∈ l → p v = true → c < f v) → 0 < (l.filter p).length →
      ((l.filter p).length : K) * c < (l.map f).sum := by
  intro l
  induction l with
  | nil => intro _ h; simp at h
  | cons x xs ih =>
    intro hp hpos
    have hp2 : ∀ v, v ∈ xs → p v = true → c < f v :=
      fun v hv => hp v (List.mem_cons_of_mem _ hv)
    simp only [List.filter_cons, List.map_cons, List.sum_cons] at hpos ⊢
    by_cases hx : p x = true
    · rw [if_pos hx]
      simp only [List.length_cons, Nat.cast_add, Nat.cast_one]
      have h1 := hp x (List.mem_cons_self _ _) hx
      have h2 := filter_length_mul_le f p c hf xs (fun v hv hpv => le_of_lt (hp2 v hv hpv))
      linarith
    · rw [if_neg hx] at hpos ⊢
      have h1 := hf x
      have h2 := ih hp2 hpos
      linarith

theorem outlierRowsOf_length {D : Type} (qt : QtMath D) (threshold : D)
    (cells : List (Nat × D)) :
    (outlierRowsOf qt threshold cells).length
      = ((cells.map Prod.snd).filter
          (fun v => isOutlier qt threshold (cells.map Prod.snd) v)).length := by
  unfold outlierRowsOf
  rw [List.length_map, List.filter_map, List.length_map]
  rfl

theorem collectNumeric_rows {D : Type} (qt : QtLib D) (m : QStandardItemModel) (col : Nat) :
    ((collectNumeric qt m col).map Prod.fst).Nodup := by
  have h : (collectNumeric qt m col).map Prod.fst
      = (List.range m.rowCount).filter
          (fun r => ((m.item r col).bind qt.toDouble).isSome) := by
    unfold collectNumeric
    generalize List.range m.rowCount = l
    induction l with
    | nil => rfl
    | cons r rs ih =>
      simp only [List.filterMap_cons, List.filter_cons]
      cases hi : m.item r col with
      | none => simpa using ih
      | some t =>
        cases hd : qt.toDouble t with
        | none => simpa [hd] using ih
        | some v => simpa [hd] using ih
  rw [h]
  exact (List.nodup_range _).filter _

theorem outlierRowsOf_nodup {D : Type} (qt : QtMath D) (threshold : D)
    (m : QStandardItemModel) (col : Nat) :
    (outlierRowsOf qt threshold (collectNumeric qt.toQtLib m col)).Nodup := by
  unfold outlierRowsOf
  exact (collectNumeric_rows qt.toQtLib m col).sublist
    ((List.filter_sublist _).map Prod.fst)

/-- The count bound on a list of values whose arithmetic does not round. -/
theorem outlier_count_bound {D K : Type} [LinearOrderedCommRing K] (qt : QtMath D)
    (val : D → K) (threshold : D) (values : List D)
    (hex : ExactOnColumn qt val threshold values)
    (hn : 0 < values.length) (ht : 0 < val threshold) :
    (((values.filter (fun v => isOutlier qt threshold values v)).length : K)
        * (val threshold * val threshold) ≤ (values.length : K)) ∧
    (0 < (values.filter (fun v => isOutlier qt threshold values v)).length →
      ((values.filter (fun v => isOutlier qt threshold values v)).length : K)
        * (val threshold * val threshold) < (values.length : K)) ∧
    ((∃ c, ∀ v, v ∈ values → val v = c) →
      (values.filter (fun v => isOutlier qt threshold values v)).length = 0) := by
  have hs0 := hex.stdDev_nonneg
  have hss := hex.stdDev_sq
  have hV0 : 0 ≤ val (columnVariance qt values) := by
    rw [← hss]; exact mul_self_nonneg _
  have hnpos : (0 : K) < (values.length : K) := Nat.cast_pos.2 hn
  have hout : ∀ v, v ∈ values → isOutlier qt threshold values v = true →
      val threshold * val (columnStdDev qt values) < |val v - val (columnMean qt values)| :=
    fun v hv ho => (hex.outlier_iff v hv).1 ho
  have hsq : ∀ v, v ∈ values → isOutlier qt threshold values v = true →
      val threshold * val threshold * val (columnVariance qt values)
        < (val v - val (columnMean qt values)) * (val v - val (columnMean qt values)) := by
    intro v hv ho
    have h1 := hout v hv ho
    have h0 : 0 ≤ val threshold * val (columnStdDev qt values) :=
      mul_nonneg (le_of_lt ht) hs0
    have h2 := mul_self_lt_mul_self h0 h1
    rw [abs_mul_abs_self] at h2
    calc val threshold * val threshold * val (columnVariance qt values)
        = val threshold * val (columnStdDev qt values)
            * (val threshold * val (columnStdDev qt values)) := by
          rw [← hss]; ring
      _ < _ := h2
  have hS : (values.map (fun v => (val v - val (columnMean qt values))
        * (val v - val (columnMean qt values)))).sum
      = val (columnVariance qt values) * (values.length : K) := by
    rw [hex.variance_eq, hex.deviations_eq]
  have hstrict : 0 < (values.filter (fun v => isOutlier qt threshold values v)).length →
      ((values.filter (fun v => isOutlier qt threshold values v)).length : K)
        * (val threshold * val threshold) < (values.length : K) := by
    intro hk
    have h1 := filter_length_mul_lt
      (fun v => (val v - val (columnMean qt values)) * (val v - val (columnMean qt values)))
      (fun v => isOutlier qt threshold values v)
      (val threshold * val threshold * val (columnVariance qt values))
      (fun v => mul_self_nonneg _) values hsq hk
    rw [hS] at h1
    have hVpos : 0 < val (columnVariance qt values) := by
      by_contra hcon
      have hV : val (columnVariance qt values) = 0 := le_antisymm (not_lt.1 hcon) hV0
      rw [hV] at h1
      simp at h1
    have h2 : ((values.filter (fun v => isOutlier qt threshold values v)).length : K)
        * (val threshold * val threshold) * val (columnVariance qt values)
        < (values.length : K) * val (columnVariance qt values) := by
      calc _ = ((values.filter (fun v => isOutlier qt threshold values v)).length : K)
            * (val threshold * val threshold * val (columnVariance qt values)) := by ring
        _ < val (columnVariance qt values) * (values.length : K) := h1
        _ = _ := by ring
    exact lt_of_mul_lt_mul_right h2 hV0
  refine ⟨?_, hstrict, ?_⟩
  · by_cases hk : 0 < (values.filter (fun v => isOutlier qt threshold values v)).length
    · exact le_of_lt (hstrict hk)
    · have : (values.filter (fun v => isOutlier qt threshold values v)).length = 0 := by omega
      rw [this]
      simp only [Nat.cast_zero, zero_mul]
      exact le_of_lt hnpos
  · rintro ⟨c, hc⟩
    have hsum : (values.map val).sum = (values.length : K) * c := by
      have : ∀ l : List D, (∀ v, v ∈ l → val v = c) →
          (l.map val).sum = (l.length : K) * c := by
        intro l
        induction l with
        | nil => intro _; simp
        | cons x xs ih =>
          intro h
          rw [List.map_cons, List.sum_cons, ih (fun v hv => h v (List.mem_cons_of_mem _ hv)),
            h x (List.mem_cons_self _ _)]
          simp only [List.length_cons, Nat.cast_add, Nat.cast_one]
          ring
      exact this values hc
    have hmu : val (columnMean qt values) = c := by
      have h1 : val (columnMean qt values) * (values.length : K)
          = c * (values.length : K) := by
        rw [hex.mean_eq, hex.sum_eq, hsum]; ring
      exact mul_right_cancel₀ (ne_of_gt hnpos) h1
    rw [List.length_eq_zero, List.filter_eq_nil_iff]
    intro v hv ho
    have h1 := hout v hv ho
    rw [hmu, hc v hv, sub_self, abs_zero] at h1
    have h0 : 0 ≤ val threshold * val (columnStdDev qt values) :=
      mul_nonneg (le_of_lt ht) hs0
    exact absurd h1 (not_lt.2 h0)

/-- C27 (amended): for a column with `n ≥ 3` numeric values and a threshold `t > 0` on
which the arithmetic of `removeOutliers` does not round (the computed sum, mean, squared
deviations, variance, deviation and the test of each value are the exact ones, read as
elements of an ordered ring): the rows `removeOutliers(t)` clears in the column are the `k`
distinct rows of `outlierRows`, every other cell of the column keeps its item, and
`k * t² ≤ n`, with `k * t² < n` when `k > 0`; for `t ≥ 1` this gives `k < n`, so a
numeric value survives; and when the numeric values are all equal, `k = 0`. -/
theorem removeOutliers_count_bound {D K : Type} [LinearOrderedCommRing K] (qt : QtMath D)
    (val : D → K) (w : DataEditorWidget D) (threshold : D) (col : Nat)
    (hn : 3 ≤ (collectNumeric qt.toQtLib w.m_dataModel col).length)
    (ht : 0 < val threshold)
    (hex : ExactOnColumn qt val threshold
      ((collectNumeric qt.toQtLib w.m_dataModel col).map Prod.snd)) :
    (outlierRowsOf qt threshold (collectNumeric qt.toQtLib w.m_dataModel col)).Nodup ∧
    (∀ row, row ∈ outlierRowsOf qt threshold (collectNumeric qt.toQtLib w.m_dataModel col) →
      (w.m_dataModel.item row col).isSome = true ∧
      (removeOutliers qt w threshold).m_dataModel.item row col = some []) ∧
    (∀ row, row ∉ outlierRowsOf qt threshold (collectNumeric qt.toQtLib w.m_dataModel col) →
      (removeOutliers qt w threshold).m_dataModel.item row col = w.m_dataModel.item row col) ∧
    (((outlierRowsOf qt threshold (collectNumeric qt.toQtLib w.m_dataModel col)).length : K)
        * (val threshold * val threshold)
      ≤ ((collectNumeric qt.toQtLib w.m_dataModel col).length : K)) ∧
    (0 < (outlierRowsOf qt threshold (collectNumeric qt.toQtLib w.m_dataModel col)).length →
      ((outlierRowsOf qt threshold (collectNumeric qt.toQtLib w.m_dataModel col)).length : K)
          * (val threshold * val threshold)
        < ((collectNumeric qt.toQtLib w.m_dataModel col).length : K)) ∧
    (1 ≤ val threshold →
      (outlierRowsOf qt threshold (collectNumeric qt.toQtLib w.m_dataModel col)).length
        < (collectNumeric qt.toQtLib w.m_dataModel col).length) ∧
    ((∃ c, ∀ v, v ∈ (collectNumeric qt.toQtLib w.m_dataModel col).map Prod.snd → val v = c) →
      (outlierRowsOf qt threshold (collectNumeric qt.toQtLib w.m_dataModel col)).length
        = 0) := by
  have hlen : ((collectNumeric qt.toQtLib w.m_dataModel col).map Prod.snd).length
      = (collectNumeric qt.toQtLib w.m_dataModel col).length := List.length_map _ _
  obtain ⟨b1, b2, b3⟩ := outlier_count_bound qt val threshold
    ((collectNumeric qt.toQtLib w.m_dataModel col).map Prod.snd) hex
    (by rw [hlen]; omega) ht
  rw [← outlierRowsOf_length, hlen] at b1 b2
  rw [← outlierRowsOf_length] at b3
  have hcol : col < w.m_dataModel.columnCount := by
    by_contra hcon
    rw [collectNumeric_nil_of_col_ge _ _ _ (by omega)] at hn
    simp at hn
  obtain ⟨_, _, _, d⟩ := removeOutliersLoop_spec qt threshold
    (List.range w.m_dataModel.columnCount) w.m_dataModel (List.nodup_range _)
  have hitem : ∀ row, (removeOutliers qt w threshold).m_dataModel.item row col
      = outlierCleared qt threshold w.m_dataModel row col := by
    intro row
    show (removeOutliersLoop qt threshold (List.range w.m_dataModel.columnCount)
      w.m_dataModel).item row col = _
    rw [d row col, if_pos (List.mem_range.2 hcol)]
  refine ⟨outlierRowsOf_nodup qt threshold _ col, ?_, ?_, b1, b2, ?_, b3⟩
  · intro row hrow
    have ho := (mem_outlierRowsOf qt threshold w.m_dataModel col row).1 hrow
    refine ⟨isOutlierCell_isSome qt threshold _ _ _ ho, ?_⟩
    rw [hitem row]
    unfold outlierCleared
    rw [if_pos ⟨hn, ho⟩]
  · intro row hrow
    have ho : ¬ isOutlierCell qt threshold w.m_dataModel row col = true :=
      fun h => hrow ((mem_outlierRowsOf qt threshold w.m_dataModel col row).2 h)
    rw [hitem row]
    unfold outlierCleared
    rw [if_neg (fun h => ho h.2)]
  · intro h1
    by_cases hk : 0 < (outlierRowsOf qt threshold
        (collectNumeric qt.toQtLib w.m_dataModel col)).length
    · have h2 := b2 hk
      have h3 : (1 : K) ≤ val threshold * val threshold := by nlinarith
      have hkD : (0 : K) ≤ ((outlierRowsOf qt threshold
          (collectNumeric qt.toQtLib w.m_dataModel col)).length : K) := Nat.cast_nonneg _
      have h4 : ((outlierRowsOf qt threshold
          (collectNumeric qt.toQtLib w.m_dataModel col)).length : K)
          < ((collectNumeric qt.toQtLib w.m_dataModel col).length : K) := by nlinarith
      exact Nat.cast_lt.1 h4
    · omega

/-- On the column 10, 10, 10, 10, 100 in doubles (sum 140, mean 28, squared deviations
6480, variance 1296, deviation 36: none of them rounded) with the threshold 1: one cell,
that of row 4, is cleared, and `1 * 1² < 5`. -/
theorem removeOutliers_count_bound_witness :
    outlierRowsOf ieeeMath (ieeeMath.ofInt 1)
        (collectNumeric ieeeMath.toQtLib exactWidget.m_dataModel 0) = [4] ∧
    (removeOutliers ieeeMath exactWidget (ieeeMath.ofInt 1)).m_dataModel.item 4 0 = some [] ∧
    ((outlierRowsOf ieeeMath (ieeeMath.ofInt 1)
        (collectNumeric ieeeMath.toQtLib exactWidget.m_dataModel 0)).length : ℚ)
        * (Binary64.toRat (ieeeMath.ofInt 1) * Binary64.toRat (ieeeMath.ofInt 1))
      < ((collectNumeric ieeeMath.toQtLib exactWidget.m_dataModel 0).length : ℚ) :=
  ⟨by decide!,
    ((removeOutliers_count_bound ieeeMath Binary64.toRat exactWidget (ieeeMath.ofInt 1) 0
      (by decide!) (by decide!)
      ⟨by decide!, by decide!, by decide!, by decide!, by decide!, by decide!,
        by decide!⟩).2.1 4 (by decide!)).2,
    (removeOutliers_count_bound ieeeMath Binary64.toRat exactWidget (ieeeMath.ofInt 1) 0
      (by decide!) (by decide!)
      ⟨by decide!, by decide!, by decide!, by decide!, by decide!, by decide!,
        by decide!⟩).2.2.2.2.1 (by decide!)⟩

/-- C27 fails as stated, by rounding. In doubles the column 0.1, 0.1, 0.1, 3.3, 3.3, 3.3
has the mean 1.7 and the computed deviation 1.5999999999999996, below the distance
1.5999999999999999 of every value from the mean: with the threshold 1 all six cells are
cleared, no numeric value survives, and `k * t² < n` fails with `k = n = 6`. And the
column of seven cells 1e-200, all equal, has the computed mean 9.999999999999998e-201 and
the deviation 0 (the squares underflow): with the threshold 2 all seven cells are cleared,
so that `k * t² = 28 > 7 = n`. -/
theorem removeOutliers_rounding_clears_all :
    (collectNumeric ieeeMath.toQtLib roundingWidget.m_dataModel 0).length = 6 ∧
    Binary64.toRat (ieeeMath.ofInt 1) = 1 ∧
    outlierRowsOf ieeeMath (ieeeMath.ofInt 1)
        (collectNumeric ieeeMath.toQtLib roundingWidget.m_dataModel 0) = [0, 1, 2, 3, 4, 5] ∧
    (∀ row, row < 6 →
      (removeOutliers ieeeMath roundingWidget (ieeeMath.ofInt 1)).m_dataModel.item row 0
        = some []) ∧
    collectNumeric ieeeMath.toQtLib
      (removeOutliers ieeeMath roundingWidget (ieeeMath.ofInt 1)).m_dataModel 0 = [] ∧
    (collectNumeric ieeeMath.toQtLib tinyWidget.m_dataModel 0).length = 7 ∧
    (∀ cell, cell ∈ collectNumeric ieeeMath.toQtLib tinyWidget.m_dataModel 0 →
      cell.2 = Binary64.finite 6894565328877484 (-717)) ∧
    Binary64.toRat (ieeeMath.ofInt 2) = 2 ∧
    outlierRowsOf ieeeMath (ieeeMath.ofInt 2)
        (collectNumeric ieeeMath.toQtLib tinyWidget.m_dataModel 0) = [0, 1, 2, 3, 4, 5, 6] ∧
    collectNumeric ieeeMath.toQtLib
      (removeOutliers ieeeMath tinyWidget (ieeeMath.ofInt 2)).m_dataModel 0 = [] := by
  decide!

/-! ## Project files -/

/-- A successful `loadProject` on a file that holds a JSON document. -/
theorem loadProject_of_read {D B : Type} (qt : QtJson D B) (fs : FileSystem B)
    (s : ModelParameter D) (path : QString) (data : B)
    (hread : fs.read path = some data) (hdoc : (qt.fromJson data).isNull = false) :
    loadProject qt fs s path =
      (true,
        loadChartFile qt fs
          { readPvt qt (qt.fromJson data).toObject
              (readReservoir qt (qt.fromJson data).toObject s) with
            m_fullProjectData := (qt.fromJson data).toObject
            m_projectFilePath := path
            m_projectPath := qt.absolutePath path
            m_hasLoaded := true }) := by
  unfold loadProject
  simp only [hread, hdoc, Bool.false_eq_true, if_false]

theorem loadChartFile_eq {D B : Type} (qt : QtJson D B) (fs : FileSystem B)
    (s : ModelParameter D) :
    ∃ full, loadChartFile qt fs s = { s with m_fullProjectData := full } := by
  unfold loadChartFile
  split
  · exact ⟨s.m_fullProjectData, rfl⟩
  · split
    · split
      · exact ⟨_, rfl⟩
      · exact ⟨s.m_fullProjectData, rfl⟩
    · exact ⟨s.m_fullProjectData, rfl⟩

/-- C30 (amended): when `loadProject` returns false the state (parameters, project path,
cached project data) is unchanged. When it returns true, the file was read and held a
JSON document, and each of the seven parameters is: the number stored under its key in
the file's `reservoir` (phi, h, q, rw) or `pvt` (mu, B, Ct) object when the file has that
object, with the default (0.05, 20.0, 0.5, 1.05, 5e-4, 50.0, 0.1) when the key is missing
from it or holds no number; and the value held before the call when the file has no such
object. -/
theorem loadProject_parameters {D B : Type} (qt : QtJson D B) (fs : FileSystem B)
    (s : ModelParameter D) (path : QString) :
    ((loadProject qt fs s path).1 = false → (loadProject qt fs s path).2 = s) ∧
    ((loadProject qt fs s path).1 = true →
      ∃ data, fs.read path = some data ∧ (qt.fromJson data).isNull = false ∧
        (loadProject qt fs s path).2.m_phi
          = parameterOf (qt.fromJson data).toObject "reservoir".toList "porosity".toList
              (qt.decimal 5 2) s.m_phi ∧
        (loadProject qt fs s path).2.m_h
          = parameterOf (qt.fromJson data).toObject "reservoir".toList "thickness".toList
              (qt.decimal 20 0) s.m_h ∧
        (loadProject qt fs s path).2.m_q
          = parameterOf (qt.fromJson data).toObject "reservoir".toList
              "productionRate".toList (qt.decimal 50 0) s.m_q ∧
        (loadProject qt fs s path).2.m_rw
          = parameterOf (qt.fromJson data).toObject "reservoir".toList "wellRadius".toList
              (qt.decimal 1 1) s.m_rw ∧
        (loadProject qt fs s path).2.m_mu
          = parameterOf (qt.fromJson data).toObject "pvt".toList "viscosity".toList
              (qt.decimal 5 1) s.m_mu ∧
        (loadProject qt fs s path).2.m_B
          = parameterOf (qt.fromJson data).toObject "pvt".toList "volumeFactor".toList
              (qt.decimal 105 2) s.m_B ∧
        (loadProject qt fs s path).2.m_Ct
          = parameterOf (qt.fromJson data).toObject "pvt".toList "compressibility".toList
              (qt.decimal 5 4) s.m_Ct ∧
        (loadProject qt fs s path).2.m_projectFilePath = path ∧
        (loadProject qt fs s path).2.m_hasLoaded = true) := by
  cases hread : fs.read path with
  | none =>
    have h : loadProject qt fs s path = (false, s) := by
      unfold loadProject
      simp only [hread]
    rw [h]
    exact ⟨fun _ => rfl, fun hh => by cases hh⟩
  | some data =>
    by_cases hnull : (qt.fromJson data).isNull = true
    · have h : loadProject qt fs s path = (false, s) := by
        unfold loadProject
        simp only [hread, hnull, if_true]
      rw [h]
      exact ⟨fun _ => rfl, fun hh => by cases hh⟩
    · have hnull2 : (qt.fromJson data).isNull = false := by simpa using hnull
      rw [loadProject_of_read qt fs s path data hread hnull2]
      refine ⟨fun hh => (by cases hh), fun _ => ⟨data, rfl, hnull2, ?_⟩⟩
      obtain ⟨full, hfull⟩ := loadChartFile_eq qt fs
        { readPvt qt (qt.fromJson data).toObject
            (readReservoir qt (qt.fromJson data).toObject s) with
          m_fullProjectData := (qt.fromJson data).toObject
          m_projectFilePath := path
          m_projectPath := qt.absolutePath path
          m_hasLoaded := true }
      simp only [hfull]
      unfold parameterOf readPvt readReservoir
      by_cases hr : jsonContains (qt.fromJson data).toObject "reservoir".toList = true
      · by_cases hp : jsonContains (qt.fromJson data).toObject "pvt".toList = true
        · simp only [hr, hp, if_true, and_self]
        · simp only [hr, hp, if_true, if_false, and_self, Bool.false_eq_true]
      · by_cases hp : jsonContains (qt.fromJson data).toObject "pvt".toList = true
        · simp only [hr, hp, if_true, if_false, and_self, Bool.false_eq_true]
        · simp only [hr, hp, if_false, and_self, Bool.false_eq_true]

/-- On the project holding `{"reservoir": {"porosity": 0.2}}`, loaded into a state with
porosity 0.3, thickness 7 and viscosity 0.5: the porosity becomes 0.2, the thickness the
default 20.0, and the viscosity, whose `pvt` object is missing, stays 0.5. -/
theorem loadProject_parameters_witness :
    (loadProject plainJson demoFiles tunedParameters "/p/partial.pwt".toList).1 = true ∧
    (loadProject plainJson demoFiles tunedParameters "/p/partial.pwt".toList).2.m_phi = 2000 ∧
    (loadProject plainJson demoFiles tunedParameters "/p/partial.pwt".toList).2.m_h = 200000 ∧
    (loadProject plainJson demoFiles tunedParameters "/p/partial.pwt".toList).2.m_mu = 5000 ∧
    (loadProject plainJson demoFiles tunedParameters "/p/broken.pwt".toList).2
      = tunedParameters :=
  ⟨by decide, by decide, by decide, by decide,
    (loadProject_parameters plainJson demoFiles tunedParameters "/p/broken.pwt".toList).1
      (by decide)⟩

/-- C30 fails as stated: the project `/p/demo.pwt` holds `{"name": "demo"}`, with neither
a `reservoir` nor a `pvt` object; loaded into a state with porosity 0.3 and thickness 7,
`loadProject` returns true and the porosity is still 0.3 and the thickness still 7, not
the defaults 0.05 and 20.0. -/
theorem loadProject_keeps_previous_parameters :
    tunedParameters.m_phi = 3000 ∧ tunedParameters.m_h = 70000 ∧
    (loadProject plainJson demoFiles tunedParameters "/p/demo.pwt".toList).1 = true ∧
    (loadProject plainJson demoFiles tunedParameters "/p/demo.pwt".toList).2.m_phi = 3000 ∧
    (loadProject plainJson demoFiles tunedParameters "/p/demo.pwt".toList).2.m_h = 70000 ∧
    plainJson.decimal 5 2 = 500 ∧ plainJson.decimal 20 0 = 200000 ∧
    (loadProject plainJson demoFiles tunedParameters "/p/demo.pwt".toList).2.m_phi
      ≠ plainJson.decimal 5 2 := by
  refine ⟨by decide, by decide, by decide, by decide, by decide, by decide, by decide,
    by decide⟩

end WT
